import Mathlib

/-!
# The resamplers of `converter.go`

A shallow embedding of `converter.go` (package `resize`) and the properties of
its resampling loops.

Conventions of the embedding.

* A byte (`uint8`) is a `Fin 256`; a pixel buffer `Pix []uint8` is a `List Byte`.
* The fixed-width signed accumulators (`int32`, `int64`) are integers reduced by
  `int32` / `int64` after every arithmetic operation, as two's complement
  arithmetic does.
* Go's `int` (indices, strides, offsets, the filter length) is 64 bits wide.
  The coordinate `xi := start + i` of a tap, which the `switch` compares with
  the bounds of the source, is reduced by `int64` as the addition of two `int`
  wraps.  The arithmetic of the indices into the buffers and the tables and of
  the loop counters is exact: an index that is in range has not overflowed, and
  a loop counter stays below its bound.
* A run-time panic (index out of range, slice bounds out of range, integer
  division by zero) is the result `none`; a call that returns gives `some pix`,
  the contents of `out.Pix` after the call.  Source and destination buffers are
  distinct values, that is, they do not alias.
* The parameter `scale float64` is never read by any of the functions and is
  left out.
-/

namespace Resize

/-- A `uint8` value. -/
abbrev Byte := Fin 256

/-- Conversion to `int32`: two's complement wrap-around to 32 bits. -/
def int32 (v : Int) : Int := (v + 2147483648) % 4294967296 - 2147483648

/-- Conversion to `int64`: two's complement wrap-around to 64 bits. -/
def int64 (v : Int) : Int :=
  (v + 9223372036854775808) % 18446744073709551616 - 9223372036854775808

/-- Conversion `uint8(v)`: the low eight bits. -/
def uint8 (v : Int) : Byte := Fin.ofNat (v % 256).toNat

/-- Conversion `uint16(v)`: the low sixteen bits. -/
def uint16 (v : Int) : Int := v % 65536

/-- The comparison `uint(a) < uint(b)` of two `int` values: in two's complement
every negative value converts to an unsigned value above all the non-negative
ones, and the order is kept among values of one sign. -/
def uintLess (a b : Int) : Bool :=
  if 0 ≤ a then (if 0 ≤ b then decide (a < b) else true)
  else (if 0 ≤ b then false else decide (a < b))

/-- Division `a / b` of two `int32`: panics on a zero divisor, truncates toward
zero, and wraps for the one quotient that does not fit. -/
def quo32 (a b : Int) : Option Int :=
  if b = 0 then none else some (int32 (Int.tdiv a b))

/-- Division `a / b` of two `int64`. -/
def quo64 (a b : Int) : Option Int :=
  if b = 0 then none else some (int64 (Int.tdiv a b))

/-- The expression `uint16(hi)<<8 | uint16(lo)`. -/
def word16 (hi lo : Byte) : Int :=
  (((((hi.val <<< 8) % 65536) ||| lo.val) : Nat) : Int)

/-- Slice expression `s[k:]`. -/
def sliceFrom {α : Type} (s : List α) (k : Int) : Option (List α) :=
  if 0 ≤ k ∧ k ≤ (s.length : Int) then some (s.drop k.toNat) else none

/-- Index expression `s[k]`. -/
def index {α : Type} (s : List α) (k : Int) : Option α :=
  if 0 ≤ k then s[k.toNat]? else none

/-- Assignment `s[k] = v`. -/
def setIndex {α : Type} (s : List α) (k : Int) (v : α) : Option (List α) :=
  if 0 ≤ k ∧ k < (s.length : Int) then some (s.set k.toNat v) else none

/-- Iterations of a counting loop: `n` rounds of `body`, the counter starting
at `v`. -/
def forLoopAux {σ : Type} (body : Int → σ → Option σ) : Nat → Int → σ → Option σ
  | 0, _, s => some s
  | n + 1, v, s => (body v s).bind (fun s' => forLoopAux body n (v + 1) s')

/-- The loop `for v := lo; v < hi; v++ { body }` over a state `s`. -/
def forLoop {σ : Type} (lo hi : Int) (s : σ) (body : Int → σ → Option σ) : Option σ :=
  forLoopAux body (hi - lo).toNat lo s

/-- The type `image.Point`. -/
structure Point where
  X : Int
  Y : Int
deriving DecidableEq

/-- The type `image.Rectangle`. -/
structure Rectangle where
  Min : Point
  Max : Point
deriving DecidableEq

/-- The method `Rectangle.Dx`. -/
def Rectangle.Dx (r : Rectangle) : Int := r.Max.X - r.Min.X

/-- The method `Rectangle.Dy`. -/
def Rectangle.Dy (r : Rectangle) : Int := r.Max.Y - r.Min.Y

/-- The function `image.Rect`, which orders the coordinates it is given. -/
def Rect (x0 y0 x1 y1 : Int) : Rectangle :=
  let xs := if x0 > x1 then (x1, x0) else (x0, x1)
  let ys := if y0 > y1 then (y1, y0) else (y0, y1)
  { Min := { X := xs.1, Y := ys.1 }, Max := { X := xs.2, Y := ys.2 } }

/-- The fields shared by `image.RGBA`, `image.RGBA64`, `image.Gray` and
`image.Gray16`: the pixel bytes, the stride between rows, and the bounds. -/
structure Image where
  Pix : List Byte
  Stride : Int
  Rect : Rectangle
deriving DecidableEq

/-- The method `Bounds` of the image types. -/
def Image.Bounds (p : Image) : Rectangle := p.Rect

/-- Modelled from the spec: the raster type `ycc`, whose declaration is not in
`converter.go`.  The spec's raster has an origin, a width and height, a row
stride and a byte buffer; the resamplers read its fields `Pix`, `Stride` and
`Rect` and call `Bounds`, as for the other image types. -/
abbrev ycc := Image

/-- The result of `Color.RGBA()`: four `uint32` channel values. -/
structure Color where
  r : Nat
  g : Nat
  b : Nat
  a : Nat
deriving DecidableEq

/-- What `resizeGeneric` uses of an `image.Image`: `Bounds()` and
`At(x, y).RGBA()`. -/
structure GenericImage where
  Bounds : Rectangle
  At : Int → Int → Color

/-- Accumulators `var rgba [4]intN` and `var sum intN`. -/
structure Acc4 where
  c0 : Int
  c1 : Int
  c2 : Int
  c3 : Int
  sum : Int
deriving DecidableEq

/-- Accumulators `var p [3]int32` and `var sum int32`. -/
structure Acc3 where
  c0 : Int
  c1 : Int
  c2 : Int
  sum : Int
deriving DecidableEq

/-- Accumulators `var gray intN` and `var sum intN`. -/
structure Acc1 where
  gray : Int
  sum : Int
deriving DecidableEq

/-! ## Clamp helpers -/

/-- Function `clampUint8`: keep value in [0,255] range. -/
def clampUint8 (v : Int) : Byte :=
  if v < 0 then 0
  else if v > 255 then 255
  else uint8 v

/-- Function `clampUint16`: keep value in [0,65535] range. -/
def clampUint16 (v : Int) : Int :=
  if v < 0 then 0
  else if v > 65535 then 65535
  else uint16 v

/-! ## `resizeGeneric` -/

/-- The `switch` of the tap loop of `resizeGeneric`: the source column sampled
for the source coordinate `xi`. -/
def resizeGeneric.switch (oldBounds : Rectangle) (xi : Int) : Int :=
  if uintLess xi oldBounds.Max.X then xi
  else if xi ≥ oldBounds.Max.X then oldBounds.Min.X
  else oldBounds.Max.X - 1

/-- One round of the tap loop of `resizeGeneric`. -/
def resizeGeneric.tap (inp : GenericImage) (coeffs : List Int) (oldBounds : Rectangle)
    (start ci x : Int) (i : Int) (acc : Acc4) : Option Acc4 := do
  let coeff ← index coeffs (ci + i)
  if coeff ≠ 0 then
    let xi := resizeGeneric.switch oldBounds (int64 (start + i))
    let col := inp.At xi x
    pure { c0 := int64 (acc.c0 + int64 (int64 coeff * int64 col.r))
           c1 := int64 (acc.c1 + int64 (int64 coeff * int64 col.g))
           c2 := int64 (acc.c2 + int64 (int64 coeff * int64 col.b))
           c3 := int64 (acc.c3 + int64 (int64 coeff * int64 col.a))
           sum := int64 (acc.sum + int64 coeff) }
  else
    pure acc

/-- The body of the `y` loop of `resizeGeneric`: one destination pixel. -/
def resizeGeneric.pixel (inp : GenericImage) (out : Image) (coeffs : List Int)
    (offset : List Int) (filterLength : Int) (oldBounds newBounds : Rectangle)
    (x y : Int) (pix : List Byte) : Option (List Byte) := do
  let start ← index offset y
  let ci := (y - newBounds.Min.Y) * filterLength
  let acc ← forLoop 0 filterLength (Acc4.mk 0 0 0 0 0)
    (resizeGeneric.tap inp coeffs oldBounds start ci x)
  let offset := (y - newBounds.Min.Y) * out.Stride + (x - newBounds.Min.X) * 8
  let q ← quo64 acc.c0 acc.sum
  let value := clampUint16 q
  let pix ← setIndex pix (offset + 0) (uint8 (value / 256))
  let pix ← setIndex pix (offset + 1) (uint8 value)
  let q ← quo64 acc.c1 acc.sum
  let value := clampUint16 q
  let pix ← setIndex pix (offset + 2) (uint8 (value / 256))
  let pix ← setIndex pix (offset + 3) (uint8 value)
  let q ← quo64 acc.c2 acc.sum
  let value := clampUint16 q
  let pix ← setIndex pix (offset + 4) (uint8 (value / 256))
  let pix ← setIndex pix (offset + 5) (uint8 value)
  let q ← quo64 acc.c3 acc.sum
  let value := clampUint16 q
  let pix ← setIndex pix (offset + 6) (uint8 (value / 256))
  setIndex pix (offset + 7) (uint8 value)

/-- Function `resizeGeneric`. -/
def resizeGeneric (inp : GenericImage) (out : Image) (coeffs : List Int)
    (offset : List Int) (filterLength : Int) : Option (List Byte) :=
  let oldBounds := Rect 0 0 inp.Bounds.Dx inp.Bounds.Dy
  let newBounds := out.Bounds
  forLoop newBounds.Min.X newBounds.Max.X out.Pix fun x pix =>
    forLoop newBounds.Min.Y newBounds.Max.Y pix
      (resizeGeneric.pixel inp out coeffs offset filterLength oldBounds newBounds x)

/-! ## `resizeRGBA` -/

/-- The `switch` of the tap loop of `resizeRGBA`: the offset in the source row
of the sample taken for the source coordinate `xi`. -/
def resizeRGBA.switch (oldBounds : Rectangle) (minX maxX xi : Int) : Int :=
  if uintLess xi oldBounds.Max.X then xi * 4
  else if xi ≥ oldBounds.Max.X then maxX
  else minX

/-- One round of the tap loop of `resizeRGBA`. -/
def resizeRGBA.tap (row : List Byte) (coeffs : List Int) (oldBounds : Rectangle)
    (minX maxX start ci : Int) (i : Int) (acc : Acc4) : Option Acc4 := do
  let coeff ← index coeffs (ci + i)
  if coeff ≠ 0 then
    let xi := resizeRGBA.switch oldBounds minX maxX (int64 (start + i))
    let p0 ← index row (xi + 0)
    let p1 ← index row (xi + 1)
    let p2 ← index row (xi + 2)
    let p3 ← index row (xi + 3)
    pure { c0 := int32 (acc.c0 + int32 (int32 coeff * int32 p0.val))
           c1 := int32 (acc.c1 + int32 (int32 coeff * int32 p1.val))
           c2 := int32 (acc.c2 + int32 (int32 coeff * int32 p2.val))
           c3 := int32 (acc.c3 + int32 (int32 coeff * int32 p3.val))
           sum := int32 (acc.sum + int32 coeff) }
  else
    pure acc

/-- The body of the `y` loop of `resizeRGBA`: one destination pixel. -/
def resizeRGBA.pixel (row : List Byte) (out : Image) (coeffs : List Int)
    (offset : List Int) (filterLength : Int) (oldBounds newBounds : Rectangle)
    (minX maxX : Int) (x y : Int) (pix : List Byte) : Option (List Byte) := do
  let start ← index offset y
  let ci := (y - newBounds.Min.Y) * filterLength
  let acc ← forLoop 0 filterLength (Acc4.mk 0 0 0 0 0)
    (resizeRGBA.tap row coeffs oldBounds minX maxX start ci)
  let xo := (y - newBounds.Min.Y) * out.Stride + (x - newBounds.Min.X) * 4
  let q ← quo32 acc.c0 acc.sum
  let pix ← setIndex pix (xo + 0) (clampUint8 q)
  let q ← quo32 acc.c1 acc.sum
  let pix ← setIndex pix (xo + 1) (clampUint8 q)
  let q ← quo32 acc.c2 acc.sum
  let pix ← setIndex pix (xo + 2) (clampUint8 q)
  let q ← quo32 acc.c3 acc.sum
  setIndex pix (xo + 3) (clampUint8 q)

/-- Function `resizeRGBA`. -/
def resizeRGBA (inp out : Image) (coeffs : List Int) (offset : List Int)
    (filterLength : Int) : Option (List Byte) :=
  let oldBounds := Rect 0 0 inp.Rect.Dx inp.Rect.Dy
  let newBounds := out.Bounds
  let minX := oldBounds.Min.X * 4
  let maxX := (oldBounds.Max.X - oldBounds.Min.X - 1) * 4
  forLoop newBounds.Min.X newBounds.Max.X out.Pix fun x pix => do
    let row ← sliceFrom inp.Pix ((x - oldBounds.Min.Y) * inp.Stride)
    forLoop newBounds.Min.Y newBounds.Max.Y pix
      (resizeRGBA.pixel row out coeffs offset filterLength oldBounds newBounds minX maxX x)

/-! ## `resizeRGBA64` -/

/-- The `switch` of the tap loop of `resizeRGBA64`. -/
def resizeRGBA64.switch (oldBounds : Rectangle) (minX maxX xi : Int) : Int :=
  if uintLess xi oldBounds.Max.X then xi * 8
  else if xi ≥ oldBounds.Max.X then maxX
  else minX

/-- One round of the tap loop of `resizeRGBA64`. -/
def resizeRGBA64.tap (row : List Byte) (coeffs : List Int) (oldBounds : Rectangle)
    (minX maxX start ci : Int) (i : Int) (acc : Acc4) : Option Acc4 := do
  let coeff ← index coeffs (ci + i)
  if coeff ≠ 0 then
    let xi := resizeRGBA64.switch oldBounds minX maxX (int64 (start + i))
    let p0 ← index row (xi + 0)
    let p1 ← index row (xi + 1)
    let p2 ← index row (xi + 2)
    let p3 ← index row (xi + 3)
    let p4 ← index row (xi + 4)
    let p5 ← index row (xi + 5)
    let p6 ← index row (xi + 6)
    let p7 ← index row (xi + 7)
    pure { c0 := int64 (acc.c0 + int64 (int64 coeff * int64 (word16 p0 p1)))
           c1 := int64 (acc.c1 + int64 (int64 coeff * int64 (word16 p2 p3)))
           c2 := int64 (acc.c2 + int64 (int64 coeff * int64 (word16 p4 p5)))
           c3 := int64 (acc.c3 + int64 (int64 coeff * int64 (word16 p6 p7)))
           sum := int64 (acc.sum + int64 coeff) }
  else
    pure acc

/-- The body of the `y` loop of `resizeRGBA64`: one destination pixel. -/
def resizeRGBA64.pixel (row : List Byte) (out : Image) (coeffs : List Int)
    (offset : List Int) (filterLength : Int) (oldBounds newBounds : Rectangle)
    (minX maxX : Int) (x y : Int) (pix : List Byte) : Option (List Byte) := do
  let start ← index offset y
  let ci := (y - newBounds.Min.Y) * filterLength
  let acc ← forLoop 0 filterLength (Acc4.mk 0 0 0 0 0)
    (resizeRGBA64.tap row coeffs oldBounds minX maxX start ci)
  let xo := (y - newBounds.Min.Y) * out.Stride + (x - newBounds.Min.X) * 8
  let q ← quo64 acc.c0 acc.sum
  let value := clampUint16 q
  let pix ← setIndex pix (xo + 0) (uint8 (value / 256))
  let pix ← setIndex pix (xo + 1) (uint8 value)
  let q ← quo64 acc.c1 acc.sum
  let value := clampUint16 q
  let pix ← setIndex pix (xo + 2) (uint8 (value / 256))
  let pix ← setIndex pix (xo + 3) (uint8 value)
  let q ← quo64 acc.c2 acc.sum
  let value := clampUint16 q
  let pix ← setIndex pix (xo + 4) (uint8 (value / 256))
  let pix ← setIndex pix (xo + 5) (uint8 value)
  let q ← quo64 acc.c3 acc.sum
  let value := clampUint16 q
  let pix ← setIndex pix (xo + 6) (uint8 (value / 256))
  setIndex pix (xo + 7) (uint8 value)

/-- Function `resizeRGBA64`. -/
def resizeRGBA64 (inp out : Image) (coeffs : List Int) (offset : List Int)
    (filterLength : Int) : Option (List Byte) :=
  let oldBounds := Rect 0 0 inp.Rect.Dx inp.Rect.Dy
  let newBounds := out.Bounds
  let minX := oldBounds.Min.X * 8
  let maxX := (oldBounds.Max.X - oldBounds.Min.X - 1) * 8
  forLoop newBounds.Min.X newBounds.Max.X out.Pix fun x pix => do
    let row ← sliceFrom inp.Pix ((x - oldBounds.Min.Y) * inp.Stride)
    forLoop newBounds.Min.Y newBounds.Max.Y pix
      (resizeRGBA64.pixel row out coeffs offset filterLength oldBounds newBounds minX maxX x)

/-! ## `resizeGray` -/

/-- The `switch` of the tap loop of `resizeGray`. -/
def resizeGray.switch (oldBounds : Rectangle) (minX maxX xi : Int) : Int :=
  if uintLess xi oldBounds.Max.X then xi
  else if xi ≥ oldBounds.Max.X then maxX
  else minX

/-- One round of the tap loop of `resizeGray`. -/
def resizeGray.tap (row : List Byte) (coeffs : List Int) (oldBounds : Rectangle)
    (minX maxX start ci : Int) (i : Int) (acc : Acc1) : Option Acc1 := do
  let coeff ← index coeffs (ci + i)
  if coeff ≠ 0 then
    let xi := resizeGray.switch oldBounds minX maxX (int64 (start + i))
    let p ← index row xi
    pure { gray := int32 (acc.gray + int32 (int32 coeff * int32 p.val))
           sum := int32 (acc.sum + int32 coeff) }
  else
    pure acc

/-- The body of the `y` loop of `resizeGray`: one destination pixel. -/
def resizeGray.pixel (row : List Byte) (out : Image) (coeffs : List Int)
    (offset : List Int) (filterLength : Int) (oldBounds newBounds : Rectangle)
    (minX maxX : Int) (x y : Int) (pix : List Byte) : Option (List Byte) := do
  let start ← index offset y
  let ci := (y - newBounds.Min.Y) * filterLength
  let acc ← forLoop 0 filterLength (Acc1.mk 0 0)
    (resizeGray.tap row coeffs oldBounds minX maxX start ci)
  let offset := (y - newBounds.Min.Y) * out.Stride + (x - newBounds.Min.X)
  let q ← quo32 acc.gray acc.sum
  setIndex pix offset (clampUint8 q)

/-- Function `resizeGray`. -/
def resizeGray (inp out : Image) (coeffs : List Int) (offset : List Int)
    (filterLength : Int) : Option (List Byte) :=
  let oldBounds := Rect 0 0 inp.Rect.Dx inp.Rect.Dy
  let newBounds := out.Bounds
  let minX := oldBounds.Min.X
  let maxX := oldBounds.Max.X - oldBounds.Min.X - 1
  forLoop newBounds.Min.X newBounds.Max.X out.Pix fun x pix => do
    let row ← sliceFrom inp.Pix ((x - oldBounds.Min.Y) * inp.Stride)
    forLoop newBounds.Min.Y newBounds.Max.Y pix
      (resizeGray.pixel row out coeffs offset filterLength oldBounds newBounds minX maxX x)

/-! ## `resizeGray16` -/

/-- The `switch` of the tap loop of `resizeGray16`. -/
def resizeGray16.switch (oldBounds : Rectangle) (minX maxX xi : Int) : Int :=
  if uintLess xi oldBounds.Max.X then xi * 2
  else if xi ≥ oldBounds.Max.X then maxX
  else minX

/-- One round of the tap loop of `resizeGray16`. -/
def resizeGray16.tap (row : List Byte) (coeffs : List Int) (oldBounds : Rectangle)
    (minX maxX start ci : Int) (i : Int) (acc : Acc1) : Option Acc1 := do
  let coeff ← index coeffs (ci + i)
  if coeff ≠ 0 then
    let xi := resizeGray16.switch oldBounds minX maxX (int64 (start + i))
    let p0 ← index row (xi + 0)
    let p1 ← index row (xi + 1)
    pure { gray := int64 (acc.gray + int64 (int64 coeff * int64 (word16 p0 p1)))
           sum := int64 (acc.sum + int64 coeff) }
  else
    pure acc

/-- The body of the `y` loop of `resizeGray16`: one destination pixel. -/
def resizeGray16.pixel (row : List Byte) (out : Image) (coeffs : List Int)
    (offset : List Int) (filterLength : Int) (oldBounds newBounds : Rectangle)
    (minX maxX : Int) (x y : Int) (pix : List Byte) : Option (List Byte) := do
  let start ← index offset y
  let ci := (y - newBounds.Min.Y) * filterLength
  let acc ← forLoop 0 filterLength (Acc1.mk 0 0)
    (resizeGray16.tap row coeffs oldBounds minX maxX start ci)
  let offset := (y - newBounds.Min.Y) * out.Stride + (x - newBounds.Min.X) * 2
  let q ← quo64 acc.gray acc.sum
  let value := clampUint16 q
  let pix ← setIndex pix (offset + 0) (uint8 (value / 256))
  setIndex pix (offset + 1) (uint8 value)

/-- Function `resizeGray16`. -/
def resizeGray16 (inp out : Image) (coeffs : List Int) (offset : List Int)
    (filterLength : Int) : Option (List Byte) :=
  let oldBounds := Rect 0 0 inp.Rect.Dx inp.Rect.Dy
  let newBounds := out.Bounds
  let minX := oldBounds.Min.X * 2
  let maxX := (oldBounds.Max.X - oldBounds.Min.X - 1) * 2
  forLoop newBounds.Min.X newBounds.Max.X out.Pix fun x pix => do
    let row ← sliceFrom inp.Pix ((x - oldBounds.Min.Y) * inp.Stride)
    forLoop newBounds.Min.Y newBounds.Max.Y pix
      (resizeGray16.pixel row out coeffs offset filterLength oldBounds newBounds minX maxX x)

/-! ## `resizeYCbCr` -/

/-- The `switch` of the tap loop of `resizeYCbCr`. -/
def resizeYCbCr.switch (oldBounds : Rectangle) (minX maxX xi : Int) : Int :=
  if uintLess xi oldBounds.Max.X then xi * 3
  else if xi ≥ oldBounds.Max.X then maxX
  else minX

/-- One round of the tap loop of `resizeYCbCr`. -/
def resizeYCbCr.tap (row : List Byte) (coeffs : List Int) (oldBounds : Rectangle)
    (minX maxX start ci : Int) (i : Int) (acc : Acc3) : Option Acc3 := do
  let coeff ← index coeffs (ci + i)
  if coeff ≠ 0 then
    let xi := resizeYCbCr.switch oldBounds minX maxX (int64 (start + i))
    let p0 ← index row (xi + 0)
    let p1 ← index row (xi + 1)
    let p2 ← index row (xi + 2)
    pure { c0 := int32 (acc.c0 + int32 (int32 coeff * int32 p0.val))
           c1 := int32 (acc.c1 + int32 (int32 coeff * int32 p1.val))
           c2 := int32 (acc.c2 + int32 (int32 coeff * int32 p2.val))
           sum := int32 (acc.sum + int32 coeff) }
  else
    pure acc

/-- The body of the `y` loop of `resizeYCbCr`: one destination pixel. -/
def resizeYCbCr.pixel (row : List Byte) (out : ycc) (coeffs : List Int)
    (offset : List Int) (filterLength : Int) (oldBounds newBounds : Rectangle)
    (minX maxX : Int) (x y : Int) (pix : List Byte) : Option (List Byte) := do
  let start ← index offset y
  let ci := (y - newBounds.Min.Y) * filterLength
  let acc ← forLoop 0 filterLength (Acc3.mk 0 0 0 0)
    (resizeYCbCr.tap row coeffs oldBounds minX maxX start ci)
  let xo := (y - newBounds.Min.Y) * out.Stride + (x - newBounds.Min.X) * 3
  let q ← quo32 acc.c0 acc.sum
  let pix ← setIndex pix (xo + 0) (clampUint8 q)
  let q ← quo32 acc.c1 acc.sum
  let pix ← setIndex pix (xo + 1) (clampUint8 q)
  let q ← quo32 acc.c2 acc.sum
  setIndex pix (xo + 2) (clampUint8 q)

/-- Function `resizeYCbCr`. -/
def resizeYCbCr (inp out : ycc) (coeffs : List Int) (offset : List Int)
    (filterLength : Int) : Option (List Byte) :=
  let oldBounds := Rect 0 0 inp.Rect.Dx inp.Rect.Dy
  let newBounds := out.Bounds
  let minX := oldBounds.Min.X * 3
  let maxX := (oldBounds.Max.X - oldBounds.Min.X - 1) * 3
  forLoop newBounds.Min.X newBounds.Max.X out.Pix fun x pix => do
    let row ← sliceFrom inp.Pix ((x - oldBounds.Min.Y) * inp.Stride)
    forLoop newBounds.Min.Y newBounds.Max.Y pix
      (resizeYCbCr.pixel row out coeffs offset filterLength oldBounds newBounds minX maxX x)

/-! ## `nearestYCbCr` -/

/-- The `switch` of the tap loop of `nearestYCbCr`, taken for each tap whose
boolean coefficient is set. -/
def nearestYCbCr.switch (oldBounds : Rectangle) (minX maxX xi : Int) : Int :=
  if uintLess xi oldBounds.Max.X then xi * 3
  else if xi ≥ oldBounds.Max.X then maxX
  else minX

/-- The `float32` operations of `nearestYCbCr` and the function `floatToUint8`,
which `converter.go` calls and does not declare.  The values of `float32` are
not modelled: the operations are parameters, and none of them panics (a
`float32` division by zero yields an infinity or a NaN). -/
structure Float32Ops (F : Type) where
  /-- The zero value of a `float32` variable. -/
  zero : F
  /-- The operator `+=` on `float32`. -/
  add : F → F → F
  /-- The conversion `float32(b)` of a byte. -/
  ofUint8 : Byte → F
  /-- The statement `sum++`. -/
  incr : F → F
  /-- The operator `/` on `float32`. -/
  div : F → F → F
  /-- The function `floatToUint8`. -/
  floatToUint8 : F → Byte

/-- The `float32` accumulators `p[0]`, `p[1]`, `p[2]` and `sum` of
`nearestYCbCr`. -/
structure AccF (F : Type) where
  c0 : F
  c1 : F
  c2 : F
  sum : F

/-- One round of the tap loop of `nearestYCbCr`. -/
def nearestYCbCr.tap {F : Type} (ops : Float32Ops F) (row : List Byte) (coeffs : List Bool)
    (oldBounds : Rectangle) (minX maxX start ci : Int) (i : Int) (acc : AccF F) :
    Option (AccF F) := do
  let coeff ← index coeffs (ci + i)
  if coeff = true then
    let xi := nearestYCbCr.switch oldBounds minX maxX (int64 (start + i))
    let p0 ← index row (xi + 0)
    let p1 ← index row (xi + 1)
    let p2 ← index row (xi + 2)
    pure { c0 := ops.add acc.c0 (ops.ofUint8 p0)
           c1 := ops.add acc.c1 (ops.ofUint8 p1)
           c2 := ops.add acc.c2 (ops.ofUint8 p2)
           sum := ops.incr acc.sum }
  else
    pure acc

/-- The body of the `y` loop of `nearestYCbCr`: one destination pixel. -/
def nearestYCbCr.pixel {F : Type} (ops : Float32Ops F) (row : List Byte) (out : ycc)
    (coeffs : List Bool) (offset : List Int) (filterLength : Int)
    (oldBounds newBounds : Rectangle) (minX maxX : Int) (x y : Int) (pix : List Byte) :
    Option (List Byte) := do
  let start ← index offset y
  let ci := (y - newBounds.Min.Y) * filterLength
  let acc ← forLoop 0 filterLength (AccF.mk ops.zero ops.zero ops.zero ops.zero)
    (nearestYCbCr.tap ops row coeffs oldBounds minX maxX start ci)
  let xo := (y - newBounds.Min.Y) * out.Stride + (x - newBounds.Min.X) * 3
  let pix ← setIndex pix (xo + 0) (ops.floatToUint8 (ops.div acc.c0 acc.sum))
  let pix ← setIndex pix (xo + 1) (ops.floatToUint8 (ops.div acc.c1 acc.sum))
  setIndex pix (xo + 2) (ops.floatToUint8 (ops.div acc.c2 acc.sum))

/-- Function `nearestYCbCr`. -/
def nearestYCbCr {F : Type} (ops : Float32Ops F) (inp out : ycc) (coeffs : List Bool)
    (offset : List Int) (filterLength : Int) : Option (List Byte) :=
  let oldBounds := Rect 0 0 inp.Rect.Dx inp.Rect.Dy
  let newBounds := out.Bounds
  let minX := oldBounds.Min.X * 3
  let maxX := (oldBounds.Max.X - oldBounds.Min.X - 1) * 3
  forLoop newBounds.Min.X newBounds.Max.X out.Pix fun x pix => do
    let row ← sliceFrom inp.Pix ((x - oldBounds.Min.Y) * inp.Stride)
    forLoop newBounds.Min.Y newBounds.Max.Y pix
      (nearestYCbCr.pixel ops row out coeffs offset filterLength oldBounds newBounds
        minX maxX x)

/-! ## Auxiliary notions used in the statements and proofs -/

/-- The value of the byte `s[k]` as an integer, and `0` where `s` has no
index `k`. -/
def byteAt (s : List Byte) (k : Int) : Int :=
  ((index s k).map fun b => (b.val : Int)).getD 0

/-- The entry `s[k]` of a table of integers, and `0` where `s` has no index
`k`. -/
def intAt (s : List Int) (k : Int) : Int := (index s k).getD 0

/-- The properties of a conversion to a fixed-width signed integer type that
the proofs use: it respects sums and products and fixes zero. -/
structure IsWrap (wrap : Int → Int) : Prop where
  add_right : ∀ a b, wrap (a + wrap b) = wrap (a + b)
  mul_left : ∀ a b, wrap (wrap a * b) = wrap (a * b)
  mul_right : ∀ a b, wrap (a * wrap b) = wrap (a * b)
  idem : ∀ a, wrap (wrap a) = wrap a
  zero : wrap 0 = 0

/-- One round of a tap loop for a single channel: `cf i` is the coefficient
read at tap `i` and `sm i` the sample read, each `none` when the read panics. -/
def chanTap (wrap : Int → Int) (cf sm : Int → Option Int) (i : Int) (acc : Acc1) :
    Option Acc1 :=
  (cf i).bind fun coeff =>
    if coeff ≠ 0 then
      (sm i).bind fun p =>
        some { gray := wrap (acc.gray + wrap (wrap coeff * wrap p))
               sum := wrap (acc.sum + wrap coeff) }
    else some acc

/-- The assignments `pix[xo+c] = b0`, `pix[xo+c+1] = b1`, ... in this order. -/
def writeBytes (pix : List Byte) (xo : Int) : Nat → List Byte → Option (List Byte)
  | _, [] => some pix
  | c, b :: bs => (setIndex pix (xo + (c : Int)) b).bind fun p => writeBytes p xo (c + 1) bs

/-- The two nested loops over the destination shared by all the resamplers:
`rowOf x` is what the outer loop computes before the inner one, and
`body row x y` the body of the inner loop. -/
def scan {ρ : Type} (out : Image) (rowOf : Int → Option ρ)
    (body : ρ → Int → Int → List Byte → Option (List Byte)) : Option (List Byte) :=
  forLoop out.Bounds.Min.X out.Bounds.Max.X out.Pix fun x pix =>
    (rowOf x).bind fun row =>
      forLoop out.Bounds.Min.Y out.Bounds.Max.Y pix (body row x)

/-- The source column that edge replication assigns to the coordinate `xi` in
a source of width `W`. -/
def clampColumn (W xi : Int) : Int := min (max xi 0) (W - 1)

/-- The two bytes, high byte first, of a 16-bit value. -/
def bigEndian (v : Int) : List Byte := [uint8 (v / 256), uint8 v]

/-- The index in `out.Pix` of the first byte of the destination pixel `(x, y)`,
for pixels of `bpp` bytes. -/
def pixOffset (out : Image) (bpp : Int) (x y : Int) : Int :=
  (y - out.Rect.Min.Y) * out.Stride + (x - out.Rect.Min.X) * bpp

/-- The destination pixels that the loops have completed when the outer loop is
at column `x` and the inner loop at row `k`. -/
def Proc (out : Image) (x k x' y' : Int) : Prop :=
  out.Rect.Min.X ≤ x' ∧ x' < out.Rect.Max.X ∧ out.Rect.Min.Y ≤ y' ∧ y' < out.Rect.Max.Y ∧
    (x' < x ∨ (x' = x ∧ y' < k))

/-- The buffer `pix` holds at the pixel `(x, y)` some bytes `bs` that satisfy
`Val x y`. -/
def Written (out : Image) (B : Nat) (Val : Int → Int → List Byte → Prop)
    (pix : List Byte) (x y : Int) : Prop :=
  ∃ bs : List Byte, bs.length = B ∧ Val x y bs ∧
    ∀ c : Nat, c < B → index pix (pixOffset out B x y + c) = bs[c]?

/-- The loop invariant of the two nested loops: the completed pixels are
written, and every other byte is the one of the buffer `pix0` the call started
with. -/
def Good (out : Image) (B : Nat) (Val : Int → Int → List Byte → Prop)
    (pix0 : List Byte) (x k : Int) (pix : List Byte) : Prop :=
  pix.length = pix0.length ∧
    (∀ x' y', Proc out x k x' y' → Written out B Val pix x' y') ∧
    (∀ j, (∀ x' y' (c : Nat), Proc out x k x' y' → c < B → j ≠ pixOffset out B x' y' + c) →
      index pix j = index pix0 j)

/-- The sample read at `row[j]` for an 8-bit channel. -/
def rowByte (row : List Byte) (j : Int) : Option Int :=
  (index row j).map fun p => (p.val : Int)

/-- The sample read at `row[j]`, `row[j+1]` for a 16-bit channel. -/
def rowWord (row : List Byte) (j : Int) : Option Int :=
  (index row j).bind fun hi => (index row (j + 1)).map fun lo => word16 hi lo

/-- The 16-bit value stored high byte first at `s[k]`, `s[k+1]`. -/
def wordAt (s : List Byte) (k : Int) : Int := 256 * byteAt s k + byteAt s (k + 1)

/-- The bytes the 8-bit resamplers store for a quotient. -/
def enc8 (q : Int) : List Byte := [clampUint8 q]

/-- The bytes the 16-bit resamplers store for a quotient. -/
def enc16 (q : Int) : List Byte := bigEndian (clampUint16 q)

/-- The machine quotient of the exact sums `N` and `S` held in accumulators
reduced by `wrap`. -/
def machineQuo (wrap : Int → Int) (N S : Int) : Int :=
  wrap (Int.tdiv (wrap N) (wrap S))

/-- The exact sum of the `n` coefficients `coeffs[ci]`, ..., `coeffs[ci+n-1]`. -/
def weightSum (coeffs : List Int) (ci : Int) (n : Nat) : Int :=
  ∑ k ∈ Finset.range n, intAt coeffs (ci + k)

/-- The exact sum of the samples `smp 0`, ..., `smp (n-1)` weighted by the
coefficients `coeffs[ci]`, ..., `coeffs[ci+n-1]`. -/
def chanSum (coeffs : List Int) (ci : Int) (n : Nat) (smp : Int → Int) : Int :=
  ∑ k ∈ Finset.range n, intAt coeffs (ci + k) * smp k

/-- The bytes `bs` are those of the destination pixel `(x, y)`: the offset
table has an entry `start` for `y`, the machine sum of the coefficients is not
zero, and `bs` lists, channel after channel, the encoded machine quotient of the
channel's weighted sum by the sum of the coefficients.  `smp x start c k` is the
sample of channel `c` that tap `k` reads. -/
def PixelVal (wrap : Int → Int) (enc : Int → List Byte) (nch : Nat) (out : Image)
    (coeffs offset : List Int) (filterLength : Int) (smp : Int → Int → Nat → Int → Int)
    (x y : Int) (bs : List Byte) : Prop :=
  ∃ start, index offset y = some start ∧
    wrap (weightSum coeffs ((y - out.Rect.Min.Y) * filterLength) filterLength.toNat) ≠ 0 ∧
    bs = (List.range nch).flatMap fun c =>
      enc (machineQuo wrap
        (chanSum coeffs ((y - out.Rect.Min.Y) * filterLength) filterLength.toNat
          (smp x start c))
        (weightSum coeffs ((y - out.Rect.Min.Y) * filterLength) filterLength.toNat))

/-- The rectangle `oldBounds` that the resamplers compute from the source. -/
def oldBoundsOf (inp : Image) : Rectangle := Rect 0 0 inp.Rect.Dx inp.Rect.Dy

/-- The index in `inp.Pix` of the first byte of the source row that the
resamplers slice for the destination column `x`. -/
def rowBase (inp : Image) (x : Int) : Int := (x - (oldBoundsOf inp).Min.Y) * inp.Stride

/-- Channel `c` of the accumulators, with the sum of the coefficients. -/
def Acc4.chan (a : Acc4) (c : Nat) : Acc1 :=
  { gray := if c = 0 then a.c0 else if c = 1 then a.c1 else if c = 2 then a.c2 else a.c3
    sum := a.sum }

/-- Channel `c` of the accumulators, with the sum of the coefficients. -/
def Acc3.chan (a : Acc3) (c : Nat) : Acc1 :=
  { gray := if c = 0 then a.c0 else if c = 1 then a.c1 else a.c2
    sum := a.sum }

/-- The sample of channel `c` that tap `k` of `resizeRGBA` reads for the
destination column `x`. -/
def resizeRGBA.sample (inp : Image) (x start : Int) (c : Nat) (k : Int) : Int :=
  byteAt inp.Pix (rowBase inp x +
    (resizeRGBA.switch (oldBoundsOf inp) ((oldBoundsOf inp).Min.X * 4)
      (((oldBoundsOf inp).Max.X - (oldBoundsOf inp).Min.X - 1) * 4) (int64 (start + k)) + c))

/-- The sample of channel `c` that tap `k` of `resizeRGBA64` reads for the
destination column `x`. -/
def resizeRGBA64.sample (inp : Image) (x start : Int) (c : Nat) (k : Int) : Int :=
  wordAt inp.Pix (rowBase inp x +
    (resizeRGBA64.switch (oldBoundsOf inp) ((oldBoundsOf inp).Min.X * 8)
      (((oldBoundsOf inp).Max.X - (oldBoundsOf inp).Min.X - 1) * 8) (int64 (start + k))
        + (2 * c : Nat)))

/-- The sample that tap `k` of `resizeGray` reads for the destination column
`x` (there is one channel, `c = 0`). -/
def resizeGray.sample (inp : Image) (x start : Int) (c : Nat) (k : Int) : Int :=
  byteAt inp.Pix (rowBase inp x +
    (resizeGray.switch (oldBoundsOf inp) (oldBoundsOf inp).Min.X
      ((oldBoundsOf inp).Max.X - (oldBoundsOf inp).Min.X - 1) (int64 (start + k)) + c))

/-- The sample that tap `k` of `resizeGray16` reads for the destination column
`x` (there is one channel, `c = 0`). -/
def resizeGray16.sample (inp : Image) (x start : Int) (c : Nat) (k : Int) : Int :=
  wordAt inp.Pix (rowBase inp x +
    (resizeGray16.switch (oldBoundsOf inp) ((oldBoundsOf inp).Min.X * 2)
      (((oldBoundsOf inp).Max.X - (oldBoundsOf inp).Min.X - 1) * 2) (int64 (start + k))
        + (2 * c : Nat)))

/-- The sample of channel `c` that tap `k` of `resizeYCbCr` reads for the
destination column `x`. -/
def resizeYCbCr.sample (inp : ycc) (x start : Int) (c : Nat) (k : Int) : Int :=
  byteAt inp.Pix (rowBase inp x +
    (resizeYCbCr.switch (oldBoundsOf inp) ((oldBoundsOf inp).Min.X * 3)
      (((oldBoundsOf inp).Max.X - (oldBoundsOf inp).Min.X - 1) * 3) (int64 (start + k)) + c))

/-- Channel `c` of a colour: red, green, blue, alpha. -/
def Color.chan (col : Color) (c : Nat) : Int :=
  if c = 0 then (col.r : Int) else if c = 1 then (col.g : Int)
  else if c = 2 then (col.b : Int) else (col.a : Int)

/-- The sample of channel `c` that tap `k` of `resizeGeneric` reads for the
destination column `x`. -/
def resizeGeneric.sample (inp : GenericImage) (x start : Int) (c : Nat) (k : Int) : Int :=
  (inp.At (resizeGeneric.switch (Rect 0 0 inp.Bounds.Dx inp.Bounds.Dy) (int64 (start + k))) x).chan c

/-- The value `v` is in the range of `int32`. -/
def fitsInt32 (v : Int) : Prop := -2147483648 ≤ v ∧ v < 2147483648

/-- The value `v` is in the range of `int64`. -/
def fitsInt64 (v : Int) : Prop := -9223372036854775808 ≤ v ∧ v < 9223372036854775808

/-- Every pixel of the source row `x` of `inp` (columns `0` to the width of
`inp`, pixels of `bpp` bytes) consists of the bytes `C`. -/
def UniformRow (inp : Image) (bpp : Nat) (x : Int) (C : List Byte) : Prop :=
  ∀ col : Int, 0 ≤ col → col < inp.Rect.Dx → ∀ j : Nat, j < bpp →
    index inp.Pix (x * inp.Stride + bpp * col + j) = C[j]?

/-- The destination pixel `(x, y)` of `out`, whose buffer holds `pix`, consists
of the bytes `C` (pixels of `bpp` bytes). -/
def PixelIs (out : Image) (pix : List Byte) (bpp : Nat) (x y : Int) (C : List Byte) : Prop :=
  ∀ j : Nat, j < bpp →
    index pix ((y - out.Rect.Min.Y) * out.Stride + (x - out.Rect.Min.X) * bpp + j) = C[j]?

/-- One pass of the resampler `F` (pixels of `B` bytes) with filter length `1`,
every offset `0` and every coefficient `1` over a source of which every row read
is uniformly `C`: the call returns and every destination pixel is `C`. -/
def UniformPass (F : Image → Image → List Int → List Int → Int → Option (List Byte))
    (B : Nat) : Prop :=
  ∀ (inp out : Image) (n : Nat) (C : List Byte),
    1 ≤ inp.Rect.Dx → 0 ≤ inp.Rect.Dy → C.length = B →
    (∀ x, out.Rect.Min.X ≤ x → x < out.Rect.Max.X → UniformRow inp B x C) →
    0 ≤ out.Rect.Min.Y → out.Rect.Max.Y ≤ n →
    out.Rect.Dx * B ≤ out.Stride → out.Rect.Dy * out.Stride ≤ out.Pix.length →
    ∃ pix', F inp out (List.replicate n 1) (List.replicate n 0) 1 = some pix' ∧
      pix'.length = out.Pix.length ∧
      ∀ x y, out.Rect.Min.X ≤ x → x < out.Rect.Max.X → out.Rect.Min.Y ≤ y →
        y < out.Rect.Max.Y → PixelIs out pix' B x y C

/-- Two passes of the resampler `F` (pixels of `B` bytes) with filter length `1`,
every offset `0` and every coefficient `1`, from the single pixel of `src` to the
`1` by `N` image `tmp` and from there to the `N` by `N` image `fin`: when the
buffers are large enough for their bounds, both calls return and every pixel of
the result consists of the bytes of the pixel of `src`. -/
def UpscalesPixel (F : Image → Image → List Int → List Int → Int → Option (List Byte))
    (B : Nat) (N : Int) (src tmp fin : Image) : Prop :=
  (B : Int) ≤ src.Pix.length → (B : Int) ≤ tmp.Stride → N * tmp.Stride ≤ tmp.Pix.length →
  N * B ≤ fin.Stride → N * fin.Stride ≤ fin.Pix.length →
  ∃ tmp' fin',
    F src tmp (List.replicate N.toNat 1) (List.replicate N.toNat 0) 1 = some tmp' ∧
    F { tmp with Pix := tmp' } fin (List.replicate N.toNat 1) (List.replicate N.toNat 0) 1
      = some fin' ∧
    ∀ x y, 0 ≤ x → x < N → 0 ≤ y → y < N → PixelIs fin fin' B x y (src.Pix.take B)

/-! ## Example inputs -/

/-- A 2x1 `image.RGBA` source: a pixel of zeros and a pixel with every channel
`128`. -/
def quotientSourceRGBA : Image :=
  { Pix := [0, 0, 0, 0, 128, 128, 128, 128], Stride := 8, Rect := Rect 0 0 2 1 }

/-- A 1x1 `image.RGBA` destination. -/
def quotientDestRGBA : Image :=
  { Pix := [7, 7, 7, 7], Stride := 4, Rect := Rect 0 0 1 1 }

/-- A row of 1025 `int16` coefficients whose sum is `-1`: 512 times `32767`,
then `511`, then 512 times `-32768`. -/
def quotientCoeffs16 : List Int :=
  (List.replicate 512 32767 ++ [511]) ++ List.replicate 512 (-32768)

/-- A 4x4 `image.RGBA` source whose every pixel is `(10, 20, 30, 40)`. -/
def uniformSourceRGBA : Image :=
  { Pix := (List.replicate 16 [10, 20, 30, 40]).flatten, Stride := 16, Rect := Rect 0 0 4 4 }

/-- A destination for one pass over `uniformSourceRGBA` that halves the filtered
axis: columns `0` to `3` (one per source row) and rows `0`, `1`. -/
def uniformDestRGBA : Image :=
  { Pix := List.replicate 32 0, Stride := 16, Rect := Rect 0 0 4 2 }

/-- A 2x1 `image.Gray16` source: a pixel of value `0` and a pixel of value
`32768` (bytes `128, 0`). -/
def quotientSourceGray16 : Image :=
  { Pix := [0, 0, 128, 0], Stride := 4, Rect := Rect 0 0 2 1 }

/-- A 1x1 `image.Gray16` destination. -/
def quotientDestGray16 : Image :=
  { Pix := [7, 7], Stride := 2, Rect := Rect 0 0 1 1 }

/-- A row of 262145 `int32` coefficients whose sum is `-1`: 131072 times
`2147483647`, then `131071`, then 131072 times `-2147483648`. -/
def quotientCoeffs32 : List Int :=
  (List.replicate 131072 2147483647 ++ [131071]) ++ List.replicate 131072 (-2147483648)

/-- A 2x1 `image.Gray16` source with the pixels `0x0102` and `0x0304`. -/
def smallSourceGray16 : Image :=
  { Pix := [1, 2, 3, 4], Stride := 4, Rect := Rect 0 0 2 1 }

/-- A 1x1 source for `resizeGeneric` whose every pixel is opaque white,
`(65535, 65535, 65535, 65535)`. -/
def whiteGeneric : GenericImage :=
  { Bounds := Rect 0 0 1 1, At := fun _ _ => ⟨65535, 65535, 65535, 65535⟩ }

/-- A 1x1 `image.RGBA64` destination. -/
def destRGBA64 : Image :=
  { Pix := [7, 7, 7, 7, 7, 7, 7, 7], Stride := 8, Rect := Rect 0 0 1 1 }

/-- A row of 65538 `int32` coefficients, each `-2147483648`. -/
def overflowCoeffs : List Int := List.replicate 65538 (-2147483648)

/-- A 1x1 `image.RGBA` source with the pixel `(1, 2, 3, 4)`. -/
def pixelSourceRGBA : Image := { Pix := [1, 2, 3, 4], Stride := 4, Rect := Rect 0 0 1 1 }

/-- A 1x2 `image.RGBA` image: the destination of the first pass. -/
def pixelTmpRGBA : Image := { Pix := List.replicate 8 0, Stride := 4, Rect := Rect 0 0 1 2 }

/-- A 2x2 `image.RGBA` image: the destination of the second pass. -/
def pixelFinRGBA : Image := { Pix := List.replicate 16 0, Stride := 8, Rect := Rect 0 0 2 2 }

/-- A source for `resizeGeneric` of width `2`: the pixel of column `0` has the
colour channels `100`, every other pixel has them `300`; alpha is `65535`. -/
def twoColumnGeneric : GenericImage :=
  { Bounds := Rect 0 0 2 1
    At := fun x _ => if x = 0 then ⟨100, 100, 100, 65535⟩ else ⟨300, 300, 300, 65535⟩ }

/-- A 3x1 `image.Gray` source with the pixels `10`, `20`, `30`. -/
def agreeSourceGray : Image := { Pix := [10, 20, 30], Stride := 3, Rect := Rect 0 0 3 1 }

/-- A 3x1 `image.RGBA` source whose pixels have every channel `10`, `20`, `30`. -/
def agreeSourceRGBA : Image :=
  { Pix := [10, 10, 10, 10, 20, 20, 20, 20, 30, 30, 30, 30], Stride := 12,
    Rect := Rect 0 0 3 1 }

/-- A 3x1 `ycc` source whose pixels have every channel `10`, `20`, `30`. -/
def agreeSourceYCbCr : ycc :=
  { Pix := [10, 10, 10, 20, 20, 20, 30, 30, 30], Stride := 9, Rect := Rect 0 0 3 1 }

/-- A 1x2 `image.Gray` destination. -/
def agreeDestGray : Image := { Pix := [0, 0], Stride := 1, Rect := Rect 0 0 1 2 }

/-- A 1x2 `image.RGBA` destination. -/
def agreeDestRGBA : Image := { Pix := List.replicate 8 0, Stride := 4, Rect := Rect 0 0 1 2 }

/-- A 1x2 `ycc` destination. -/
def agreeDestYCbCr : ycc := { Pix := List.replicate 6 0, Stride := 3, Rect := Rect 0 0 1 2 }

/-- A 2x1 `image.RGBA` source with the pixels `(10, 11, 12, 13)` and
`(20, 21, 22, 23)`. -/
def smallSourceRGBA : Image :=
  { Pix := [10, 11, 12, 13, 20, 21, 22, 23], Stride := 8, Rect := Rect 0 0 2 1 }

/-! ## Auxiliary definitions for `nearestYCbCr` -/

/-- The bytes `bs` are the three bytes that `nearestYCbCr` computes for the
destination pixel `(x, y)`: the converted quotients of the accumulators that the
tap loop leaves for that pixel. -/
def nearestYCbCr.Val {F : Type} (ops : Float32Ops F) (inp out : ycc) (coeffs : List Bool)
    (offset : List Int) (filterLength : Int) (x y : Int) (bs : List Byte) : Prop :=
  ∃ (row : List Byte) (start : Int) (acc : AccF F),
    sliceFrom inp.Pix (rowBase inp x) = some row ∧ index offset y = some start ∧
    forLoop 0 filterLength (AccF.mk ops.zero ops.zero ops.zero ops.zero)
      (nearestYCbCr.tap ops row coeffs (oldBoundsOf inp) ((oldBoundsOf inp).Min.X * 3)
        (((oldBoundsOf inp).Max.X - (oldBoundsOf inp).Min.X - 1) * 3) start
        ((y - out.Rect.Min.Y) * filterLength)) = some acc ∧
    bs = [ops.floatToUint8 (ops.div acc.c0 acc.sum),
          ops.floatToUint8 (ops.div acc.c1 acc.sum),
          ops.floatToUint8 (ops.div acc.c2 acc.sum)]

/-! ## Calls whose buffers and tables cover what the loops address -/

/-- The conditions under which a fixed-format resampler with pixels of `bpp`
bytes is called on buffers and tables that cover what it addresses: the source
has width at least `1` and at least `newBounds.Max.X` rows, its stride is at
least the bytes of a row, its buffer covers every one of those rows, the offset
table has at least `newBounds.Max.Y` entries, the coefficient table (of
`ncoeffs` entries) at least `filterLength` entries for each destination row,
the minima of the destination bounds are not negative, and the destination
buffer covers every destination pixel. -/
def SafeCall (inp out : Image) (bpp : Nat) (ncoeffs : Nat) (offset : List Int)
    (filterLength : Int) : Prop :=
  1 ≤ inp.Rect.Dx ∧ out.Rect.Max.X ≤ inp.Rect.Dy ∧ inp.Rect.Dx * bpp ≤ inp.Stride ∧
  (∀ r : Int, 0 ≤ r → r < out.Rect.Max.X →
    r * inp.Stride + inp.Rect.Dx * bpp ≤ (inp.Pix.length : Int)) ∧
  out.Rect.Max.Y ≤ (offset.length : Int) ∧
  filterLength * out.Rect.Dy ≤ (ncoeffs : Int) ∧
  0 ≤ out.Rect.Min.X ∧ 0 ≤ out.Rect.Min.Y ∧
  (∀ x y, out.Rect.Min.X ≤ x → x < out.Rect.Max.X → out.Rect.Min.Y ≤ y →
    y < out.Rect.Max.Y →
    0 ≤ pixOffset out bpp x y ∧ pixOffset out bpp x y + bpp ≤ (out.Pix.length : Int))

/-- Every index that a fixed-format resampler with pixels of `bpp` bytes uses
for a destination pixel is in range: the slice of the source row, the reads of
that row at the index `col xi` that the `switch` yields for any tap position
`xi` whatever, the lookup in the offset table, the lookups in the coefficient
table for every tap, and the assignments to the destination buffer. -/
def IndexSafe (col : Int → Int) (bpp : Nat) (inp out : Image) (ncoeffs : Nat)
    (offset : List Int) (filterLength : Int) : Prop :=
  ∀ x y, out.Rect.Min.X ≤ x → x < out.Rect.Max.X → out.Rect.Min.Y ≤ y →
    y < out.Rect.Max.Y →
    (∃ row, sliceFrom inp.Pix (rowBase inp x) = some row ∧
      ∀ (xi : Int) (c : Nat), c < bpp → ∃ p, index row (col xi + c) = some p) ∧
    (∃ start, index offset y = some start) ∧
    (∀ i, 0 ≤ i → i < filterLength →
      0 ≤ (y - out.Rect.Min.Y) * filterLength + i ∧
        (y - out.Rect.Min.Y) * filterLength + i < (ncoeffs : Int)) ∧
    (∀ (pix : List Byte) (c : Nat) (v : Byte), pix.length = out.Pix.length → c < bpp →
      ∃ pix', setIndex pix (pixOffset out bpp x y + c) v = some pix')

/-- The resampler `F`, with pixels of `bpp` bytes, the column index `col inp` of
its `switch` and the divisor `divisor coeffs ci n` of the destination row whose
coefficients start at `ci`, does not panic on an index when the call satisfies
`SafeCall`: every index is in range, and the call returns unless a divisor is
zero. -/
def NoIndexPanic {κ : Type}
    (F : Image → Image → List κ → List Int → Int → Option (List Byte))
    (col : Image → Int → Int) (bpp : Nat) (divisor : List κ → Int → Nat → Int) : Prop :=
  ∀ (inp out : Image) (coeffs : List κ) (offset : List Int) (filterLength : Int),
    SafeCall inp out bpp coeffs.length offset filterLength →
    IndexSafe (col inp) bpp inp out coeffs.length offset filterLength ∧
    ((∀ y, out.Rect.Min.Y ≤ y → y < out.Rect.Max.Y →
        divisor coeffs ((y - out.Rect.Min.Y) * filterLength) filterLength.toNat ≠ 0) →
      ∃ pix', F inp out coeffs offset filterLength = some pix')

/-! ## The divisor of a destination pixel -/

/-- In a resampler with the tap loop `tap coeffs ci` (accumulators of type `σ`
that start as `zero`, of which `sum` is the sum of the coefficients and
`quo` the machine division), the divisor of a destination pixel whose
coefficients have an exact sum that is within the range `fits` of the
accumulator and is not zero: the divisor is that sum, it is not zero, and the
division by it is defined. -/
def DivisorDefined {σ : Type} (zero : σ) (sum : σ → Int)
    (tap : List Int → Int → Int → σ → Option σ) (fits : Int → Prop)
    (quo : Int → Int → Option Int) : Prop :=
  ∀ (coeffs : List Int) (ci filterLength : Int) (acc : σ),
    forLoop 0 filterLength zero (tap coeffs ci) = some acc →
    fits (weightSum coeffs ci filterLength.toNat) →
    weightSum coeffs ci filterLength.toNat ≠ 0 →
    sum acc = weightSum coeffs ci filterLength.toNat ∧ sum acc ≠ 0 ∧
      ∀ a, ∃ q, quo a (sum acc) = some q

/-! ## Accumulators that hold the exact sums -/

/-- In a resampler with the tap loop `tap coeffs ci` (accumulators of type `σ`
that start as `zero`, with `nch` channels `chan acc c`, whose tap `k` reads the
sample `smp c k` for channel `c`), for a filter length of at most `maxLen` and
coefficients `v` with `-cb ≤ v < cb`: the exact sum of the coefficients and the
exact weighted sum of every channel are within the range `fits` of the
accumulators, and the accumulators hold these exact sums after the tap loop. -/
def AccumulatorsExact {σ : Type} (zero : σ) (nch : Nat) (chan : σ → Nat → Acc1)
    (tap : List Int → Int → Int → σ → Option σ) (smp : Nat → Int → Int)
    (fits : Int → Prop) (cb maxLen : Int) : Prop :=
  ∀ (coeffs : List Int) (ci filterLength : Int) (acc : σ),
    forLoop 0 filterLength zero (tap coeffs ci) = some acc →
    filterLength ≤ maxLen →
    (∀ k : Nat, (k : Int) < filterLength →
      -cb ≤ intAt coeffs (ci + k) ∧ intAt coeffs (ci + k) < cb) →
    fits (weightSum coeffs ci filterLength.toNat) ∧
    ∀ c : Nat, c < nch →
      (chan acc c).sum = weightSum coeffs ci filterLength.toNat ∧
      fits (chanSum coeffs ci filterLength.toNat (smp c)) ∧
      (chan acc c).gray = chanSum coeffs ci filterLength.toNat (smp c)

/-- A row of 258 `int16` coefficients, each `32767`. -/
def longCoeffs16 : List Int := List.replicate 258 32767

/-! ## Source rows within the source buffer -/

/-- The source of a call of a fixed-format resampler with pixels of `bpp` bytes
has width at least `1`, and each source row that the call slices (one for each
destination column) has its `W * bpp` bytes within the source buffer. -/
def SourceCovered (inp out : Image) (bpp : Nat) : Prop :=
  1 ≤ inp.Rect.Dx ∧
  ∀ x, out.Rect.Min.X ≤ x → x < out.Rect.Max.X →
    rowBase inp x + inp.Rect.Dx * bpp ≤ (inp.Pix.length : Int)

/-! ## The tap loops without the `coeff != 0` guard

Second definitions of the integer resamplers, for comparison with the ones
above: the same loops in which every tap, its coefficient zero or not, is added
to the channel sums and to the sum of the coefficients. -/

/-- The round of the tap loop of `resizeGeneric` without the guard: the tap is added
whatever its coefficient. -/
def resizeGeneric.tapUnguarded (inp : GenericImage) (coeffs : List Int) (oldBounds : Rectangle)
    (start ci x : Int) (i : Int) (acc : Acc4) : Option Acc4 := do
  let coeff ← index coeffs (ci + i)
  let xi := resizeGeneric.switch oldBounds (int64 (start + i))
  let col := inp.At xi x
  pure { c0 := int64 (acc.c0 + int64 (int64 coeff * int64 col.r))
         c1 := int64 (acc.c1 + int64 (int64 coeff * int64 col.g))
         c2 := int64 (acc.c2 + int64 (int64 coeff * int64 col.b))
         c3 := int64 (acc.c3 + int64 (int64 coeff * int64 col.a))
         sum := int64 (acc.sum + int64 coeff) }

/-- The body of the `y` loop of `resizeGeneric` with the tap loop without the guard. -/
def resizeGeneric.pixelUnguarded (inp : GenericImage) (out : Image) (coeffs : List Int)
    (offset : List Int) (filterLength : Int) (oldBounds newBounds : Rectangle)
    (x y : Int) (pix : List Byte) : Option (List Byte) := do
  let start ← index offset y
  let ci := (y - newBounds.Min.Y) * filterLength
  let acc ← forLoop 0 filterLength (Acc4.mk 0 0 0 0 0)
    (resizeGeneric.tapUnguarded inp coeffs oldBounds start ci x)
  let offset := (y - newBounds.Min.Y) * out.Stride + (x - newBounds.Min.X) * 8
  let q ← quo64 acc.c0 acc.sum
  let value := clampUint16 q
  let pix ← setIndex pix (offset + 0) (uint8 (value / 256))
  let pix ← setIndex pix (offset + 1) (uint8 value)
  let q ← quo64 acc.c1 acc.sum
  let value := clampUint16 q
  let pix ← setIndex pix (offset + 2) (uint8 (value / 256))
  let pix ← setIndex pix (offset + 3) (uint8 value)
  let q ← quo64 acc.c2 acc.sum
  let value := clampUint16 q
  let pix ← setIndex pix (offset + 4) (uint8 (value / 256))
  let pix ← setIndex pix (offset + 5) (uint8 value)
  let q ← quo64 acc.c3 acc.sum
  let value := clampUint16 q
  let pix ← setIndex pix (offset + 6) (uint8 (value / 256))
  setIndex pix (offset + 7) (uint8 value)

/-- Function `resizeGeneric` with the tap loop without the guard. -/
def resizeGenericUnguarded (inp : GenericImage) (out : Image) (coeffs : List Int)
    (offset : List Int) (filterLength : Int) : Option (List Byte) :=
  let oldBounds := Rect 0 0 inp.Bounds.Dx inp.Bounds.Dy
  let newBounds := out.Bounds
  forLoop newBounds.Min.X newBounds.Max.X out.Pix fun x pix =>
    forLoop newBounds.Min.Y newBounds.Max.Y pix
      (resizeGeneric.pixelUnguarded inp out coeffs offset filterLength oldBounds newBounds x)

/-- The round of the tap loop of `resizeRGBA` without the guard: the tap is added
whatever its coefficient. -/
def resizeRGBA.tapUnguarded (row : List Byte) (coeffs : List Int) (oldBounds : Rectangle)
    (minX maxX start ci : Int) (i : Int) (acc : Acc4) : Option Acc4 := do
  let coeff ← index coeffs (ci + i)
  let xi := resizeRGBA.switch oldBounds minX maxX (int64 (start + i))
  let p0 ← index row (xi + 0)
  let p1 ← index row (xi + 1)
  let p2 ← index row (xi + 2)
  let p3 ← index row (xi + 3)
  pure { c0 := int32 (acc.c0 + int32 (int32 coeff * int32 p0.val))
         c1 := int32 (acc.c1 + int32 (int32 coeff * int32 p1.val))
         c2 := int32 (acc.c2 + int32 (int32 coeff * int32 p2.val))
         c3 := int32 (acc.c3 + int32 (int32 coeff * int32 p3.val))
         sum := int32 (acc.sum + int32 coeff) }

/-- The body of the `y` loop of `resizeRGBA` with the tap loop without the guard. -/
def resizeRGBA.pixelUnguarded (row : List Byte) (out : Image) (coeffs : List Int)
    (offset : List Int) (filterLength : Int) (oldBounds newBounds : Rectangle)
    (minX maxX : Int) (x y : Int) (pix : List Byte) : Option (List Byte) := do
  let start ← index offset y
  let ci := (y - newBounds.Min.Y) * filterLength
  let acc ← forLoop 0 filterLength (Acc4.mk 0 0 0 0 0)
    (resizeRGBA.tapUnguarded row coeffs oldBounds minX maxX start ci)
  let xo := (y - newBounds.Min.Y) * out.Stride + (x - newBounds.Min.X) * 4
  let q ← quo32 acc.c0 acc.sum
  let pix ← setIndex pix (xo + 0) (clampUint8 q)
  let q ← quo32 acc.c1 acc.sum
  let pix ← setIndex pix (xo + 1) (clampUint8 q)
  let q ← quo32 acc.c2 acc.sum
  let pix ← setIndex pix (xo + 2) (clampUint8 q)
  let q ← quo32 acc.c3 acc.sum
  setIndex pix (xo + 3) (clampUint8 q)

/-- Function `resizeRGBA` with the tap loop without the guard. -/
def resizeRGBAUnguarded (inp out : Image) (coeffs : List Int) (offset : List Int)
    (filterLength : Int) : Option (List Byte) :=
  let oldBounds := Rect 0 0 inp.Rect.Dx inp.Rect.Dy
  let newBounds := out.Bounds
  let minX := oldBounds.Min.X * 4
  let maxX := (oldBounds.Max.X - oldBounds.Min.X - 1) * 4
  forLoop newBounds.Min.X newBounds.Max.X out.Pix fun x pix => do
    let row ← sliceFrom inp.Pix ((x - oldBounds.Min.Y) * inp.Stride)
    forLoop newBounds.Min.Y newBounds.Max.Y pix
      (resizeRGBA.pixelUnguarded row out coeffs offset filterLength oldBounds newBounds minX maxX x)

/-- The round of the tap loop of `resizeRGBA64` without the guard: the tap is added
whatever its coefficient. -/
def resizeRGBA64.tapUnguarded (row : List Byte) (coeffs : List Int) (oldBounds : Rectangle)
    (minX maxX start ci : Int) (i : Int) (acc : Acc4) : Option Acc4 := do
  let coeff ← index coeffs (ci + i)
  let xi := resizeRGBA64.switch oldBounds minX maxX (int64 (start + i))
  let p0 ← index row (xi + 0)
  let p1 ← index row (xi + 1)
  let p2 ← index row (xi + 2)
  let p3 ← index row (xi + 3)
  let p4 ← index row (xi + 4)
  let p5 ← index row (xi + 5)
  let p6 ← index row (xi + 6)
  let p7 ← index row (xi + 7)
  pure { c0 := int64 (acc.c0 + int64 (int64 coeff * int64 (word16 p0 p1)))
         c1 := int64 (acc.c1 + int64 (int64 coeff * int64 (word16 p2 p3)))
         c2 := int64 (acc.c2 + int64 (int64 coeff * int64 (word16 p4 p5)))
         c3 := int64 (acc.c3 + int64 (int64 coeff * int64 (word16 p6 p7)))
         sum := int64 (acc.sum + int64 coeff) }

/-- The body of the `y` loop of `resizeRGBA64` with the tap loop without the guard. -/
def resizeRGBA64.pixelUnguarded (row : List Byte) (out : Image) (coeffs : List Int)
    (offset : List Int) (filterLength : Int) (oldBounds newBounds : Rectangle)
    (minX maxX : Int) (x y : Int) (pix : List Byte) : Option (List Byte) := do
  let start ← index offset y
  let ci := (y - newBounds.Min.Y) * filterLength
  let acc ← forLoop 0 filterLength (Acc4.mk 0 0 0 0 0)
    (resizeRGBA64.tapUnguarded row coeffs oldBounds minX maxX start ci)
  let xo := (y - newBounds.Min.Y) * out.Stride + (x - newBounds.Min.X) * 8
  let q ← quo64 acc.c0 acc.sum
  let value := clampUint16 q
  let pix ← setIndex pix (xo + 0) (uint8 (value / 256))
  let pix ← setIndex pix (xo + 1) (uint8 value)
  let q ← quo64 acc.c1 acc.sum
  let value := clampUint16 q
  let pix ← setIndex pix (xo + 2) (uint8 (value / 256))
  let pix ← setIndex pix (xo + 3) (uint8 value)
  let q ← quo64 acc.c2 acc.sum
  let value := clampUint16 q
  let pix ← setIndex pix (xo + 4) (uint8 (value / 256))
  let pix ← setIndex pix (xo + 5) (uint8 value)
  let q ← quo64 acc.c3 acc.sum
  let value := clampUint16 q
  let pix ← setIndex pix (xo + 6) (uint8 (value / 256))
  setIndex pix (xo + 7) (uint8 value)

/-- Function `resizeRGBA64` with the tap loop without the guard. -/
def resizeRGBA64Unguarded (inp out : Image) (coeffs : List Int) (offset : List Int)
    (filterLength : Int) : Option (List Byte) :=
  let oldBounds := Rect 0 0 inp.Rect.Dx inp.Rect.Dy
  let newBounds := out.Bounds
  let minX := oldBounds.Min.X * 8
  let maxX := (oldBounds.Max.X - oldBounds.Min.X - 1) * 8
  forLoop newBounds.Min.X newBounds.Max.X out.Pix fun x pix => do
    let row ← sliceFrom inp.Pix ((x - oldBounds.Min.Y) * inp.Stride)
    forLoop newBounds.Min.Y newBounds.Max.Y pix
      (resizeRGBA64.pixelUnguarded row out coeffs offset filterLength oldBounds newBounds minX maxX x)

/-- The round of the tap loop of `resizeGray` without the guard: the tap is added
whatever its coefficient. -/
def resizeGray.tapUnguarded (row : List Byte) (coeffs : List Int) (oldBounds : Rectangle)
    (minX maxX start ci : Int) (i : Int) (acc : Acc1) : Option Acc1 := do
  let coeff ← index coeffs (ci + i)
  let xi := resizeGray.switch oldBounds minX maxX (int64 (start + i))
  let p ← index row xi
  pure { gray := int32 (acc.gray + int32 (int32 coeff * int32 p.val))
         sum := int32 (acc.sum + int32 coeff) }

/-- The body of the `y` loop of `resizeGray` with the tap loop without the guard. -/
def resizeGray.pixelUnguarded (row : List Byte) (out : Image) (coeffs : List Int)
    (offset : List Int) (filterLength : Int) (oldBounds newBounds : Rectangle)
    (minX maxX : Int) (x y : Int) (pix : List Byte) : Option (List Byte) := do
  let start ← index offset y
  let ci := (y - newBounds.Min.Y) * filterLength
  let acc ← forLoop 0 filterLength (Acc1.mk 0 0)
    (resizeGray.tapUnguarded row coeffs oldBounds minX maxX start ci)
  let offset := (y - newBounds.Min.Y) * out.Stride + (x - newBounds.Min.X)
  let q ← quo32 acc.gray acc.sum
  setIndex pix offset (clampUint8 q)

/-- Function `resizeGray` with the tap loop without the guard. -/
def resizeGrayUnguarded (inp out : Image) (coeffs : List Int) (offset : List Int)
    (filterLength : Int) : Option (List Byte) :=
  let oldBounds := Rect 0 0 inp.Rect.Dx inp.Rect.Dy
  let newBounds := out.Bounds
  let minX := oldBounds.Min.X
  let maxX := oldBounds.Max.X - oldBounds.Min.X - 1
  forLoop newBounds.Min.X newBounds.Max.X out.Pix fun x pix => do
    let row ← sliceFrom inp.Pix ((x - oldBounds.Min.Y) * inp.Stride)
    forLoop newBounds.Min.Y newBounds.Max.Y pix
      (resizeGray.pixelUnguarded row out coeffs offset filterLength oldBounds newBounds minX maxX x)

/-- The round of the tap loop of `resizeGray16` without the guard: the tap is added
whatever its coefficient. -/
def resizeGray16.tapUnguarded (row : List Byte) (coeffs : List Int) (oldBounds : Rectangle)
    (minX maxX start ci : Int) (i : Int) (acc : Acc1) : Option Acc1 := do
  let coeff ← index coeffs (ci + i)
  let xi := resizeGray16.switch oldBounds minX maxX (int64 (start + i))
  let p0 ← index row (xi + 0)
  let p1 ← index row (xi + 1)
  pure { gray := int64 (acc.gray + int64 (int64 coeff * int64 (word16 p0 p1)))
         sum := int64 (acc.sum + int64 coeff) }

/-- The body of the `y` loop of `resizeGray16` with the tap loop without the guard. -/
def resizeGray16.pixelUnguarded (row : List Byte) (out : Image) (coeffs : List Int)
    (offset : List Int) (filterLength : Int) (oldBounds newBounds : Rectangle)
    (minX maxX : Int) (x y : Int) (pix : List Byte) : Option (List Byte) := do
  let start ← index offset y
  let ci := (y - newBounds.Min.Y) * filterLength
  let acc ← forLoop 0 filterLength (Acc1.mk 0 0)
    (resizeGray16.tapUnguarded row coeffs oldBounds minX maxX start ci)
  let offset := (y - newBounds.Min.Y) * out.Stride + (x - newBounds.Min.X) * 2
  let q ← quo64 acc.gray acc.sum
  let value := clampUint16 q
  let pix ← setIndex pix (offset + 0) (uint8 (value / 256))
  setIndex pix (offset + 1) (uint8 value)

/-- Function `resizeGray16` with the tap loop without the guard. -/
def resizeGray16Unguarded (inp out : Image) (coeffs : List Int) (offset : List Int)
    (filterLength : Int) : Option (List Byte) :=
  let oldBounds := Rect 0 0 inp.Rect.Dx inp.Rect.Dy
  let newBounds := out.Bounds
  let minX := oldBounds.Min.X * 2
  let maxX := (oldBounds.Max.X - oldBounds.Min.X - 1) * 2
  forLoop newBounds.Min.X newBounds.Max.X out.Pix fun x pix => do
    let row ← sliceFrom inp.Pix ((x - oldBounds.Min.Y) * inp.Stride)
    forLoop newBounds.Min.Y newBounds.Max.Y pix
      (resizeGray16.pixelUnguarded row out coeffs offset filterLength oldBounds newBounds minX maxX x)

/-- The round of the tap loop of `resizeYCbCr` without the guard: the tap is added
whatever its coefficient. -/
def resizeYCbCr.tapUnguarded (row : List Byte) (coeffs : List Int) (oldBounds : Rectangle)
    (minX maxX start ci : Int) (i : Int) (acc : Acc3) : Option Acc3 := do
  let coeff ← index coeffs (ci + i)
  let xi := resizeYCbCr.switch oldBounds minX maxX (int64 (start + i))
  let p0 ← index row (xi + 0)
  let p1 ← index row (xi + 1)
  let p2 ← index row (xi + 2)
  pure { c0 := int32 (acc.c0 + int32 (int32 coeff * int32 p0.val))
         c1 := int32 (acc.c1 + int32 (int32 coeff * int32 p1.val))
         c2 := int32 (acc.c2 + int32 (int32 coeff * int32 p2.val))
         sum := int32 (acc.sum + int32 coeff) }

/-- The body of the `y` loop of `resizeYCbCr` with the tap loop without the guard. -/
def resizeYCbCr.pixelUnguarded (row : List Byte) (out : ycc) (coeffs : List Int)
    (offset : List Int) (filterLength : Int) (oldBounds newBounds : Rectangle)
    (minX maxX : Int) (x y : Int) (pix : List Byte) : Option (List Byte) := do
  let start ← index offset y
  let ci := (y - newBounds.Min.Y) * filterLength
  let acc ← forLoop 0 filterLength (Acc3.mk 0 0 0 0)
    (resizeYCbCr.tapUnguarded row coeffs oldBounds minX maxX start ci)
  let xo := (y - newBounds.Min.Y) * out.Stride + (x - newBounds.Min.X) * 3
  let q ← quo32 acc.c0 acc.sum
  let pix ← setIndex pix (xo + 0) (clampUint8 q)
  let q ← quo32 acc.c1 acc.sum
  let pix ← setIndex pix (xo + 1) (clampUint8 q)
  let q ← quo32 acc.c2 acc.sum
  setIndex pix (xo + 2) (clampUint8 q)

/-- Function `resizeYCbCr` with the tap loop without the guard. -/
def resizeYCbCrUnguarded (inp out : ycc) (coeffs : List Int) (offset : List Int)
    (filterLength : Int) : Option (List Byte) :=
  let oldBounds := Rect 0 0 inp.Rect.Dx inp.Rect.Dy
  let newBounds := out.Bounds
  let minX := oldBounds.Min.X * 3
  let maxX := (oldBounds.Max.X - oldBounds.Min.X - 1) * 3
  forLoop newBounds.Min.X newBounds.Max.X out.Pix fun x pix => do
    let row ← sliceFrom inp.Pix ((x - oldBounds.Min.Y) * inp.Stride)
    forLoop newBounds.Min.Y newBounds.Max.Y pix
      (resizeYCbCr.pixelUnguarded row out coeffs offset filterLength oldBounds newBounds minX maxX x)

/-! ## Views of a part of the destination -/

/-- The view of the image `out` (pixels of `bpp` bytes) on the rectangle `r`, as
the method `SubImage` of the image types yields it: the pixel buffer of `out`
sliced from the first byte of the pixel `(r.Min.X, r.Min.Y)`, the same stride,
and the bounds `r`. -/
def subView (out : Image) (bpp : Nat) (r : Rectangle) : Option Image :=
  (sliceFrom out.Pix (pixOffset out bpp r.Min.X r.Min.Y)).map fun p =>
    { Pix := p, Stride := out.Stride, Rect := r }

/-- The resampler `F`, with pixels of `B` bytes, treats the parts of a
destination independently.  For a destination `out` whose rows do not overlap,
a rectangle `r` within its bounds, the view `sub` of `out` on `r`, the same
offset table and the coefficient table sliced from the entry
`(r.Min.Y - y0) * filterLength`: when the call on `out` and the call on `sub`
return, every byte of every pixel of `r` is the same in both results; the byte
has the same place in the buffer of `out` in both (the place in the buffer of
`sub` plus the place where `sub` starts); the call on `sub` leaves every byte
that is not of a pixel of `r` as it was; and the bytes of two different pixels
of `out` have different places. -/
def SubViewAgrees {κ : Type}
    (F : Image → Image → List κ → List Int → Int → Option (List Byte)) (B : Nat) : Prop :=
  ∀ (inp out sub : Image) (coeffs coeffs' : List κ) (offset : List Int) (filterLength : Int)
    (r : Rectangle) (pixW pixS : List Byte),
    out.Rect.Dx * B ≤ out.Stride →
    out.Rect.Min.X ≤ r.Min.X → r.Max.X ≤ out.Rect.Max.X →
    out.Rect.Min.Y ≤ r.Min.Y → r.Max.Y ≤ out.Rect.Max.Y →
    subView out B r = some sub →
    sliceFrom coeffs ((r.Min.Y - out.Rect.Min.Y) * filterLength) = some coeffs' →
    F inp out coeffs offset filterLength = some pixW →
    F inp sub coeffs' offset filterLength = some pixS →
    (∀ x y, r.Min.X ≤ x → x < r.Max.X → r.Min.Y ≤ y → y < r.Max.Y →
      pixOffset out B x y = pixOffset out B r.Min.X r.Min.Y + pixOffset sub B x y ∧
      ∀ c : Nat, c < B →
        index pixS (pixOffset sub B x y + c) = index pixW (pixOffset out B x y + c)) ∧
    (∀ j : Int, (∀ x y (c : Nat), r.Min.X ≤ x → x < r.Max.X → r.Min.Y ≤ y → y < r.Max.Y →
        c < B → j ≠ pixOffset sub B x y + c) →
      index pixS j = index sub.Pix j) ∧
    (∀ x y x' y' (c c' : Nat), out.Rect.Min.X ≤ x → x < out.Rect.Max.X →
      out.Rect.Min.Y ≤ y → y < out.Rect.Max.Y → out.Rect.Min.X ≤ x' → x' < out.Rect.Max.X →
      out.Rect.Min.Y ≤ y' → y' < out.Rect.Max.Y → c < B → c' < B → (x, y) ≠ (x', y') →
      pixOffset out B x y + c ≠ pixOffset out B x' y' + c')

/-- The view of `agreeDestRGBA` on its row `1`. -/
def agreeRowRGBA : Image :=
  { Pix := [0, 0, 0, 0], Stride := 4, Rect := ⟨⟨0, 1⟩, ⟨1, 2⟩⟩ }

/-! ## The bytes that a call writes -/

/-- The resampler `F`, with pixels of `B` bytes, writes exactly the pixels of the
destination.  For a destination `out` whose rows do not overlap and a call that
returns the buffer `pix'`: the buffer keeps its length; every byte whose index
is not `(y - y0) * out.Stride + (x - x0) * B + c` for a pixel `(x, y)` of the
bounds and `c < B` is the byte of `out.Pix`; and every byte at such an index is
present and has been written, that is, it is the same whatever buffer `pix0` the
destination held before the call. -/
def WritesExactly {κ : Type}
    (F : Image → Image → List κ → List Int → Int → Option (List Byte)) (B : Nat) : Prop :=
  ∀ (inp out : Image) (coeffs : List κ) (offset : List Int) (filterLength : Int)
    (pix' : List Byte),
    out.Rect.Dx * B ≤ out.Stride →
    F inp out coeffs offset filterLength = some pix' →
    pix'.length = out.Pix.length ∧
    (∀ j : Int, (∀ x y (c : Nat), out.Rect.Min.X ≤ x → x < out.Rect.Max.X →
        out.Rect.Min.Y ≤ y → y < out.Rect.Max.Y → c < B → j ≠ pixOffset out B x y + c) →
      index pix' j = index out.Pix j) ∧
    (∀ x y (c : Nat), out.Rect.Min.X ≤ x → x < out.Rect.Max.X → out.Rect.Min.Y ≤ y →
      y < out.Rect.Max.Y → c < B →
      (∃ b, index pix' (pixOffset out B x y + c) = some b) ∧
      ∀ pix0 pix'' : List Byte,
        F inp { Pix := pix0, Stride := out.Stride, Rect := out.Rect } coeffs offset
          filterLength = some pix'' →
        index pix'' (pixOffset out B x y + c) = index pix' (pixOffset out B x y + c))

/-- A 1x2 `image.Gray` destination with a stride of `2`: one byte of padding
after each row. -/
def paddedDestGray : Image := { Pix := [7, 7, 7, 7], Stride := 2, Rect := Rect 0 0 1 2 }

/-! ## Passes that transpose -/

/-- One pass of the resampler `F`, with pixels of `B` bytes and coefficients `v`
with `-cb ≤ v < cb`, transposes.  For a source of width `W ≥ 1` (a value of the
type `int`, so `W < 2^63`) and height `H`
whose buffer holds `H` rows of `in.Stride ≥ W * B` bytes, a destination of width
`H` and height `W` with the origin `(0, 0)` whose buffer holds its rows, the
filter length `1`, an offset table with `offset[y] = y` and a coefficient table
with `coeffs[y]` not zero, for every `y < W`: the call returns, and the
destination pixel at column `x`, row `y` is the source pixel at column `y`, row
`x`. -/
def TransposePass (F : Image → Image → List Int → List Int → Int → Option (List Byte))
    (B : Nat) (cb : Int) : Prop :=
  ∀ (inp out : Image) (coeffs offset : List Int),
    1 ≤ inp.Rect.Dx → inp.Rect.Dx < 9223372036854775808 → 0 ≤ inp.Rect.Dy →
    inp.Rect.Dx * B ≤ inp.Stride → inp.Rect.Dy * inp.Stride ≤ (inp.Pix.length : Int) →
    out.Rect = ⟨⟨0, 0⟩, ⟨inp.Rect.Dy, inp.Rect.Dx⟩⟩ →
    out.Rect.Dx * B ≤ out.Stride → out.Rect.Dy * out.Stride ≤ (out.Pix.length : Int) →
    (∀ y, 0 ≤ y → y < inp.Rect.Dx →
      index offset y = some y ∧ ∃ v, index coeffs y = some v ∧ v ≠ 0 ∧ -cb ≤ v ∧ v < cb) →
    ∃ pix', F inp out coeffs offset 1 = some pix' ∧ pix'.length = out.Pix.length ∧
      ∀ x y (c : Nat), 0 ≤ x → x < inp.Rect.Dy → 0 ≤ y → y < inp.Rect.Dx → c < B →
        index pix' (y * out.Stride + x * B + c) = index inp.Pix (x * inp.Stride + y * B + c)

/-- Two passes of the resampler `F` with the tables of `TransposePass` return
the source.  For a source of width `W ≥ 1` and height `H ≥ 1` (values of the
type `int`, so both below `2^63`), an intermediate
image of width `H` and height `W` and a final image of width `W` and height `H`,
both with the origin `(0, 0)`, and identity tables for each pass: both calls
return, and the final pixel at column `x`, row `y` is the source pixel at column
`x`, row `y`. -/
def TransposeTwice (F : Image → Image → List Int → List Int → Int → Option (List Byte))
    (B : Nat) (cb : Int) : Prop :=
  ∀ (inp tmp fin : Image) (c1 o1 c2 o2 : List Int),
    1 ≤ inp.Rect.Dx → inp.Rect.Dx < 9223372036854775808 →
    1 ≤ inp.Rect.Dy → inp.Rect.Dy < 9223372036854775808 →
    inp.Rect.Dx * B ≤ inp.Stride → inp.Rect.Dy * inp.Stride ≤ (inp.Pix.length : Int) →
    tmp.Rect = ⟨⟨0, 0⟩, ⟨inp.Rect.Dy, inp.Rect.Dx⟩⟩ →
    tmp.Rect.Dx * B ≤ tmp.Stride → tmp.Rect.Dy * tmp.Stride ≤ (tmp.Pix.length : Int) →
    fin.Rect = ⟨⟨0, 0⟩, ⟨inp.Rect.Dx, inp.Rect.Dy⟩⟩ →
    fin.Rect.Dx * B ≤ fin.Stride → fin.Rect.Dy * fin.Stride ≤ (fin.Pix.length : Int) →
    (∀ y, 0 ≤ y → y < inp.Rect.Dx →
      index o1 y = some y ∧ ∃ v, index c1 y = some v ∧ v ≠ 0 ∧ -cb ≤ v ∧ v < cb) →
    (∀ y, 0 ≤ y → y < inp.Rect.Dy →
      index o2 y = some y ∧ ∃ v, index c2 y = some v ∧ v ≠ 0 ∧ -cb ≤ v ∧ v < cb) →
    ∃ pix1 pix2, F inp tmp c1 o1 1 = some pix1 ∧
      F { Pix := pix1, Stride := tmp.Stride, Rect := tmp.Rect } fin c2 o2 1 = some pix2 ∧
      pix2.length = fin.Pix.length ∧
      ∀ x y (c : Nat), 0 ≤ x → x < inp.Rect.Dx → 0 ≤ y → y < inp.Rect.Dy → c < B →
        index pix2 (y * fin.Stride + x * B + c) = index inp.Pix (y * inp.Stride + x * B + c)

/-- A 1x3 `image.Gray` destination: the transpose of a 3x1 source. -/
def transposedDestGray : Image := { Pix := [0, 0, 0], Stride := 1, Rect := Rect 0 0 1 3 }

/-! ## Kernels without negative coefficients -/

/-- The resampler `F`, with 8-bit channels and pixels of `B` bytes, whose tap `k`
reads the sample `smp inp x start c k` of channel `c`, does not overshoot with a
kernel without negative coefficients.  For a call that returns, a destination
pixel `(x, y)` and a channel `c`: if every coefficient of the row of `y` is at
least `0`, their sum is positive, the sum and the weighted sum of the channel
are within the range of `int32`, and every sample read by a tap with a nonzero
coefficient is between `lo` and `hi`, then the byte written is the quotient
itself (the clamp does not change it) and is between `lo` and `hi`. -/
def NoOvershoot8 (F : Image → Image → List Int → List Int → Int → Option (List Byte))
    (B : Nat) (smp : Image → Int → Int → Nat → Int → Int) : Prop :=
  ∀ (inp out : Image) (coeffs offset : List Int) (filterLength : Int) (pix' : List Byte)
    (x y start : Int) (c : Nat) (lo hi : Int),
    out.Rect.Dx * B ≤ out.Stride →
    F inp out coeffs offset filterLength = some pix' →
    out.Rect.Min.X ≤ x → x < out.Rect.Max.X → out.Rect.Min.Y ≤ y → y < out.Rect.Max.Y →
    c < B → index offset y = some start →
    (∀ k : Nat, k < filterLength.toNat →
      0 ≤ intAt coeffs ((y - out.Rect.Min.Y) * filterLength + k)) →
    0 < weightSum coeffs ((y - out.Rect.Min.Y) * filterLength) filterLength.toNat →
    fitsInt32 (weightSum coeffs ((y - out.Rect.Min.Y) * filterLength) filterLength.toNat) →
    fitsInt32 (chanSum coeffs ((y - out.Rect.Min.Y) * filterLength) filterLength.toNat
      (smp inp x start c)) →
    (∀ k : Nat, k < filterLength.toNat →
      intAt coeffs ((y - out.Rect.Min.Y) * filterLength + k) ≠ 0 →
      lo ≤ smp inp x start c k ∧ smp inp x start c k ≤ hi) →
    ∃ b : Byte, index pix' (pixOffset out B x y + c) = some b ∧
      (b.val : Int) = Int.tdiv
        (chanSum coeffs ((y - out.Rect.Min.Y) * filterLength) filterLength.toNat
          (smp inp x start c))
        (weightSum coeffs ((y - out.Rect.Min.Y) * filterLength) filterLength.toNat) ∧
      lo ≤ (b.val : Int) ∧ (b.val : Int) ≤ hi

/-- The resampler `F`, with `n` 16-bit channels stored high byte first, whose tap
`k` reads the sample `smp inp x start c k` of channel `c`, does not overshoot
with a kernel without negative coefficients: as `NoOvershoot8`, with the range
of `int64` and the 16-bit value `256 * hi + lo` of the two bytes written. -/
def NoOvershoot16 (F : Image → Image → List Int → List Int → Int → Option (List Byte))
    (n : Nat) (smp : Image → Int → Int → Nat → Int → Int) : Prop :=
  ∀ (inp out : Image) (coeffs offset : List Int) (filterLength : Int) (pix' : List Byte)
    (x y start : Int) (c : Nat) (lo hi : Int),
    out.Rect.Dx * (2 * n : Nat) ≤ out.Stride →
    F inp out coeffs offset filterLength = some pix' →
    out.Rect.Min.X ≤ x → x < out.Rect.Max.X → out.Rect.Min.Y ≤ y → y < out.Rect.Max.Y →
    c < n → index offset y = some start →
    (∀ k : Nat, k < filterLength.toNat →
      0 ≤ intAt coeffs ((y - out.Rect.Min.Y) * filterLength + k)) →
    0 < weightSum coeffs ((y - out.Rect.Min.Y) * filterLength) filterLength.toNat →
    fitsInt64 (weightSum coeffs ((y - out.Rect.Min.Y) * filterLength) filterLength.toNat) →
    fitsInt64 (chanSum coeffs ((y - out.Rect.Min.Y) * filterLength) filterLength.toNat
      (smp inp x start c)) →
    (∀ k : Nat, k < filterLength.toNat →
      intAt coeffs ((y - out.Rect.Min.Y) * filterLength + k) ≠ 0 →
      lo ≤ smp inp x start c k ∧ smp inp x start c k ≤ hi) →
    ∃ bh bl : Byte, index pix' (pixOffset out (2 * n : Nat) x y + (2 * c : Nat)) = some bh ∧
      index pix' (pixOffset out (2 * n : Nat) x y + (2 * c + 1 : Nat)) = some bl ∧
      256 * (bh.val : Int) + (bl.val : Int) = Int.tdiv
        (chanSum coeffs ((y - out.Rect.Min.Y) * filterLength) filterLength.toNat
          (smp inp x start c))
        (weightSum coeffs ((y - out.Rect.Min.Y) * filterLength) filterLength.toNat) ∧
      lo ≤ 256 * (bh.val : Int) + (bl.val : Int) ∧ 256 * (bh.val : Int) + (bl.val : Int) ≤ hi

/-! ## A generic source made of a Gray image -/

/-- A source for `resizeGeneric` that returns, for the pixel at column `x` and
row `y` and each of the four channels, the 16-bit value `257 * v`, where `v` is
the byte of that pixel in the `image.Gray` source `g`. -/
def genericOfGray (g : Image) : GenericImage :=
  { Bounds := g.Rect
    At := fun x y =>
      let v := (byteAt g.Pix (y * g.Stride + x)).toNat
      ⟨257 * v, 257 * v, 257 * v, 257 * v⟩ }

/-- A 2x1 `image.Gray` source with the pixels `200` and `201`. -/
def roundingSourceGray : Image := { Pix := [200, 201], Stride := 2, Rect := Rect 0 0 2 1 }

/-- A 1x1 `image.Gray` destination. -/
def pixelDestGray : Image := { Pix := [7], Stride := 1, Rect := Rect 0 0 1 1 }

/-- A 1x2 `image.RGBA64` destination. -/
def agreeDestRGBA64 : Image := { Pix := List.replicate 16 0, Stride := 8, Rect := Rect 0 0 1 2 }

/-! ## The bytes that a tap reads -/

/-- The round `i` of a tap loop, given as the function `tap` of the source row,
the coefficient table, the index `ci` and the accumulators, reads the source row
at the byte offset `k` and nowhere else: its result is the same for two rows that
agree on the `B` bytes at the offsets `k`, ..., `k + B - 1`, and if its coefficient
is selected (`sel`) and one of these bytes is outside the row, it panics. -/
def TapReadsAt {σ κ : Type} (tap : List Byte → List κ → Int → σ → Option σ)
    (sel : κ → Prop) (i k : Int) (B : Nat) : Prop :=
  ∀ (coeffs : List κ) (ci : Int) (acc : σ),
    (∀ row row' : List Byte, (∀ j : Nat, j < B → index row (k + j) = index row' (k + j)) →
      tap row coeffs ci acc = tap row' coeffs ci acc) ∧
    (∀ (coeff : κ) (row : List Byte), index coeffs (ci + i) = some coeff → sel coeff →
      (∃ j : Nat, j < B ∧ index row (k + j) = none) → tap row coeffs ci acc = none)

/-- A 1x1 `image.Gray` destination for the source `agreeSourceGray`. -/
def wrapDestGray : Image := { Pix := [0], Stride := 1, Rect := Rect 0 0 1 1 }

/-! ## Fixed-width arithmetic -/

theorem int32_of_fits (v : Int) (h1 : -2147483648 ≤ v) (h2 : v < 2147483648) :
    int32 v = v := by
  unfold int32; omega

theorem int64_of_fits (v : Int) (h1 : -9223372036854775808 ≤ v)
    (h2 : v < 9223372036854775808) : int64 v = v := by
  unfold int64; omega

theorem int32_mul_left (a b : Int) : int32 (int32 a * b) = int32 (a * b) := by
  have h : int32 a = a - 4294967296 * ((a + 2147483648) / 4294967296) := by
    unfold int32; omega
  rw [h]
  unfold int32
  have e : (a - 4294967296 * ((a + 2147483648) / 4294967296)) * b + 2147483648
      = (a * b + 2147483648) + (-(((a + 2147483648) / 4294967296) * b)) * 4294967296 := by
    ring
  rw [e, Int.add_mul_emod_self]

theorem int64_mul_left (a b : Int) : int64 (int64 a * b) = int64 (a * b) := by
  have h : int64 a = a - 18446744073709551616 * ((a + 9223372036854775808) / 18446744073709551616) := by
    unfold int64; omega
  rw [h]
  unfold int64
  have e : (a - 18446744073709551616 * ((a + 9223372036854775808) / 18446744073709551616)) * b
        + 9223372036854775808
      = (a * b + 9223372036854775808)
        + (-(((a + 9223372036854775808) / 18446744073709551616) * b)) * 18446744073709551616 := by
    ring
  rw [e, Int.add_mul_emod_self]

theorem isWrap_int32 : IsWrap int32 where
  add_right := by intro a b; unfold int32; omega
  mul_left := int32_mul_left
  mul_right := by intro a b; rw [mul_comm, int32_mul_left, mul_comm]
  idem := by intro a; unfold int32; omega
  zero := by decide

theorem isWrap_int64 : IsWrap int64 where
  add_right := by intro a b; unfold int64; omega
  mul_left := int64_mul_left
  mul_right := by intro a b; rw [mul_comm, int64_mul_left, mul_comm]
  idem := by intro a; unfold int64; omega
  zero := by decide

theorem word16_eq (hi lo : Byte) : word16 hi lo = 256 * (hi.val : Int) + (lo.val : Int) := by
  unfold word16
  have h1 : hi.val < 256 := hi.isLt
  have h2 : lo.val < 2 ^ 8 := lo.isLt
  rw [Nat.shiftLeft_eq, Nat.mod_eq_of_lt (by omega), Nat.mul_comm, ← Nat.mul_add_lt_is_or h2]
  push_cast; ring

theorem uint8_val (v : Int) : ((uint8 v).val : Int) = v % 256 := by
  unfold uint8
  simp only [Fin.ofNat, Nat.succ_eq_add_one, Nat.reduceAdd]
  omega

theorem clampUint8_val (v : Int) : ((clampUint8 v).val : Int) = min (max v 0) 255 := by
  unfold clampUint8
  split_ifs with h1 h2
  · show (0 : Int) = _
    omega
  · show (255 : Int) = _
    omega
  · rw [uint8_val]; omega

theorem clampUint16_eq (v : Int) : clampUint16 v = min (max v 0) 65535 := by
  unfold clampUint16 uint16
  split_ifs with h1 h2 <;> omega

theorem uintLess_iff (a b : Int) (hb : 0 ≤ b) : uintLess a b = true ↔ 0 ≤ a ∧ a < b := by
  unfold uintLess
  split_ifs with h1 <;> simp [h1]

/-! ## Slices -/

theorem index_eq_some {α : Type} (s : List α) (k : Int) (v : α) :
    index s k = some v ↔ 0 ≤ k ∧ s[k.toNat]? = some v := by
  unfold index
  split_ifs with h <;> simp [h]

theorem index_isSome {α : Type} (s : List α) (k : Int) (h0 : 0 ≤ k)
    (h1 : k < (s.length : Int)) : ∃ v, index s k = some v := by
  unfold index
  rw [if_pos h0]
  have : k.toNat < s.length := by omega
  exact ⟨s[k.toNat], List.getElem?_eq_getElem this⟩

theorem index_lt_length {α : Type} (s : List α) (k : Int) (v : α)
    (h : index s k = some v) : 0 ≤ k ∧ k < (s.length : Int) := by
  rw [index_eq_some] at h
  obtain ⟨h0, h1⟩ := h
  have := (List.getElem?_eq_some.mp h1).1
  omega

theorem index_sliceFrom {α : Type} (s row : List α) (k j : Int)
    (h : sliceFrom s k = some row) (hj : 0 ≤ j) : index row j = index s (k + j) := by
  unfold sliceFrom at h
  split_ifs at h with hk
  simp only [Option.some.injEq] at h
  subst h
  unfold index
  rw [if_pos hj, if_pos (by omega), List.getElem?_drop]
  congr 1
  omega

theorem setIndex_eq_some {α : Type} (s s' : List α) (k : Int) (v : α)
    (h : setIndex s k v = some s') :
    0 ≤ k ∧ k < (s.length : Int) ∧ s'.length = s.length ∧
      ∀ j, index s' j = if j = k then some v else index s j := by
  unfold setIndex at h
  split_ifs at h with hk
  simp only [Option.some.injEq] at h
  subst h
  refine ⟨hk.1, hk.2, by simp, ?_⟩
  intro j
  unfold index
  by_cases hj : 0 ≤ j
  · simp only [hj, if_true, List.getElem?_set]
    by_cases e : j = k
    · subst e
      have : j.toNat < s.length := by omega
      simp [this]
    · have : ¬ k.toNat = j.toNat := by omega
      simp [this, e]
  · have : ¬ j = k := by omega
    simp [hj, this]

theorem setIndex_isSome {α : Type} (s : List α) (k : Int) (v : α) (h0 : 0 ≤ k)
    (h1 : k < (s.length : Int)) : ∃ s', setIndex s k v = some s' := by
  unfold setIndex
  rw [if_pos ⟨h0, h1⟩]
  exact ⟨_, rfl⟩

/-! ## Loops -/

theorem forLoopAux_inv {σ : Type} (body : Int → σ → Option σ) (P : Int → σ → Prop)
    (n : Nat) (v : Int) (s s' : σ) (h0 : P v s)
    (hstep : ∀ k t t', v ≤ k → k < v + n → P k t → body k t = some t' → P (k + 1) t')
    (h : forLoopAux body n v s = some s') : P (v + n) s' := by
  induction n generalizing v s with
  | zero =>
    simp only [forLoopAux, Option.some.injEq] at h
    subst h
    simpa using h0
  | succ n ih =>
    simp only [forLoopAux, Option.bind_eq_some] at h
    obtain ⟨t, ht, hrest⟩ := h
    have h1 : P (v + 1) t := hstep v s t (le_refl v) (by push_cast; omega) h0 ht
    have := ih (v + 1) t h1
      (fun k a b hk1 hk2 => hstep k a b (by omega) (by push_cast; omega)) hrest
    have e : v + ((n + 1 : Nat) : Int) = v + 1 + (n : Int) := by push_cast; ring
    rw [e]
    exact this

theorem forLoopAux_some {σ : Type} (body : Int → σ → Option σ) (P : Int → σ → Prop)
    (n : Nat) (v : Int) (s : σ) (h0 : P v s)
    (hstep : ∀ k t, v ≤ k → k < v + n → P k t → ∃ t', body k t = some t' ∧ P (k + 1) t') :
    ∃ s', forLoopAux body n v s = some s' ∧ P (v + n) s' := by
  induction n generalizing v s with
  | zero => exact ⟨s, rfl, by simpa using h0⟩
  | succ n ih =>
    obtain ⟨t, ht, hP⟩ := hstep v s (le_refl v) (by push_cast; omega) h0
    obtain ⟨s', hs', hP'⟩ := ih (v + 1) t hP
      (fun k a hk1 hk2 => hstep k a (by omega) (by push_cast; omega))
    refine ⟨s', ?_, ?_⟩
    · simp only [forLoopAux, ht, Option.some_bind]
      exact hs'
    · have e : v + ((n + 1 : Nat) : Int) = v + 1 + (n : Int) := by push_cast; ring
      rw [e]
      exact hP'

theorem forLoopAux_sim {σ τ : Type} (π : σ → τ) (body : Int → σ → Option σ)
    (body' : Int → τ → Option τ)
    (hsim : ∀ k s s', body k s = some s' → body' k (π s) = some (π s'))
    (n : Nat) (v : Int) (s s' : σ) (h : forLoopAux body n v s = some s') :
    forLoopAux body' n v (π s) = some (π s') := by
  induction n generalizing v s with
  | zero =>
    simp only [forLoopAux, Option.some.injEq] at h
    subst h
    rfl
  | succ n ih =>
    simp only [forLoopAux, Option.bind_eq_some] at h
    obtain ⟨t, ht, hrest⟩ := h
    simp only [forLoopAux, hsim v s t ht, Option.some_bind]
    exact ih (v + 1) t hrest

theorem IsWrap.step_gray {wrap : Int → Int} (hw : IsWrap wrap) (g c p T : Int) :
    wrap (wrap (g + wrap (wrap c * wrap p)) + T) = wrap (g + (c * p + T)) := by
  rw [add_comm (wrap _) T, hw.add_right]
  have e : T + (g + wrap (wrap c * wrap p)) = (T + g) + wrap (wrap c * wrap p) := by ring
  rw [e, hw.mul_left, hw.mul_right, hw.add_right]
  congr 1; ring

theorem IsWrap.step_sum {wrap : Int → Int} (hw : IsWrap wrap) (s c T : Int) :
    wrap (wrap (s + wrap c) + T) = wrap (s + (c + T)) := by
  rw [add_comm (wrap _) T, hw.add_right]
  have e : T + (s + wrap c) = (T + s) + wrap c := by ring
  rw [e, hw.add_right]
  congr 1; ring

theorem chanTap_loop (wrap : Int → Int) (hw : IsWrap wrap) (cf sm : Int → Option Int)
    (n : Nat) (v : Int) (acc acc' : Acc1)
    (hg : wrap acc.gray = acc.gray) (hs : wrap acc.sum = acc.sum)
    (h : forLoopAux (chanTap wrap cf sm) n v acc = some acc') :
    acc'.gray = wrap (acc.gray +
        ∑ k ∈ Finset.range n, ((cf (v + k)).getD 0) * ((sm (v + k)).getD 0)) ∧
      acc'.sum = wrap (acc.sum + ∑ k ∈ Finset.range n, ((cf (v + k)).getD 0)) ∧
      ∀ k : Nat, k < n → ∃ c, cf (v + k) = some c ∧ (c ≠ 0 → ∃ p, sm (v + k) = some p) := by
  induction n generalizing v acc with
  | zero =>
    simp only [forLoopAux, Option.some.injEq] at h
    subst h
    simp [hg, hs]
  | succ n ih =>
    simp only [forLoopAux, Option.bind_eq_some] at h
    obtain ⟨t, ht, hrest⟩ := h
    unfold chanTap at ht
    simp only [Option.bind_eq_some] at ht
    obtain ⟨c, hc, ht⟩ := ht
    have shift : ∀ k : Nat, v + 1 + (k : Int) = v + ((k + 1 : Nat) : Int) := by
      intro k; push_cast; ring
    by_cases hc0 : c = 0
    · simp only [hc0, ne_eq, not_true_eq_false, if_false, Option.some.injEq] at ht
      subst ht
      obtain ⟨i1, i2, i3⟩ := ih (v + 1) acc hg hs hrest
      refine ⟨?_, ?_, ?_⟩
      · rw [i1, Finset.sum_range_succ']
        simp only [shift, Nat.cast_zero, add_zero, hc, hc0, Option.getD_some, zero_mul]
      · rw [i2, Finset.sum_range_succ']
        simp only [shift, Nat.cast_zero, add_zero, hc, hc0, Option.getD_some]
      · intro k hk
        cases k with
        | zero => exact ⟨c, by simpa using hc, fun hne => absurd hc0 hne⟩
        | succ k =>
          obtain ⟨c', h1, h2⟩ := i3 k (by omega)
          rw [shift] at h1 h2
          exact ⟨c', h1, h2⟩
    · simp only [ne_eq, hc0, not_false_eq_true, if_true, Option.bind_eq_some,
        Option.some.injEq] at ht
      obtain ⟨p, hp, ht⟩ := ht
      subst ht
      obtain ⟨i1, i2, i3⟩ := ih (v + 1) _ (hw.idem _) (hw.idem _) hrest
      refine ⟨?_, ?_, ?_⟩
      · rw [i1, Finset.sum_range_succ', hw.step_gray]
        simp only [shift, Nat.cast_zero, add_zero, hc, hp, Option.getD_some]
        congr 1; ring
      · rw [i2, Finset.sum_range_succ', hw.step_sum]
        simp only [shift, Nat.cast_zero, add_zero, hc, Option.getD_some]
        congr 1; ring
      · intro k hk
        cases k with
        | zero => exact ⟨c, by simpa using hc, fun _ => ⟨p, by simpa using hp⟩⟩
        | succ k =>
          obtain ⟨c', h1, h2⟩ := i3 k (by omega)
          rw [shift] at h1 h2
          exact ⟨c', h1, h2⟩

theorem chan_value (wrap : Int → Int) (hw : IsWrap wrap) (cf sm : Int → Option Int)
    (ex : Int → Int) (hex : ∀ k p, sm k = some p → ex k = p) (fl : Int) (acc' : Acc1)
    (h : forLoop 0 fl ⟨0, 0⟩ (chanTap wrap cf sm) = some acc') :
    acc'.gray = wrap (∑ k ∈ Finset.range fl.toNat, ((cf k).getD 0) * ex k) ∧
      acc'.sum = wrap (∑ k ∈ Finset.range fl.toNat, ((cf k).getD 0)) := by
  unfold forLoop at h
  simp only [sub_zero] at h
  obtain ⟨h1, h2, h3⟩ := chanTap_loop wrap hw cf sm fl.toNat 0 ⟨0, 0⟩ acc' hw.zero hw.zero h
  simp only [zero_add] at h1 h2 h3
  refine ⟨?_, h2⟩
  rw [h1]
  congr 1
  apply Finset.sum_congr rfl
  intro k hk
  obtain ⟨c, hc, hp⟩ := h3 k (Finset.mem_range.mp hk)
  by_cases h0 : c = 0
  · simp [hc, h0]
  · obtain ⟨p, hp⟩ := hp h0
    rw [hp, hex _ _ hp]
    rfl

theorem rowByte_sliceFrom (s row : List Byte) (base j : Int) (p : Int)
    (hs : sliceFrom s base = some row) (h : rowByte row j = some p) :
    byteAt s (base + j) = p := by
  unfold rowByte at h
  simp only [Option.map_eq_some'] at h
  obtain ⟨b, hb, rfl⟩ := h
  have hj := (index_lt_length _ _ _ hb).1
  unfold byteAt
  rw [← index_sliceFrom s row base j hs hj, hb]
  rfl

theorem rowWord_sliceFrom (s row : List Byte) (base j : Int) (p : Int)
    (hs : sliceFrom s base = some row) (h : rowWord row j = some p) :
    wordAt s (base + j) = p := by
  unfold rowWord at h
  simp only [Option.bind_eq_some, Option.map_eq_some'] at h
  obtain ⟨hi, hhi, lo, hlo, rfl⟩ := h
  have hj := (index_lt_length _ _ _ hhi).1
  unfold wordAt byteAt
  rw [← index_sliceFrom s row base j hs hj, hhi, add_assoc,
    ← index_sliceFrom s row base (j + 1) hs (by omega), hlo, word16_eq]
  rfl

theorem quo32_eq_some (a b q : Int) (h : quo32 a b = some q) :
    b ≠ 0 ∧ q = int32 (Int.tdiv a b) := by
  unfold quo32 at h
  split_ifs at h with hb
  exact ⟨hb, by simpa using h.symm⟩

theorem quo64_eq_some (a b q : Int) (h : quo64 a b = some q) :
    b ≠ 0 ∧ q = int64 (Int.tdiv a b) := by
  unfold quo64 at h
  split_ifs at h with hb
  exact ⟨hb, by simpa using h.symm⟩

theorem chan_of_loop {σ : Type} (π : σ → Acc1) (body : Int → σ → Option σ)
    (wrap : Int → Int) (hw : IsWrap wrap) (cf sm : Int → Option Int)
    (ex : Int → Int) (hex : ∀ k p, sm k = some p → ex k = p)
    (hsim : ∀ k s s', body k s = some s' → chanTap wrap cf sm k (π s) = some (π s'))
    (fl : Int) (s0 s' : σ) (h0 : π s0 = ⟨0, 0⟩) (h : forLoop 0 fl s0 body = some s') :
    (π s').gray = wrap (∑ k ∈ Finset.range fl.toNat, ((cf k).getD 0) * ex k) ∧
      (π s').sum = wrap (∑ k ∈ Finset.range fl.toNat, ((cf k).getD 0)) := by
  apply chan_value wrap hw cf sm ex hex fl
  unfold forLoop at h ⊢
  rw [← h0]
  exact forLoopAux_sim π body (chanTap wrap cf sm) hsim _ _ _ _ h

/-! ## Writing a pixel -/

theorem writeBytes_eq_some (bs : List Byte) (pix pix' : List Byte) (xo : Int) (c : Nat)
    (h : writeBytes pix xo c bs = some pix') :
    pix'.length = pix.length ∧
      (bs ≠ [] → 0 ≤ xo + c ∧ xo + c + bs.length ≤ pix.length) ∧
      ∀ j, index pix' j =
        if xo + c ≤ j ∧ j < xo + c + bs.length then bs[(j - (xo + c)).toNat]?
        else index pix j := by
  induction bs generalizing pix c with
  | nil =>
    simp only [writeBytes, Option.some.injEq] at h
    subst h
    refine ⟨rfl, fun hne => absurd rfl hne, ?_⟩
    intro j
    have : ¬ (xo + c ≤ j ∧ j < xo + c + (([] : List Byte).length : Int)) := by
      simp only [List.length_nil, Nat.cast_zero, add_zero]; omega
    rw [if_neg this]
  | cons b bs ih =>
    simp only [writeBytes, Option.bind_eq_some] at h
    obtain ⟨p, hp, hrest⟩ := h
    obtain ⟨s0, s1, s2, s3⟩ := setIndex_eq_some _ _ _ _ hp
    obtain ⟨i1, i2, i3⟩ := ih p (c + 1) hrest
    have hlen : ((b :: bs).length : Int) = (bs.length : Int) + 1 := by simp
    refine ⟨by rw [i1, s2], ?_, ?_⟩
    · intro _
      refine ⟨s0, ?_⟩
      rw [hlen]
      by_cases hbs : bs = []
      · subst hbs; simp only [List.length_nil, Nat.cast_zero]; omega
      · have := (i2 hbs).2
        rw [s2] at this
        push_cast at this
        omega
    · intro j
      rw [i3 j, s3 j, hlen]
      push_cast
      by_cases hj : j = xo + c
      · subst hj
        have e1 : ¬ (xo + ((c : Int) + 1) ≤ xo + c ∧ xo + (c : Int) < xo + (c + 1) + bs.length) := by
          omega
        have e2 : (xo + (c : Int) ≤ xo + c ∧ xo + (c : Int) < xo + c + ((bs.length : Int) + 1)) := by
          omega
        rw [if_neg e1, if_pos rfl, if_pos e2]
        simp
      · rw [if_neg hj]
        by_cases hin : xo + ((c : Int) + 1) ≤ j ∧ j < xo + (c + 1) + bs.length
        · have e2 : (xo + (c : Int) ≤ j ∧ j < xo + c + ((bs.length : Int) + 1)) := by omega
          rw [if_pos hin, if_pos e2]
          have e3 : (j - (xo + c)).toNat = (j - (xo + (c + 1))).toNat + 1 := by omega
          rw [e3, List.getElem?_cons_succ]
        · have e2 : ¬ (xo + (c : Int) ≤ j ∧ j < xo + c + ((bs.length : Int) + 1)) := by omega
          rw [if_neg hin, if_neg e2]

theorem writeBytes_isSome (bs : List Byte) (pix : List Byte) (xo : Int) (c : Nat)
    (h0 : 0 ≤ xo + c) (h1 : xo + c + bs.length ≤ pix.length) :
    ∃ pix', writeBytes pix xo c bs = some pix' := by
  induction bs generalizing pix c with
  | nil => exact ⟨pix, rfl⟩
  | cons b bs ih =>
    have hlen : ((b :: bs).length : Int) = (bs.length : Int) + 1 := by simp
    rw [hlen] at h1
    obtain ⟨p, hp⟩ := setIndex_isSome pix (xo + c) b h0 (by omega)
    have hpl := (setIndex_eq_some _ _ _ _ hp).2.2.1
    obtain ⟨pix', h'⟩ := ih p (c + 1) (by push_cast; omega) (by rw [hpl]; push_cast; omega)
    exact ⟨pix', by simp only [writeBytes, hp, Option.some_bind]; exact h'⟩

theorem pixOffset_inj (St B W u u' v v' c c' : Int) (hSt : W * B ≤ St)
    (hu : 0 ≤ u) (hu1 : u < W) (hu' : 0 ≤ u') (hu1' : u' < W)
    (hc : 0 ≤ c) (hc1 : c < B) (hc' : 0 ≤ c') (hc1' : c' < B)
    (h : v * St + u * B + c = v' * St + u' * B + c') : v = v' ∧ u = u' ∧ c = c' := by
  have hB : 0 < B := by omega
  have a1 : u * B + B ≤ W * B := by nlinarith
  have a2 : u' * B + B ≤ W * B := by nlinarith
  have a3 : 0 ≤ u * B := by positivity
  have a4 : 0 ≤ u' * B := by positivity
  have hv : v = v' := by
    rcases lt_trichotomy v v' with hlt | heq | hgt
    · exfalso
      have : (v' - v) * St ≥ St := by nlinarith
      nlinarith
    · exact heq
    · exfalso
      have : (v - v') * St ≥ St := by nlinarith
      nlinarith
  subst hv
  have hub : u = u' := by
    rcases lt_trichotomy u u' with hlt | heq | hgt
    · exfalso
      have : (u' - u) * B ≥ B := by nlinarith
      nlinarith
    · exact heq
    · exfalso
      have : (u - u') * B ≥ B := by nlinarith
      nlinarith
  subst hub
  exact ⟨rfl, rfl, by omega⟩

/-! ## The two loops over the destination -/

theorem pixOffset_ne (out : Image) (B : Nat) (x y x' y' : Int) (c c' : Nat)
    (hstride : out.Rect.Dx * B ≤ out.Stride)
    (hx : out.Rect.Min.X ≤ x ∧ x < out.Rect.Max.X)
    (hx' : out.Rect.Min.X ≤ x' ∧ x' < out.Rect.Max.X)
    (hc : c < B) (hc' : c' < B) (hne : x ≠ x' ∨ y ≠ y') :
    pixOffset out B x y + c ≠ pixOffset out B x' y' + c' := by
  intro h
  unfold pixOffset at h
  unfold Rectangle.Dx at hstride
  have := pixOffset_inj out.Stride B (out.Rect.Max.X - out.Rect.Min.X)
    (x - out.Rect.Min.X) (x' - out.Rect.Min.X) (y - out.Rect.Min.Y) (y' - out.Rect.Min.Y)
    c c' hstride (by omega) (by omega) (by omega) (by omega) (by omega) (by omega)
    (by omega) (by omega) h
  omega

theorem good_congr (out : Image) (B : Nat) (Val : Int → Int → List Byte → Prop)
    (pix0 pix : List Byte) (x k x2 k2 : Int)
    (h : ∀ x' y', Proc out x k x' y' ↔ Proc out x2 k2 x' y')
    (hg : Good out B Val pix0 x k pix) : Good out B Val pix0 x2 k2 pix := by
  obtain ⟨g1, g2, g3⟩ := hg
  refine ⟨g1, fun x' y' hp => g2 x' y' ((h x' y').mpr hp), fun j hj => g3 j ?_⟩
  intro x' y' c hp hc
  exact hj x' y' c ((h x' y').mp hp) hc

theorem good_step (out : Image) (B : Nat) (Val : Int → Int → List Byte → Prop)
    (pix0 u u' : List Byte) (k m : Int) (bs : List Byte)
    (hstride : out.Rect.Dx * B ≤ out.Stride)
    (hk : out.Rect.Min.X ≤ k ∧ k < out.Rect.Max.X)
    (hm : out.Rect.Min.Y ≤ m ∧ m < out.Rect.Max.Y)
    (hg : Good out B Val pix0 k m u) (hlen : bs.length = B) (hval : Val k m bs)
    (hw : writeBytes u (pixOffset out B k m) 0 bs = some u') :
    Good out B Val pix0 k (m + 1) u' := by
  obtain ⟨g1, g2, g3⟩ := hg
  obtain ⟨w1, _, w3⟩ := writeBytes_eq_some bs u u' _ 0 hw
  simp only [Nat.cast_zero, add_zero, hlen] at w3
  have hsplit : ∀ x' y', Proc out k (m + 1) x' y' →
      (x' = k ∧ y' = m) ∨ (Proc out k m x' y' ∧ (k ≠ x' ∨ m ≠ y')) := by
    intro x' y' hp
    unfold Proc at hp ⊢
    by_cases e : x' = k ∧ y' = m
    · exact Or.inl e
    · right
      refine ⟨⟨hp.1, hp.2.1, hp.2.2.1, hp.2.2.2.1, ?_⟩, ?_⟩ <;> omega
  refine ⟨by rw [w1, g1], ?_, ?_⟩
  · intro x' y' hp
    rcases hsplit x' y' hp with ⟨rfl, rfl⟩ | ⟨hold, hne⟩
    · refine ⟨bs, hlen, hval, fun c hc => ?_⟩
      rw [w3, if_pos (by omega)]
      congr 1
      omega
    · obtain ⟨bs', l', v', i'⟩ := g2 x' y' hold
      refine ⟨bs', l', v', fun c hc => ?_⟩
      rw [w3, ← i' c hc]
      have hx' : out.Rect.Min.X ≤ x' ∧ x' < out.Rect.Max.X := ⟨hold.1, hold.2.1⟩
      have hno : ¬ (pixOffset out B k m ≤ pixOffset out B x' y' + c ∧
          pixOffset out B x' y' + c < pixOffset out B k m + B) := by
        intro hin
        have hlt : (pixOffset out B x' y' + c - pixOffset out B k m).toNat < B := by omega
        apply pixOffset_ne out B k m x' y' _ c hstride hk hx' hlt hc hne
        omega
      rw [if_neg hno]
  · intro j hj
    have hno : ¬ (pixOffset out B k m ≤ j ∧ j < pixOffset out B k m + B) := by
      intro hin
      have hlt : (j - pixOffset out B k m).toNat < B := by omega
      apply hj k m _ ⟨hk.1, hk.2, hm.1, hm.2, Or.inr ⟨rfl, by omega⟩⟩ hlt
      omega
    rw [w3, if_neg hno]
    apply g3
    intro x' y' c hp hc
    apply hj x' y' c _ hc
    unfold Proc at hp ⊢
    refine ⟨hp.1, hp.2.1, hp.2.2.1, hp.2.2.2.1, ?_⟩
    omega

theorem scan_spec {ρ : Type} (out : Image) (B : Nat) (rowOf : Int → Option ρ)
    (body : ρ → Int → Int → List Byte → Option (List Byte))
    (Val : Int → Int → List Byte → Prop)
    (hstride : out.Rect.Dx * B ≤ out.Stride)
    (hbody : ∀ row x y pix pix', rowOf x = some row → body row x y pix = some pix' →
      ∃ bs : List Byte, bs.length = B ∧ Val x y bs ∧
        writeBytes pix (pixOffset out B x y) 0 bs = some pix')
    (pix' : List Byte) (h : scan out rowOf body = some pix') :
    pix'.length = out.Pix.length ∧
      (∀ x y, out.Rect.Min.X ≤ x → x < out.Rect.Max.X → out.Rect.Min.Y ≤ y →
        y < out.Rect.Max.Y → Written out B Val pix' x y) ∧
      (∀ j, (∀ x y (c : Nat), out.Rect.Min.X ≤ x → x < out.Rect.Max.X →
          out.Rect.Min.Y ≤ y → y < out.Rect.Max.Y → c < B → j ≠ pixOffset out B x y + c) →
        index pix' j = index out.Pix j) := by
  unfold scan forLoop Image.Bounds at h
  have hfin := forLoopAux_inv _ (fun k pix => Good out B Val out.Pix k out.Rect.Min.Y pix)
    _ _ _ _ ?_ ?_ h
  · obtain ⟨g1, g2, g3⟩ := hfin
    refine ⟨g1, ?_, ?_⟩
    · intro x y h1 h2 h3 h4
      exact g2 x y ⟨h1, h2, h3, h4, Or.inl (by omega)⟩
    · intro j hj
      exact g3 j (fun x y c hp hc => hj x y c hp.1 hp.2.1 hp.2.2.1 hp.2.2.2.1 hc)
  · refine ⟨rfl, ?_, fun j _ => rfl⟩
    intro x' y' hp
    unfold Proc at hp
    omega
  · intro k t t' hk1 hk2 hP hb
    simp only [Option.bind_eq_some] at hb
    obtain ⟨row, hrow, hin⟩ := hb
    have hkX : out.Rect.Min.X ≤ k ∧ k < out.Rect.Max.X := by omega
    have hfin2 := forLoopAux_inv _ (fun m pix => Good out B Val out.Pix k m pix)
      _ _ _ _ hP ?_ hin
    · refine good_congr out B Val out.Pix t' _ _ _ _ ?_ hfin2
      intro x' y'
      unfold Proc
      constructor
      · intro hp
        refine ⟨hp.1, hp.2.1, hp.2.2.1, hp.2.2.2.1, ?_⟩
        omega
      · intro hp
        refine ⟨hp.1, hp.2.1, hp.2.2.1, hp.2.2.2.1, ?_⟩
        omega
    · intro m u u' hm1 hm2 hG hb2
      obtain ⟨bs, hl, hv, hw⟩ := hbody row k m u u' hrow hb2
      exact good_step out B Val out.Pix u u' k m bs hstride hkX (by omega) hG hl hv hw

theorem scan_isSome {ρ : Type} (out : Image) (rowOf : Int → Option ρ)
    (body : ρ → Int → Int → List Byte → Option (List Byte))
    (hbody : ∀ x, out.Rect.Min.X ≤ x → x < out.Rect.Max.X → ∃ row, rowOf x = some row ∧
      ∀ y pix, out.Rect.Min.Y ≤ y → y < out.Rect.Max.Y → pix.length = out.Pix.length →
        ∃ pix', body row x y pix = some pix' ∧ pix'.length = out.Pix.length) :
    ∃ pix', scan out rowOf body = some pix' := by
  unfold scan forLoop Image.Bounds
  have hstep : ∀ k t, out.Rect.Min.X ≤ k →
      k < out.Rect.Min.X + ((out.Rect.Max.X - out.Rect.Min.X).toNat : Int) →
      t.length = out.Pix.length →
      ∃ t', ((rowOf k).bind fun row =>
          forLoopAux (body row k) (out.Rect.Max.Y - out.Rect.Min.Y).toNat out.Rect.Min.Y t)
            = some t' ∧ t'.length = out.Pix.length := by
    intro k t hk1 hk2 hlen
    obtain ⟨row, hrow, hy⟩ := hbody k hk1 (by omega)
    obtain ⟨t', ht', hlen'⟩ := forLoopAux_some (body row k)
      (fun _ pix => pix.length = out.Pix.length)
      (out.Rect.Max.Y - out.Rect.Min.Y).toNat out.Rect.Min.Y t hlen
      (fun m u hm1 hm2 hu => hy m u hm1 (by omega) hu)
    exact ⟨t', by simp only [hrow, Option.some_bind]; exact ht', hlen'⟩
  obtain ⟨s', hs', _⟩ := forLoopAux_some _ (fun _ pix => pix.length = out.Pix.length)
    (out.Rect.Max.X - out.Rect.Min.X).toNat out.Rect.Min.X out.Pix rfl hstep
  exact ⟨s', hs'⟩

/-! ## `resizeRGBA` -/

theorem resizeRGBA_eq_scan (inp out : Image) (coeffs offset : List Int) (filterLength : Int) :
    resizeRGBA inp out coeffs offset filterLength =
      scan out (fun x => sliceFrom inp.Pix (rowBase inp x))
        (fun row x => resizeRGBA.pixel row out coeffs offset filterLength
          (oldBoundsOf inp) out.Bounds ((oldBoundsOf inp).Min.X * 4)
          (((oldBoundsOf inp).Max.X - (oldBoundsOf inp).Min.X - 1) * 4) x) := rfl

theorem resizeRGBA_tap_proj (row : List Byte) (coeffs : List Int) (oldBounds : Rectangle)
    (minX maxX start ci i : Int) (acc acc' : Acc4)
    (h : resizeRGBA.tap row coeffs oldBounds minX maxX start ci i acc = some acc')
    (c : Nat) (hc : c < 4) :
    chanTap int32 (fun i => index coeffs (ci + i))
        (fun i => rowByte row (resizeRGBA.switch oldBounds minX maxX (int64 (start + i)) + c)) i
        (acc.chan c) = some (acc'.chan c) := by
  unfold resizeRGBA.tap at h
  simp only [bind, Option.bind_eq_some] at h
  obtain ⟨coeff, hcf, h⟩ := h
  unfold chanTap rowByte
  by_cases h0 : coeff = 0
  · simp only [h0, ne_eq, not_true_eq_false, if_false, pure, Option.some.injEq] at h
    subst h
    simp [hcf, h0]
  · simp only [ne_eq, h0, not_false_eq_true, if_true, Option.bind_eq_some, pure,
      Option.some.injEq] at h
    obtain ⟨p0, hp0, p1, hp1, p2, hp2, p3, hp3, h⟩ := h
    subst h
    simp only [add_zero] at hp0
    interval_cases c <;> simp [hcf, h0, hp0, hp1, hp2, hp3, Acc4.chan]

theorem resizeRGBA_pixel_spec (inp : Image) (row : List Byte) (out : Image)
    (coeffs offset : List Int) (filterLength x y : Int) (pix pix' : List Byte)
    (hs : sliceFrom inp.Pix (rowBase inp x) = some row)
    (h : resizeRGBA.pixel row out coeffs offset filterLength
          (oldBoundsOf inp) out.Bounds ((oldBoundsOf inp).Min.X * 4)
          (((oldBoundsOf inp).Max.X - (oldBoundsOf inp).Min.X - 1) * 4) x y pix = some pix') :
    ∃ bs : List Byte, bs.length = 4 ∧
      PixelVal int32 enc8 4 out coeffs offset filterLength (resizeRGBA.sample inp) x y bs ∧
      writeBytes pix (pixOffset out (4 : Nat) x y) 0 bs = some pix' := by
  unfold resizeRGBA.pixel at h
  simp only [bind, Option.bind_eq_some] at h
  obtain ⟨start, hstart, acc, hacc, q0, hq0, x0, hx0, q1, hq1, x1, hx1, q2, hq2, x2, hx2,
    q3, hq3, hx3⟩ := h
  have hch : ∀ c : Nat, c < 4 →
      (acc.chan c).gray = int32 (chanSum coeffs ((y - out.Rect.Min.Y) * filterLength)
        filterLength.toNat (resizeRGBA.sample inp x start c)) ∧
      (acc.chan c).sum = int32 (weightSum coeffs ((y - out.Rect.Min.Y) * filterLength)
        filterLength.toNat) := by
    intro c hc
    exact chan_of_loop (fun a : Acc4 => a.chan c)
      (resizeRGBA.tap row coeffs (oldBoundsOf inp) ((oldBoundsOf inp).Min.X * 4)
        (((oldBoundsOf inp).Max.X - (oldBoundsOf inp).Min.X - 1) * 4) start
        ((y - out.Bounds.Min.Y) * filterLength))
      int32 isWrap_int32 (fun i => index coeffs ((y - out.Bounds.Min.Y) * filterLength + i))
      (fun i => rowByte row (resizeRGBA.switch (oldBoundsOf inp) ((oldBoundsOf inp).Min.X * 4)
        (((oldBoundsOf inp).Max.X - (oldBoundsOf inp).Min.X - 1) * 4) (int64 (start + i)) + c))
      (resizeRGBA.sample inp x start c)
      (fun k p hp => rowByte_sliceFrom _ _ _ _ _ hs hp)
      (fun k s s' hk => resizeRGBA_tap_proj _ _ _ _ _ _ _ _ _ _ hk c hc)
      filterLength _ acc (by simp [Acc4.chan]) hacc
  obtain ⟨hne, e0⟩ := quo32_eq_some _ _ _ hq0
  obtain ⟨_, e1⟩ := quo32_eq_some _ _ _ hq1
  obtain ⟨_, e2⟩ := quo32_eq_some _ _ _ hq2
  obtain ⟨_, e3⟩ := quo32_eq_some _ _ _ hq3
  have c0 := hch 0 (by omega)
  have c1 := hch 1 (by omega)
  have c2 := hch 2 (by omega)
  have c3 := hch 3 (by omega)
  norm_num [Acc4.chan] at c0 c1 c2 c3
  refine ⟨[clampUint8 q0, clampUint8 q1, clampUint8 q2, clampUint8 q3], rfl,
    ⟨start, hstart, ?_, ?_⟩, ?_⟩
  · rw [c0.2] at hne
    exact hne
  · rw [e0, e1, e2, e3, c0.1, c1.1, c2.1, c3.1, c0.2]
    simp only [show List.range 4 = [0, 1, 2, 3] from rfl, List.flatMap_cons,
      List.flatMap_nil, List.append_nil, List.singleton_append, enc8, machineQuo]
  · simp only [writeBytes, pixOffset, Image.Bounds] at hx0 hx1 hx2 hx3 ⊢
    simp only [Nat.cast_zero, Nat.cast_ofNat, add_zero, zero_add, Nat.cast_one,
      Nat.reduceAdd] at hx0 hx1 hx2 hx3 ⊢
    simp only [hx0, hx1, hx2, hx3, Option.some_bind]

theorem resizeRGBA_spec (inp out : Image) (coeffs offset : List Int) (filterLength : Int)
    (pix' : List Byte) (hstride : out.Rect.Dx * 4 ≤ out.Stride)
    (h : resizeRGBA inp out coeffs offset filterLength = some pix') :
    pix'.length = out.Pix.length ∧
      (∀ x y, out.Rect.Min.X ≤ x → x < out.Rect.Max.X → out.Rect.Min.Y ≤ y →
        y < out.Rect.Max.Y →
        Written out 4 (PixelVal int32 enc8 4 out coeffs offset filterLength
          (resizeRGBA.sample inp)) pix' x y) ∧
      (∀ j, (∀ x y (c : Nat), out.Rect.Min.X ≤ x → x < out.Rect.Max.X →
          out.Rect.Min.Y ≤ y → y < out.Rect.Max.Y → c < 4 →
          j ≠ pixOffset out (4 : Nat) x y + c) →
        index pix' j = index out.Pix j) := by
  rw [resizeRGBA_eq_scan] at h
  exact scan_spec out 4 _ _ _ hstride
    (fun row x y pix pix' hrow hb =>
      resizeRGBA_pixel_spec inp row out coeffs offset filterLength x y pix pix' hrow hb)
    pix' h

/-! ## The bytes of a written pixel -/

theorem flatMap_enc8_eq_map (f : Nat → Int) (n : Nat) :
    ((List.range n).flatMap fun c => enc8 (f c))
      = (List.range n).map fun c => clampUint8 (f c) := by
  induction n with
  | zero => rfl
  | succ n ih =>
    rw [List.range_succ, List.flatMap_append, List.map_append, ih]
    simp [enc8]

theorem flatMap_enc8_getElem? (f : Nat → Int) (n c : Nat) (hc : c < n) :
    ((List.range n).flatMap fun c => enc8 (f c))[c]? = some (clampUint8 (f c)) := by
  rw [flatMap_enc8_eq_map, List.getElem?_map, List.getElem?_range hc]
  rfl

theorem flatMap_enc16_length (f : Nat → Int) (n : Nat) :
    ((List.range n).flatMap fun c => enc16 (f c)).length = 2 * n := by
  induction n with
  | zero => rfl
  | succ n ih =>
    rw [List.range_succ, List.flatMap_append, List.length_append, ih]
    simp [enc16, bigEndian]
    omega

theorem flatMap_enc16_getElem? (f : Nat → Int) (n c : Nat) (hc : c < n) :
    ((List.range n).flatMap fun c => enc16 (f c))[2 * c]?
        = some (uint8 (clampUint16 (f c) / 256)) ∧
      ((List.range n).flatMap fun c => enc16 (f c))[2 * c + 1]?
        = some (uint8 (clampUint16 (f c))) := by
  induction n with
  | zero => omega
  | succ n ih =>
    rw [List.range_succ, List.flatMap_append]
    have hl := flatMap_enc16_length f n
    by_cases hcn : c < n
    · obtain ⟨i1, i2⟩ := ih hcn
      rw [List.getElem?_append_left (by omega), List.getElem?_append_left (by omega)]
      exact ⟨i1, i2⟩
    · have e : c = n := by omega
      subst e
      rw [List.getElem?_append_right (by omega), List.getElem?_append_right (by omega), hl]
      simp [enc16, bigEndian]

theorem written8 (wrap : Int → Int) (B : Nat) (out : Image) (coeffs offset : List Int)
    (filterLength : Int) (smp : Int → Int → Nat → Int → Int) (pix' : List Byte) (x y : Int)
    (h : Written out B (PixelVal wrap enc8 B out coeffs offset filterLength smp) pix' x y)
    (c : Nat) (hc : c < B) :
    ∃ start, index offset y = some start ∧
      wrap (weightSum coeffs ((y - out.Rect.Min.Y) * filterLength) filterLength.toNat) ≠ 0 ∧
      index pix' (pixOffset out B x y + c) = some (clampUint8 (machineQuo wrap
        (chanSum coeffs ((y - out.Rect.Min.Y) * filterLength) filterLength.toNat
          (smp x start c))
        (weightSum coeffs ((y - out.Rect.Min.Y) * filterLength) filterLength.toNat))) := by
  obtain ⟨bs, _, ⟨start, hstart, hne, hbs⟩, hidx⟩ := h
  refine ⟨start, hstart, hne, ?_⟩
  rw [hidx c hc, hbs]
  exact flatMap_enc8_getElem? _ B c hc

theorem written16 (wrap : Int → Int) (n : Nat) (out : Image) (coeffs offset : List Int)
    (filterLength : Int) (smp : Int → Int → Nat → Int → Int) (pix' : List Byte) (x y : Int)
    (h : Written out (2 * n) (PixelVal wrap enc16 n out coeffs offset filterLength smp)
      pix' x y)
    (c : Nat) (hc : c < n) :
    ∃ start, index offset y = some start ∧
      wrap (weightSum coeffs ((y - out.Rect.Min.Y) * filterLength) filterLength.toNat) ≠ 0 ∧
      index pix' (pixOffset out (2 * n : Nat) x y + (2 * c : Nat))
        = some (uint8 (clampUint16 (machineQuo wrap
          (chanSum coeffs ((y - out.Rect.Min.Y) * filterLength) filterLength.toNat
            (smp x start c))
          (weightSum coeffs ((y - out.Rect.Min.Y) * filterLength) filterLength.toNat)) / 256)) ∧
      index pix' (pixOffset out (2 * n : Nat) x y + (2 * c + 1 : Nat))
        = some (uint8 (clampUint16 (machineQuo wrap
          (chanSum coeffs ((y - out.Rect.Min.Y) * filterLength) filterLength.toNat
            (smp x start c))
          (weightSum coeffs ((y - out.Rect.Min.Y) * filterLength) filterLength.toNat)))) := by
  obtain ⟨bs, _, ⟨start, hstart, hne, hbs⟩, hidx⟩ := h
  refine ⟨start, hstart, hne, ?_, ?_⟩
  · rw [hidx (2 * c) (by omega), hbs]
    exact (flatMap_enc16_getElem? _ n c hc).1
  · rw [hidx (2 * c + 1) (by omega), hbs]
    exact (flatMap_enc16_getElem? _ n c hc).2

/-! ## `resizeRGBA64` -/

theorem resizeRGBA64_eq_scan (inp out : Image) (coeffs offset : List Int)
    (filterLength : Int) :
    resizeRGBA64 inp out coeffs offset filterLength =
      scan out (fun x => sliceFrom inp.Pix (rowBase inp x))
        (fun row x => resizeRGBA64.pixel row out coeffs offset filterLength
          (oldBoundsOf inp) out.Bounds ((oldBoundsOf inp).Min.X * 8)
          (((oldBoundsOf inp).Max.X - (oldBoundsOf inp).Min.X - 1) * 8) x) := rfl

theorem resizeRGBA64_tap_proj (row : List Byte) (coeffs : List Int) (oldBounds : Rectangle)
    (minX maxX start ci i : Int) (acc acc' : Acc4)
    (h : resizeRGBA64.tap row coeffs oldBounds minX maxX start ci i acc = some acc')
    (c : Nat) (hc : c < 4) :
    chanTap int64 (fun i => index coeffs (ci + i))
        (fun i => rowWord row
          (resizeRGBA64.switch oldBounds minX maxX (int64 (start + i)) + (2 * c : Nat))) i
        (acc.chan c) = some (acc'.chan c) := by
  unfold resizeRGBA64.tap at h
  simp only [bind, Option.bind_eq_some] at h
  obtain ⟨coeff, hcf, h⟩ := h
  unfold chanTap rowWord
  by_cases h0 : coeff = 0
  · simp only [h0, ne_eq, not_true_eq_false, if_false, pure, Option.some.injEq] at h
    subst h
    simp [hcf, h0]
  · simp only [ne_eq, h0, not_false_eq_true, if_true, Option.bind_eq_some, pure,
      Option.some.injEq] at h
    obtain ⟨p0, hp0, p1, hp1, p2, hp2, p3, hp3, p4, hp4, p5, hp5, p6, hp6, p7, hp7, h⟩ := h
    subst h
    simp only [add_zero] at hp0
    interval_cases c <;>
      simp [hcf, h0, hp0, hp1, hp2, hp3, hp4, hp5, hp6, hp7, Acc4.chan, add_assoc]

theorem resizeRGBA64_pixel_spec (inp : Image) (row : List Byte) (out : Image)
    (coeffs offset : List Int) (filterLength x y : Int) (pix pix' : List Byte)
    (hs : sliceFrom inp.Pix (rowBase inp x) = some row)
    (h : resizeRGBA64.pixel row out coeffs offset filterLength
          (oldBoundsOf inp) out.Bounds ((oldBoundsOf inp).Min.X * 8)
          (((oldBoundsOf inp).Max.X - (oldBoundsOf inp).Min.X - 1) * 8) x y pix = some pix') :
    ∃ bs : List Byte, bs.length = 8 ∧
      PixelVal int64 enc16 4 out coeffs offset filterLength (resizeRGBA64.sample inp) x y bs ∧
      writeBytes pix (pixOffset out (8 : Nat) x y) 0 bs = some pix' := by
  unfold resizeRGBA64.pixel at h
  simp only [bind, Option.bind_eq_some] at h
  obtain ⟨start, hstart, acc, hacc, q0, hq0, x0, hx0, x1, hx1, q1, hq1, x2, hx2, x3, hx3,
    q2, hq2, x4, hx4, x5, hx5, q3, hq3, x6, hx6, hx7⟩ := h
  have hch : ∀ c : Nat, c < 4 →
      (acc.chan c).gray = int64 (chanSum coeffs ((y - out.Rect.Min.Y) * filterLength)
        filterLength.toNat (resizeRGBA64.sample inp x start c)) ∧
      (acc.chan c).sum = int64 (weightSum coeffs ((y - out.Rect.Min.Y) * filterLength)
        filterLength.toNat) := by
    intro c hc
    exact chan_of_loop (fun a : Acc4 => a.chan c)
      (resizeRGBA64.tap row coeffs (oldBoundsOf inp) ((oldBoundsOf inp).Min.X * 8)
        (((oldBoundsOf inp).Max.X - (oldBoundsOf inp).Min.X - 1) * 8) start
        ((y - out.Bounds.Min.Y) * filterLength))
      int64 isWrap_int64 (fun i => index coeffs ((y - out.Bounds.Min.Y) * filterLength + i))
      (fun i => rowWord row (resizeRGBA64.switch (oldBoundsOf inp)
        ((oldBoundsOf inp).Min.X * 8)
        (((oldBoundsOf inp).Max.X - (oldBoundsOf inp).Min.X - 1) * 8) (int64 (start + i))
          + (2 * c : Nat)))
      (resizeRGBA64.sample inp x start c)
      (fun k p hp => rowWord_sliceFrom _ _ _ _ _ hs hp)
      (fun k s s' hk => resizeRGBA64_tap_proj _ _ _ _ _ _ _ _ _ _ hk c hc)
      filterLength _ acc (by simp [Acc4.chan]) hacc
  obtain ⟨hne, e0⟩ := quo64_eq_some _ _ _ hq0
  obtain ⟨_, e1⟩ := quo64_eq_some _ _ _ hq1
  obtain ⟨_, e2⟩ := quo64_eq_some _ _ _ hq2
  obtain ⟨_, e3⟩ := quo64_eq_some _ _ _ hq3
  have c0 := hch 0 (by omega)
  have c1 := hch 1 (by omega)
  have c2 := hch 2 (by omega)
  have c3 := hch 3 (by omega)
  norm_num [Acc4.chan] at c0 c1 c2 c3
  refine ⟨[uint8 (clampUint16 q0 / 256), uint8 (clampUint16 q0),
      uint8 (clampUint16 q1 / 256), uint8 (clampUint16 q1),
      uint8 (clampUint16 q2 / 256), uint8 (clampUint16 q2),
      uint8 (clampUint16 q3 / 256), uint8 (clampUint16 q3)], rfl,
    ⟨start, hstart, ?_, ?_⟩, ?_⟩
  · rw [c0.2] at hne
    exact hne
  · rw [e0, e1, e2, e3, c0.1, c1.1, c2.1, c3.1, c0.2]
    simp only [show List.range 4 = [0, 1, 2, 3] from rfl, List.flatMap_cons,
      List.flatMap_nil, List.append_nil, List.cons_append, List.nil_append, enc16,
      bigEndian, machineQuo]
  · simp only [writeBytes, pixOffset, Image.Bounds] at hx0 hx1 hx2 hx3 hx4 hx5 hx6 hx7 ⊢
    simp only [Nat.cast_zero, Nat.cast_ofNat, add_zero, zero_add, Nat.cast_one,
      Nat.reduceAdd] at hx0 hx1 hx2 hx3 hx4 hx5 hx6 hx7 ⊢
    simp only [hx0, hx1, hx2, hx3, hx4, hx5, hx6, hx7, Option.some_bind]

theorem resizeRGBA64_spec (inp out : Image) (coeffs offset : List Int) (filterLength : Int)
    (pix' : List Byte) (hstride : out.Rect.Dx * 8 ≤ out.Stride)
    (h : resizeRGBA64 inp out coeffs offset filterLength = some pix') :
    pix'.length = out.Pix.length ∧
      (∀ x y, out.Rect.Min.X ≤ x → x < out.Rect.Max.X → out.Rect.Min.Y ≤ y →
        y < out.Rect.Max.Y →
        Written out 8 (PixelVal int64 enc16 4 out coeffs offset filterLength
          (resizeRGBA64.sample inp)) pix' x y) ∧
      (∀ j, (∀ x y (c : Nat), out.Rect.Min.X ≤ x → x < out.Rect.Max.X →
          out.Rect.Min.Y ≤ y → y < out.Rect.Max.Y → c < 8 →
          j ≠ pixOffset out (8 : Nat) x y + c) →
        index pix' j = index out.Pix j) := by
  rw [resizeRGBA64_eq_scan] at h
  exact scan_spec out 8 _ _ _ hstride
    (fun row x y pix pix' hrow hb =>
      resizeRGBA64_pixel_spec inp row out coeffs offset filterLength x y pix pix' hrow hb)
    pix' h

/-! ## `resizeGray` -/

theorem resizeGray_eq_scan (inp out : Image) (coeffs offset : List Int)
    (filterLength : Int) :
    resizeGray inp out coeffs offset filterLength =
      scan out (fun x => sliceFrom inp.Pix (rowBase inp x))
        (fun row x => resizeGray.pixel row out coeffs offset filterLength
          (oldBoundsOf inp) out.Bounds (oldBoundsOf inp).Min.X
          ((oldBoundsOf inp).Max.X - (oldBoundsOf inp).Min.X - 1) x) := rfl

theorem resizeGray_tap_proj (row : List Byte) (coeffs : List Int) (oldBounds : Rectangle)
    (minX maxX start ci i : Int) (acc acc' : Acc1)
    (h : resizeGray.tap row coeffs oldBounds minX maxX start ci i acc = some acc') :
    chanTap int32 (fun i => index coeffs (ci + i))
        (fun i => rowByte row (resizeGray.switch oldBounds minX maxX (int64 (start + i)) + (0 : Nat))) i
        acc = some acc' := by
  unfold resizeGray.tap at h
  simp only [bind, Option.bind_eq_some] at h
  obtain ⟨coeff, hcf, h⟩ := h
  unfold chanTap rowByte
  by_cases h0 : coeff = 0
  · simp only [h0, ne_eq, not_true_eq_false, if_false, pure, Option.some.injEq] at h
    subst h
    simp [hcf, h0]
  · simp only [ne_eq, h0, not_false_eq_true, if_true, Option.bind_eq_some, pure,
      Option.some.injEq] at h
    obtain ⟨p, hp, h⟩ := h
    subst h
    simp [hcf, h0, hp]

theorem resizeGray_pixel_spec (inp : Image) (row : List Byte) (out : Image)
    (coeffs offset : List Int) (filterLength x y : Int) (pix pix' : List Byte)
    (hs : sliceFrom inp.Pix (rowBase inp x) = some row)
    (h : resizeGray.pixel row out coeffs offset filterLength
          (oldBoundsOf inp) out.Bounds (oldBoundsOf inp).Min.X
          ((oldBoundsOf inp).Max.X - (oldBoundsOf inp).Min.X - 1) x y pix = some pix') :
    ∃ bs : List Byte, bs.length = 1 ∧
      PixelVal int32 enc8 1 out coeffs offset filterLength (resizeGray.sample inp) x y bs ∧
      writeBytes pix (pixOffset out (1 : Nat) x y) 0 bs = some pix' := by
  unfold resizeGray.pixel at h
  simp only [bind, Option.bind_eq_some] at h
  obtain ⟨start, hstart, acc, hacc, q0, hq0, hx0⟩ := h
  have c0 : acc.gray = int32 (chanSum coeffs ((y - out.Rect.Min.Y) * filterLength)
        filterLength.toNat (resizeGray.sample inp x start 0)) ∧
      acc.sum = int32 (weightSum coeffs ((y - out.Rect.Min.Y) * filterLength)
        filterLength.toNat) :=
    chan_of_loop (fun a : Acc1 => a)
      (resizeGray.tap row coeffs (oldBoundsOf inp) (oldBoundsOf inp).Min.X
        ((oldBoundsOf inp).Max.X - (oldBoundsOf inp).Min.X - 1) start
        ((y - out.Bounds.Min.Y) * filterLength))
      int32 isWrap_int32 (fun i => index coeffs ((y - out.Bounds.Min.Y) * filterLength + i))
      (fun i => rowByte row (resizeGray.switch (oldBoundsOf inp) (oldBoundsOf inp).Min.X
        ((oldBoundsOf inp).Max.X - (oldBoundsOf inp).Min.X - 1) (int64 (start + i)) + (0 : Nat)))
      (resizeGray.sample inp x start 0)
      (fun k p hp => rowByte_sliceFrom _ _ _ _ _ hs hp)
      (fun k s s' hk => resizeGray_tap_proj _ _ _ _ _ _ _ _ _ _ hk)
      filterLength _ acc rfl hacc
  obtain ⟨hne, e0⟩ := quo32_eq_some _ _ _ hq0
  refine ⟨[clampUint8 q0], rfl, ⟨start, hstart, ?_, ?_⟩, ?_⟩
  · rw [c0.2] at hne
    exact hne
  · rw [e0, c0.1, c0.2]
    simp only [show List.range 1 = [0] from rfl, List.flatMap_cons,
      List.flatMap_nil, List.append_nil, enc8, machineQuo]
  · simp only [writeBytes, pixOffset, Image.Bounds] at hx0 ⊢
    simp only [Nat.cast_zero, add_zero, Nat.cast_one, mul_one] at hx0 ⊢
    simp only [hx0, Option.some_bind]

theorem resizeGray_spec (inp out : Image) (coeffs offset : List Int) (filterLength : Int)
    (pix' : List Byte) (hstride : out.Rect.Dx * 1 ≤ out.Stride)
    (h : resizeGray inp out coeffs offset filterLength = some pix') :
    pix'.length = out.Pix.length ∧
      (∀ x y, out.Rect.Min.X ≤ x → x < out.Rect.Max.X → out.Rect.Min.Y ≤ y →
        y < out.Rect.Max.Y →
        Written out 1 (PixelVal int32 enc8 1 out coeffs offset filterLength
          (resizeGray.sample inp)) pix' x y) ∧
      (∀ j, (∀ x y (c : Nat), out.Rect.Min.X ≤ x → x < out.Rect.Max.X →
          out.Rect.Min.Y ≤ y → y < out.Rect.Max.Y → c < 1 →
          j ≠ pixOffset out (1 : Nat) x y + c) →
        index pix' j = index out.Pix j) := by
  rw [resizeGray_eq_scan] at h
  exact scan_spec out 1 _ _ _ (by simpa using hstride)
    (fun row x y pix pix' hrow hb =>
      resizeGray_pixel_spec inp row out coeffs offset filterLength x y pix pix' hrow hb)
    pix' h

/-! ## `resizeGray16` -/

theorem resizeGray16_eq_scan (inp out : Image) (coeffs offset : List Int)
    (filterLength : Int) :
    resizeGray16 inp out coeffs offset filterLength =
      scan out (fun x => sliceFrom inp.Pix (rowBase inp x))
        (fun row x => resizeGray16.pixel row out coeffs offset filterLength
          (oldBoundsOf inp) out.Bounds ((oldBoundsOf inp).Min.X * 2)
          (((oldBoundsOf inp).Max.X - (oldBoundsOf inp).Min.X - 1) * 2) x) := rfl

theorem resizeGray16_tap_proj (row : List Byte) (coeffs : List Int) (oldBounds : Rectangle)
    (minX maxX start ci i : Int) (acc acc' : Acc1)
    (h : resizeGray16.tap row coeffs oldBounds minX maxX start ci i acc = some acc') :
    chanTap int64 (fun i => index coeffs (ci + i))
        (fun i => rowWord row
          (resizeGray16.switch oldBounds minX maxX (int64 (start + i)) + (2 * 0 : Nat))) i
        acc = some acc' := by
  unfold resizeGray16.tap at h
  simp only [bind, Option.bind_eq_some] at h
  obtain ⟨coeff, hcf, h⟩ := h
  unfold chanTap rowWord
  by_cases h0 : coeff = 0
  · simp only [h0, ne_eq, not_true_eq_false, if_false, pure, Option.some.injEq] at h
    subst h
    simp [hcf, h0]
  · simp only [ne_eq, h0, not_false_eq_true, if_true, Option.bind_eq_some, pure,
      Option.some.injEq] at h
    obtain ⟨p0, hp0, p1, hp1, h⟩ := h
    subst h
    simp only [add_zero] at hp0
    simp [hcf, h0, hp0, hp1]

theorem resizeGray16_pixel_spec (inp : Image) (row : List Byte) (out : Image)
    (coeffs offset : List Int) (filterLength x y : Int) (pix pix' : List Byte)
    (hs : sliceFrom inp.Pix (rowBase inp x) = some row)
    (h : resizeGray16.pixel row out coeffs offset filterLength
          (oldBoundsOf inp) out.Bounds ((oldBoundsOf inp).Min.X * 2)
          (((oldBoundsOf inp).Max.X - (oldBoundsOf inp).Min.X - 1) * 2) x y pix = some pix') :
    ∃ bs : List Byte, bs.length = 2 ∧
      PixelVal int64 enc16 1 out coeffs offset filterLength (resizeGray16.sample inp) x y bs ∧
      writeBytes pix (pixOffset out (2 : Nat) x y) 0 bs = some pix' := by
  unfold resizeGray16.pixel at h
  simp only [bind, Option.bind_eq_some] at h
  obtain ⟨start, hstart, acc, hacc, q0, hq0, x0, hx0, hx1⟩ := h
  have c0 : acc.gray = int64 (chanSum coeffs ((y - out.Rect.Min.Y) * filterLength)
        filterLength.toNat (resizeGray16.sample inp x start 0)) ∧
      acc.sum = int64 (weightSum coeffs ((y - out.Rect.Min.Y) * filterLength)
        filterLength.toNat) :=
    chan_of_loop (fun a : Acc1 => a)
      (resizeGray16.tap row coeffs (oldBoundsOf inp) ((oldBoundsOf inp).Min.X * 2)
        (((oldBoundsOf inp).Max.X - (oldBoundsOf inp).Min.X - 1) * 2) start
        ((y - out.Bounds.Min.Y) * filterLength))
      int64 isWrap_int64 (fun i => index coeffs ((y - out.Bounds.Min.Y) * filterLength + i))
      (fun i => rowWord row (resizeGray16.switch (oldBoundsOf inp)
        ((oldBoundsOf inp).Min.X * 2)
        (((oldBoundsOf inp).Max.X - (oldBoundsOf inp).Min.X - 1) * 2) (int64 (start + i))
          + (2 * 0 : Nat)))
      (resizeGray16.sample inp x start 0)
      (fun k p hp => rowWord_sliceFrom _ _ _ _ _ hs hp)
      (fun k s s' hk => resizeGray16_tap_proj _ _ _ _ _ _ _ _ _ _ hk)
      filterLength _ acc rfl hacc
  obtain ⟨hne, e0⟩ := quo64_eq_some _ _ _ hq0
  refine ⟨[uint8 (clampUint16 q0 / 256), uint8 (clampUint16 q0)], rfl,
    ⟨start, hstart, ?_, ?_⟩, ?_⟩
  · rw [c0.2] at hne
    exact hne
  · rw [e0, c0.1, c0.2]
    simp only [show List.range 1 = [0] from rfl, List.flatMap_cons,
      List.flatMap_nil, List.append_nil, enc16, bigEndian, machineQuo]
  · simp only [writeBytes, pixOffset, Image.Bounds] at hx0 hx1 ⊢
    simp only [Nat.cast_zero, Nat.cast_ofNat, add_zero, zero_add, Nat.cast_one] at hx0 hx1 ⊢
    simp only [hx0, hx1, Option.some_bind]

theorem resizeGray16_spec (inp out : Image) (coeffs offset : List Int) (filterLength : Int)
    (pix' : List Byte) (hstride : out.Rect.Dx * 2 ≤ out.Stride)
    (h : resizeGray16 inp out coeffs offset filterLength = some pix') :
    pix'.length = out.Pix.length ∧
      (∀ x y, out.Rect.Min.X ≤ x → x < out.Rect.Max.X → out.Rect.Min.Y ≤ y →
        y < out.Rect.Max.Y →
        Written out 2 (PixelVal int64 enc16 1 out coeffs offset filterLength
          (resizeGray16.sample inp)) pix' x y) ∧
      (∀ j, (∀ x y (c : Nat), out.Rect.Min.X ≤ x → x < out.Rect.Max.X →
          out.Rect.Min.Y ≤ y → y < out.Rect.Max.Y → c < 2 →
          j ≠ pixOffset out (2 : Nat) x y + c) →
        index pix' j = index out.Pix j) := by
  rw [resizeGray16_eq_scan] at h
  exact scan_spec out 2 _ _ _ hstride
    (fun row x y pix pix' hrow hb =>
      resizeGray16_pixel_spec inp row out coeffs offset filterLength x y pix pix' hrow hb)
    pix' h

/-! ## `resizeYCbCr` -/

theorem resizeYCbCr_eq_scan (inp out : ycc) (coeffs offset : List Int)
    (filterLength : Int) :
    resizeYCbCr inp out coeffs offset filterLength =
      scan out (fun x => sliceFrom inp.Pix (rowBase inp x))
        (fun row x => resizeYCbCr.pixel row out coeffs offset filterLength
          (oldBoundsOf inp) out.Bounds ((oldBoundsOf inp).Min.X * 3)
          (((oldBoundsOf inp).Max.X - (oldBoundsOf inp).Min.X - 1) * 3) x) := rfl

theorem resizeYCbCr_tap_proj (row : List Byte) (coeffs : List Int) (oldBounds : Rectangle)
    (minX maxX start ci i : Int) (acc acc' : Acc3)
    (h : resizeYCbCr.tap row coeffs oldBounds minX maxX start ci i acc = some acc')
    (c : Nat) (hc : c < 3) :
    chanTap int32 (fun i => index coeffs (ci + i))
        (fun i => rowByte row (resizeYCbCr.switch oldBounds minX maxX (int64 (start + i)) + c)) i
        (acc.chan c) = some (acc'.chan c) := by
  unfold resizeYCbCr.tap at h
  simp only [bind, Option.bind_eq_some] at h
  obtain ⟨coeff, hcf, h⟩ := h
  unfold chanTap rowByte
  by_cases h0 : coeff = 0
  · simp only [h0, ne_eq, not_true_eq_false, if_false, pure, Option.some.injEq] at h
    subst h
    simp [hcf, h0]
  · simp only [ne_eq, h0, not_false_eq_true, if_true, Option.bind_eq_some, pure,
      Option.some.injEq] at h
    obtain ⟨p0, hp0, p1, hp1, p2, hp2, h⟩ := h
    subst h
    simp only [add_zero] at hp0
    interval_cases c <;> simp [hcf, h0, hp0, hp1, hp2, Acc3.chan]

theorem resizeYCbCr_pixel_spec (inp : ycc) (row : List Byte) (out : ycc)
    (coeffs offset : List Int) (filterLength x y : Int) (pix pix' : List Byte)
    (hs : sliceFrom inp.Pix (rowBase inp x) = some row)
    (h : resizeYCbCr.pixel row out coeffs offset filterLength
          (oldBoundsOf inp) out.Bounds ((oldBoundsOf inp).Min.X * 3)
          (((oldBoundsOf inp).Max.X - (oldBoundsOf inp).Min.X - 1) * 3) x y pix = some pix') :
    ∃ bs : List Byte, bs.length = 3 ∧
      PixelVal int32 enc8 3 out coeffs offset filterLength (resizeYCbCr.sample inp) x y bs ∧
      writeBytes pix (pixOffset out (3 : Nat) x y) 0 bs = some pix' := by
  unfold resizeYCbCr.pixel at h
  simp only [bind, Option.bind_eq_some] at h
  obtain ⟨start, hstart, acc, hacc, q0, hq0, x0, hx0, q1, hq1, x1, hx1, q2, hq2, hx2⟩ := h
  have hch : ∀ c : Nat, c < 3 →
      (acc.chan c).gray = int32 (chanSum coeffs ((y - out.Rect.Min.Y) * filterLength)
        filterLength.toNat (resizeYCbCr.sample inp x start c)) ∧
      (acc.chan c).sum = int32 (weightSum coeffs ((y - out.Rect.Min.Y) * filterLength)
        filterLength.toNat) := by
    intro c hc
    exact chan_of_loop (fun a : Acc3 => a.chan c)
      (resizeYCbCr.tap row coeffs (oldBoundsOf inp) ((oldBoundsOf inp).Min.X * 3)
        (((oldBoundsOf inp).Max.X - (oldBoundsOf inp).Min.X - 1) * 3) start
        ((y - out.Bounds.Min.Y) * filterLength))
      int32 isWrap_int32 (fun i => index coeffs ((y - out.Bounds.Min.Y) * filterLength + i))
      (fun i => rowByte row (resizeYCbCr.switch (oldBoundsOf inp)
        ((oldBoundsOf inp).Min.X * 3)
        (((oldBoundsOf inp).Max.X - (oldBoundsOf inp).Min.X - 1) * 3) (int64 (start + i)) + c))
      (resizeYCbCr.sample inp x start c)
      (fun k p hp => rowByte_sliceFrom _ _ _ _ _ hs hp)
      (fun k s s' hk => resizeYCbCr_tap_proj _ _ _ _ _ _ _ _ _ _ hk c hc)
      filterLength _ acc (by simp [Acc3.chan]) hacc
  obtain ⟨hne, e0⟩ := quo32_eq_some _ _ _ hq0
  obtain ⟨_, e1⟩ := quo32_eq_some _ _ _ hq1
  obtain ⟨_, e2⟩ := quo32_eq_some _ _ _ hq2
  have c0 := hch 0 (by omega)
  have c1 := hch 1 (by omega)
  have c2 := hch 2 (by omega)
  norm_num [Acc3.chan] at c0 c1 c2
  refine ⟨[clampUint8 q0, clampUint8 q1, clampUint8 q2], rfl,
    ⟨start, hstart, ?_, ?_⟩, ?_⟩
  · rw [c0.2] at hne
    exact hne
  · rw [e0, e1, e2, c0.1, c1.1, c2.1, c0.2]
    simp only [show List.range 3 = [0, 1, 2] from rfl, List.flatMap_cons,
      List.flatMap_nil, List.append_nil, List.singleton_append, enc8, machineQuo]
  · simp only [writeBytes, pixOffset, Image.Bounds] at hx0 hx1 hx2 ⊢
    simp only [Nat.cast_zero, Nat.cast_ofNat, add_zero, zero_add, Nat.cast_one,
      Nat.reduceAdd] at hx0 hx1 hx2 ⊢
    simp only [hx0, hx1, hx2, Option.some_bind]

theorem resizeYCbCr_spec (inp out : ycc) (coeffs offset : List Int) (filterLength : Int)
    (pix' : List Byte) (hstride : out.Rect.Dx * 3 ≤ out.Stride)
    (h : resizeYCbCr inp out coeffs offset filterLength = some pix') :
    pix'.length = out.Pix.length ∧
      (∀ x y, out.Rect.Min.X ≤ x → x < out.Rect.Max.X → out.Rect.Min.Y ≤ y →
        y < out.Rect.Max.Y →
        Written out 3 (PixelVal int32 enc8 3 out coeffs offset filterLength
          (resizeYCbCr.sample inp)) pix' x y) ∧
      (∀ j, (∀ x y (c : Nat), out.Rect.Min.X ≤ x → x < out.Rect.Max.X →
          out.Rect.Min.Y ≤ y → y < out.Rect.Max.Y → c < 3 →
          j ≠ pixOffset out (3 : Nat) x y + c) →
        index pix' j = index out.Pix j) := by
  rw [resizeYCbCr_eq_scan] at h
  exact scan_spec out 3 _ _ _ hstride
    (fun row x y pix pix' hrow hb =>
      resizeYCbCr_pixel_spec inp row out coeffs offset filterLength x y pix pix' hrow hb)
    pix' h

/-! ## `resizeGeneric` -/

theorem resizeGeneric_eq_scan (inp : GenericImage) (out : Image) (coeffs offset : List Int)
    (filterLength : Int) :
    resizeGeneric inp out coeffs offset filterLength =
      scan out (fun _ => some ())
        (fun _ x => resizeGeneric.pixel inp out coeffs offset filterLength
          (Rect 0 0 inp.Bounds.Dx inp.Bounds.Dy) out.Bounds x) := rfl

theorem resizeGeneric_tap_proj (inp : GenericImage) (coeffs : List Int)
    (oldBounds : Rectangle) (start ci x i : Int) (acc acc' : Acc4)
    (h : resizeGeneric.tap inp coeffs oldBounds start ci x i acc = some acc')
    (c : Nat) (hc : c < 4) :
    chanTap int64 (fun i => index coeffs (ci + i))
        (fun i => some ((inp.At (resizeGeneric.switch oldBounds (int64 (start + i))) x).chan c)) i
        (acc.chan c) = some (acc'.chan c) := by
  unfold resizeGeneric.tap at h
  simp only [bind, Option.bind_eq_some] at h
  obtain ⟨coeff, hcf, h⟩ := h
  unfold chanTap
  by_cases h0 : coeff = 0
  · simp only [h0, ne_eq, not_true_eq_false, if_false, pure, Option.some.injEq] at h
    subst h
    simp [hcf, h0]
  · simp only [ne_eq, h0, not_false_eq_true, if_true, pure, Option.some.injEq] at h
    subst h
    interval_cases c <;> simp [hcf, h0, Acc4.chan, Color.chan]

theorem resizeGeneric_pixel_spec (inp : GenericImage) (out : Image)
    (coeffs offset : List Int) (filterLength x y : Int) (pix pix' : List Byte)
    (h : resizeGeneric.pixel inp out coeffs offset filterLength
          (Rect 0 0 inp.Bounds.Dx inp.Bounds.Dy) out.Bounds x y pix = some pix') :
    ∃ bs : List Byte, bs.length = 8 ∧
      PixelVal int64 enc16 4 out coeffs offset filterLength (resizeGeneric.sample inp) x y bs ∧
      writeBytes pix (pixOffset out (8 : Nat) x y) 0 bs = some pix' := by
  unfold resizeGeneric.pixel at h
  simp only [bind, Option.bind_eq_some] at h
  obtain ⟨start, hstart, acc, hacc, q0, hq0, x0, hx0, x1, hx1, q1, hq1, x2, hx2, x3, hx3,
    q2, hq2, x4, hx4, x5, hx5, q3, hq3, x6, hx6, hx7⟩ := h
  have hch : ∀ c : Nat, c < 4 →
      (acc.chan c).gray = int64 (chanSum coeffs ((y - out.Rect.Min.Y) * filterLength)
        filterLength.toNat (resizeGeneric.sample inp x start c)) ∧
      (acc.chan c).sum = int64 (weightSum coeffs ((y - out.Rect.Min.Y) * filterLength)
        filterLength.toNat) := by
    intro c hc
    exact chan_of_loop (fun a : Acc4 => a.chan c)
      (resizeGeneric.tap inp coeffs (Rect 0 0 inp.Bounds.Dx inp.Bounds.Dy) start
        ((y - out.Bounds.Min.Y) * filterLength) x)
      int64 isWrap_int64 (fun i => index coeffs ((y - out.Bounds.Min.Y) * filterLength + i))
      (fun i => some ((inp.At (resizeGeneric.switch (Rect 0 0 inp.Bounds.Dx inp.Bounds.Dy)
        (int64 (start + i))) x).chan c))
      (resizeGeneric.sample inp x start c)
      (fun k p hp => by
        simp only [Option.some.injEq] at hp
        rw [← hp]
        rfl)
      (fun k s s' hk => resizeGeneric_tap_proj _ _ _ _ _ _ _ _ _ hk c hc)
      filterLength _ acc (by simp [Acc4.chan]) hacc
  obtain ⟨hne, e0⟩ := quo64_eq_some _ _ _ hq0
  obtain ⟨_, e1⟩ := quo64_eq_some _ _ _ hq1
  obtain ⟨_, e2⟩ := quo64_eq_some _ _ _ hq2
  obtain ⟨_, e3⟩ := quo64_eq_some _ _ _ hq3
  have c0 := hch 0 (by omega)
  have c1 := hch 1 (by omega)
  have c2 := hch 2 (by omega)
  have c3 := hch 3 (by omega)
  norm_num [Acc4.chan] at c0 c1 c2 c3
  refine ⟨[uint8 (clampUint16 q0 / 256), uint8 (clampUint16 q0),
      uint8 (clampUint16 q1 / 256), uint8 (clampUint16 q1),
      uint8 (clampUint16 q2 / 256), uint8 (clampUint16 q2),
      uint8 (clampUint16 q3 / 256), uint8 (clampUint16 q3)], rfl,
    ⟨start, hstart, ?_, ?_⟩, ?_⟩
  · rw [c0.2] at hne
    exact hne
  · rw [e0, e1, e2, e3, c0.1, c1.1, c2.1, c3.1, c0.2]
    simp only [show List.range 4 = [0, 1, 2, 3] from rfl, List.flatMap_cons,
      List.flatMap_nil, List.append_nil, List.cons_append, List.nil_append, enc16,
      bigEndian, machineQuo]
  · simp only [writeBytes, pixOffset, Image.Bounds] at hx0 hx1 hx2 hx3 hx4 hx5 hx6 hx7 ⊢
    simp only [Nat.cast_zero, Nat.cast_ofNat, add_zero, zero_add, Nat.cast_one,
      Nat.reduceAdd] at hx0 hx1 hx2 hx3 hx4 hx5 hx6 hx7 ⊢
    simp only [hx0, hx1, hx2, hx3, hx4, hx5, hx6, hx7, Option.some_bind]

theorem resizeGeneric_spec (inp : GenericImage) (out : Image) (coeffs offset : List Int)
    (filterLength : Int) (pix' : List Byte) (hstride : out.Rect.Dx * 8 ≤ out.Stride)
    (h : resizeGeneric inp out coeffs offset filterLength = some pix') :
    pix'.length = out.Pix.length ∧
      (∀ x y, out.Rect.Min.X ≤ x → x < out.Rect.Max.X → out.Rect.Min.Y ≤ y →
        y < out.Rect.Max.Y →
        Written out 8 (PixelVal int64 enc16 4 out coeffs offset filterLength
          (resizeGeneric.sample inp)) pix' x y) ∧
      (∀ j, (∀ x y (c : Nat), out.Rect.Min.X ≤ x → x < out.Rect.Max.X →
          out.Rect.Min.Y ≤ y → y < out.Rect.Max.Y → c < 8 →
          j ≠ pixOffset out (8 : Nat) x y + c) →
        index pix' j = index out.Pix j) := by
  rw [resizeGeneric_eq_scan] at h
  exact scan_spec out 8 _ _ _ hstride
    (fun _ x y pix pix' _ hb =>
      resizeGeneric_pixel_spec inp out coeffs offset filterLength x y pix pix' hb)
    pix' h

/-! ## Bounds of the source rectangle and the `switch` -/

theorem oldBounds_maxX (inp : Image) (h : 0 ≤ inp.Rect.Dx) :
    (oldBoundsOf inp).Max.X = inp.Rect.Dx := by
  unfold oldBoundsOf Rect
  simp only [gt_iff_lt]
  rw [if_neg (by omega)]

theorem oldBounds_minX (inp : Image) (h : 0 ≤ inp.Rect.Dx) : (oldBoundsOf inp).Min.X = 0 := by
  unfold oldBoundsOf Rect
  simp only [gt_iff_lt]
  rw [if_neg (by omega)]

theorem oldBounds_minY (inp : Image) (h : 0 ≤ inp.Rect.Dy) : (oldBoundsOf inp).Min.Y = 0 := by
  unfold oldBoundsOf Rect
  simp only [gt_iff_lt]
  rw [if_neg (by omega)]

theorem rowBase_eq (inp : Image) (x : Int) (h : 0 ≤ inp.Rect.Dy) :
    rowBase inp x = x * inp.Stride := by
  unfold rowBase
  rw [oldBounds_minY inp h, sub_zero]

theorem switch_shape (B W xi : Int) (oB : Rectangle) (hW : 1 ≤ W) (h1 : oB.Max.X = W)
    (h0 : oB.Min.X = 0) :
    (if uintLess xi oB.Max.X then xi * B
      else if xi ≥ oB.Max.X then (oB.Max.X - oB.Min.X - 1) * B else oB.Min.X * B)
      = B * clampColumn W xi := by
  rw [h1, h0]
  unfold clampColumn
  by_cases hin : 0 ≤ xi ∧ xi < W
  · rw [if_pos ((uintLess_iff xi W (by omega)).mpr hin)]
    rw [max_eq_left hin.1, min_eq_left (by omega), mul_comm]
  · have : ¬ (uintLess xi W = true) := fun h => hin ((uintLess_iff xi W (by omega)).mp h)
    rw [if_neg this]
    by_cases h2 : xi ≥ W
    · rw [if_pos h2, max_eq_left (by omega), min_eq_right (by omega)]; ring
    · rw [if_neg h2, max_eq_right (by omega), min_eq_left (by omega)]; ring

theorem clampColumn_bounds (W xi : Int) (hW : 1 ≤ W) :
    0 ≤ clampColumn W xi ∧ clampColumn W xi ≤ W - 1 := by
  unfold clampColumn
  omega

theorem resizeRGBA_switch_eq (inp : Image) (xi : Int) (hW : 1 ≤ inp.Rect.Dx) :
    resizeRGBA.switch (oldBoundsOf inp) ((oldBoundsOf inp).Min.X * 4)
      (((oldBoundsOf inp).Max.X - (oldBoundsOf inp).Min.X - 1) * 4) xi
      = 4 * clampColumn inp.Rect.Dx xi :=
  switch_shape 4 inp.Rect.Dx xi (oldBoundsOf inp) hW (oldBounds_maxX inp (by omega))
    (oldBounds_minX inp (by omega))

theorem resizeRGBA64_switch_eq (inp : Image) (xi : Int) (hW : 1 ≤ inp.Rect.Dx) :
    resizeRGBA64.switch (oldBoundsOf inp) ((oldBoundsOf inp).Min.X * 8)
      (((oldBoundsOf inp).Max.X - (oldBoundsOf inp).Min.X - 1) * 8) xi
      = 8 * clampColumn inp.Rect.Dx xi :=
  switch_shape 8 inp.Rect.Dx xi (oldBoundsOf inp) hW (oldBounds_maxX inp (by omega))
    (oldBounds_minX inp (by omega))

theorem resizeGray_switch_eq (inp : Image) (xi : Int) (hW : 1 ≤ inp.Rect.Dx) :
    resizeGray.switch (oldBoundsOf inp) (oldBoundsOf inp).Min.X
      ((oldBoundsOf inp).Max.X - (oldBoundsOf inp).Min.X - 1) xi
      = clampColumn inp.Rect.Dx xi := by
  have := switch_shape 1 inp.Rect.Dx xi (oldBoundsOf inp) hW (oldBounds_maxX inp (by omega))
    (oldBounds_minX inp (by omega))
  simpa [resizeGray.switch] using this

theorem resizeGray16_switch_eq (inp : Image) (xi : Int) (hW : 1 ≤ inp.Rect.Dx) :
    resizeGray16.switch (oldBoundsOf inp) ((oldBoundsOf inp).Min.X * 2)
      (((oldBoundsOf inp).Max.X - (oldBoundsOf inp).Min.X - 1) * 2) xi
      = 2 * clampColumn inp.Rect.Dx xi :=
  switch_shape 2 inp.Rect.Dx xi (oldBoundsOf inp) hW (oldBounds_maxX inp (by omega))
    (oldBounds_minX inp (by omega))

theorem resizeYCbCr_switch_eq (inp : ycc) (xi : Int) (hW : 1 ≤ inp.Rect.Dx) :
    resizeYCbCr.switch (oldBoundsOf inp) ((oldBoundsOf inp).Min.X * 3)
      (((oldBoundsOf inp).Max.X - (oldBoundsOf inp).Min.X - 1) * 3) xi
      = 3 * clampColumn inp.Rect.Dx xi :=
  switch_shape 3 inp.Rect.Dx xi (oldBoundsOf inp) hW (oldBounds_maxX inp (by omega))
    (oldBounds_minX inp (by omega))

theorem nearestYCbCr_switch_eq (inp : ycc) (xi : Int) (hW : 1 ≤ inp.Rect.Dx) :
    nearestYCbCr.switch (oldBoundsOf inp) ((oldBoundsOf inp).Min.X * 3)
      (((oldBoundsOf inp).Max.X - (oldBoundsOf inp).Min.X - 1) * 3) xi
      = 3 * clampColumn inp.Rect.Dx xi :=
  switch_shape 3 inp.Rect.Dx xi (oldBoundsOf inp) hW (oldBounds_maxX inp (by omega))
    (oldBounds_minX inp (by omega))

theorem tdiv_fits (M N S : Int) (hN1 : -M ≤ N) (hN2 : N < M) (hS : S ≠ 0)
    (hq : ¬ (N = -M ∧ S = -1)) : -M ≤ Int.tdiv N S ∧ Int.tdiv N S < M := by
  by_cases h1 : S = 1
  · subst h1; simp only [Int.tdiv_one]; omega
  by_cases h2 : S = -1
  · subst h2
    have : N.tdiv (-1) = -N := by rw [Int.tdiv_neg, Int.tdiv_one]
    rw [this]; omega
  have h := Int.natAbs_tdiv N S
  have h3 : 2 ≤ S.natAbs := by omega
  have h4 : (N.natAbs).div (S.natAbs) ≤ N.natAbs / 2 := Nat.div_le_div_left h3 (by omega)
  omega

theorem machineQuo_int32 (N S : Int) (hN1 : -2147483648 ≤ N) (hN2 : N < 2147483648)
    (hS1 : -2147483648 ≤ S) (hS2 : S < 2147483648) (hS : S ≠ 0)
    (hq : ¬ (N = -2147483648 ∧ S = -1)) : machineQuo int32 N S = Int.tdiv N S := by
  unfold machineQuo
  rw [int32_of_fits N hN1 hN2, int32_of_fits S hS1 hS2]
  have := tdiv_fits 2147483648 N S hN1 hN2 hS hq
  exact int32_of_fits _ this.1 this.2

theorem machineQuo_int64 (N S : Int) (hN1 : -9223372036854775808 ≤ N)
    (hN2 : N < 9223372036854775808) (hS1 : -9223372036854775808 ≤ S)
    (hS2 : S < 9223372036854775808) (hS : S ≠ 0)
    (hq : ¬ (N = -9223372036854775808 ∧ S = -1)) : machineQuo int64 N S = Int.tdiv N S := by
  unfold machineQuo
  rw [int64_of_fits N hN1 hN2, int64_of_fits S hS1 hS2]
  have := tdiv_fits 9223372036854775808 N S hN1 hN2 hS hq
  exact int64_of_fits _ this.1 this.2

/-! ## Calls that return -/

theorem index_add_isSome {α : Type} (s row : List α) (base j : Int)
    (hs : sliceFrom s base = some row) (hj : 0 ≤ j) (h : base + j < (s.length : Int)) :
    ∃ p, index row j = some p := by
  rw [index_sliceFrom s row base j hs hj]
  have hb : 0 ≤ base := by
    unfold sliceFrom at hs
    split_ifs at hs with hk
    exact hk.1
  exact index_isSome s (base + j) (by omega) h

theorem sliceFrom_isSome {α : Type} (s : List α) (k : Int) (h0 : 0 ≤ k)
    (h1 : k ≤ (s.length : Int)) : ∃ row, sliceFrom s k = some row := by
  unfold sliceFrom
  rw [if_pos ⟨h0, h1⟩]
  exact ⟨_, rfl⟩

theorem forLoop_isSome {σ : Type} (fl : Int) (s : σ) (body : Int → σ → Option σ)
    (h : ∀ k t, 0 ≤ k → k < fl → ∃ t', body k t = some t') :
    ∃ s', forLoop 0 fl s body = some s' := by
  unfold forLoop
  obtain ⟨s', hs', _⟩ := forLoopAux_some body (fun _ _ => True) (fl - 0).toNat 0 s trivial
    (fun k t hk1 hk2 _ => by
      obtain ⟨t', ht'⟩ := h k t hk1 (by omega)
      exact ⟨t', ht', trivial⟩)
  exact ⟨s', hs'⟩

theorem resizeRGBA_tap_isSome (row : List Byte) (coeffs : List Int) (oldBounds : Rectangle)
    (minX maxX start ci i : Int) (acc : Acc4)
    (hcf : ∃ cf, index coeffs (ci + i) = some cf)
    (hrow : ∀ j : Int, 0 ≤ j → j < 4 →
      ∃ p, index row (resizeRGBA.switch oldBounds minX maxX (int64 (start + i)) + j) = some p) :
    ∃ acc', resizeRGBA.tap row coeffs oldBounds minX maxX start ci i acc = some acc' := by
  obtain ⟨cf, hcf⟩ := hcf
  obtain ⟨p0, hp0⟩ := hrow 0 (by omega) (by omega)
  obtain ⟨p1, hp1⟩ := hrow 1 (by omega) (by omega)
  obtain ⟨p2, hp2⟩ := hrow 2 (by omega) (by omega)
  obtain ⟨p3, hp3⟩ := hrow 3 (by omega) (by omega)
  simp only [add_zero] at hp0
  unfold resizeRGBA.tap
  simp only [bind, hcf, Option.some_bind, hp0, hp1, hp2, hp3, pure, add_zero]
  split_ifs <;> exact ⟨_, rfl⟩

theorem resizeRGBA_pixel_isSome (inp : Image) (row : List Byte) (out : Image)
    (coeffs offset : List Int) (filterLength x y : Int) (pix : List Byte)
    (hs : sliceFrom inp.Pix (rowBase inp x) = some row)
    (hoff : 0 ≤ y ∧ y < (offset.length : Int))
    (htap : ∀ k start, 0 ≤ k → k < filterLength →
      (∃ cf, index coeffs ((y - out.Rect.Min.Y) * filterLength + k) = some cf) ∧
      ∀ j : Int, 0 ≤ j → j < 4 →
        ∃ p, index row (resizeRGBA.switch (oldBoundsOf inp) ((oldBoundsOf inp).Min.X * 4)
          (((oldBoundsOf inp).Max.X - (oldBoundsOf inp).Min.X - 1) * 4) (int64 (start + k)) + j)
            = some p)
    (hsum : int32 (weightSum coeffs ((y - out.Rect.Min.Y) * filterLength) filterLength.toNat)
      ≠ 0)
    (hout : 0 ≤ pixOffset out (4 : Nat) x y ∧
      pixOffset out (4 : Nat) x y + 4 ≤ (pix.length : Int)) :
    ∃ pix', resizeRGBA.pixel row out coeffs offset filterLength
          (oldBoundsOf inp) out.Bounds ((oldBoundsOf inp).Min.X * 4)
          (((oldBoundsOf inp).Max.X - (oldBoundsOf inp).Min.X - 1) * 4) x y pix = some pix' ∧
      pix'.length = pix.length := by
  obtain ⟨start, hstart⟩ := index_isSome offset y hoff.1 hoff.2
  obtain ⟨acc, hacc⟩ := forLoop_isSome filterLength (Acc4.mk 0 0 0 0 0)
    (resizeRGBA.tap row coeffs (oldBoundsOf inp) ((oldBoundsOf inp).Min.X * 4)
        (((oldBoundsOf inp).Max.X - (oldBoundsOf inp).Min.X - 1) * 4) start
        ((y - out.Bounds.Min.Y) * filterLength))
    (fun k t hk1 hk2 => resizeRGBA_tap_isSome _ _ _ _ _ _ _ _ _
      (htap k start hk1 hk2).1 (htap k start hk1 hk2).2)
  have hsm : acc.sum = int32 (weightSum coeffs ((y - out.Rect.Min.Y) * filterLength)
        filterLength.toNat) :=
    (chan_of_loop (fun a : Acc4 => a.chan 0)
      (resizeRGBA.tap row coeffs (oldBoundsOf inp) ((oldBoundsOf inp).Min.X * 4)
        (((oldBoundsOf inp).Max.X - (oldBoundsOf inp).Min.X - 1) * 4) start
        ((y - out.Bounds.Min.Y) * filterLength))
      int32 isWrap_int32 (fun i => index coeffs ((y - out.Bounds.Min.Y) * filterLength + i))
      (fun i => rowByte row (resizeRGBA.switch (oldBoundsOf inp) ((oldBoundsOf inp).Min.X * 4)
          (((oldBoundsOf inp).Max.X - (oldBoundsOf inp).Min.X - 1) * 4) (int64 (start + i))
          + (0 : Nat)))
      (resizeRGBA.sample inp x start 0)
      (fun k p hp => rowByte_sliceFrom _ _ _ _ _ hs hp)
      (fun k s s' hk => resizeRGBA_tap_proj _ _ _ _ _ _ _ _ _ _ hk 0 (by omega))
      filterLength _ acc (by simp [Acc4.chan]) hacc).2
  have hne : acc.sum ≠ 0 := by rw [hsm]; exact hsum
  obtain ⟨pix', hw⟩ := writeBytes_isSome
    [clampUint8 (int32 (acc.c0.tdiv acc.sum)), clampUint8 (int32 (acc.c1.tdiv acc.sum)), clampUint8 (int32 (acc.c2.tdiv acc.sum)), clampUint8 (int32 (acc.c3.tdiv acc.sum))]
    pix (pixOffset out (4 : Nat) x y) 0 (by simpa using hout.1) (by simpa using hout.2)
  have hlen := (writeBytes_eq_some _ _ _ _ _ hw).1
  refine ⟨pix', ?_, hlen⟩
  unfold resizeRGBA.pixel
  simp only [bind, hstart, Option.some_bind, hacc, quo32, hne, if_false]
  simp only [writeBytes, pixOffset, Image.Bounds] at hw ⊢
  simp only [Nat.cast_zero, Nat.cast_ofNat, add_zero, zero_add, Nat.cast_one,
    Nat.reduceAdd, Option.bind_some, mul_one] at hw ⊢
  exact hw

theorem resizeRGBA_isSome (inp out : Image) (coeffs offset : List Int) (filterLength : Int)
    (hW : 1 ≤ inp.Rect.Dx)
    (hrows : ∀ x, out.Rect.Min.X ≤ x → x < out.Rect.Max.X →
      0 ≤ rowBase inp x ∧ rowBase inp x + inp.Rect.Dx * 4 ≤ (inp.Pix.length : Int))
    (hoff : ∀ y, out.Rect.Min.Y ≤ y → y < out.Rect.Max.Y →
      0 ≤ y ∧ y < (offset.length : Int))
    (hco : ∀ y k, out.Rect.Min.Y ≤ y → y < out.Rect.Max.Y → 0 ≤ k → k < filterLength →
      0 ≤ (y - out.Rect.Min.Y) * filterLength + k ∧
        (y - out.Rect.Min.Y) * filterLength + k < (coeffs.length : Int))
    (hsum : ∀ y, out.Rect.Min.Y ≤ y → y < out.Rect.Max.Y →
      int32 (weightSum coeffs ((y - out.Rect.Min.Y) * filterLength) filterLength.toNat) ≠ 0)
    (hout : ∀ x y, out.Rect.Min.X ≤ x → x < out.Rect.Max.X → out.Rect.Min.Y ≤ y →
      y < out.Rect.Max.Y → 0 ≤ pixOffset out (4 : Nat) x y ∧
        pixOffset out (4 : Nat) x y + 4 ≤ (out.Pix.length : Int)) :
    ∃ pix', resizeRGBA inp out coeffs offset filterLength = some pix' := by
  rw [resizeRGBA_eq_scan]
  apply scan_isSome
  intro x hx1 hx2
  obtain ⟨hr0, hr1⟩ := hrows x hx1 hx2
  obtain ⟨row, hrow⟩ := sliceFrom_isSome inp.Pix (rowBase inp x) hr0 (by omega)
  refine ⟨row, hrow, ?_⟩
  intro y pix hy1 hy2 hlen
  rw [← hlen]
  apply resizeRGBA_pixel_isSome inp row out coeffs offset filterLength x y pix hrow
    (hoff y hy1 hy2)
  · intro k start hk1 hk2
    refine ⟨?_, ?_⟩
    · obtain ⟨c1, c2⟩ := hco y k hy1 hy2 hk1 hk2
      exact index_isSome coeffs _ c1 c2
    · intro j hj1 hj2
      rw [resizeRGBA_switch_eq inp _ hW]
      have hb := clampColumn_bounds inp.Rect.Dx (int64 (start + k)) hW
      exact index_add_isSome inp.Pix row (rowBase inp x) _ hrow (by omega) (by omega)
  · exact hsum y hy1 hy2
  · rw [hlen]
    exact hout x y hx1 hx2 hy1 hy2

theorem resizeRGBA64_tap_isSome (row : List Byte) (coeffs : List Int) (oldBounds : Rectangle)
    (minX maxX start ci i : Int) (acc : Acc4)
    (hcf : ∃ cf, index coeffs (ci + i) = some cf)
    (hrow : ∀ j : Int, 0 ≤ j → j < 8 →
      ∃ p, index row (resizeRGBA64.switch oldBounds minX maxX (int64 (start + i)) + j) = some p) :
    ∃ acc', resizeRGBA64.tap row coeffs oldBounds minX maxX start ci i acc = some acc' := by
  obtain ⟨cf, hcf⟩ := hcf
  obtain ⟨p0, hp0⟩ := hrow 0 (by omega) (by omega)
  obtain ⟨p1, hp1⟩ := hrow 1 (by omega) (by omega)
  obtain ⟨p2, hp2⟩ := hrow 2 (by omega) (by omega)
  obtain ⟨p3, hp3⟩ := hrow 3 (by omega) (by omega)
  obtain ⟨p4, hp4⟩ := hrow 4 (by omega) (by omega)
  obtain ⟨p5, hp5⟩ := hrow 5 (by omega) (by omega)
  obtain ⟨p6, hp6⟩ := hrow 6 (by omega) (by omega)
  obtain ⟨p7, hp7⟩ := hrow 7 (by omega) (by omega)
  simp only [add_zero] at hp0
  unfold resizeRGBA64.tap
  simp only [bind, hcf, Option.some_bind, hp0, hp1, hp2, hp3, hp4, hp5, hp6, hp7, pure, add_zero]
  split_ifs <;> exact ⟨_, rfl⟩

theorem resizeRGBA64_pixel_isSome (inp : Image) (row : List Byte) (out : Image)
    (coeffs offset : List Int) (filterLength x y : Int) (pix : List Byte)
    (hs : sliceFrom inp.Pix (rowBase inp x) = some row)
    (hoff : 0 ≤ y ∧ y < (offset.length : Int))
    (htap : ∀ k start, 0 ≤ k → k < filterLength →
      (∃ cf, index coeffs ((y - out.Rect.Min.Y) * filterLength + k) = some cf) ∧
      ∀ j : Int, 0 ≤ j → j < 8 →
        ∃ p, index row (resizeRGBA64.switch (oldBoundsOf inp) ((oldBoundsOf inp).Min.X * 8)
          (((oldBoundsOf inp).Max.X - (oldBoundsOf inp).Min.X - 1) * 8) (int64 (start + k)) + j)
            = some p)
    (hsum : int64 (weightSum coeffs ((y - out.Rect.Min.Y) * filterLength) filterLength.toNat)
      ≠ 0)
    (hout : 0 ≤ pixOffset out (8 : Nat) x y ∧
      pixOffset out (8 : Nat) x y + 8 ≤ (pix.length : Int)) :
    ∃ pix', resizeRGBA64.pixel row out coeffs offset filterLength
          (oldBoundsOf inp) out.Bounds ((oldBoundsOf inp).Min.X * 8)
          (((oldBoundsOf inp).Max.X - (oldBoundsOf inp).Min.X - 1) * 8) x y pix = some pix' ∧
      pix'.length = pix.length := by
  obtain ⟨start, hstart⟩ := index_isSome offset y hoff.1 hoff.2
  obtain ⟨acc, hacc⟩ := forLoop_isSome filterLength (Acc4.mk 0 0 0 0 0)
    (resizeRGBA64.tap row coeffs (oldBoundsOf inp) ((oldBoundsOf inp).Min.X * 8)
        (((oldBoundsOf inp).Max.X - (oldBoundsOf inp).Min.X - 1) * 8) start
        ((y - out.Bounds.Min.Y) * filterLength))
    (fun k t hk1 hk2 => resizeRGBA64_tap_isSome _ _ _ _ _ _ _ _ _
      (htap k start hk1 hk2).1 (htap k start hk1 hk2).2)
  have hsm : acc.sum = int64 (weightSum coeffs ((y - out.Rect.Min.Y) * filterLength)
        filterLength.toNat) :=
    (chan_of_loop (fun a : Acc4 => a.chan 0)
      (resizeRGBA64.tap row coeffs (oldBoundsOf inp) ((oldBoundsOf inp).Min.X * 8)
        (((oldBoundsOf inp).Max.X - (oldBoundsOf inp).Min.X - 1) * 8) start
        ((y - out.Bounds.Min.Y) * filterLength))
      int64 isWrap_int64 (fun i => index coeffs ((y - out.Bounds.Min.Y) * filterLength + i))
      (fun i => rowWord row (resizeRGBA64.switch (oldBoundsOf inp) ((oldBoundsOf inp).Min.X * 8)
          (((oldBoundsOf inp).Max.X - (oldBoundsOf inp).Min.X - 1) * 8) (int64 (start + i))
          + (2 * 0 : Nat)))
      (resizeRGBA64.sample inp x start 0)
      (fun k p hp => rowWord_sliceFrom _ _ _ _ _ hs hp)
      (fun k s s' hk => resizeRGBA64_tap_proj _ _ _ _ _ _ _ _ _ _ hk 0 (by omega))
      filterLength _ acc (by simp [Acc4.chan]) hacc).2
  have hne : acc.sum ≠ 0 := by rw [hsm]; exact hsum
  obtain ⟨pix', hw⟩ := writeBytes_isSome
    [uint8 (clampUint16 (int64 (acc.c0.tdiv acc.sum)) / 256),
      uint8 (clampUint16 (int64 (acc.c0.tdiv acc.sum))), uint8 (clampUint16 (int64 (acc.c1.tdiv acc.sum)) / 256),
      uint8 (clampUint16 (int64 (acc.c1.tdiv acc.sum))), uint8 (clampUint16 (int64 (acc.c2.tdiv acc.sum)) / 256),
      uint8 (clampUint16 (int64 (acc.c2.tdiv acc.sum))), uint8 (clampUint16 (int64 (acc.c3.tdiv acc.sum)) / 256),
      uint8 (clampUint16 (int64 (acc.c3.tdiv acc.sum)))]
    pix (pixOffset out (8 : Nat) x y) 0 (by simpa using hout.1) (by simpa using hout.2)
  have hlen := (writeBytes_eq_some _ _ _ _ _ hw).1
  refine ⟨pix', ?_, hlen⟩
  unfold resizeRGBA64.pixel
  simp only [bind, hstart, Option.some_bind, hacc, quo64, hne, if_false]
  simp only [writeBytes, pixOffset, Image.Bounds] at hw ⊢
  simp only [Nat.cast_zero, Nat.cast_ofNat, add_zero, zero_add, Nat.cast_one,
    Nat.reduceAdd, Option.bind_some, mul_one] at hw ⊢
  exact hw

theorem resizeRGBA64_isSome (inp out : Image) (coeffs offset : List Int) (filterLength : Int)
    (hW : 1 ≤ inp.Rect.Dx)
    (hrows : ∀ x, out.Rect.Min.X ≤ x → x < out.Rect.Max.X →
      0 ≤ rowBase inp x ∧ rowBase inp x + inp.Rect.Dx * 8 ≤ (inp.Pix.length : Int))
    (hoff : ∀ y, out.Rect.Min.Y ≤ y → y < out.Rect.Max.Y →
      0 ≤ y ∧ y < (offset.length : Int))
    (hco : ∀ y k, out.Rect.Min.Y ≤ y → y < out.Rect.Max.Y → 0 ≤ k → k < filterLength →
      0 ≤ (y - out.Rect.Min.Y) * filterLength + k ∧
        (y - out.Rect.Min.Y) * filterLength + k < (coeffs.length : Int))
    (hsum : ∀ y, out.Rect.Min.Y ≤ y → y < out.Rect.Max.Y →
      int64 (weightSum coeffs ((y - out.Rect.Min.Y) * filterLength) filterLength.toNat) ≠ 0)
    (hout : ∀ x y, out.Rect.Min.X ≤ x → x < out.Rect.Max.X → out.Rect.Min.Y ≤ y →
      y < out.Rect.Max.Y → 0 ≤ pixOffset out (8 : Nat) x y ∧
        pixOffset out (8 : Nat) x y + 8 ≤ (out.Pix.length : Int)) :
    ∃ pix', resizeRGBA64 inp out coeffs offset filterLength = some pix' := by
  rw [resizeRGBA64_eq_scan]
  apply scan_isSome
  intro x hx1 hx2
  obtain ⟨hr0, hr1⟩ := hrows x hx1 hx2
  obtain ⟨row, hrow⟩ := sliceFrom_isSome inp.Pix (rowBase inp x) hr0 (by omega)
  refine ⟨row, hrow, ?_⟩
  intro y pix hy1 hy2 hlen
  rw [← hlen]
  apply resizeRGBA64_pixel_isSome inp row out coeffs offset filterLength x y pix hrow
    (hoff y hy1 hy2)
  · intro k start hk1 hk2
    refine ⟨?_, ?_⟩
    · obtain ⟨c1, c2⟩ := hco y k hy1 hy2 hk1 hk2
      exact index_isSome coeffs _ c1 c2
    · intro j hj1 hj2
      rw [resizeRGBA64_switch_eq inp _ hW]
      have hb := clampColumn_bounds inp.Rect.Dx (int64 (start + k)) hW
      exact index_add_isSome inp.Pix row (rowBase inp x) _ hrow (by omega) (by omega)
  · exact hsum y hy1 hy2
  · rw [hlen]
    exact hout x y hx1 hx2 hy1 hy2

theorem resizeGray_tap_isSome (row : List Byte) (coeffs : List Int) (oldBounds : Rectangle)
    (minX maxX start ci i : Int) (acc : Acc1)
    (hcf : ∃ cf, index coeffs (ci + i) = some cf)
    (hrow : ∀ j : Int, 0 ≤ j → j < 1 →
      ∃ p, index row (resizeGray.switch oldBounds minX maxX (int64 (start + i)) + j) = some p) :
    ∃ acc', resizeGray.tap row coeffs oldBounds minX maxX start ci i acc = some acc' := by
  obtain ⟨cf, hcf⟩ := hcf
  obtain ⟨p0, hp0⟩ := hrow 0 (by omega) (by omega)
  simp only [add_zero] at hp0
  unfold resizeGray.tap
  simp only [bind, hcf, Option.some_bind, hp0, pure, add_zero]
  split_ifs <;> exact ⟨_, rfl⟩

theorem resizeGray_pixel_isSome (inp : Image) (row : List Byte) (out : Image)
    (coeffs offset : List Int) (filterLength x y : Int) (pix : List Byte)
    (hs : sliceFrom inp.Pix (rowBase inp x) = some row)
    (hoff : 0 ≤ y ∧ y < (offset.length : Int))
    (htap : ∀ k start, 0 ≤ k → k < filterLength →
      (∃ cf, index coeffs ((y - out.Rect.Min.Y) * filterLength + k) = some cf) ∧
      ∀ j : Int, 0 ≤ j → j < 1 →
        ∃ p, index row (resizeGray.switch (oldBoundsOf inp) (oldBoundsOf inp).Min.X
          ((oldBoundsOf inp).Max.X - (oldBoundsOf inp).Min.X - 1) (int64 (start + k)) + j)
            = some p)
    (hsum : int32 (weightSum coeffs ((y - out.Rect.Min.Y) * filterLength) filterLength.toNat)
      ≠ 0)
    (hout : 0 ≤ pixOffset out (1 : Nat) x y ∧
      pixOffset out (1 : Nat) x y + 1 ≤ (pix.length : Int)) :
    ∃ pix', resizeGray.pixel row out coeffs offset filterLength
          (oldBoundsOf inp) out.Bounds (oldBoundsOf inp).Min.X
          ((oldBoundsOf inp).Max.X - (oldBoundsOf inp).Min.X - 1) x y pix = some pix' ∧
      pix'.length = pix.length := by
  obtain ⟨start, hstart⟩ := index_isSome offset y hoff.1 hoff.2
  obtain ⟨acc, hacc⟩ := forLoop_isSome filterLength (Acc1.mk 0 0)
    (resizeGray.tap row coeffs (oldBoundsOf inp) (oldBoundsOf inp).Min.X
        ((oldBoundsOf inp).Max.X - (oldBoundsOf inp).Min.X - 1) start
        ((y - out.Bounds.Min.Y) * filterLength))
    (fun k t hk1 hk2 => resizeGray_tap_isSome _ _ _ _ _ _ _ _ _
      (htap k start hk1 hk2).1 (htap k start hk1 hk2).2)
  have hsm : acc.sum = int32 (weightSum coeffs ((y - out.Rect.Min.Y) * filterLength)
        filterLength.toNat) :=
    (chan_of_loop (fun a : Acc1 => a)
      (resizeGray.tap row coeffs (oldBoundsOf inp) (oldBoundsOf inp).Min.X
        ((oldBoundsOf inp).Max.X - (oldBoundsOf inp).Min.X - 1) start
        ((y - out.Bounds.Min.Y) * filterLength))
      int32 isWrap_int32 (fun i => index coeffs ((y - out.Bounds.Min.Y) * filterLength + i))
      (fun i => rowByte row (resizeGray.switch (oldBoundsOf inp) (oldBoundsOf inp).Min.X
          ((oldBoundsOf inp).Max.X - (oldBoundsOf inp).Min.X - 1) (int64 (start + i))
          + (0 : Nat)))
      (resizeGray.sample inp x start 0)
      (fun k p hp => rowByte_sliceFrom _ _ _ _ _ hs hp)
      (fun k s s' hk => resizeGray_tap_proj _ _ _ _ _ _ _ _ _ _ hk)
      filterLength _ acc rfl hacc).2
  have hne : acc.sum ≠ 0 := by rw [hsm]; exact hsum
  obtain ⟨pix', hw⟩ := writeBytes_isSome
    [clampUint8 (int32 (acc.gray.tdiv acc.sum))]
    pix (pixOffset out (1 : Nat) x y) 0 (by simpa using hout.1) (by simpa using hout.2)
  have hlen := (writeBytes_eq_some _ _ _ _ _ hw).1
  refine ⟨pix', ?_, hlen⟩
  unfold resizeGray.pixel
  simp only [bind, hstart, Option.some_bind, hacc, quo32, hne, if_false]
  simp only [writeBytes, pixOffset, Image.Bounds] at hw ⊢
  simp only [Nat.cast_zero, Nat.cast_ofNat, add_zero, zero_add, Nat.cast_one,
    Nat.reduceAdd, Option.bind_some, mul_one] at hw ⊢
  exact hw

theorem resizeGray_isSome (inp out : Image) (coeffs offset : List Int) (filterLength : Int)
    (hW : 1 ≤ inp.Rect.Dx)
    (hrows : ∀ x, out.Rect.Min.X ≤ x → x < out.Rect.Max.X →
      0 ≤ rowBase inp x ∧ rowBase inp x + inp.Rect.Dx * 1 ≤ (inp.Pix.length : Int))
    (hoff : ∀ y, out.Rect.Min.Y ≤ y → y < out.Rect.Max.Y →
      0 ≤ y ∧ y < (offset.length : Int))
    (hco : ∀ y k, out.Rect.Min.Y ≤ y → y < out.Rect.Max.Y → 0 ≤ k → k < filterLength →
      0 ≤ (y - out.Rect.Min.Y) * filterLength + k ∧
        (y - out.Rect.Min.Y) * filterLength + k < (coeffs.length : Int))
    (hsum : ∀ y, out.Rect.Min.Y ≤ y → y < out.Rect.Max.Y →
      int32 (weightSum coeffs ((y - out.Rect.Min.Y) * filterLength) filterLength.toNat) ≠ 0)
    (hout : ∀ x y, out.Rect.Min.X ≤ x → x < out.Rect.Max.X → out.Rect.Min.Y ≤ y →
      y < out.Rect.Max.Y → 0 ≤ pixOffset out (1 : Nat) x y ∧
        pixOffset out (1 : Nat) x y + 1 ≤ (out.Pix.length : Int)) :
    ∃ pix', resizeGray inp out coeffs offset filterLength = some pix' := by
  rw [resizeGray_eq_scan]
  apply scan_isSome
  intro x hx1 hx2
  obtain ⟨hr0, hr1⟩ := hrows x hx1 hx2
  obtain ⟨row, hrow⟩ := sliceFrom_isSome inp.Pix (rowBase inp x) hr0 (by omega)
  refine ⟨row, hrow, ?_⟩
  intro y pix hy1 hy2 hlen
  rw [← hlen]
  apply resizeGray_pixel_isSome inp row out coeffs offset filterLength x y pix hrow
    (hoff y hy1 hy2)
  · intro k start hk1 hk2
    refine ⟨?_, ?_⟩
    · obtain ⟨c1, c2⟩ := hco y k hy1 hy2 hk1 hk2
      exact index_isSome coeffs _ c1 c2
    · intro j hj1 hj2
      rw [resizeGray_switch_eq inp _ hW]
      have hb := clampColumn_bounds inp.Rect.Dx (int64 (start + k)) hW
      exact index_add_isSome inp.Pix row (rowBase inp x) _ hrow (by omega) (by omega)
  · exact hsum y hy1 hy2
  · rw [hlen]
    exact hout x y hx1 hx2 hy1 hy2

theorem resizeGray16_tap_isSome (row : List Byte) (coeffs : List Int) (oldBounds : Rectangle)
    (minX maxX start ci i : Int) (acc : Acc1)
    (hcf : ∃ cf, index coeffs (ci + i) = some cf)
    (hrow : ∀ j : Int, 0 ≤ j → j < 2 →
      ∃ p, index row (resizeGray16.switch oldBounds minX maxX (int64 (start + i)) + j) = some p) :
    ∃ acc', resizeGray16.tap row coeffs oldBounds minX maxX start ci i acc = some acc' := by
  obtain ⟨cf, hcf⟩ := hcf
  obtain ⟨p0, hp0⟩ := hrow 0 (by omega) (by omega)
  obtain ⟨p1, hp1⟩ := hrow 1 (by omega) (by omega)
  simp only [add_zero] at hp0
  unfold resizeGray16.tap
  simp only [bind, hcf, Option.some_bind, hp0, hp1, pure, add_zero]
  split_ifs <;> exact ⟨_, rfl⟩

theorem resizeGray16_pixel_isSome (inp : Image) (row : List Byte) (out : Image)
    (coeffs offset : List Int) (filterLength x y : Int) (pix : List Byte)
    (hs : sliceFrom inp.Pix (rowBase inp x) = some row)
    (hoff : 0 ≤ y ∧ y < (offset.length : Int))
    (htap : ∀ k start, 0 ≤ k → k < filterLength →
      (∃ cf, index coeffs ((y - out.Rect.Min.Y) * filterLength + k) = some cf) ∧
      ∀ j : Int, 0 ≤ j → j < 2 →
        ∃ p, index row (resizeGray16.switch (oldBoundsOf inp) ((oldBoundsOf inp).Min.X * 2)
          (((oldBoundsOf inp).Max.X - (oldBoundsOf inp).Min.X - 1) * 2) (int64 (start + k)) + j)
            = some p)
    (hsum : int64 (weightSum coeffs ((y - out.Rect.Min.Y) * filterLength) filterLength.toNat)
      ≠ 0)
    (hout : 0 ≤ pixOffset out (2 : Nat) x y ∧
      pixOffset out (2 : Nat) x y + 2 ≤ (pix.length : Int)) :
    ∃ pix', resizeGray16.pixel row out coeffs offset filterLength
          (oldBoundsOf inp) out.Bounds ((oldBoundsOf inp).Min.X * 2)
          (((oldBoundsOf inp).Max.X - (oldBoundsOf inp).Min.X - 1) * 2) x y pix = some pix' ∧
      pix'.length = pix.length := by
  obtain ⟨start, hstart⟩ := index_isSome offset y hoff.1 hoff.2
  obtain ⟨acc, hacc⟩ := forLoop_isSome filterLength (Acc1.mk 0 0)
    (resizeGray16.tap row coeffs (oldBoundsOf inp) ((oldBoundsOf inp).Min.X * 2)
        (((oldBoundsOf inp).Max.X - (oldBoundsOf inp).Min.X - 1) * 2) start
        ((y - out.Bounds.Min.Y) * filterLength))
    (fun k t hk1 hk2 => resizeGray16_tap_isSome _ _ _ _ _ _ _ _ _
      (htap k start hk1 hk2).1 (htap k start hk1 hk2).2)
  have hsm : acc.sum = int64 (weightSum coeffs ((y - out.Rect.Min.Y) * filterLength)
        filterLength.toNat) :=
    (chan_of_loop (fun a : Acc1 => a)
      (resizeGray16.tap row coeffs (oldBoundsOf inp) ((oldBoundsOf inp).Min.X * 2)
        (((oldBoundsOf inp).Max.X - (oldBoundsOf inp).Min.X - 1) * 2) start
        ((y - out.Bounds.Min.Y) * filterLength))
      int64 isWrap_int64 (fun i => index coeffs ((y - out.Bounds.Min.Y) * filterLength + i))
      (fun i => rowWord row (resizeGray16.switch (oldBoundsOf inp) ((oldBoundsOf inp).Min.X * 2)
          (((oldBoundsOf inp).Max.X - (oldBoundsOf inp).Min.X - 1) * 2) (int64 (start + i))
          + (2 * 0 : Nat)))
      (resizeGray16.sample inp x start 0)
      (fun k p hp => rowWord_sliceFrom _ _ _ _ _ hs hp)
      (fun k s s' hk => resizeGray16_tap_proj _ _ _ _ _ _ _ _ _ _ hk)
      filterLength _ acc rfl hacc).2
  have hne : acc.sum ≠ 0 := by rw [hsm]; exact hsum
  obtain ⟨pix', hw⟩ := writeBytes_isSome
    [uint8 (clampUint16 (int64 (acc.gray.tdiv acc.sum)) / 256),
      uint8 (clampUint16 (int64 (acc.gray.tdiv acc.sum)))]
    pix (pixOffset out (2 : Nat) x y) 0 (by simpa using hout.1) (by simpa using hout.2)
  have hlen := (writeBytes_eq_some _ _ _ _ _ hw).1
  refine ⟨pix', ?_, hlen⟩
  unfold resizeGray16.pixel
  simp only [bind, hstart, Option.some_bind, hacc, quo64, hne, if_false]
  simp only [writeBytes, pixOffset, Image.Bounds] at hw ⊢
  simp only [Nat.cast_zero, Nat.cast_ofNat, add_zero, zero_add, Nat.cast_one,
    Nat.reduceAdd, Option.bind_some, mul_one] at hw ⊢
  exact hw

theorem resizeGray16_isSome (inp out : Image) (coeffs offset : List Int) (filterLength : Int)
    (hW : 1 ≤ inp.Rect.Dx)
    (hrows : ∀ x, out.Rect.Min.X ≤ x → x < out.Rect.Max.X →
      0 ≤ rowBase inp x ∧ rowBase inp x + inp.Rect.Dx * 2 ≤ (inp.Pix.length : Int))
    (hoff : ∀ y, out.Rect.Min.Y ≤ y → y < out.Rect.Max.Y →
      0 ≤ y ∧ y < (offset.length : Int))
    (hco : ∀ y k, out.Rect.Min.Y ≤ y → y < out.Rect.Max.Y → 0 ≤ k → k < filterLength →
      0 ≤ (y - out.Rect.Min.Y) * filterLength + k ∧
        (y - out.Rect.Min.Y) * filterLength + k < (coeffs.length : Int))
    (hsum : ∀ y, out.Rect.Min.Y ≤ y → y < out.Rect.Max.Y →
      int64 (weightSum coeffs ((y - out.Rect.Min.Y) * filterLength) filterLength.toNat) ≠ 0)
    (hout : ∀ x y, out.Rect.Min.X ≤ x → x < out.Rect.Max.X → out.Rect.Min.Y ≤ y →
      y < out.Rect.Max.Y → 0 ≤ pixOffset out (2 : Nat) x y ∧
        pixOffset out (2 : Nat) x y + 2 ≤ (out.Pix.length : Int)) :
    ∃ pix', resizeGray16 inp out coeffs offset filterLength = some pix' := by
  rw [resizeGray16_eq_scan]
  apply scan_isSome
  intro x hx1 hx2
  obtain ⟨hr0, hr1⟩ := hrows x hx1 hx2
  obtain ⟨row, hrow⟩ := sliceFrom_isSome inp.Pix (rowBase inp x) hr0 (by omega)
  refine ⟨row, hrow, ?_⟩
  intro y pix hy1 hy2 hlen
  rw [← hlen]
  apply resizeGray16_pixel_isSome inp row out coeffs offset filterLength x y pix hrow
    (hoff y hy1 hy2)
  · intro k start hk1 hk2
    refine ⟨?_, ?_⟩
    · obtain ⟨c1, c2⟩ := hco y k hy1 hy2 hk1 hk2
      exact index_isSome coeffs _ c1 c2
    · intro j hj1 hj2
      rw [resizeGray16_switch_eq inp _ hW]
      have hb := clampColumn_bounds inp.Rect.Dx (int64 (start + k)) hW
      exact index_add_isSome inp.Pix row (rowBase inp x) _ hrow (by omega) (by omega)
  · exact hsum y hy1 hy2
  · rw [hlen]
    exact hout x y hx1 hx2 hy1 hy2

theorem resizeYCbCr_tap_isSome (row : List Byte) (coeffs : List Int) (oldBounds : Rectangle)
    (minX maxX start ci i : Int) (acc : Acc3)
    (hcf : ∃ cf, index coeffs (ci + i) = some cf)
    (hrow : ∀ j : Int, 0 ≤ j → j < 3 →
      ∃ p, index row (resizeYCbCr.switch oldBounds minX maxX (int64 (start + i)) + j) = some p) :
    ∃ acc', resizeYCbCr.tap row coeffs oldBounds minX maxX start ci i acc = some acc' := by
  obtain ⟨cf, hcf⟩ := hcf
  obtain ⟨p0, hp0⟩ := hrow 0 (by omega) (by omega)
  obtain ⟨p1, hp1⟩ := hrow 1 (by omega) (by omega)
  obtain ⟨p2, hp2⟩ := hrow 2 (by omega) (by omega)
  simp only [add_zero] at hp0
  unfold resizeYCbCr.tap
  simp only [bind, hcf, Option.some_bind, hp0, hp1, hp2, pure, add_zero]
  split_ifs <;> exact ⟨_, rfl⟩

theorem resizeYCbCr_pixel_isSome (inp : ycc) (row : List Byte) (out : ycc)
    (coeffs offset : List Int) (filterLength x y : Int) (pix : List Byte)
    (hs : sliceFrom inp.Pix (rowBase inp x) = some row)
    (hoff : 0 ≤ y ∧ y < (offset.length : Int))
    (htap : ∀ k start, 0 ≤ k → k < filterLength →
      (∃ cf, index coeffs ((y - out.Rect.Min.Y) * filterLength + k) = some cf) ∧
      ∀ j : Int, 0 ≤ j → j < 3 →
        ∃ p, index row (resizeYCbCr.switch (oldBoundsOf inp) ((oldBoundsOf inp).Min.X * 3)
          (((oldBoundsOf inp).Max.X - (oldBoundsOf inp).Min.X - 1) * 3) (int64 (start + k)) + j)
            = some p)
    (hsum : int32 (weightSum coeffs ((y - out.Rect.Min.Y) * filterLength) filterLength.toNat)
      ≠ 0)
    (hout : 0 ≤ pixOffset out (3 : Nat) x y ∧
      pixOffset out (3 : Nat) x y + 3 ≤ (pix.length : Int)) :
    ∃ pix', resizeYCbCr.pixel row out coeffs offset filterLength
          (oldBoundsOf inp) out.Bounds ((oldBoundsOf inp).Min.X * 3)
          (((oldBoundsOf inp).Max.X - (oldBoundsOf inp).Min.X - 1) * 3) x y pix = some pix' ∧
      pix'.length = pix.length := by
  obtain ⟨start, hstart⟩ := index_isSome offset y hoff.1 hoff.2
  obtain ⟨acc, hacc⟩ := forLoop_isSome filterLength (Acc3.mk 0 0 0 0)
    (resizeYCbCr.tap row coeffs (oldBoundsOf inp) ((oldBoundsOf inp).Min.X * 3)
        (((oldBoundsOf inp).Max.X - (oldBoundsOf inp).Min.X - 1) * 3) start
        ((y - out.Bounds.Min.Y) * filterLength))
    (fun k t hk1 hk2 => resizeYCbCr_tap_isSome _ _ _ _ _ _ _ _ _
      (htap k start hk1 hk2).1 (htap k start hk1 hk2).2)
  have hsm : acc.sum = int32 (weightSum coeffs ((y - out.Rect.Min.Y) * filterLength)
        filterLength.toNat) :=
    (chan_of_loop (fun a : Acc3 => a.chan 0)
      (resizeYCbCr.tap row coeffs (oldBoundsOf inp) ((oldBoundsOf inp).Min.X * 3)
        (((oldBoundsOf inp).Max.X - (oldBoundsOf inp).Min.X - 1) * 3) start
        ((y - out.Bounds.Min.Y) * filterLength))
      int32 isWrap_int32 (fun i => index coeffs ((y - out.Bounds.Min.Y) * filterLength + i))
      (fun i => rowByte row (resizeYCbCr.switch (oldBoundsOf inp) ((oldBoundsOf inp).Min.X * 3)
          (((oldBoundsOf inp).Max.X - (oldBoundsOf inp).Min.X - 1) * 3) (int64 (start + i))
          + (0 : Nat)))
      (resizeYCbCr.sample inp x start 0)
      (fun k p hp => rowByte_sliceFrom _ _ _ _ _ hs hp)
      (fun k s s' hk => resizeYCbCr_tap_proj _ _ _ _ _ _ _ _ _ _ hk 0 (by omega))
      filterLength _ acc (by simp [Acc3.chan]) hacc).2
  have hne : acc.sum ≠ 0 := by rw [hsm]; exact hsum
  obtain ⟨pix', hw⟩ := writeBytes_isSome
    [clampUint8 (int32 (acc.c0.tdiv acc.sum)), clampUint8 (int32 (acc.c1.tdiv acc.sum)), clampUint8 (int32 (acc.c2.tdiv acc.sum))]
    pix (pixOffset out (3 : Nat) x y) 0 (by simpa using hout.1) (by simpa using hout.2)
  have hlen := (writeBytes_eq_some _ _ _ _ _ hw).1
  refine ⟨pix', ?_, hlen⟩
  unfold resizeYCbCr.pixel
  simp only [bind, hstart, Option.some_bind, hacc, quo32, hne, if_false]
  simp only [writeBytes, pixOffset, Image.Bounds] at hw ⊢
  simp only [Nat.cast_zero, Nat.cast_ofNat, add_zero, zero_add, Nat.cast_one,
    Nat.reduceAdd, Option.bind_some, mul_one] at hw ⊢
  exact hw

theorem resizeYCbCr_isSome (inp out : ycc) (coeffs offset : List Int) (filterLength : Int)
    (hW : 1 ≤ inp.Rect.Dx)
    (hrows : ∀ x, out.Rect.Min.X ≤ x → x < out.Rect.Max.X →
      0 ≤ rowBase inp x ∧ rowBase inp x + inp.Rect.Dx * 3 ≤ (inp.Pix.length : Int))
    (hoff : ∀ y, out.Rect.Min.Y ≤ y → y < out.Rect.Max.Y →
      0 ≤ y ∧ y < (offset.length : Int))
    (hco : ∀ y k, out.Rect.Min.Y ≤ y → y < out.Rect.Max.Y → 0 ≤ k → k < filterLength →
      0 ≤ (y - out.Rect.Min.Y) * filterLength + k ∧
        (y - out.Rect.Min.Y) * filterLength + k < (coeffs.length : Int))
    (hsum : ∀ y, out.Rect.Min.Y ≤ y → y < out.Rect.Max.Y →
      int32 (weightSum coeffs ((y - out.Rect.Min.Y) * filterLength) filterLength.toNat) ≠ 0)
    (hout : ∀ x y, out.Rect.Min.X ≤ x → x < out.Rect.Max.X → out.Rect.Min.Y ≤ y →
      y < out.Rect.Max.Y → 0 ≤ pixOffset out (3 : Nat) x y ∧
        pixOffset out (3 : Nat) x y + 3 ≤ (out.Pix.length : Int)) :
    ∃ pix', resizeYCbCr inp out coeffs offset filterLength = some pix' := by
  rw [resizeYCbCr_eq_scan]
  apply scan_isSome
  intro x hx1 hx2
  obtain ⟨hr0, hr1⟩ := hrows x hx1 hx2
  obtain ⟨row, hrow⟩ := sliceFrom_isSome inp.Pix (rowBase inp x) hr0 (by omega)
  refine ⟨row, hrow, ?_⟩
  intro y pix hy1 hy2 hlen
  rw [← hlen]
  apply resizeYCbCr_pixel_isSome inp row out coeffs offset filterLength x y pix hrow
    (hoff y hy1 hy2)
  · intro k start hk1 hk2
    refine ⟨?_, ?_⟩
    · obtain ⟨c1, c2⟩ := hco y k hy1 hy2 hk1 hk2
      exact index_isSome coeffs _ c1 c2
    · intro j hj1 hj2
      rw [resizeYCbCr_switch_eq inp _ hW]
      have hb := clampColumn_bounds inp.Rect.Dx (int64 (start + k)) hW
      exact index_add_isSome inp.Pix row (rowBase inp x) _ hrow (by omega) (by omega)
  · exact hsum y hy1 hy2
  · rw [hlen]
    exact hout x y hx1 hx2 hy1 hy2

theorem resizeGeneric_tap_isSome (inp : GenericImage) (coeffs : List Int)
    (oldBounds : Rectangle) (start ci x i : Int) (acc : Acc4)
    (hcf : ∃ cf, index coeffs (ci + i) = some cf) :
    ∃ acc', resizeGeneric.tap inp coeffs oldBounds start ci x i acc = some acc' := by
  obtain ⟨cf, hcf⟩ := hcf
  unfold resizeGeneric.tap
  simp only [bind, hcf, Option.some_bind, pure]
  split_ifs <;> exact ⟨_, rfl⟩

theorem resizeGeneric_pixel_isSome (inp : GenericImage) (out : Image)
    (coeffs offset : List Int) (filterLength x y : Int) (pix : List Byte)
    (hoff : 0 ≤ y ∧ y < (offset.length : Int))
    (htap : ∀ k, 0 ≤ k → k < filterLength →
      ∃ cf, index coeffs ((y - out.Rect.Min.Y) * filterLength + k) = some cf)
    (hsum : int64 (weightSum coeffs ((y - out.Rect.Min.Y) * filterLength) filterLength.toNat)
      ≠ 0)
    (hout : 0 ≤ pixOffset out (8 : Nat) x y ∧
      pixOffset out (8 : Nat) x y + 8 ≤ (pix.length : Int)) :
    ∃ pix', resizeGeneric.pixel inp out coeffs offset filterLength
          (Rect 0 0 inp.Bounds.Dx inp.Bounds.Dy) out.Bounds x y pix = some pix' ∧
      pix'.length = pix.length := by
  obtain ⟨start, hstart⟩ := index_isSome offset y hoff.1 hoff.2
  obtain ⟨acc, hacc⟩ := forLoop_isSome filterLength (Acc4.mk 0 0 0 0 0)
    (resizeGeneric.tap inp coeffs (Rect 0 0 inp.Bounds.Dx inp.Bounds.Dy) start
        ((y - out.Bounds.Min.Y) * filterLength) x)
    (fun k t hk1 hk2 => resizeGeneric_tap_isSome _ _ _ _ _ _ _ _ (htap k hk1 hk2))
  have hsm : acc.sum = int64 (weightSum coeffs ((y - out.Rect.Min.Y) * filterLength)
        filterLength.toNat) :=
    (chan_of_loop (fun a : Acc4 => a.chan 0)
      (resizeGeneric.tap inp coeffs (Rect 0 0 inp.Bounds.Dx inp.Bounds.Dy) start
        ((y - out.Bounds.Min.Y) * filterLength) x)
      int64 isWrap_int64 (fun i => index coeffs ((y - out.Bounds.Min.Y) * filterLength + i))
      (fun i => some ((inp.At (resizeGeneric.switch (Rect 0 0 inp.Bounds.Dx inp.Bounds.Dy)
        (int64 (start + i))) x).chan 0))
      (resizeGeneric.sample inp x start 0)
      (fun k p hp => by
        simp only [Option.some.injEq] at hp
        rw [← hp]
        rfl)
      (fun k s s' hk => resizeGeneric_tap_proj _ _ _ _ _ _ _ _ _ hk 0 (by omega))
      filterLength _ acc (by simp [Acc4.chan]) hacc).2
  have hne : acc.sum ≠ 0 := by rw [hsm]; exact hsum
  obtain ⟨pix', hw⟩ := writeBytes_isSome
    [uint8 (clampUint16 (int64 (acc.c0.tdiv acc.sum)) / 256),
      uint8 (clampUint16 (int64 (acc.c0.tdiv acc.sum))),
      uint8 (clampUint16 (int64 (acc.c1.tdiv acc.sum)) / 256),
      uint8 (clampUint16 (int64 (acc.c1.tdiv acc.sum))),
      uint8 (clampUint16 (int64 (acc.c2.tdiv acc.sum)) / 256),
      uint8 (clampUint16 (int64 (acc.c2.tdiv acc.sum))),
      uint8 (clampUint16 (int64 (acc.c3.tdiv acc.sum)) / 256),
      uint8 (clampUint16 (int64 (acc.c3.tdiv acc.sum)))]
    pix (pixOffset out (8 : Nat) x y) 0 (by simpa using hout.1) (by simpa using hout.2)
  have hlen := (writeBytes_eq_some _ _ _ _ _ hw).1
  refine ⟨pix', ?_, hlen⟩
  unfold resizeGeneric.pixel
  simp only [bind, hstart, Option.some_bind, hacc, quo64, hne, if_false]
  simp only [writeBytes, pixOffset, Image.Bounds] at hw ⊢
  simp only [Nat.cast_zero, Nat.cast_ofNat, add_zero, zero_add, Nat.cast_one,
    Nat.reduceAdd, Option.bind_some, mul_one] at hw ⊢
  exact hw

theorem resizeGeneric_isSome (inp : GenericImage) (out : Image) (coeffs offset : List Int)
    (filterLength : Int)
    (hoff : ∀ y, out.Rect.Min.Y ≤ y → y < out.Rect.Max.Y →
      0 ≤ y ∧ y < (offset.length : Int))
    (hco : ∀ y k, out.Rect.Min.Y ≤ y → y < out.Rect.Max.Y → 0 ≤ k → k < filterLength →
      0 ≤ (y - out.Rect.Min.Y) * filterLength + k ∧
        (y - out.Rect.Min.Y) * filterLength + k < (coeffs.length : Int))
    (hsum : ∀ y, out.Rect.Min.Y ≤ y → y < out.Rect.Max.Y →
      int64 (weightSum coeffs ((y - out.Rect.Min.Y) * filterLength) filterLength.toNat) ≠ 0)
    (hout : ∀ x y, out.Rect.Min.X ≤ x → x < out.Rect.Max.X → out.Rect.Min.Y ≤ y →
      y < out.Rect.Max.Y → 0 ≤ pixOffset out (8 : Nat) x y ∧
        pixOffset out (8 : Nat) x y + 8 ≤ (out.Pix.length : Int)) :
    ∃ pix', resizeGeneric inp out coeffs offset filterLength = some pix' := by
  rw [resizeGeneric_eq_scan]
  apply scan_isSome
  intro x hx1 hx2
  refine ⟨(), rfl, ?_⟩
  intro y pix hy1 hy2 hlen
  rw [← hlen]
  apply resizeGeneric_pixel_isSome inp out coeffs offset filterLength x y pix
    (hoff y hy1 hy2)
  · intro k hk1 hk2
    obtain ⟨c1, c2⟩ := hco y k hy1 hy2 hk1 hk2
    exact index_isSome coeffs _ c1 c2
  · exact hsum y hy1 hy2
  · rw [hlen]
    exact hout x y hx1 hx2 hy1 hy2

/-! ## The samples in terms of the source buffer -/

theorem resizeRGBA_sample_eq (inp : Image) (x start : Int) (c : Nat) (k : Int)
    (hW : 1 ≤ inp.Rect.Dx) (hH : 0 ≤ inp.Rect.Dy) :
    resizeRGBA.sample inp x start c k
      = byteAt inp.Pix (x * inp.Stride + 4 * clampColumn inp.Rect.Dx (int64 (start + k)) + c) := by
  unfold resizeRGBA.sample
  rw [resizeRGBA_switch_eq inp _ hW, rowBase_eq inp x hH, add_assoc]

theorem resizeRGBA64_sample_eq (inp : Image) (x start : Int) (c : Nat) (k : Int)
    (hW : 1 ≤ inp.Rect.Dx) (hH : 0 ≤ inp.Rect.Dy) :
    resizeRGBA64.sample inp x start c k
      = wordAt inp.Pix (x * inp.Stride + 8 * clampColumn inp.Rect.Dx (int64 (start + k))
          + (2 * c : Nat)) := by
  unfold resizeRGBA64.sample
  rw [resizeRGBA64_switch_eq inp _ hW, rowBase_eq inp x hH, add_assoc]

theorem resizeGray_sample_eq (inp : Image) (x start : Int) (c : Nat) (k : Int)
    (hW : 1 ≤ inp.Rect.Dx) (hH : 0 ≤ inp.Rect.Dy) :
    resizeGray.sample inp x start c k
      = byteAt inp.Pix (x * inp.Stride + clampColumn inp.Rect.Dx (int64 (start + k)) + c) := by
  unfold resizeGray.sample
  rw [resizeGray_switch_eq inp _ hW, rowBase_eq inp x hH, add_assoc]

theorem resizeGray16_sample_eq (inp : Image) (x start : Int) (c : Nat) (k : Int)
    (hW : 1 ≤ inp.Rect.Dx) (hH : 0 ≤ inp.Rect.Dy) :
    resizeGray16.sample inp x start c k
      = wordAt inp.Pix (x * inp.Stride + 2 * clampColumn inp.Rect.Dx (int64 (start + k))
          + (2 * c : Nat)) := by
  unfold resizeGray16.sample
  rw [resizeGray16_switch_eq inp _ hW, rowBase_eq inp x hH, add_assoc]

theorem resizeYCbCr_sample_eq (inp : ycc) (x start : Int) (c : Nat) (k : Int)
    (hW : 1 ≤ inp.Rect.Dx) (hH : 0 ≤ inp.Rect.Dy) :
    resizeYCbCr.sample inp x start c k
      = byteAt inp.Pix (x * inp.Stride + 3 * clampColumn inp.Rect.Dx (int64 (start + k)) + c) := by
  unfold resizeYCbCr.sample
  rw [resizeYCbCr_switch_eq inp _ hW, rowBase_eq inp x hH, add_assoc]

/-! ## Sums over explicit tables -/

theorem intAt_nat (L : List Int) (k : Nat) : intAt L (0 + (k : Int)) = L[k]?.getD 0 := by
  unfold intAt index
  have h2 : (0 : Int) ≤ 0 + (k : Int) := by omega
  have e2 : (0 + (k : Int)).toNat = k := by omega
  rw [if_pos h2, e2]

theorem intAt_cons_succ (a : Int) (L : List Int) (k : Nat) :
    intAt (a :: L) (0 + ((k + 1 : Nat) : Int)) = intAt L (0 + (k : Int)) := by
  rw [intAt_nat, intAt_nat, List.getElem?_cons_succ]

theorem intAt_append_left (L1 L2 : List Int) (k : Nat) (hk : k < L1.length) :
    intAt (L1 ++ L2) (0 + (k : Int)) = intAt L1 (0 + (k : Int)) := by
  rw [intAt_nat, intAt_nat, List.getElem?_append_left hk]

theorem intAt_append_right (L1 L2 : List Int) (k : Nat) :
    intAt (L1 ++ L2) (0 + ((L1.length + k : Nat) : Int)) = intAt L2 (0 + (k : Int)) := by
  rw [intAt_nat, intAt_nat, List.getElem?_append_right (by omega)]
  congr 2
  omega

theorem weightSum_all (L : List Int) : weightSum L 0 L.length = L.sum := by
  unfold weightSum
  induction L with
  | nil => rfl
  | cons a L ih =>
    rw [List.length_cons, Finset.sum_range_succ', List.sum_cons]
    simp only [intAt_cons_succ]
    rw [ih]
    have : intAt (a :: L) (0 + ((0 : Nat) : Int)) = a := by rw [intAt_nat]; simp
    rw [this, add_comm]

theorem chanSum_const (L : List Int) (f : Int → Int) (a : Int)
    (h : ∀ k : Nat, k < L.length → f k = a) : chanSum L 0 L.length f = L.sum * a := by
  rw [← weightSum_all]
  unfold chanSum weightSum
  rw [Finset.sum_mul]
  apply Finset.sum_congr rfl
  intro k hk
  rw [h k (Finset.mem_range.mp hk)]

theorem chanSum_append (L1 L2 : List Int) (f : Int → Int) (a b : Int)
    (h1 : ∀ k : Nat, k < L1.length → f k = a)
    (h2 : ∀ k : Nat, k < L2.length → f ((L1.length + k : Nat) : Int) = b) :
    chanSum (L1 ++ L2) 0 (L1.length + L2.length) f = L1.sum * a + L2.sum * b := by
  have e1 := chanSum_const L1 f a h1
  have e2 := chanSum_const L2 (fun k => f (L1.length + k)) b
    (fun k hk => by have := h2 k hk; push_cast at this; exact this)
  unfold chanSum at e1 e2 ⊢
  rw [Finset.sum_range_add, ← e1, ← e2]
  congr 1
  · apply Finset.sum_congr rfl
    intro k hk
    rw [intAt_append_left L1 L2 k (Finset.mem_range.mp hk)]
  · apply Finset.sum_congr rfl
    intro k _
    rw [intAt_append_right L1 L2 k]
    push_cast
    rfl

/-! ## Uniform samples -/

theorem clampUint8_byte (b : Byte) : clampUint8 (b.val : Int) = b := by
  apply Fin.ext
  have h := clampUint8_val (b.val : Int)
  have hb := b.isLt
  omega

theorem bigEndian_word (hi lo : Byte) :
    uint8 (clampUint16 (256 * (hi.val : Int) + (lo.val : Int)) / 256) = hi ∧
      uint8 (clampUint16 (256 * (hi.val : Int) + (lo.val : Int))) = lo := by
  have h1 := hi.isLt
  have h2 := lo.isLt
  rw [clampUint16_eq]
  constructor
  · apply Fin.ext
    have := uint8_val (min (max (256 * (hi.val : Int) + (lo.val : Int)) 0) 65535 / 256)
    omega
  · apply Fin.ext
    have := uint8_val (min (max (256 * (hi.val : Int) + (lo.val : Int)) 0) 65535)
    omega

theorem byteAt_of_index (s : List Byte) (k : Int) (b : Byte) (h : index s k = some b) :
    byteAt s k = (b.val : Int) := by
  unfold byteAt
  rw [h]
  rfl

theorem byteAt_bounds (s : List Byte) (k : Int) : 0 ≤ byteAt s k ∧ byteAt s k ≤ 255 := by
  unfold byteAt
  cases h : index s k with
  | none => simp
  | some b =>
    have := b.isLt
    simp only [Option.map_some', Option.getD_some]
    omega

theorem chanSum_uniform (coeffs : List Int) (ci : Int) (n : Nat) (smp : Int → Int) (v : Int)
    (h : ∀ k, smp k = v) : chanSum coeffs ci n smp = weightSum coeffs ci n * v := by
  unfold chanSum weightSum
  rw [Finset.sum_mul]
  apply Finset.sum_congr rfl
  intro k _
  rw [h]

theorem machineQuo_uniform32 (S v : Int) (hS0 : S ≠ 0) (hS : fitsInt32 S)
    (hN : fitsInt32 (S * v)) (hv : v ≤ 65535) : machineQuo int32 (S * v) S = v := by
  rw [machineQuo_int32 (S * v) S hN.1 hN.2 hS.1 hS.2 hS0]
  · exact Int.mul_tdiv_cancel_left v hS0
  · rintro ⟨h1, h2⟩
    subst h2
    omega

theorem machineQuo_uniform64 (S v : Int) (hS0 : S ≠ 0) (hS : fitsInt64 S)
    (hN : fitsInt64 (S * v)) (hv : v ≤ 65535) : machineQuo int64 (S * v) S = v := by
  rw [machineQuo_int64 (S * v) S hN.1 hN.2 hS.1 hS.2 hS0]
  · exact Int.mul_tdiv_cancel_left v hS0
  · rintro ⟨h1, h2⟩
    subst h2
    omega

theorem index_nat {α : Type} (s : List α) (j : Nat) (h : j < s.length) :
    index s (j : Int) = some s[j] := by
  unfold index
  rw [if_pos (by omega)]
  simp [h]

theorem uniform8 (B : Nat) (out : Image) (coeffs offset : List Int) (filterLength : Int)
    (smp : Int → Int → Nat → Int → Int) (pix' : List Byte) (x y : Int) (C : List Byte)
    (hwr : Written out B (PixelVal int32 enc8 B out coeffs offset filterLength smp) pix' x y)
    (hC : C.length = B)
    (hsm : ∀ start (c : Nat) k, c < B → smp x start c k = byteAt C c)
    (hS0 : weightSum coeffs ((y - out.Rect.Min.Y) * filterLength) filterLength.toNat ≠ 0)
    (hS : fitsInt32 (weightSum coeffs ((y - out.Rect.Min.Y) * filterLength)
      filterLength.toNat))
    (hN : ∀ j : Nat, j < B →
      fitsInt32 (weightSum coeffs ((y - out.Rect.Min.Y) * filterLength) filterLength.toNat
        * byteAt C j)) :
    PixelIs out pix' B x y C := by
  intro j hj
  obtain ⟨start, _, _, hidx⟩ := written8 int32 B out coeffs offset filterLength smp pix' x y
    hwr j hj
  have e : pixOffset out (B : Int) x y
      = (y - out.Rect.Min.Y) * out.Stride + (x - out.Rect.Min.X) * B := rfl
  rw [← e, hidx, chanSum_uniform _ _ _ _ (byteAt C j) (fun k => hsm start j k hj),
    machineQuo_uniform32 _ _ hS0 hS (hN j hj) (by have := (byteAt_bounds C j).2; omega)]
  have hjl : j < C.length := by omega
  rw [byteAt_of_index C j _ (index_nat C j hjl), clampUint8_byte, List.getElem?_eq_getElem hjl]

theorem uniform16 (n : Nat) (out : Image) (coeffs offset : List Int) (filterLength : Int)
    (smp : Int → Int → Nat → Int → Int) (pix' : List Byte) (x y : Int) (C : List Byte)
    (hwr : Written out (2 * n) (PixelVal int64 enc16 n out coeffs offset filterLength smp)
      pix' x y)
    (hC : C.length = 2 * n)
    (hsm : ∀ start (c : Nat) k, c < n →
      smp x start c k = 256 * byteAt C (2 * c : Nat) + byteAt C (2 * c + 1 : Nat))
    (hS0 : weightSum coeffs ((y - out.Rect.Min.Y) * filterLength) filterLength.toNat ≠ 0)
    (hS : fitsInt64 (weightSum coeffs ((y - out.Rect.Min.Y) * filterLength)
      filterLength.toNat))
    (hN : ∀ c : Nat, c < n →
      fitsInt64 (weightSum coeffs ((y - out.Rect.Min.Y) * filterLength) filterLength.toNat
        * (256 * byteAt C (2 * c : Nat) + byteAt C (2 * c + 1 : Nat)))) :
    PixelIs out pix' (2 * n) x y C := by
  have e : pixOffset out ((2 * n : Nat) : Int) x y
      = (y - out.Rect.Min.Y) * out.Stride + (x - out.Rect.Min.X) * (2 * n : Nat) := rfl
  intro j hj
  have hc : j / 2 < n := by omega
  obtain ⟨start, _, _, hhi, hlo⟩ := written16 int64 n out coeffs offset filterLength smp
    pix' x y hwr (j / 2) hc
  have b0 := (byteAt_bounds C (2 * (j / 2) : Nat))
  have b1 := (byteAt_bounds C (2 * (j / 2) + 1 : Nat))
  rw [chanSum_uniform _ _ _ _ _ (fun k => hsm start (j / 2) k hc),
    machineQuo_uniform64 _ _ hS0 hS (hN (j / 2) hc) (by omega)] at hhi hlo
  have h0l : 2 * (j / 2) < C.length := by omega
  have h1l : 2 * (j / 2) + 1 < C.length := by omega
  rw [byteAt_of_index C _ _ (index_nat C _ h0l), byteAt_of_index C _ _ (index_nat C _ h1l)]
    at hhi hlo
  rw [(bigEndian_word _ _).1] at hhi
  rw [(bigEndian_word _ _).2] at hlo
  rw [← e]
  rcases Nat.mod_two_eq_zero_or_one j with hpar | hpar
  · have ej : j = 2 * (j / 2) := by omega
    rw [ej, hhi, List.getElem?_eq_getElem h0l]
  · have ej : j = 2 * (j / 2) + 1 := by omega
    rw [ej, hlo, List.getElem?_eq_getElem h1l]

theorem index_nat_eq {α : Type} (s : List α) (j : Nat) : index s (j : Int) = s[j]? := by
  unfold index
  rw [if_pos (by omega)]
  simp

theorem byteAt_congr (s C : List Byte) (k : Int) (j : Nat) (h : index s k = C[j]?) :
    byteAt s k = byteAt C j := by
  unfold byteAt
  rw [h, index_nat_eq]

theorem uniformRow_byte (inp : Image) (B : Nat) (x : Int) (C : List Byte)
    (hu : UniformRow inp B x C) (hW : 1 ≤ inp.Rect.Dx) (xi : Int) (j : Nat) (hj : j < B) :
    byteAt inp.Pix (x * inp.Stride + B * clampColumn inp.Rect.Dx xi + j) = byteAt C j := by
  have hb := clampColumn_bounds inp.Rect.Dx xi hW
  exact byteAt_congr _ _ _ _ (hu _ hb.1 (by omega) j hj)

theorem uniformRow_word (inp : Image) (B : Nat) (x : Int) (C : List Byte)
    (hu : UniformRow inp B x C) (hW : 1 ≤ inp.Rect.Dx) (xi : Int) (c : Nat)
    (hc : 2 * c + 1 < B) :
    wordAt inp.Pix (x * inp.Stride + B * clampColumn inp.Rect.Dx xi + (2 * c : Nat))
      = 256 * byteAt C (2 * c : Nat) + byteAt C (2 * c + 1 : Nat) := by
  unfold wordAt
  rw [uniformRow_byte inp B x C hu hW xi (2 * c) (by omega)]
  have e : x * inp.Stride + B * clampColumn inp.Rect.Dx xi + ((2 * c : Nat) : Int) + 1
      = x * inp.Stride + B * clampColumn inp.Rect.Dx xi + ((2 * c + 1 : Nat) : Int) := by
    push_cast; ring
  rw [e, uniformRow_byte inp B x C hu hW xi (2 * c + 1) hc]

theorem resizeRGBA_uniform (inp out : Image) (coeffs offset : List Int) (filterLength : Int)
    (pix' : List Byte) (x y : Int) (C : List Byte)
    (hW : 1 ≤ inp.Rect.Dx) (hH : 0 ≤ inp.Rect.Dy)
    (hx : out.Rect.Min.X ≤ x ∧ x < out.Rect.Max.X)
    (hy : out.Rect.Min.Y ≤ y ∧ y < out.Rect.Max.Y)
    (hrun : resizeRGBA inp out coeffs offset filterLength = some pix')
    (hst : out.Rect.Dx * 4 ≤ out.Stride) (hC : C.length = 4) (hu : UniformRow inp 4 x C)
    (hS0 : weightSum coeffs ((y - out.Rect.Min.Y) * filterLength) filterLength.toNat ≠ 0)
    (hfS : fitsInt32 (weightSum coeffs ((y - out.Rect.Min.Y) * filterLength)
      filterLength.toNat))
    (hfN : ∀ j : Nat, j < 4 →
      fitsInt32 (weightSum coeffs ((y - out.Rect.Min.Y) * filterLength) filterLength.toNat
        * byteAt C j)) :
    PixelIs out pix' 4 x y C := by
  obtain ⟨_, hwr, _⟩ := resizeRGBA_spec inp out coeffs offset filterLength pix' hst hrun
  apply uniform8 4 out coeffs offset filterLength (resizeRGBA.sample inp) pix' x y C
    (hwr x y hx.1 hx.2 hy.1 hy.2) hC
  · intro start c k hc
    rw [resizeRGBA_sample_eq inp x start c k hW hH]
    exact uniformRow_byte inp 4 x C hu hW (int64 (start + k)) c hc
  · exact hS0
  · exact hfS
  · exact hfN

theorem resizeRGBA64_uniform (inp out : Image) (coeffs offset : List Int) (filterLength : Int)
    (pix' : List Byte) (x y : Int) (C : List Byte)
    (hW : 1 ≤ inp.Rect.Dx) (hH : 0 ≤ inp.Rect.Dy)
    (hx : out.Rect.Min.X ≤ x ∧ x < out.Rect.Max.X)
    (hy : out.Rect.Min.Y ≤ y ∧ y < out.Rect.Max.Y)
    (hrun : resizeRGBA64 inp out coeffs offset filterLength = some pix')
    (hst : out.Rect.Dx * 8 ≤ out.Stride) (hC : C.length = 8) (hu : UniformRow inp 8 x C)
    (hS0 : weightSum coeffs ((y - out.Rect.Min.Y) * filterLength) filterLength.toNat ≠ 0)
    (hfS : fitsInt64 (weightSum coeffs ((y - out.Rect.Min.Y) * filterLength)
      filterLength.toNat))
    (hfN : ∀ c : Nat, c < 4 →
      fitsInt64 (weightSum coeffs ((y - out.Rect.Min.Y) * filterLength) filterLength.toNat
        * wordAt C (2 * c : Nat))) :
    PixelIs out pix' 8 x y C := by
  have hword : ∀ c : Nat, wordAt C (2 * c : Nat)
      = 256 * byteAt C (2 * c : Nat) + byteAt C (2 * c + 1 : Nat) := by
    intro c
    unfold wordAt
    push_cast
    rfl
  obtain ⟨_, hwr, _⟩ := resizeRGBA64_spec inp out coeffs offset filterLength pix' hst hrun
  apply uniform16 4 out coeffs offset filterLength (resizeRGBA64.sample inp) pix' x y C
    (hwr x y hx.1 hx.2 hy.1 hy.2) hC
  · intro start c k hc
    rw [resizeRGBA64_sample_eq inp x start c k hW hH]
    exact uniformRow_word inp 8 x C hu hW (int64 (start + k)) c (by omega)
  · exact hS0
  · exact hfS
  · intro c hc
    rw [← hword]
    exact hfN c hc

theorem resizeGray_uniform (inp out : Image) (coeffs offset : List Int) (filterLength : Int)
    (pix' : List Byte) (x y : Int) (C : List Byte)
    (hW : 1 ≤ inp.Rect.Dx) (hH : 0 ≤ inp.Rect.Dy)
    (hx : out.Rect.Min.X ≤ x ∧ x < out.Rect.Max.X)
    (hy : out.Rect.Min.Y ≤ y ∧ y < out.Rect.Max.Y)
    (hrun : resizeGray inp out coeffs offset filterLength = some pix')
    (hst : out.Rect.Dx * 1 ≤ out.Stride) (hC : C.length = 1) (hu : UniformRow inp 1 x C)
    (hS0 : weightSum coeffs ((y - out.Rect.Min.Y) * filterLength) filterLength.toNat ≠ 0)
    (hfS : fitsInt32 (weightSum coeffs ((y - out.Rect.Min.Y) * filterLength)
      filterLength.toNat))
    (hfN : ∀ j : Nat, j < 1 →
      fitsInt32 (weightSum coeffs ((y - out.Rect.Min.Y) * filterLength) filterLength.toNat
        * byteAt C j)) :
    PixelIs out pix' 1 x y C := by
  obtain ⟨_, hwr, _⟩ := resizeGray_spec inp out coeffs offset filterLength pix' hst hrun
  apply uniform8 1 out coeffs offset filterLength (resizeGray.sample inp) pix' x y C
    (hwr x y hx.1 hx.2 hy.1 hy.2) hC
  · intro start c k hc
    rw [resizeGray_sample_eq inp x start c k hW hH]
    have := uniformRow_byte inp 1 x C hu hW (int64 (start + k)) c hc
    simpa using this
  · exact hS0
  · exact hfS
  · exact hfN

theorem resizeGray16_uniform (inp out : Image) (coeffs offset : List Int) (filterLength : Int)
    (pix' : List Byte) (x y : Int) (C : List Byte)
    (hW : 1 ≤ inp.Rect.Dx) (hH : 0 ≤ inp.Rect.Dy)
    (hx : out.Rect.Min.X ≤ x ∧ x < out.Rect.Max.X)
    (hy : out.Rect.Min.Y ≤ y ∧ y < out.Rect.Max.Y)
    (hrun : resizeGray16 inp out coeffs offset filterLength = some pix')
    (hst : out.Rect.Dx * 2 ≤ out.Stride) (hC : C.length = 2) (hu : UniformRow inp 2 x C)
    (hS0 : weightSum coeffs ((y - out.Rect.Min.Y) * filterLength) filterLength.toNat ≠ 0)
    (hfS : fitsInt64 (weightSum coeffs ((y - out.Rect.Min.Y) * filterLength)
      filterLength.toNat))
    (hfN : ∀ c : Nat, c < 1 →
      fitsInt64 (weightSum coeffs ((y - out.Rect.Min.Y) * filterLength) filterLength.toNat
        * wordAt C (2 * c : Nat))) :
    PixelIs out pix' 2 x y C := by
  have hword : ∀ c : Nat, wordAt C (2 * c : Nat)
      = 256 * byteAt C (2 * c : Nat) + byteAt C (2 * c + 1 : Nat) := by
    intro c
    unfold wordAt
    push_cast
    rfl
  obtain ⟨_, hwr, _⟩ := resizeGray16_spec inp out coeffs offset filterLength pix' hst hrun
  apply uniform16 1 out coeffs offset filterLength (resizeGray16.sample inp) pix' x y C
    (hwr x y hx.1 hx.2 hy.1 hy.2) hC
  · intro start c k hc
    rw [resizeGray16_sample_eq inp x start c k hW hH]
    exact uniformRow_word inp 2 x C hu hW (int64 (start + k)) c (by omega)
  · exact hS0
  · exact hfS
  · intro c hc
    rw [← hword]
    exact hfN c hc

theorem resizeYCbCr_uniform (inp out : ycc) (coeffs offset : List Int) (filterLength : Int)
    (pix' : List Byte) (x y : Int) (C : List Byte)
    (hW : 1 ≤ inp.Rect.Dx) (hH : 0 ≤ inp.Rect.Dy)
    (hx : out.Rect.Min.X ≤ x ∧ x < out.Rect.Max.X)
    (hy : out.Rect.Min.Y ≤ y ∧ y < out.Rect.Max.Y)
    (hrun : resizeYCbCr inp out coeffs offset filterLength = some pix')
    (hst : out.Rect.Dx * 3 ≤ out.Stride) (hC : C.length = 3) (hu : UniformRow inp 3 x C)
    (hS0 : weightSum coeffs ((y - out.Rect.Min.Y) * filterLength) filterLength.toNat ≠ 0)
    (hfS : fitsInt32 (weightSum coeffs ((y - out.Rect.Min.Y) * filterLength)
      filterLength.toNat))
    (hfN : ∀ j : Nat, j < 3 →
      fitsInt32 (weightSum coeffs ((y - out.Rect.Min.Y) * filterLength) filterLength.toNat
        * byteAt C j)) :
    PixelIs out pix' 3 x y C := by
  obtain ⟨_, hwr, _⟩ := resizeYCbCr_spec inp out coeffs offset filterLength pix' hst hrun
  apply uniform8 3 out coeffs offset filterLength (resizeYCbCr.sample inp) pix' x y C
    (hwr x y hx.1 hx.2 hy.1 hy.2) hC
  · intro start c k hc
    rw [resizeYCbCr_sample_eq inp x start c k hW hH]
    exact uniformRow_byte inp 3 x C hu hW (int64 (start + k)) c hc
  · exact hS0
  · exact hfS
  · exact hfN

/-! ## A pass with unit coefficients -/

theorem pixOffset_bounds (out : Image) (B : Nat) (len x y : Int)
    (hst : out.Rect.Dx * B ≤ out.Stride) (hlen : out.Rect.Dy * out.Stride ≤ len)
    (hx : out.Rect.Min.X ≤ x ∧ x < out.Rect.Max.X)
    (hy : out.Rect.Min.Y ≤ y ∧ y < out.Rect.Max.Y) :
    0 ≤ pixOffset out B x y ∧ pixOffset out B x y + B ≤ len := by
  unfold pixOffset
  unfold Rectangle.Dx at hst
  unfold Rectangle.Dy at hlen
  have hB : (0 : Int) ≤ B := by omega
  have hu0 : 0 ≤ x - out.Rect.Min.X := by omega
  have hv0 : 0 ≤ y - out.Rect.Min.Y := by omega
  have h1 : (x - out.Rect.Min.X) * B + B ≤ (out.Rect.Max.X - out.Rect.Min.X) * B := by
    nlinarith
  have h2 : 0 ≤ (x - out.Rect.Min.X) * B := by positivity
  have hSt : 0 ≤ out.Stride := by nlinarith
  have h3 : 0 ≤ (y - out.Rect.Min.Y) * out.Stride := by positivity
  have h4 : (y - out.Rect.Min.Y) * out.Stride + out.Stride
      ≤ (out.Rect.Max.Y - out.Rect.Min.Y) * out.Stride := by nlinarith
  constructor
  · omega
  · omega

theorem intAt_replicate (n : Nat) (a k : Int) (h0 : 0 ≤ k) (h1 : k < n) :
    intAt (List.replicate n a) k = a := by
  unfold intAt index
  rw [if_pos h0, List.getElem?_replicate, if_pos (by omega)]
  rfl

theorem weightSum_ones (n : Nat) (k : Int) (h0 : 0 ≤ k) (h1 : k < n) :
    weightSum (List.replicate n 1) (k * 1) (1 : Int).toNat = 1 := by
  unfold weightSum
  have e : (1 : Int).toNat = 1 := rfl
  rw [e, Finset.sum_range_one]
  exact intAt_replicate n 1 _ (by simp; omega) (by simp; omega)

theorem uniformRow_rows (inp : Image) (B : Nat) (x : Int) (C : List Byte)
    (hu : UniformRow inp B x C) (hC : C.length = B) (hW : 1 ≤ inp.Rect.Dx)
    (hH : 0 ≤ inp.Rect.Dy) (hB : 0 < B) :
    0 ≤ rowBase inp x ∧ rowBase inp x + inp.Rect.Dx * B ≤ (inp.Pix.length : Int) := by
  rw [rowBase_eq inp x hH]
  have h0 := hu 0 (le_refl 0) (by omega) 0 hB
  have h1 := hu (inp.Rect.Dx - 1) (by omega) (by omega) (B - 1) (by omega)
  rw [List.getElem?_eq_getElem (by omega)] at h0 h1
  have b0 := index_lt_length _ _ _ h0
  have b1 := index_lt_length _ _ _ h1
  have e : ((B - 1 : Nat) : Int) = (B : Int) - 1 := by omega
  rw [e] at b1
  constructor
  · have := b0.1
    simp only [mul_zero, Nat.cast_zero, add_zero] at this
    exact this
  · have := b1.2
    nlinarith

theorem wordAt_bounds (s : List Byte) (k : Int) : 0 ≤ wordAt s k ∧ wordAt s k ≤ 65535 := by
  unfold wordAt
  have a := byteAt_bounds s k
  have b := byteAt_bounds s (k + 1)
  omega

theorem resizeRGBA_uniformPass : UniformPass resizeRGBA 4 := by
  intro inp out n C hW hH hC hu hY0 hY1 hst hlen
  have hws : ∀ y, out.Rect.Min.Y ≤ y → y < out.Rect.Max.Y →
      weightSum (List.replicate n 1) ((y - out.Rect.Min.Y) * 1) (1 : Int).toNat = 1 :=
    fun y h1 h2 => weightSum_ones n _ (by omega) (by omega)
  obtain ⟨pix', hrun⟩ := resizeRGBA_isSome inp out (List.replicate n 1) (List.replicate n 0) 1 hW
    (fun x h1 h2 => uniformRow_rows inp 4 x C (hu x h1 h2) hC hW hH (by omega))
    (fun y h1 h2 => by rw [List.length_replicate]; omega)
    (fun y k h1 h2 h3 h4 => by rw [List.length_replicate]; omega)
    (fun y h1 h2 => by rw [hws y h1 h2]; decide)
    (fun x y h1 h2 h3 h4 => pixOffset_bounds out 4 _ x y hst hlen ⟨h1, h2⟩ ⟨h3, h4⟩)
  refine ⟨pix', hrun, ?_, ?_⟩
  · exact (resizeRGBA_spec inp out _ _ 1 pix' hst hrun).1
  · intro x y h1 h2 h3 h4
    have hws := hws y h3 h4
    exact resizeRGBA_uniform inp out _ _ 1 pix' x y C hW hH ⟨h1, h2⟩ ⟨h3, h4⟩ hrun hst hC
      (hu x h1 h2) (by rw [hws]; decide) (by rw [hws]; exact ⟨by decide, by decide⟩)
      (fun j hj => by
        rw [hws, one_mul]
        have := byteAt_bounds C j
        exact ⟨by omega, by omega⟩)

theorem resizeRGBA64_uniformPass : UniformPass resizeRGBA64 8 := by
  intro inp out n C hW hH hC hu hY0 hY1 hst hlen
  have hws : ∀ y, out.Rect.Min.Y ≤ y → y < out.Rect.Max.Y →
      weightSum (List.replicate n 1) ((y - out.Rect.Min.Y) * 1) (1 : Int).toNat = 1 :=
    fun y h1 h2 => weightSum_ones n _ (by omega) (by omega)
  obtain ⟨pix', hrun⟩ := resizeRGBA64_isSome inp out (List.replicate n 1) (List.replicate n 0) 1 hW
    (fun x h1 h2 => uniformRow_rows inp 8 x C (hu x h1 h2) hC hW hH (by omega))
    (fun y h1 h2 => by rw [List.length_replicate]; omega)
    (fun y k h1 h2 h3 h4 => by rw [List.length_replicate]; omega)
    (fun y h1 h2 => by rw [hws y h1 h2]; decide)
    (fun x y h1 h2 h3 h4 => pixOffset_bounds out 8 _ x y hst hlen ⟨h1, h2⟩ ⟨h3, h4⟩)
  refine ⟨pix', hrun, ?_, ?_⟩
  · exact (resizeRGBA64_spec inp out _ _ 1 pix' hst hrun).1
  · intro x y h1 h2 h3 h4
    have hws := hws y h3 h4
    exact resizeRGBA64_uniform inp out _ _ 1 pix' x y C hW hH ⟨h1, h2⟩ ⟨h3, h4⟩ hrun hst hC
      (hu x h1 h2) (by rw [hws]; decide) (by rw [hws]; exact ⟨by decide, by decide⟩)
      (fun c hc => by
        rw [hws, one_mul]
        have := wordAt_bounds C (2 * c : Nat)
        exact ⟨by omega, by omega⟩)

theorem resizeGray_uniformPass : UniformPass resizeGray 1 := by
  intro inp out n C hW hH hC hu hY0 hY1 hst hlen
  have hws : ∀ y, out.Rect.Min.Y ≤ y → y < out.Rect.Max.Y →
      weightSum (List.replicate n 1) ((y - out.Rect.Min.Y) * 1) (1 : Int).toNat = 1 :=
    fun y h1 h2 => weightSum_ones n _ (by omega) (by omega)
  obtain ⟨pix', hrun⟩ := resizeGray_isSome inp out (List.replicate n 1) (List.replicate n 0) 1 hW
    (fun x h1 h2 => uniformRow_rows inp 1 x C (hu x h1 h2) hC hW hH (by omega))
    (fun y h1 h2 => by rw [List.length_replicate]; omega)
    (fun y k h1 h2 h3 h4 => by rw [List.length_replicate]; omega)
    (fun y h1 h2 => by rw [hws y h1 h2]; decide)
    (fun x y h1 h2 h3 h4 => pixOffset_bounds out 1 _ x y hst hlen ⟨h1, h2⟩ ⟨h3, h4⟩)
  refine ⟨pix', hrun, ?_, ?_⟩
  · exact (resizeGray_spec inp out _ _ 1 pix' hst hrun).1
  · intro x y h1 h2 h3 h4
    have hws := hws y h3 h4
    exact resizeGray_uniform inp out _ _ 1 pix' x y C hW hH ⟨h1, h2⟩ ⟨h3, h4⟩ hrun hst hC
      (hu x h1 h2) (by rw [hws]; decide) (by rw [hws]; exact ⟨by decide, by decide⟩)
      (fun j hj => by
        rw [hws, one_mul]
        have := byteAt_bounds C j
        exact ⟨by omega, by omega⟩)

theorem resizeGray16_uniformPass : UniformPass resizeGray16 2 := by
  intro inp out n C hW hH hC hu hY0 hY1 hst hlen
  have hws : ∀ y, out.Rect.Min.Y ≤ y → y < out.Rect.Max.Y →
      weightSum (List.replicate n 1) ((y - out.Rect.Min.Y) * 1) (1 : Int).toNat = 1 :=
    fun y h1 h2 => weightSum_ones n _ (by omega) (by omega)
  obtain ⟨pix', hrun⟩ := resizeGray16_isSome inp out (List.replicate n 1) (List.replicate n 0) 1 hW
    (fun x h1 h2 => uniformRow_rows inp 2 x C (hu x h1 h2) hC hW hH (by omega))
    (fun y h1 h2 => by rw [List.length_replicate]; omega)
    (fun y k h1 h2 h3 h4 => by rw [List.length_replicate]; omega)
    (fun y h1 h2 => by rw [hws y h1 h2]; decide)
    (fun x y h1 h2 h3 h4 => pixOffset_bounds out 2 _ x y hst hlen ⟨h1, h2⟩ ⟨h3, h4⟩)
  refine ⟨pix', hrun, ?_, ?_⟩
  · exact (resizeGray16_spec inp out _ _ 1 pix' hst hrun).1
  · intro x y h1 h2 h3 h4
    have hws := hws y h3 h4
    exact resizeGray16_uniform inp out _ _ 1 pix' x y C hW hH ⟨h1, h2⟩ ⟨h3, h4⟩ hrun hst hC
      (hu x h1 h2) (by rw [hws]; decide) (by rw [hws]; exact ⟨by decide, by decide⟩)
      (fun c hc => by
        rw [hws, one_mul]
        have := wordAt_bounds C (2 * c : Nat)
        exact ⟨by omega, by omega⟩)

theorem resizeYCbCr_uniformPass : UniformPass resizeYCbCr 3 := by
  intro inp out n C hW hH hC hu hY0 hY1 hst hlen
  have hws : ∀ y, out.Rect.Min.Y ≤ y → y < out.Rect.Max.Y →
      weightSum (List.replicate n 1) ((y - out.Rect.Min.Y) * 1) (1 : Int).toNat = 1 :=
    fun y h1 h2 => weightSum_ones n _ (by omega) (by omega)
  obtain ⟨pix', hrun⟩ := resizeYCbCr_isSome inp out (List.replicate n 1) (List.replicate n 0) 1 hW
    (fun x h1 h2 => uniformRow_rows inp 3 x C (hu x h1 h2) hC hW hH (by omega))
    (fun y h1 h2 => by rw [List.length_replicate]; omega)
    (fun y k h1 h2 h3 h4 => by rw [List.length_replicate]; omega)
    (fun y h1 h2 => by rw [hws y h1 h2]; decide)
    (fun x y h1 h2 h3 h4 => pixOffset_bounds out 3 _ x y hst hlen ⟨h1, h2⟩ ⟨h3, h4⟩)
  refine ⟨pix', hrun, ?_, ?_⟩
  · exact (resizeYCbCr_spec inp out _ _ 1 pix' hst hrun).1
  · intro x y h1 h2 h3 h4
    have hws := hws y h3 h4
    exact resizeYCbCr_uniform inp out _ _ 1 pix' x y C hW hH ⟨h1, h2⟩ ⟨h3, h4⟩ hrun hst hC
      (hu x h1 h2) (by rw [hws]; decide) (by rw [hws]; exact ⟨by decide, by decide⟩)
      (fun j hj => by
        rw [hws, one_mul]
        have := byteAt_bounds C j
        exact ⟨by omega, by omega⟩)

/-! ## `nearestYCbCr` -/

theorem nearestYCbCr_eq_scan {F : Type} (ops : Float32Ops F) (inp out : ycc)
    (coeffs : List Bool) (offset : List Int) (filterLength : Int) :
    nearestYCbCr ops inp out coeffs offset filterLength =
      scan out (fun x => sliceFrom inp.Pix (rowBase inp x))
        (fun row x => nearestYCbCr.pixel ops row out coeffs offset filterLength
          (oldBoundsOf inp) out.Bounds ((oldBoundsOf inp).Min.X * 3)
          (((oldBoundsOf inp).Max.X - (oldBoundsOf inp).Min.X - 1) * 3) x) := rfl

theorem nearestYCbCr_pixel_spec {F : Type} (ops : Float32Ops F) (inp : ycc)
    (row : List Byte) (out : ycc) (coeffs : List Bool) (offset : List Int)
    (filterLength x y : Int) (pix pix' : List Byte)
    (hs : sliceFrom inp.Pix (rowBase inp x) = some row)
    (h : nearestYCbCr.pixel ops row out coeffs offset filterLength
          (oldBoundsOf inp) out.Bounds ((oldBoundsOf inp).Min.X * 3)
          (((oldBoundsOf inp).Max.X - (oldBoundsOf inp).Min.X - 1) * 3) x y pix = some pix') :
    ∃ bs : List Byte, bs.length = 3 ∧
      nearestYCbCr.Val ops inp out coeffs offset filterLength x y bs ∧
      writeBytes pix (pixOffset out (3 : Nat) x y) 0 bs = some pix' := by
  unfold nearestYCbCr.pixel at h
  simp only [bind, Option.bind_eq_some] at h
  obtain ⟨start, hstart, acc, hacc, x0, hx0, x1, hx1, hx2⟩ := h
  refine ⟨_, ?_, ⟨row, start, acc, hs, hstart, hacc, rfl⟩, ?_⟩
  · rfl
  · simp only [writeBytes, pixOffset, Image.Bounds] at hx0 hx1 hx2 ⊢
    simp only [Nat.cast_zero, Nat.cast_ofNat, add_zero, zero_add, Nat.cast_one,
      Nat.reduceAdd] at hx0 hx1 hx2 ⊢
    simp only [hx0, hx1, hx2, Option.some_bind]

theorem nearestYCbCr_spec {F : Type} (ops : Float32Ops F) (inp out : ycc)
    (coeffs : List Bool) (offset : List Int) (filterLength : Int)
    (pix' : List Byte) (hstride : out.Rect.Dx * 3 ≤ out.Stride)
    (h : nearestYCbCr ops inp out coeffs offset filterLength = some pix') :
    pix'.length = out.Pix.length ∧
      (∀ x y, out.Rect.Min.X ≤ x → x < out.Rect.Max.X → out.Rect.Min.Y ≤ y →
        y < out.Rect.Max.Y →
        Written out 3 (nearestYCbCr.Val ops inp out coeffs offset filterLength) pix' x y) ∧
      (∀ j, (∀ x y (c : Nat), out.Rect.Min.X ≤ x → x < out.Rect.Max.X →
          out.Rect.Min.Y ≤ y → y < out.Rect.Max.Y → c < 3 →
          j ≠ pixOffset out (3 : Nat) x y + c) →
        index pix' j = index out.Pix j) := by
  rw [nearestYCbCr_eq_scan] at h
  exact scan_spec out 3 _ _ _ hstride
    (fun row x y pix pix' hrow hb =>
      nearestYCbCr_pixel_spec ops inp row out coeffs offset filterLength x y pix pix' hrow hb)
    pix' h

theorem nearestYCbCr_tap_isSome {F : Type} (ops : Float32Ops F) (row : List Byte)
    (coeffs : List Bool) (oldBounds : Rectangle)
    (minX maxX start ci i : Int) (acc : AccF F)
    (hcf : ∃ cf, index coeffs (ci + i) = some cf)
    (hrow : ∀ j : Int, 0 ≤ j → j < 3 →
      ∃ p, index row (nearestYCbCr.switch oldBounds minX maxX (int64 (start + i)) + j) = some p) :
    ∃ acc', nearestYCbCr.tap ops row coeffs oldBounds minX maxX start ci i acc = some acc' := by
  obtain ⟨cf, hcf⟩ := hcf
  obtain ⟨p0, hp0⟩ := hrow 0 (by omega) (by omega)
  obtain ⟨p1, hp1⟩ := hrow 1 (by omega) (by omega)
  obtain ⟨p2, hp2⟩ := hrow 2 (by omega) (by omega)
  simp only [add_zero] at hp0
  unfold nearestYCbCr.tap
  simp only [bind, hcf, Option.some_bind, hp0, hp1, hp2, pure, add_zero]
  split_ifs <;> exact ⟨_, rfl⟩

theorem nearestYCbCr_pixel_isSome {F : Type} (ops : Float32Ops F) (inp : ycc)
    (row : List Byte) (out : ycc) (coeffs : List Bool) (offset : List Int)
    (filterLength x y : Int) (pix : List Byte)
    (hoff : 0 ≤ y ∧ y < (offset.length : Int))
    (htap : ∀ k start, 0 ≤ k → k < filterLength →
      (∃ cf, index coeffs ((y - out.Rect.Min.Y) * filterLength + k) = some cf) ∧
      ∀ j : Int, 0 ≤ j → j < 3 →
        ∃ p, index row (nearestYCbCr.switch (oldBoundsOf inp) ((oldBoundsOf inp).Min.X * 3)
          (((oldBoundsOf inp).Max.X - (oldBoundsOf inp).Min.X - 1) * 3) (int64 (start + k)) + j)
            = some p)
    (hout : 0 ≤ pixOffset out (3 : Nat) x y ∧
      pixOffset out (3 : Nat) x y + 3 ≤ (pix.length : Int)) :
    ∃ pix', nearestYCbCr.pixel ops row out coeffs offset filterLength
          (oldBoundsOf inp) out.Bounds ((oldBoundsOf inp).Min.X * 3)
          (((oldBoundsOf inp).Max.X - (oldBoundsOf inp).Min.X - 1) * 3) x y pix = some pix' ∧
      pix'.length = pix.length := by
  obtain ⟨start, hstart⟩ := index_isSome offset y hoff.1 hoff.2
  obtain ⟨acc, hacc⟩ := forLoop_isSome filterLength
    (AccF.mk ops.zero ops.zero ops.zero ops.zero)
    (nearestYCbCr.tap ops row coeffs (oldBoundsOf inp) ((oldBoundsOf inp).Min.X * 3)
        (((oldBoundsOf inp).Max.X - (oldBoundsOf inp).Min.X - 1) * 3) start
        ((y - out.Bounds.Min.Y) * filterLength))
    (fun k t hk1 hk2 => nearestYCbCr_tap_isSome ops _ _ _ _ _ _ _ _ _
      (htap k start hk1 hk2).1 (htap k start hk1 hk2).2)
  obtain ⟨pix', hw⟩ := writeBytes_isSome
    [ops.floatToUint8 (ops.div acc.c0 acc.sum), ops.floatToUint8 (ops.div acc.c1 acc.sum),
      ops.floatToUint8 (ops.div acc.c2 acc.sum)]
    pix (pixOffset out (3 : Nat) x y) 0 (by simpa using hout.1) (by simpa using hout.2)
  have hlen := (writeBytes_eq_some _ _ _ _ _ hw).1
  refine ⟨pix', ?_, hlen⟩
  unfold nearestYCbCr.pixel
  simp only [bind, hstart, Option.some_bind, hacc]
  simp only [writeBytes, pixOffset, Image.Bounds] at hw ⊢
  simp only [Nat.cast_zero, Nat.cast_ofNat, add_zero, zero_add, Nat.cast_one,
    Nat.reduceAdd, Option.bind_some, mul_one] at hw ⊢
  exact hw

theorem nearestYCbCr_isSome {F : Type} (ops : Float32Ops F) (inp out : ycc)
    (coeffs : List Bool) (offset : List Int) (filterLength : Int)
    (hW : 1 ≤ inp.Rect.Dx)
    (hrows : ∀ x, out.Rect.Min.X ≤ x → x < out.Rect.Max.X →
      0 ≤ rowBase inp x ∧ rowBase inp x + inp.Rect.Dx * 3 ≤ (inp.Pix.length : Int))
    (hoff : ∀ y, out.Rect.Min.Y ≤ y → y < out.Rect.Max.Y →
      0 ≤ y ∧ y < (offset.length : Int))
    (hco : ∀ y k, out.Rect.Min.Y ≤ y → y < out.Rect.Max.Y → 0 ≤ k → k < filterLength →
      0 ≤ (y - out.Rect.Min.Y) * filterLength + k ∧
        (y - out.Rect.Min.Y) * filterLength + k < (coeffs.length : Int))
    (hout : ∀ x y, out.Rect.Min.X ≤ x → x < out.Rect.Max.X → out.Rect.Min.Y ≤ y →
      y < out.Rect.Max.Y → 0 ≤ pixOffset out (3 : Nat) x y ∧
        pixOffset out (3 : Nat) x y + 3 ≤ (out.Pix.length : Int)) :
    ∃ pix', nearestYCbCr ops inp out coeffs offset filterLength = some pix' := by
  rw [nearestYCbCr_eq_scan]
  apply scan_isSome
  intro x hx1 hx2
  obtain ⟨hr0, hr1⟩ := hrows x hx1 hx2
  obtain ⟨row, hrow⟩ := sliceFrom_isSome inp.Pix (rowBase inp x) hr0 (by omega)
  refine ⟨row, hrow, ?_⟩
  intro y pix hy1 hy2 hlen
  rw [← hlen]
  apply nearestYCbCr_pixel_isSome ops inp row out coeffs offset filterLength x y pix
    (hoff y hy1 hy2)
  · intro k start hk1 hk2
    refine ⟨?_, ?_⟩
    · obtain ⟨c1, c2⟩ := hco y k hy1 hy2 hk1 hk2
      exact index_isSome coeffs _ c1 c2
    · intro j hj1 hj2
      rw [nearestYCbCr_switch_eq inp _ hW]
      have hb := clampColumn_bounds inp.Rect.Dx (int64 (start + k)) hW
      exact index_add_isSome inp.Pix row (rowBase inp x) _ hrow (by omega) (by omega)
  · rw [hlen]
    exact hout x y hx1 hx2 hy1 hy2

/-! ## Indices in range -/

theorem safeCall_rows (inp out : Image) (bpp ncoeffs : Nat) (offset : List Int)
    (filterLength : Int) (h : SafeCall inp out bpp ncoeffs offset filterLength)
    (x : Int) (hx1 : out.Rect.Min.X ≤ x) (hx2 : x < out.Rect.Max.X) :
    0 ≤ rowBase inp x ∧ rowBase inp x + inp.Rect.Dx * bpp ≤ (inp.Pix.length : Int) := by
  obtain ⟨hW, hH, hst, hrows, -, -, hx0, -, -⟩ := h
  rw [rowBase_eq inp x (by omega)]
  have hB : (0 : Int) ≤ bpp := by omega
  have hs0 : 0 ≤ inp.Stride := le_trans (mul_nonneg (by omega) hB) hst
  exact ⟨mul_nonneg (by omega) hs0, hrows x (by omega) hx2⟩

theorem safeCall_coeffs (inp out : Image) (bpp ncoeffs : Nat) (offset : List Int)
    (filterLength : Int) (h : SafeCall inp out bpp ncoeffs offset filterLength)
    (y k : Int) (hy1 : out.Rect.Min.Y ≤ y) (hy2 : y < out.Rect.Max.Y) (hk1 : 0 ≤ k)
    (hk2 : k < filterLength) :
    0 ≤ (y - out.Rect.Min.Y) * filterLength + k ∧
      (y - out.Rect.Min.Y) * filterLength + k < (ncoeffs : Int) := by
  obtain ⟨-, -, -, -, -, hco, -, -, -⟩ := h
  unfold Rectangle.Dy at hco
  have h1 : 0 ≤ (y - out.Rect.Min.Y) * filterLength := mul_nonneg (by omega) (by omega)
  have h2 : (y - out.Rect.Min.Y + 1) * filterLength
      ≤ (out.Rect.Max.Y - out.Rect.Min.Y) * filterLength :=
    mul_le_mul_of_nonneg_right (by omega) (by omega)
  constructor
  · omega
  · nlinarith

theorem indexSafe_of_safeCall (col : Int → Int) (inp out : Image) (bpp ncoeffs : Nat)
    (offset : List Int) (filterLength : Int)
    (hcol : ∀ xi, col xi = bpp * clampColumn inp.Rect.Dx xi)
    (h : SafeCall inp out bpp ncoeffs offset filterLength) :
    IndexSafe col bpp inp out ncoeffs offset filterLength := by
  intro x y hx1 hx2 hy1 hy2
  obtain ⟨hr0, hr1⟩ := safeCall_rows inp out bpp ncoeffs offset filterLength h x hx1 hx2
  have hh := h
  obtain ⟨hW, hH, hst, hrows, hoff, hco, hx0, hy0, hout⟩ := hh
  have hB : (0 : Int) ≤ bpp := by omega
  have hWB : 0 ≤ inp.Rect.Dx * bpp := mul_nonneg (by omega) hB
  refine ⟨?_, ?_, ?_, ?_⟩
  · obtain ⟨row, hrow⟩ := sliceFrom_isSome inp.Pix (rowBase inp x) hr0 (by omega)
    refine ⟨row, hrow, ?_⟩
    intro xi c hc
    rw [hcol]
    have hb := clampColumn_bounds inp.Rect.Dx xi hW
    have h1 : 0 ≤ (bpp : Int) * clampColumn inp.Rect.Dx xi := mul_nonneg hB hb.1
    have h2 : (bpp : Int) * clampColumn inp.Rect.Dx xi ≤ bpp * (inp.Rect.Dx - 1) :=
      mul_le_mul_of_nonneg_left hb.2 hB
    have hc' : (c : Int) < bpp := by omega
    exact index_add_isSome inp.Pix row (rowBase inp x) _ hrow (by omega) (by nlinarith)
  · exact index_isSome offset y (by omega) (by omega)
  · intro i hi1 hi2
    exact safeCall_coeffs inp out bpp ncoeffs offset filterLength h y i hy1 hy2 hi1 hi2
  · intro pix c v hlen hc
    obtain ⟨o1, o2⟩ := hout x y hx1 hx2 hy1 hy2
    exact setIndex_isSome pix _ v (by omega) (by omega)

/-! ## The accumulators after the tap loop -/

theorem byteAt_of_rowByte (row : List Byte) (j p : Int) (h : rowByte row j = some p) :
    byteAt row j = p := by
  unfold rowByte at h
  unfold byteAt
  rw [h]
  rfl

theorem wordAt_of_rowWord (row : List Byte) (j p : Int) (h : rowWord row j = some p) :
    wordAt row j = p := by
  unfold rowWord at h
  simp only [Option.bind_eq_some, Option.map_eq_some'] at h
  obtain ⟨hi, hhi, lo, hlo, rfl⟩ := h
  unfold wordAt byteAt
  rw [hhi, hlo, word16_eq]
  rfl

theorem resizeRGBA_taps (row : List Byte) (coeffs : List Int) (oldBounds : Rectangle)
    (minX maxX start ci fl : Int) (acc : Acc4)
    (h : forLoop 0 fl (Acc4.mk 0 0 0 0 0)
      (resizeRGBA.tap row coeffs oldBounds minX maxX start ci) = some acc)
    (c : Nat) (hc : c < 4) :
    (acc.chan c).gray = int32 (chanSum coeffs ci fl.toNat
        (fun k => byteAt row (resizeRGBA.switch oldBounds minX maxX (int64 (start + k)) + c))) ∧
      (acc.chan c).sum = int32 (weightSum coeffs ci fl.toNat) :=
  chan_of_loop (fun a : Acc4 => a.chan c)
    (resizeRGBA.tap row coeffs oldBounds minX maxX start ci)
    int32 isWrap_int32 (fun i => index coeffs (ci + i))
    (fun i => rowByte row (resizeRGBA.switch oldBounds minX maxX (int64 (start + i)) + c))
    (fun k => byteAt row (resizeRGBA.switch oldBounds minX maxX (int64 (start + k)) + c))
    (fun k p hp => byteAt_of_rowByte _ _ _ hp)
    (fun k s s' hk => resizeRGBA_tap_proj _ _ _ _ _ _ _ _ _ _ hk c hc)
    fl _ acc (by simp [Acc4.chan]) h

theorem resizeRGBA64_taps (row : List Byte) (coeffs : List Int) (oldBounds : Rectangle)
    (minX maxX start ci fl : Int) (acc : Acc4)
    (h : forLoop 0 fl (Acc4.mk 0 0 0 0 0)
      (resizeRGBA64.tap row coeffs oldBounds minX maxX start ci) = some acc)
    (c : Nat) (hc : c < 4) :
    (acc.chan c).gray = int64 (chanSum coeffs ci fl.toNat
        (fun k => wordAt row
          (resizeRGBA64.switch oldBounds minX maxX (int64 (start + k)) + (2 * c : Nat)))) ∧
      (acc.chan c).sum = int64 (weightSum coeffs ci fl.toNat) :=
  chan_of_loop (fun a : Acc4 => a.chan c)
    (resizeRGBA64.tap row coeffs oldBounds minX maxX start ci)
    int64 isWrap_int64 (fun i => index coeffs (ci + i))
    (fun i => rowWord row (resizeRGBA64.switch oldBounds minX maxX (int64 (start + i)) + (2 * c : Nat)))
    (fun k => wordAt row (resizeRGBA64.switch oldBounds minX maxX (int64 (start + k)) + (2 * c : Nat)))
    (fun k p hp => wordAt_of_rowWord _ _ _ hp)
    (fun k s s' hk => resizeRGBA64_tap_proj _ _ _ _ _ _ _ _ _ _ hk c hc)
    fl _ acc (by simp [Acc4.chan]) h

theorem resizeGray_taps (row : List Byte) (coeffs : List Int) (oldBounds : Rectangle)
    (minX maxX start ci fl : Int) (acc : Acc1)
    (h : forLoop 0 fl (Acc1.mk 0 0)
      (resizeGray.tap row coeffs oldBounds minX maxX start ci) = some acc) :
    acc.gray = int32 (chanSum coeffs ci fl.toNat
        (fun k => byteAt row (resizeGray.switch oldBounds minX maxX (int64 (start + k))))) ∧
      acc.sum = int32 (weightSum coeffs ci fl.toNat) := by
  have := chan_of_loop (fun a : Acc1 => a)
    (resizeGray.tap row coeffs oldBounds minX maxX start ci)
    int32 isWrap_int32 (fun i => index coeffs (ci + i))
    (fun i => rowByte row (resizeGray.switch oldBounds minX maxX (int64 (start + i)) + (0 : Nat)))
    (fun k => byteAt row (resizeGray.switch oldBounds minX maxX (int64 (start + k))))
    (fun k p hp => by
      simp only [Nat.cast_zero, add_zero] at hp
      exact byteAt_of_rowByte _ _ _ hp)
    (fun k s s' hk => resizeGray_tap_proj _ _ _ _ _ _ _ _ _ _ hk)
    fl _ acc rfl h
  exact this

theorem resizeGray16_taps (row : List Byte) (coeffs : List Int) (oldBounds : Rectangle)
    (minX maxX start ci fl : Int) (acc : Acc1)
    (h : forLoop 0 fl (Acc1.mk 0 0)
      (resizeGray16.tap row coeffs oldBounds minX maxX start ci) = some acc) :
    acc.gray = int64 (chanSum coeffs ci fl.toNat
        (fun k => wordAt row (resizeGray16.switch oldBounds minX maxX (int64 (start + k))))) ∧
      acc.sum = int64 (weightSum coeffs ci fl.toNat) := by
  have := chan_of_loop (fun a : Acc1 => a)
    (resizeGray16.tap row coeffs oldBounds minX maxX start ci)
    int64 isWrap_int64 (fun i => index coeffs (ci + i))
    (fun i => rowWord row (resizeGray16.switch oldBounds minX maxX (int64 (start + i)) + (2 * 0 : Nat)))
    (fun k => wordAt row (resizeGray16.switch oldBounds minX maxX (int64 (start + k))))
    (fun k p hp => by
      simp only [mul_zero, Nat.cast_zero, add_zero] at hp
      exact wordAt_of_rowWord _ _ _ hp)
    (fun k s s' hk => resizeGray16_tap_proj _ _ _ _ _ _ _ _ _ _ hk)
    fl _ acc rfl h
  exact this

theorem resizeYCbCr_taps (row : List Byte) (coeffs : List Int) (oldBounds : Rectangle)
    (minX maxX start ci fl : Int) (acc : Acc3)
    (h : forLoop 0 fl (Acc3.mk 0 0 0 0)
      (resizeYCbCr.tap row coeffs oldBounds minX maxX start ci) = some acc)
    (c : Nat) (hc : c < 3) :
    (acc.chan c).gray = int32 (chanSum coeffs ci fl.toNat
        (fun k => byteAt row (resizeYCbCr.switch oldBounds minX maxX (int64 (start + k)) + c))) ∧
      (acc.chan c).sum = int32 (weightSum coeffs ci fl.toNat) :=
  chan_of_loop (fun a : Acc3 => a.chan c)
    (resizeYCbCr.tap row coeffs oldBounds minX maxX start ci)
    int32 isWrap_int32 (fun i => index coeffs (ci + i))
    (fun i => rowByte row (resizeYCbCr.switch oldBounds minX maxX (int64 (start + i)) + c))
    (fun k => byteAt row (resizeYCbCr.switch oldBounds minX maxX (int64 (start + k)) + c))
    (fun k p hp => byteAt_of_rowByte _ _ _ hp)
    (fun k s s' hk => resizeYCbCr_tap_proj _ _ _ _ _ _ _ _ _ _ hk c hc)
    fl _ acc (by simp [Acc3.chan]) h

theorem resizeGeneric_taps (inp : GenericImage) (coeffs : List Int) (oldBounds : Rectangle)
    (start ci x fl : Int) (acc : Acc4)
    (h : forLoop 0 fl (Acc4.mk 0 0 0 0 0)
      (resizeGeneric.tap inp coeffs oldBounds start ci x) = some acc)
    (c : Nat) (hc : c < 4) :
    (acc.chan c).gray = int64 (chanSum coeffs ci fl.toNat
        (fun k => (inp.At (resizeGeneric.switch oldBounds (int64 (start + k))) x).chan c)) ∧
      (acc.chan c).sum = int64 (weightSum coeffs ci fl.toNat) :=
  chan_of_loop (fun a : Acc4 => a.chan c)
    (resizeGeneric.tap inp coeffs oldBounds start ci x)
    int64 isWrap_int64 (fun i => index coeffs (ci + i))
    (fun i => some ((inp.At (resizeGeneric.switch oldBounds (int64 (start + i))) x).chan c))
    (fun k => (inp.At (resizeGeneric.switch oldBounds (int64 (start + k))) x).chan c)
    (fun k p hp => by
      simp only [Option.some.injEq] at hp
      rw [← hp])
    (fun k s s' hk => resizeGeneric_tap_proj _ _ _ _ _ _ _ _ _ hk c hc)
    fl _ acc (by simp [Acc4.chan]) h

/-! ## The tap loops without the guard -/

theorem forLoopAux_congr {σ : Type} (body body' : Int → σ → Option σ) (P : σ → Prop)
    (n : Nat) (v : Int) (s : σ) (h0 : P s)
    (hstep : ∀ k t, v ≤ k → k < v + n → P t →
      body k t = body' k t ∧ ∀ t', body k t = some t' → P t') :
    forLoopAux body n v s = forLoopAux body' n v s := by
  induction n generalizing v s with
  | zero => rfl
  | succ n ih =>
    obtain ⟨e, hP⟩ := hstep v s (le_refl v) (by push_cast; omega) h0
    simp only [forLoopAux]
    rw [← e]
    cases hb : body v s with
    | none => rfl
    | some t =>
      simp only [Option.some_bind]
      exact ih (v + 1) t (hP t hb)
        (fun k a hk1 hk2 => hstep k a (by omega) (by push_cast; omega))

theorem forLoop_congr {σ : Type} (body body' : Int → σ → Option σ) (P : σ → Prop)
    (lo hi : Int) (s : σ) (h0 : P s)
    (hstep : ∀ k t, lo ≤ k → k < hi → P t →
      body k t = body' k t ∧ ∀ t', body k t = some t' → P t') :
    forLoop lo hi s body = forLoop lo hi s body' := by
  unfold forLoop
  exact forLoopAux_congr body body' P _ lo s h0
    (fun k t hk1 hk2 hP => hstep k t hk1 (by omega) hP)

theorem int32_zero : int32 0 = 0 := rfl

theorem int64_zero : int64 0 = 0 := rfl

theorem int32_idem (a : Int) : int32 (int32 a) = int32 a := isWrap_int32.idem a

theorem int64_idem (a : Int) : int64 (int64 a) = int64 a := isWrap_int64.idem a

theorem resizeGray_tap_unguarded (row : List Byte) (coeffs : List Int) (oldBounds : Rectangle)
    (minX maxX start ci i : Int) (acc : Acc1)
    (hrow : ∀ j : Int, 0 ≤ j → j < 1 →
      ∃ p, index row (resizeGray.switch oldBounds minX maxX (int64 (start + i)) + j) = some p)
    (hacc : int32 acc.gray = acc.gray ∧ int32 acc.sum = acc.sum) :
    resizeGray.tap row coeffs oldBounds minX maxX start ci i acc
        = resizeGray.tapUnguarded row coeffs oldBounds minX maxX start ci i acc ∧
      ∀ acc', resizeGray.tap row coeffs oldBounds minX maxX start ci i acc = some acc' →
        int32 acc'.gray = acc'.gray ∧ int32 acc'.sum = acc'.sum := by
  obtain ⟨p0, hp0⟩ := hrow 0 (by omega) (by omega)
  simp only [add_zero] at hp0
  unfold resizeGray.tap resizeGray.tapUnguarded
  cases hcf : index coeffs (ci + i) with
  | none => simp [bind]
  | some coeff =>
    simp only [bind, Option.some_bind, hp0, pure]
    by_cases h0 : coeff = 0
    · subst h0
      simp [int32_zero, hacc.1, hacc.2]
    · simp [h0, int32_idem]

theorem resizeRGBA_tap_unguarded (row : List Byte) (coeffs : List Int) (oldBounds : Rectangle)
    (minX maxX start ci i : Int) (acc : Acc4)
    (hrow : ∀ j : Int, 0 ≤ j → j < 4 →
      ∃ p, index row (resizeRGBA.switch oldBounds minX maxX (int64 (start + i)) + j) = some p)
    (hacc : int32 acc.c0 = acc.c0 ∧ int32 acc.c1 = acc.c1 ∧ int32 acc.c2 = acc.c2 ∧ int32 acc.c3 = acc.c3 ∧ int32 acc.sum = acc.sum) :
    resizeRGBA.tap row coeffs oldBounds minX maxX start ci i acc
        = resizeRGBA.tapUnguarded row coeffs oldBounds minX maxX start ci i acc ∧
      ∀ acc', resizeRGBA.tap row coeffs oldBounds minX maxX start ci i acc = some acc' →
        int32 acc'.c0 = acc'.c0 ∧ int32 acc'.c1 = acc'.c1 ∧
        int32 acc'.c2 = acc'.c2 ∧ int32 acc'.c3 = acc'.c3 ∧ int32 acc'.sum = acc'.sum := by
  obtain ⟨p0, hp0⟩ := hrow 0 (by omega) (by omega)
  obtain ⟨p1, hp1⟩ := hrow 1 (by omega) (by omega)
  obtain ⟨p2, hp2⟩ := hrow 2 (by omega) (by omega)
  obtain ⟨p3, hp3⟩ := hrow 3 (by omega) (by omega)
  simp only [add_zero] at hp0
  unfold resizeRGBA.tap resizeRGBA.tapUnguarded
  cases hcf : index coeffs (ci + i) with
  | none => simp [bind]
  | some coeff =>
    simp only [bind, Option.some_bind, hp0, hp1, hp2, hp3, pure, add_zero]
    by_cases h0 : coeff = 0
    · subst h0
      simp [int32_zero, hacc.1, hacc.2.1, hacc.2.2.1, hacc.2.2.2.1, hacc.2.2.2.2]
    · simp [h0, int32_idem]

theorem resizeRGBA64_tap_unguarded (row : List Byte) (coeffs : List Int) (oldBounds : Rectangle)
    (minX maxX start ci i : Int) (acc : Acc4)
    (hrow : ∀ j : Int, 0 ≤ j → j < 8 →
      ∃ p, index row (resizeRGBA64.switch oldBounds minX maxX (int64 (start + i)) + j) = some p)
    (hacc : int64 acc.c0 = acc.c0 ∧ int64 acc.c1 = acc.c1 ∧ int64 acc.c2 = acc.c2 ∧ int64 acc.c3 = acc.c3 ∧ int64 acc.sum = acc.sum) :
    resizeRGBA64.tap row coeffs oldBounds minX maxX start ci i acc
        = resizeRGBA64.tapUnguarded row coeffs oldBounds minX maxX start ci i acc ∧
      ∀ acc', resizeRGBA64.tap row coeffs oldBounds minX maxX start ci i acc = some acc' →
        int64 acc'.c0 = acc'.c0 ∧ int64 acc'.c1 = acc'.c1 ∧
        int64 acc'.c2 = acc'.c2 ∧ int64 acc'.c3 = acc'.c3 ∧ int64 acc'.sum = acc'.sum := by
  obtain ⟨p0, hp0⟩ := hrow 0 (by omega) (by omega)
  obtain ⟨p1, hp1⟩ := hrow 1 (by omega) (by omega)
  obtain ⟨p2, hp2⟩ := hrow 2 (by omega) (by omega)
  obtain ⟨p3, hp3⟩ := hrow 3 (by omega) (by omega)
  obtain ⟨p4, hp4⟩ := hrow 4 (by omega) (by omega)
  obtain ⟨p5, hp5⟩ := hrow 5 (by omega) (by omega)
  obtain ⟨p6, hp6⟩ := hrow 6 (by omega) (by omega)
  obtain ⟨p7, hp7⟩ := hrow 7 (by omega) (by omega)
  simp only [add_zero] at hp0
  unfold resizeRGBA64.tap resizeRGBA64.tapUnguarded
  cases hcf : index coeffs (ci + i) with
  | none => simp [bind]
  | some coeff =>
    simp only [bind, Option.some_bind, hp0, hp1, hp2, hp3, hp4, hp5, hp6, hp7, pure, add_zero]
    by_cases h0 : coeff = 0
    · subst h0
      simp [int64_zero, hacc.1, hacc.2.1, hacc.2.2.1, hacc.2.2.2.1, hacc.2.2.2.2]
    · simp [h0, int64_idem]

theorem resizeGray16_tap_unguarded (row : List Byte) (coeffs : List Int) (oldBounds : Rectangle)
    (minX maxX start ci i : Int) (acc : Acc1)
    (hrow : ∀ j : Int, 0 ≤ j → j < 2 →
      ∃ p, index row (resizeGray16.switch oldBounds minX maxX (int64 (start + i)) + j) = some p)
    (hacc : int64 acc.gray = acc.gray ∧ int64 acc.sum = acc.sum) :
    resizeGray16.tap row coeffs oldBounds minX maxX start ci i acc
        = resizeGray16.tapUnguarded row coeffs oldBounds minX maxX start ci i acc ∧
      ∀ acc', resizeGray16.tap row coeffs oldBounds minX maxX start ci i acc = some acc' →
        int64 acc'.gray = acc'.gray ∧ int64 acc'.sum = acc'.sum := by
  obtain ⟨p0, hp0⟩ := hrow 0 (by omega) (by omega)
  obtain ⟨p1, hp1⟩ := hrow 1 (by omega) (by omega)
  simp only [add_zero] at hp0
  unfold resizeGray16.tap resizeGray16.tapUnguarded
  cases hcf : index coeffs (ci + i) with
  | none => simp [bind]
  | some coeff =>
    simp only [bind, Option.some_bind, hp0, hp1, pure, add_zero]
    by_cases h0 : coeff = 0
    · subst h0
      simp [int64_zero, hacc.1, hacc.2]
    · simp [h0, int64_idem]

theorem resizeYCbCr_tap_unguarded (row : List Byte) (coeffs : List Int) (oldBounds : Rectangle)
    (minX maxX start ci i : Int) (acc : Acc3)
    (hrow : ∀ j : Int, 0 ≤ j → j < 3 →
      ∃ p, index row (resizeYCbCr.switch oldBounds minX maxX (int64 (start + i)) + j) = some p)
    (hacc : int32 acc.c0 = acc.c0 ∧ int32 acc.c1 = acc.c1 ∧ int32 acc.c2 = acc.c2 ∧ int32 acc.sum = acc.sum) :
    resizeYCbCr.tap row coeffs oldBounds minX maxX start ci i acc
        = resizeYCbCr.tapUnguarded row coeffs oldBounds minX maxX start ci i acc ∧
      ∀ acc', resizeYCbCr.tap row coeffs oldBounds minX maxX start ci i acc = some acc' →
        int32 acc'.c0 = acc'.c0 ∧ int32 acc'.c1 = acc'.c1 ∧
        int32 acc'.c2 = acc'.c2 ∧ int32 acc'.sum = acc'.sum := by
  obtain ⟨p0, hp0⟩ := hrow 0 (by omega) (by omega)
  obtain ⟨p1, hp1⟩ := hrow 1 (by omega) (by omega)
  obtain ⟨p2, hp2⟩ := hrow 2 (by omega) (by omega)
  simp only [add_zero] at hp0
  unfold resizeYCbCr.tap resizeYCbCr.tapUnguarded
  cases hcf : index coeffs (ci + i) with
  | none => simp [bind]
  | some coeff =>
    simp only [bind, Option.some_bind, hp0, hp1, hp2, pure, add_zero]
    by_cases h0 : coeff = 0
    · subst h0
      simp [int32_zero, hacc.1, hacc.2.1, hacc.2.2.1, hacc.2.2.2]
    · simp [h0, int32_idem]

theorem resizeGeneric_tap_unguarded (inp : GenericImage) (coeffs : List Int)
    (oldBounds : Rectangle) (start ci x i : Int) (acc : Acc4)
    (hacc : int64 acc.c0 = acc.c0 ∧ int64 acc.c1 = acc.c1 ∧ int64 acc.c2 = acc.c2 ∧
      int64 acc.c3 = acc.c3 ∧ int64 acc.sum = acc.sum) :
    resizeGeneric.tap inp coeffs oldBounds start ci x i acc
        = resizeGeneric.tapUnguarded inp coeffs oldBounds start ci x i acc ∧
      ∀ acc', resizeGeneric.tap inp coeffs oldBounds start ci x i acc = some acc' →
        int64 acc'.c0 = acc'.c0 ∧ int64 acc'.c1 = acc'.c1 ∧ int64 acc'.c2 = acc'.c2 ∧
        int64 acc'.c3 = acc'.c3 ∧ int64 acc'.sum = acc'.sum := by
  unfold resizeGeneric.tap resizeGeneric.tapUnguarded
  cases hcf : index coeffs (ci + i) with
  | none => simp [bind]
  | some coeff =>
    simp only [bind, Option.some_bind, pure]
    by_cases h0 : coeff = 0
    · subst h0
      simp [int64_zero, hacc.1, hacc.2.1, hacc.2.2.1, hacc.2.2.2.1, hacc.2.2.2.2]
    · simp [h0, int64_idem]

theorem resizeRGBA_pixel_unguarded (row : List Byte) (out : Image) (coeffs offset : List Int)
    (filterLength : Int) (oldBounds newBounds : Rectangle) (minX maxX x y : Int)
    (pix : List Byte)
    (hrow : ∀ xi j : Int, 0 ≤ j → j < 4 →
      ∃ p, index row (resizeRGBA.switch oldBounds minX maxX xi + j) = some p) :
    resizeRGBA.pixel row out coeffs offset filterLength oldBounds newBounds minX maxX x y pix
      = resizeRGBA.pixelUnguarded row out coeffs offset filterLength oldBounds newBounds
          minX maxX x y pix := by
  have e : ∀ start ci, forLoop 0 filterLength (Acc4.mk 0 0 0 0 0)
        (resizeRGBA.tap row coeffs oldBounds minX maxX start ci)
      = forLoop 0 filterLength (Acc4.mk 0 0 0 0 0)
        (resizeRGBA.tapUnguarded row coeffs oldBounds minX maxX start ci) := by
    intro start ci
    exact forLoop_congr _ _
      (fun acc : Acc4 => int32 acc.c0 = acc.c0 ∧ int32 acc.c1 = acc.c1 ∧
        int32 acc.c2 = acc.c2 ∧ int32 acc.c3 = acc.c3 ∧ int32 acc.sum = acc.sum)
      0 filterLength _ ⟨rfl, rfl, rfl, rfl, rfl⟩
      (fun k t _ _ hP => resizeRGBA_tap_unguarded row coeffs oldBounds minX maxX start ci k t
        (hrow _) hP)
  unfold resizeRGBA.pixel resizeRGBA.pixelUnguarded
  simp only [e]

theorem resizeRGBA_unguarded (inp out : Image) (coeffs offset : List Int)
    (filterLength : Int) (hW : 1 ≤ inp.Rect.Dx)
    (hrows : ∀ x, out.Rect.Min.X ≤ x → x < out.Rect.Max.X →
      rowBase inp x + inp.Rect.Dx * 4 ≤ (inp.Pix.length : Int)) :
    resizeRGBA inp out coeffs offset filterLength
      = resizeRGBAUnguarded inp out coeffs offset filterLength := by
  unfold resizeRGBA resizeRGBAUnguarded
  apply forLoop_congr _ _ (fun _ => True) _ _ _ trivial
  intro x pix hx1 hx2 _
  refine ⟨?_, fun _ _ => trivial⟩
  cases hs : sliceFrom inp.Pix (rowBase inp x) with
  | none =>
    have hs' : sliceFrom inp.Pix ((x - (Rect 0 0 inp.Rect.Dx inp.Rect.Dy).Min.Y) * inp.Stride)
        = none := hs
    simp only [bind, hs', Option.none_bind]
  | some row =>
    have hs' : sliceFrom inp.Pix ((x - (Rect 0 0 inp.Rect.Dx inp.Rect.Dy).Min.Y) * inp.Stride)
        = some row := hs
    simp only [bind, hs', Option.some_bind]
    apply forLoop_congr _ _ (fun _ => True) _ _ _ trivial
    intro y pix' _ _ _
    refine ⟨?_, fun _ _ => trivial⟩
    apply resizeRGBA_pixel_unguarded
    intro xi j hj1 hj2
    have e := resizeRGBA_switch_eq inp xi hW
    unfold oldBoundsOf at e
    rw [e]
    have hb := clampColumn_bounds inp.Rect.Dx xi hW
    have hr := hrows x hx1 hx2
    exact index_add_isSome inp.Pix row (rowBase inp x) _ hs (by omega) (by omega)

theorem resizeRGBA64_pixel_unguarded (row : List Byte) (out : Image) (coeffs offset : List Int)
    (filterLength : Int) (oldBounds newBounds : Rectangle) (minX maxX x y : Int)
    (pix : List Byte)
    (hrow : ∀ xi j : Int, 0 ≤ j → j < 8 →
      ∃ p, index row (resizeRGBA64.switch oldBounds minX maxX xi + j) = some p) :
    resizeRGBA64.pixel row out coeffs offset filterLength oldBounds newBounds minX maxX x y pix
      = resizeRGBA64.pixelUnguarded row out coeffs offset filterLength oldBounds newBounds
          minX maxX x y pix := by
  have e : ∀ start ci, forLoop 0 filterLength (Acc4.mk 0 0 0 0 0)
        (resizeRGBA64.tap row coeffs oldBounds minX maxX start ci)
      = forLoop 0 filterLength (Acc4.mk 0 0 0 0 0)
        (resizeRGBA64.tapUnguarded row coeffs oldBounds minX maxX start ci) := by
    intro start ci
    exact forLoop_congr _ _
      (fun acc : Acc4 => int64 acc.c0 = acc.c0 ∧ int64 acc.c1 = acc.c1 ∧
        int64 acc.c2 = acc.c2 ∧ int64 acc.c3 = acc.c3 ∧ int64 acc.sum = acc.sum)
      0 filterLength _ ⟨rfl, rfl, rfl, rfl, rfl⟩
      (fun k t _ _ hP => resizeRGBA64_tap_unguarded row coeffs oldBounds minX maxX start ci k t
        (hrow _) hP)
  unfold resizeRGBA64.pixel resizeRGBA64.pixelUnguarded
  simp only [e]

theorem resizeRGBA64_unguarded (inp out : Image) (coeffs offset : List Int)
    (filterLength : Int) (hW : 1 ≤ inp.Rect.Dx)
    (hrows : ∀ x, out.Rect.Min.X ≤ x → x < out.Rect.Max.X →
      rowBase inp x + inp.Rect.Dx * 8 ≤ (inp.Pix.length : Int)) :
    resizeRGBA64 inp out coeffs offset filterLength
      = resizeRGBA64Unguarded inp out coeffs offset filterLength := by
  unfold resizeRGBA64 resizeRGBA64Unguarded
  apply forLoop_congr _ _ (fun _ => True) _ _ _ trivial
  intro x pix hx1 hx2 _
  refine ⟨?_, fun _ _ => trivial⟩
  cases hs : sliceFrom inp.Pix (rowBase inp x) with
  | none =>
    have hs' : sliceFrom inp.Pix ((x - (Rect 0 0 inp.Rect.Dx inp.Rect.Dy).Min.Y) * inp.Stride)
        = none := hs
    simp only [bind, hs', Option.none_bind]
  | some row =>
    have hs' : sliceFrom inp.Pix ((x - (Rect 0 0 inp.Rect.Dx inp.Rect.Dy).Min.Y) * inp.Stride)
        = some row := hs
    simp only [bind, hs', Option.some_bind]
    apply forLoop_congr _ _ (fun _ => True) _ _ _ trivial
    intro y pix' _ _ _
    refine ⟨?_, fun _ _ => trivial⟩
    apply resizeRGBA64_pixel_unguarded
    intro xi j hj1 hj2
    have e := resizeRGBA64_switch_eq inp xi hW
    unfold oldBoundsOf at e
    rw [e]
    have hb := clampColumn_bounds inp.Rect.Dx xi hW
    have hr := hrows x hx1 hx2
    exact index_add_isSome inp.Pix row (rowBase inp x) _ hs (by omega) (by omega)

theorem resizeGray_pixel_unguarded (row : List Byte) (out : Image) (coeffs offset : List Int)
    (filterLength : Int) (oldBounds newBounds : Rectangle) (minX maxX x y : Int)
    (pix : List Byte)
    (hrow : ∀ xi j : Int, 0 ≤ j → j < 1 →
      ∃ p, index row (resizeGray.switch oldBounds minX maxX xi + j) = some p) :
    resizeGray.pixel row out coeffs offset filterLength oldBounds newBounds minX maxX x y pix
      = resizeGray.pixelUnguarded row out coeffs offset filterLength oldBounds newBounds
          minX maxX x y pix := by
  have e : ∀ start ci, forLoop 0 filterLength (Acc1.mk 0 0)
        (resizeGray.tap row coeffs oldBounds minX maxX start ci)
      = forLoop 0 filterLength (Acc1.mk 0 0)
        (resizeGray.tapUnguarded row coeffs oldBounds minX maxX start ci) := by
    intro start ci
    exact forLoop_congr _ _
      (fun acc : Acc1 => int32 acc.gray = acc.gray ∧ int32 acc.sum = acc.sum)
      0 filterLength _ ⟨rfl, rfl⟩
      (fun k t _ _ hP => resizeGray_tap_unguarded row coeffs oldBounds minX maxX start ci k t
        (hrow _) hP)
  unfold resizeGray.pixel resizeGray.pixelUnguarded
  simp only [e]

theorem resizeGray_unguarded (inp out : Image) (coeffs offset : List Int)
    (filterLength : Int) (hW : 1 ≤ inp.Rect.Dx)
    (hrows : ∀ x, out.Rect.Min.X ≤ x → x < out.Rect.Max.X →
      rowBase inp x + inp.Rect.Dx ≤ (inp.Pix.length : Int)) :
    resizeGray inp out coeffs offset filterLength
      = resizeGrayUnguarded inp out coeffs offset filterLength := by
  unfold resizeGray resizeGrayUnguarded
  apply forLoop_congr _ _ (fun _ => True) _ _ _ trivial
  intro x pix hx1 hx2 _
  refine ⟨?_, fun _ _ => trivial⟩
  cases hs : sliceFrom inp.Pix (rowBase inp x) with
  | none =>
    have hs' : sliceFrom inp.Pix ((x - (Rect 0 0 inp.Rect.Dx inp.Rect.Dy).Min.Y) * inp.Stride)
        = none := hs
    simp only [bind, hs', Option.none_bind]
  | some row =>
    have hs' : sliceFrom inp.Pix ((x - (Rect 0 0 inp.Rect.Dx inp.Rect.Dy).Min.Y) * inp.Stride)
        = some row := hs
    simp only [bind, hs', Option.some_bind]
    apply forLoop_congr _ _ (fun _ => True) _ _ _ trivial
    intro y pix' _ _ _
    refine ⟨?_, fun _ _ => trivial⟩
    apply resizeGray_pixel_unguarded
    intro xi j hj1 hj2
    have e := resizeGray_switch_eq inp xi hW
    unfold oldBoundsOf at e
    rw [e]
    have hb := clampColumn_bounds inp.Rect.Dx xi hW
    have hr := hrows x hx1 hx2
    exact index_add_isSome inp.Pix row (rowBase inp x) _ hs (by omega) (by omega)

theorem resizeGray16_pixel_unguarded (row : List Byte) (out : Image) (coeffs offset : List Int)
    (filterLength : Int) (oldBounds newBounds : Rectangle) (minX maxX x y : Int)
    (pix : List Byte)
    (hrow : ∀ xi j : Int, 0 ≤ j → j < 2 →
      ∃ p, index row (resizeGray16.switch oldBounds minX maxX xi + j) = some p) :
    resizeGray16.pixel row out coeffs offset filterLength oldBounds newBounds minX maxX x y pix
      = resizeGray16.pixelUnguarded row out coeffs offset filterLength oldBounds newBounds
          minX maxX x y pix := by
  have e : ∀ start ci, forLoop 0 filterLength (Acc1.mk 0 0)
        (resizeGray16.tap row coeffs oldBounds minX maxX start ci)
      = forLoop 0 filterLength (Acc1.mk 0 0)
        (resizeGray16.tapUnguarded row coeffs oldBounds minX maxX start ci) := by
    intro start ci
    exact forLoop_congr _ _
      (fun acc : Acc1 => int64 acc.gray = acc.gray ∧ int64 acc.sum = acc.sum)
      0 filterLength _ ⟨rfl, rfl⟩
      (fun k t _ _ hP => resizeGray16_tap_unguarded row coeffs oldBounds minX maxX start ci k t
        (hrow _) hP)
  unfold resizeGray16.pixel resizeGray16.pixelUnguarded
  simp only [e]

theorem resizeGray16_unguarded (inp out : Image) (coeffs offset : List Int)
    (filterLength : Int) (hW : 1 ≤ inp.Rect.Dx)
    (hrows : ∀ x, out.Rect.Min.X ≤ x → x < out.Rect.Max.X →
      rowBase inp x + inp.Rect.Dx * 2 ≤ (inp.Pix.length : Int)) :
    resizeGray16 inp out coeffs offset filterLength
      = resizeGray16Unguarded inp out coeffs offset filterLength := by
  unfold resizeGray16 resizeGray16Unguarded
  apply forLoop_congr _ _ (fun _ => True) _ _ _ trivial
  intro x pix hx1 hx2 _
  refine ⟨?_, fun _ _ => trivial⟩
  cases hs : sliceFrom inp.Pix (rowBase inp x) with
  | none =>
    have hs' : sliceFrom inp.Pix ((x - (Rect 0 0 inp.Rect.Dx inp.Rect.Dy).Min.Y) * inp.Stride)
        = none := hs
    simp only [bind, hs', Option.none_bind]
  | some row =>
    have hs' : sliceFrom inp.Pix ((x - (Rect 0 0 inp.Rect.Dx inp.Rect.Dy).Min.Y) * inp.Stride)
        = some row := hs
    simp only [bind, hs', Option.some_bind]
    apply forLoop_congr _ _ (fun _ => True) _ _ _ trivial
    intro y pix' _ _ _
    refine ⟨?_, fun _ _ => trivial⟩
    apply resizeGray16_pixel_unguarded
    intro xi j hj1 hj2
    have e := resizeGray16_switch_eq inp xi hW
    unfold oldBoundsOf at e
    rw [e]
    have hb := clampColumn_bounds inp.Rect.Dx xi hW
    have hr := hrows x hx1 hx2
    exact index_add_isSome inp.Pix row (rowBase inp x) _ hs (by omega) (by omega)

theorem resizeYCbCr_pixel_unguarded (row : List Byte) (out : Image) (coeffs offset : List Int)
    (filterLength : Int) (oldBounds newBounds : Rectangle) (minX maxX x y : Int)
    (pix : List Byte)
    (hrow : ∀ xi j : Int, 0 ≤ j → j < 3 →
      ∃ p, index row (resizeYCbCr.switch oldBounds minX maxX xi + j) = some p) :
    resizeYCbCr.pixel row out coeffs offset filterLength oldBounds newBounds minX maxX x y pix
      = resizeYCbCr.pixelUnguarded row out coeffs offset filterLength oldBounds newBounds
          minX maxX x y pix := by
  have e : ∀ start ci, forLoop 0 filterLength (Acc3.mk 0 0 0 0)
        (resizeYCbCr.tap row coeffs oldBounds minX maxX start ci)
      = forLoop 0 filterLength (Acc3.mk 0 0 0 0)
        (resizeYCbCr.tapUnguarded row coeffs oldBounds minX maxX start ci) := by
    intro start ci
    exact forLoop_congr _ _
      (fun acc : Acc3 => int32 acc.c0 = acc.c0 ∧ int32 acc.c1 = acc.c1 ∧
        int32 acc.c2 = acc.c2 ∧ int32 acc.sum = acc.sum)
      0 filterLength _ ⟨rfl, rfl, rfl, rfl⟩
      (fun k t _ _ hP => resizeYCbCr_tap_unguarded row coeffs oldBounds minX maxX start ci k t
        (hrow _) hP)
  unfold resizeYCbCr.pixel resizeYCbCr.pixelUnguarded
  simp only [e]

theorem resizeYCbCr_unguarded (inp out : Image) (coeffs offset : List Int)
    (filterLength : Int) (hW : 1 ≤ inp.Rect.Dx)
    (hrows : ∀ x, out.Rect.Min.X ≤ x → x < out.Rect.Max.X →
      rowBase inp x + inp.Rect.Dx * 3 ≤ (inp.Pix.length : Int)) :
    resizeYCbCr inp out coeffs offset filterLength
      = resizeYCbCrUnguarded inp out coeffs offset filterLength := by
  unfold resizeYCbCr resizeYCbCrUnguarded
  apply forLoop_congr _ _ (fun _ => True) _ _ _ trivial
  intro x pix hx1 hx2 _
  refine ⟨?_, fun _ _ => trivial⟩
  cases hs : sliceFrom inp.Pix (rowBase inp x) with
  | none =>
    have hs' : sliceFrom inp.Pix ((x - (Rect 0 0 inp.Rect.Dx inp.Rect.Dy).Min.Y) * inp.Stride)
        = none := hs
    simp only [bind, hs', Option.none_bind]
  | some row =>
    have hs' : sliceFrom inp.Pix ((x - (Rect 0 0 inp.Rect.Dx inp.Rect.Dy).Min.Y) * inp.Stride)
        = some row := hs
    simp only [bind, hs', Option.some_bind]
    apply forLoop_congr _ _ (fun _ => True) _ _ _ trivial
    intro y pix' _ _ _
    refine ⟨?_, fun _ _ => trivial⟩
    apply resizeYCbCr_pixel_unguarded
    intro xi j hj1 hj2
    have e := resizeYCbCr_switch_eq inp xi hW
    unfold oldBoundsOf at e
    rw [e]
    have hb := clampColumn_bounds inp.Rect.Dx xi hW
    have hr := hrows x hx1 hx2
    exact index_add_isSome inp.Pix row (rowBase inp x) _ hs (by omega) (by omega)

theorem resizeGeneric_pixel_unguarded (inp : GenericImage) (out : Image)
    (coeffs offset : List Int) (filterLength : Int) (oldBounds newBounds : Rectangle)
    (x y : Int) (pix : List Byte) :
    resizeGeneric.pixel inp out coeffs offset filterLength oldBounds newBounds x y pix
      = resizeGeneric.pixelUnguarded inp out coeffs offset filterLength oldBounds newBounds
          x y pix := by
  have e : ∀ start ci, forLoop 0 filterLength (Acc4.mk 0 0 0 0 0)
        (resizeGeneric.tap inp coeffs oldBounds start ci x)
      = forLoop 0 filterLength (Acc4.mk 0 0 0 0 0)
        (resizeGeneric.tapUnguarded inp coeffs oldBounds start ci x) := by
    intro start ci
    exact forLoop_congr _ _
      (fun acc : Acc4 => int64 acc.c0 = acc.c0 ∧ int64 acc.c1 = acc.c1 ∧
        int64 acc.c2 = acc.c2 ∧ int64 acc.c3 = acc.c3 ∧ int64 acc.sum = acc.sum)
      0 filterLength _ ⟨rfl, rfl, rfl, rfl, rfl⟩
      (fun k t _ _ hP => resizeGeneric_tap_unguarded inp coeffs oldBounds start ci x k t hP)
  unfold resizeGeneric.pixel resizeGeneric.pixelUnguarded
  simp only [e]

theorem resizeGeneric_unguarded (inp : GenericImage) (out : Image) (coeffs offset : List Int)
    (filterLength : Int) :
    resizeGeneric inp out coeffs offset filterLength
      = resizeGenericUnguarded inp out coeffs offset filterLength := by
  unfold resizeGeneric resizeGenericUnguarded
  apply forLoop_congr _ _ (fun _ => True) _ _ _ trivial
  intro x pix _ _ _
  refine ⟨?_, fun _ _ => trivial⟩
  apply forLoop_congr _ _ (fun _ => True) _ _ _ trivial
  intro y pix' _ _ _
  exact ⟨resizeGeneric_pixel_unguarded inp out coeffs offset filterLength _ _ x y pix',
    fun _ _ => trivial⟩

/-! ## Views of a part of the destination -/

theorem subView_parts (out sub : Image) (B : Nat) (r : Rectangle)
    (h : subView out B r = some sub) :
    sub.Rect = r ∧ sub.Stride = out.Stride ∧
      sliceFrom out.Pix (pixOffset out B r.Min.X r.Min.Y) = some sub.Pix := by
  unfold subView at h
  simp only [Option.map_eq_some'] at h
  obtain ⟨p, hp, rfl⟩ := h
  exact ⟨rfl, rfl, hp⟩

theorem subView_offset (out sub : Image) (B : Nat) (r : Rectangle)
    (h : subView out B r = some sub) (x y : Int) :
    pixOffset out B x y = pixOffset out B r.Min.X r.Min.Y + pixOffset sub B x y := by
  obtain ⟨h1, h2, _⟩ := subView_parts out sub B r h
  unfold pixOffset
  rw [h1, h2]
  ring

theorem index_sliced_coeffs {κ : Type} (coeffs coeffs' : List κ) (y0 a y fl k : Int)
    (hco : sliceFrom coeffs ((a - y0) * fl) = some coeffs') (hy : a ≤ y) (hk : 0 ≤ k)
    (hfl : 0 ≤ fl) :
    index coeffs' ((y - a) * fl + k) = index coeffs ((y - y0) * fl + k) := by
  have h0 : 0 ≤ (y - a) * fl := mul_nonneg (by omega) hfl
  rw [index_sliceFrom coeffs coeffs' _ _ hco (by omega)]
  congr 1
  ring

theorem sums_sliced_coeffs (coeffs coeffs' : List Int) (y0 a y fl : Int) (smp : Int → Int)
    (hco : sliceFrom coeffs ((a - y0) * fl) = some coeffs') (hy : a ≤ y) :
    chanSum coeffs' ((y - a) * fl) fl.toNat smp = chanSum coeffs ((y - y0) * fl) fl.toNat smp ∧
      weightSum coeffs' ((y - a) * fl) fl.toNat = weightSum coeffs ((y - y0) * fl) fl.toNat := by
  unfold chanSum weightSum intAt
  constructor
  · apply Finset.sum_congr rfl
    intro k hk
    have hk' := Finset.mem_range.mp hk
    rw [index_sliced_coeffs coeffs coeffs' y0 a y fl k hco hy (by omega) (by omega)]
  · apply Finset.sum_congr rfl
    intro k hk
    have hk' := Finset.mem_range.mp hk
    rw [index_sliced_coeffs coeffs coeffs' y0 a y fl k hco hy (by omega) (by omega)]

theorem written_subView (wrap : Int → Int) (enc : Int → List Byte) (nch B : Nat)
    (out sub : Image) (coeffs coeffs' offset : List Int) (fl : Int)
    (smp : Int → Int → Nat → Int → Int) (pixW pixS : List Byte) (x y : Int)
    (hco : sliceFrom coeffs ((sub.Rect.Min.Y - out.Rect.Min.Y) * fl) = some coeffs')
    (hy : sub.Rect.Min.Y ≤ y)
    (hW : Written out B (PixelVal wrap enc nch out coeffs offset fl smp) pixW x y)
    (hS : Written sub B (PixelVal wrap enc nch sub coeffs' offset fl smp) pixS x y)
    (c : Nat) (hc : c < B) :
    index pixS (pixOffset sub B x y + c) = index pixW (pixOffset out B x y + c) := by
  obtain ⟨bs, _, ⟨start, hst, _, hbs⟩, hw⟩ := hW
  obtain ⟨bs', _, ⟨start', hst', _, hbs'⟩, hs⟩ := hS
  rw [hst] at hst'
  have e : start' = start := (Option.some.inj hst').symm
  subst e
  have hsum := fun c => sums_sliced_coeffs coeffs coeffs' out.Rect.Min.Y sub.Rect.Min.Y y fl
    (smp x start' c) hco hy
  rw [hw c hc, hs c hc, hbs, hbs']
  simp only [fun c => (hsum c).1, (hsum 0).2]

theorem subViewAgrees_of_spec {κ : Type}
    (F : Image → Image → List κ → List Int → Int → Option (List Byte)) (B : Nat)
    (Val : Image → Image → List κ → List Int → Int → Int → Int → List Byte → Prop)
    (hspec : ∀ (inp out : Image) (coeffs : List κ) (offset : List Int) (fl : Int)
      (pix' : List Byte), out.Rect.Dx * B ≤ out.Stride →
      F inp out coeffs offset fl = some pix' →
      pix'.length = out.Pix.length ∧
      (∀ x y, out.Rect.Min.X ≤ x → x < out.Rect.Max.X → out.Rect.Min.Y ≤ y →
        y < out.Rect.Max.Y → Written out B (Val inp out coeffs offset fl) pix' x y) ∧
      (∀ j, (∀ x y (c : Nat), out.Rect.Min.X ≤ x → x < out.Rect.Max.X →
          out.Rect.Min.Y ≤ y → y < out.Rect.Max.Y → c < B →
          j ≠ pixOffset out (B : Nat) x y + c) →
        index pix' j = index out.Pix j))
    (hagree : ∀ (inp out sub : Image) (coeffs coeffs' : List κ) (offset : List Int) (fl : Int)
      (pixW pixS : List Byte) (x y : Int),
      sliceFrom coeffs ((sub.Rect.Min.Y - out.Rect.Min.Y) * fl) = some coeffs' →
      sub.Rect.Min.Y ≤ y →
      Written out B (Val inp out coeffs offset fl) pixW x y →
      Written sub B (Val inp sub coeffs' offset fl) pixS x y →
      ∀ c : Nat, c < B →
        index pixS (pixOffset sub B x y + c) = index pixW (pixOffset out B x y + c)) :
    SubViewAgrees F B := by
  intro inp out sub coeffs coeffs' offset fl r pixW pixS hstride hx0 hx1 hy0 hy1 hsub hco hW hS
  obtain ⟨hr, hst, _⟩ := subView_parts out sub B r hsub
  have hstride' : sub.Rect.Dx * B ≤ sub.Stride := by
    rw [hr, hst]
    unfold Rectangle.Dx at hstride ⊢
    have hB : (0 : Int) ≤ B := by omega
    have : (r.Max.X - r.Min.X) * B ≤ (out.Rect.Max.X - out.Rect.Min.X) * B :=
      mul_le_mul_of_nonneg_right (by omega) hB
    omega
  obtain ⟨_, hwW, _⟩ := hspec inp out coeffs offset fl pixW hstride hW
  obtain ⟨_, hwS, hfS⟩ := hspec inp sub coeffs' offset fl pixS hstride' hS
  rw [hr] at hwS hfS
  refine ⟨?_, hfS, ?_⟩
  · intro x y hx2 hx3 hy2 hy3
    refine ⟨subView_offset out sub B r hsub x y, ?_⟩
    exact hagree inp out sub coeffs coeffs' offset fl pixW pixS x y (by rw [hr]; exact hco)
      (by rw [hr]; exact hy2)
      (hwW x y (by omega) (by omega) (by omega) (by omega)) (hwS x y hx2 hx3 hy2 hy3)
  · intro x y x' y' c c' a1 a2 _ _ a5 a6 _ _ hc hc' hne
    apply pixOffset_ne out B x y x' y' c c' hstride ⟨a1, a2⟩ ⟨a5, a6⟩ hc hc'
    by_contra hcon
    push_neg at hcon
    exact hne (by rw [hcon.1, hcon.2])

theorem resizeRGBA_subView : SubViewAgrees resizeRGBA 4 :=
  subViewAgrees_of_spec resizeRGBA 4
    (fun inp out coeffs offset fl =>
      PixelVal int32 enc8 4 out coeffs offset fl (resizeRGBA.sample inp))
    resizeRGBA_spec
    (fun _ out sub coeffs coeffs' offset fl pixW pixS x y hco hy hW hS =>
      written_subView int32 enc8 4 4 out sub coeffs coeffs' offset fl _ pixW pixS x y hco hy
        hW hS)

theorem resizeRGBA64_subView : SubViewAgrees resizeRGBA64 8 :=
  subViewAgrees_of_spec resizeRGBA64 8
    (fun inp out coeffs offset fl =>
      PixelVal int64 enc16 4 out coeffs offset fl (resizeRGBA64.sample inp))
    resizeRGBA64_spec
    (fun _ out sub coeffs coeffs' offset fl pixW pixS x y hco hy hW hS =>
      written_subView int64 enc16 4 8 out sub coeffs coeffs' offset fl _ pixW pixS x y hco hy
        hW hS)

theorem resizeGray_subView : SubViewAgrees resizeGray 1 :=
  subViewAgrees_of_spec resizeGray 1
    (fun inp out coeffs offset fl =>
      PixelVal int32 enc8 1 out coeffs offset fl (resizeGray.sample inp))
    resizeGray_spec
    (fun _ out sub coeffs coeffs' offset fl pixW pixS x y hco hy hW hS =>
      written_subView int32 enc8 1 1 out sub coeffs coeffs' offset fl _ pixW pixS x y hco hy
        hW hS)

theorem resizeGray16_subView : SubViewAgrees resizeGray16 2 :=
  subViewAgrees_of_spec resizeGray16 2
    (fun inp out coeffs offset fl =>
      PixelVal int64 enc16 1 out coeffs offset fl (resizeGray16.sample inp))
    resizeGray16_spec
    (fun _ out sub coeffs coeffs' offset fl pixW pixS x y hco hy hW hS =>
      written_subView int64 enc16 1 2 out sub coeffs coeffs' offset fl _ pixW pixS x y hco hy
        hW hS)

theorem resizeYCbCr_subView : SubViewAgrees resizeYCbCr 3 :=
  subViewAgrees_of_spec resizeYCbCr 3
    (fun inp out coeffs offset fl =>
      PixelVal int32 enc8 3 out coeffs offset fl (resizeYCbCr.sample inp))
    resizeYCbCr_spec
    (fun _ out sub coeffs coeffs' offset fl pixW pixS x y hco hy hW hS =>
      written_subView int32 enc8 3 3 out sub coeffs coeffs' offset fl _ pixW pixS x y hco hy
        hW hS)

theorem nearestYCbCr_written_subView {F : Type} (ops : Float32Ops F) (inp out sub : ycc)
    (coeffs coeffs' : List Bool) (offset : List Int) (fl : Int) (pixW pixS : List Byte)
    (x y : Int)
    (hco : sliceFrom coeffs ((sub.Rect.Min.Y - out.Rect.Min.Y) * fl) = some coeffs')
    (hy : sub.Rect.Min.Y ≤ y)
    (hW : Written out 3 (nearestYCbCr.Val ops inp out coeffs offset fl) pixW x y)
    (hS : Written sub 3 (nearestYCbCr.Val ops inp sub coeffs' offset fl) pixS x y)
    (c : Nat) (hc : c < 3) :
    index pixS (pixOffset sub (3 : Nat) x y + c)
      = index pixW (pixOffset out (3 : Nat) x y + c) := by
  obtain ⟨bs, _, ⟨row, start, acc, hrow, hst, hacc, hbs⟩, hw⟩ := hW
  obtain ⟨bs', _, ⟨row', start', acc', hrow', hst', hacc', hbs'⟩, hs⟩ := hS
  rw [hst] at hst'
  have e : start' = start := (Option.some.inj hst').symm
  subst e
  rw [hrow] at hrow'
  have e : row' = row := (Option.some.inj hrow').symm
  subst e
  have hloop : forLoop 0 fl (AccF.mk ops.zero ops.zero ops.zero ops.zero)
      (nearestYCbCr.tap ops row' coeffs' (oldBoundsOf inp) ((oldBoundsOf inp).Min.X * 3)
        (((oldBoundsOf inp).Max.X - (oldBoundsOf inp).Min.X - 1) * 3) start'
        ((y - sub.Rect.Min.Y) * fl))
      = forLoop 0 fl (AccF.mk ops.zero ops.zero ops.zero ops.zero)
      (nearestYCbCr.tap ops row' coeffs (oldBoundsOf inp) ((oldBoundsOf inp).Min.X * 3)
        (((oldBoundsOf inp).Max.X - (oldBoundsOf inp).Min.X - 1) * 3) start'
        ((y - out.Rect.Min.Y) * fl)) := by
    apply forLoop_congr _ _ (fun _ => True) _ _ _ trivial
    intro k t hk1 hk2 _
    refine ⟨?_, fun _ _ => trivial⟩
    unfold nearestYCbCr.tap
    rw [index_sliced_coeffs coeffs coeffs' out.Rect.Min.Y sub.Rect.Min.Y y fl k hco hy hk1
      (by omega)]
  rw [hloop, hacc] at hacc'
  have e : acc' = acc := (Option.some.inj hacc').symm
  subst e
  rw [hw c hc, hs c hc, hbs, hbs']

theorem nearestYCbCr_subView {F : Type} (ops : Float32Ops F) :
    SubViewAgrees (nearestYCbCr ops) 3 :=
  subViewAgrees_of_spec (nearestYCbCr ops) 3
    (fun inp out coeffs offset fl => nearestYCbCr.Val ops inp out coeffs offset fl)
    (nearestYCbCr_spec ops)
    (fun inp out sub coeffs coeffs' offset fl pixW pixS x y hco hy hW hS =>
      nearestYCbCr_written_subView ops inp out sub coeffs coeffs' offset fl pixW pixS x y
        hco hy hW hS)

/-! ## The bytes that a call writes -/

theorem sliceFrom_zero {κ : Type} (s : List κ) (k : Int) (hk : k = 0) :
    sliceFrom s k = some s := by
  subst hk
  unfold sliceFrom
  simp

theorem written_isSome (out : Image) (B : Nat) (Val : Int → Int → List Byte → Prop)
    (pix : List Byte) (x y : Int) (h : Written out B Val pix x y) (c : Nat) (hc : c < B) :
    ∃ b, index pix (pixOffset out B x y + c) = some b := by
  obtain ⟨bs, hlen, _, hw⟩ := h
  rw [hw c hc]
  exact ⟨bs[c], List.getElem?_eq_getElem (by omega)⟩

theorem writesExactly_of_spec {κ : Type}
    (F : Image → Image → List κ → List Int → Int → Option (List Byte)) (B : Nat)
    (Val : Image → Image → List κ → List Int → Int → Int → Int → List Byte → Prop)
    (hspec : ∀ (inp out : Image) (coeffs : List κ) (offset : List Int) (fl : Int)
      (pix' : List Byte), out.Rect.Dx * B ≤ out.Stride →
      F inp out coeffs offset fl = some pix' →
      pix'.length = out.Pix.length ∧
      (∀ x y, out.Rect.Min.X ≤ x → x < out.Rect.Max.X → out.Rect.Min.Y ≤ y →
        y < out.Rect.Max.Y → Written out B (Val inp out coeffs offset fl) pix' x y) ∧
      (∀ j, (∀ x y (c : Nat), out.Rect.Min.X ≤ x → x < out.Rect.Max.X →
          out.Rect.Min.Y ≤ y → y < out.Rect.Max.Y → c < B →
          j ≠ pixOffset out (B : Nat) x y + c) →
        index pix' j = index out.Pix j))
    (hagree : ∀ (inp out sub : Image) (coeffs coeffs' : List κ) (offset : List Int) (fl : Int)
      (pixW pixS : List Byte) (x y : Int),
      sliceFrom coeffs ((sub.Rect.Min.Y - out.Rect.Min.Y) * fl) = some coeffs' →
      sub.Rect.Min.Y ≤ y →
      Written out B (Val inp out coeffs offset fl) pixW x y →
      Written sub B (Val inp sub coeffs' offset fl) pixS x y →
      ∀ c : Nat, c < B →
        index pixS (pixOffset sub B x y + c) = index pixW (pixOffset out B x y + c)) :
    WritesExactly F B := by
  intro inp out coeffs offset fl pix' hstride hrun
  obtain ⟨hlen, hwr, hfr⟩ := hspec inp out coeffs offset fl pix' hstride hrun
  refine ⟨hlen, hfr, ?_⟩
  intro x y c hx1 hx2 hy1 hy2 hc
  refine ⟨written_isSome out B _ pix' x y (hwr x y hx1 hx2 hy1 hy2) c hc, ?_⟩
  intro pix0 pix'' hrun'
  obtain ⟨_, hwr', _⟩ := hspec inp { Pix := pix0, Stride := out.Stride, Rect := out.Rect }
    coeffs offset fl pix'' hstride hrun'
  exact hagree inp out { Pix := pix0, Stride := out.Stride, Rect := out.Rect } coeffs coeffs
    offset fl pix' pix'' x y (sliceFrom_zero coeffs _ (by simp)) hy1
    (hwr x y hx1 hx2 hy1 hy2) (hwr' x y hx1 hx2 hy1 hy2) c hc

theorem resizeRGBA_writesExactly : WritesExactly resizeRGBA 4 :=
  writesExactly_of_spec resizeRGBA 4
    (fun inp out coeffs offset fl =>
      PixelVal int32 enc8 4 out coeffs offset fl (resizeRGBA.sample inp))
    resizeRGBA_spec
    (fun _ out sub coeffs coeffs' offset fl pixW pixS x y hco hy hW hS =>
      written_subView int32 enc8 4 4 out sub coeffs coeffs' offset fl _ pixW pixS x y hco hy
        hW hS)

theorem resizeRGBA64_writesExactly : WritesExactly resizeRGBA64 8 :=
  writesExactly_of_spec resizeRGBA64 8
    (fun inp out coeffs offset fl =>
      PixelVal int64 enc16 4 out coeffs offset fl (resizeRGBA64.sample inp))
    resizeRGBA64_spec
    (fun _ out sub coeffs coeffs' offset fl pixW pixS x y hco hy hW hS =>
      written_subView int64 enc16 4 8 out sub coeffs coeffs' offset fl _ pixW pixS x y hco hy
        hW hS)

theorem resizeGray_writesExactly : WritesExactly resizeGray 1 :=
  writesExactly_of_spec resizeGray 1
    (fun inp out coeffs offset fl =>
      PixelVal int32 enc8 1 out coeffs offset fl (resizeGray.sample inp))
    resizeGray_spec
    (fun _ out sub coeffs coeffs' offset fl pixW pixS x y hco hy hW hS =>
      written_subView int32 enc8 1 1 out sub coeffs coeffs' offset fl _ pixW pixS x y hco hy
        hW hS)

theorem resizeGray16_writesExactly : WritesExactly resizeGray16 2 :=
  writesExactly_of_spec resizeGray16 2
    (fun inp out coeffs offset fl =>
      PixelVal int64 enc16 1 out coeffs offset fl (resizeGray16.sample inp))
    resizeGray16_spec
    (fun _ out sub coeffs coeffs' offset fl pixW pixS x y hco hy hW hS =>
      written_subView int64 enc16 1 2 out sub coeffs coeffs' offset fl _ pixW pixS x y hco hy
        hW hS)

theorem resizeYCbCr_writesExactly : WritesExactly resizeYCbCr 3 :=
  writesExactly_of_spec resizeYCbCr 3
    (fun inp out coeffs offset fl =>
      PixelVal int32 enc8 3 out coeffs offset fl (resizeYCbCr.sample inp))
    resizeYCbCr_spec
    (fun _ out sub coeffs coeffs' offset fl pixW pixS x y hco hy hW hS =>
      written_subView int32 enc8 3 3 out sub coeffs coeffs' offset fl _ pixW pixS x y hco hy
        hW hS)

theorem nearestYCbCr_writesExactly {F : Type} (ops : Float32Ops F) :
    WritesExactly (nearestYCbCr ops) 3 :=
  writesExactly_of_spec (nearestYCbCr ops) 3
    (fun inp out coeffs offset fl => nearestYCbCr.Val ops inp out coeffs offset fl)
    (nearestYCbCr_spec ops)
    (fun inp out sub coeffs coeffs' offset fl pixW pixS x y hco hy hW hS =>
      nearestYCbCr_written_subView ops inp out sub coeffs coeffs' offset fl pixW pixS x y
        hco hy hW hS)

/-! ## Filters of length `1` -/

theorem chanSum_one (coeffs : List Int) (ci : Int) (smp : Int → Int) :
    chanSum coeffs ci 1 smp = intAt coeffs ci * smp 0 := by
  unfold chanSum
  simp [Finset.sum_range_one]

theorem weightSum_one (coeffs : List Int) (ci : Int) : weightSum coeffs ci 1 = intAt coeffs ci := by
  unfold weightSum
  simp [Finset.sum_range_one]

theorem intAt_of_index (s : List Int) (k v : Int) (h : index s k = some v) : intAt s k = v := by
  unfold intAt
  rw [h]
  rfl

theorem transpose8 (B : Nat) (out : Image) (coeffs offset : List Int)
    (smp : Int → Int → Nat → Int → Int) (pix' : List Byte) (x y : Int) (src : List Byte)
    (base v : Int)
    (hwr : Written out B (PixelVal int32 enc8 B out coeffs offset 1 smp) pix' x y)
    (hv : index coeffs ((y - out.Rect.Min.Y) * 1) = some v) (hv0 : v ≠ 0)
    (hvr : -32768 ≤ v ∧ v < 32768)
    (hsm : ∀ start (c : Nat), c < B → index offset y = some start →
      smp x start c 0 = byteAt src (base + c))
    (hsrc : ∀ c : Nat, c < B → ∃ b, index src (base + c) = some b)
    (c : Nat) (hc : c < B) :
    index pix' (pixOffset out B x y + c) = index src (base + c) := by
  obtain ⟨start, hst, _, hidx⟩ := written8 int32 B out coeffs offset 1 smp pix' x y hwr c hc
  have e1 : (1 : Int).toNat = 1 := rfl
  obtain ⟨b, hb⟩ := hsrc c hc
  have hb' := b.isLt
  rw [hidx, e1, chanSum_one, weightSum_one, intAt_of_index _ _ _ hv, hsm start c hc hst,
    byteAt_of_index _ _ _ hb, machineQuo_uniform32 v b.val hv0 ⟨by omega, by omega⟩
      ⟨by nlinarith, by nlinarith⟩ (by omega), clampUint8_byte, hb]

theorem transpose16 (n : Nat) (out : Image) (coeffs offset : List Int)
    (smp : Int → Int → Nat → Int → Int) (pix' : List Byte) (x y : Int) (src : List Byte)
    (base v : Int)
    (hwr : Written out (2 * n) (PixelVal int64 enc16 n out coeffs offset 1 smp) pix' x y)
    (hv : index coeffs ((y - out.Rect.Min.Y) * 1) = some v) (hv0 : v ≠ 0)
    (hvr : -2147483648 ≤ v ∧ v < 2147483648)
    (hsm : ∀ start (c : Nat), c < n → index offset y = some start →
      smp x start c 0 = wordAt src (base + (2 * c : Nat)))
    (hsrc : ∀ j : Nat, j < 2 * n → ∃ b, index src (base + j) = some b)
    (j : Nat) (hj : j < 2 * n) :
    index pix' (pixOffset out (2 * n : Nat) x y + j) = index src (base + j) := by
  have hc : j / 2 < n := by omega
  obtain ⟨start, hst, _, hhi, hlo⟩ := written16 int64 n out coeffs offset 1 smp pix' x y hwr
    (j / 2) hc
  have e1 : (1 : Int).toNat = 1 := rfl
  obtain ⟨hi, hhib⟩ := hsrc (2 * (j / 2)) (by omega)
  obtain ⟨lo, hlob⟩ := hsrc (2 * (j / 2) + 1) (by omega)
  have hhi' := hi.isLt
  have hlo' := lo.isLt
  have hw : wordAt src (base + (2 * (j / 2) : Nat)) = 256 * (hi.val : Int) + (lo.val : Int) := by
    unfold wordAt
    rw [byteAt_of_index _ _ _ hhib]
    have e : base + ((2 * (j / 2) : Nat) : Int) + 1 = base + ((2 * (j / 2) + 1 : Nat) : Int) := by
      push_cast; ring
    rw [e, byteAt_of_index _ _ _ hlob]
  rw [e1, chanSum_one, weightSum_one, intAt_of_index _ _ _ hv, hsm start (j / 2) hc hst, hw,
    machineQuo_uniform64 v _ hv0 ⟨by omega, by omega⟩ ⟨by nlinarith, by nlinarith⟩ (by omega)]
    at hhi hlo
  rw [(bigEndian_word _ _).1] at hhi
  rw [(bigEndian_word _ _).2] at hlo
  rcases Nat.mod_two_eq_zero_or_one j with hpar | hpar
  · have ej : j = 2 * (j / 2) := by omega
    rw [ej, hhi, hhib]
  · have ej : j = 2 * (j / 2) + 1 := by omega
    rw [ej, hlo, hlob]

theorem rows_in_buffer (St W B H len x : Int) (hB : 0 ≤ B) (hW : 1 ≤ W) (hst : W * B ≤ St)
    (hlen : H * St ≤ len) (hx0 : 0 ≤ x) (hx1 : x < H) :
    0 ≤ x * St ∧ x * St + W * B ≤ len := by
  have hS0 : 0 ≤ St := le_trans (mul_nonneg (by omega) hB) hst
  have h1 : 0 ≤ x * St := mul_nonneg hx0 hS0
  have h2 : (x + 1) * St ≤ H * St := mul_le_mul_of_nonneg_right (by omega) hS0
  constructor
  · exact h1
  · nlinarith

theorem pixel_in_row (W B y c : Int) (hy0 : 0 ≤ y) (hy1 : y < W) (hc0 : 0 ≤ c) (hc1 : c < B) :
    0 ≤ y * B + c ∧ y * B + c < W * B := by
  have h1 : 0 ≤ y * B := mul_nonneg hy0 (by omega)
  have h2 : (y + 1) * B ≤ W * B := mul_le_mul_of_nonneg_right (by omega) (by omega)
  constructor
  · omega
  · nlinarith

theorem clampColumn_of_mem (W y : Int) (hy0 : 0 ≤ y) (hy1 : y < W) : clampColumn W y = y := by
  unfold clampColumn
  omega

theorem resizeRGBA_transposePass : TransposePass resizeRGBA 4 32768 := by
  intro inp out coeffs offset hW hWi hH hst hlen hR hos hol htab
  have hX0 : out.Rect.Min.X = 0 := by rw [hR]
  have hY0 : out.Rect.Min.Y = 0 := by rw [hR]
  have hX1 : out.Rect.Max.X = inp.Rect.Dy := by rw [hR]
  have hY1 : out.Rect.Max.Y = inp.Rect.Dx := by rw [hR]
  have hrun : ∃ pix', resizeRGBA inp out coeffs offset 1 = some pix' := by
    apply resizeRGBA_isSome inp out coeffs offset 1 hW
    · intro x hx1 hx2
      rw [rowBase_eq inp x hH]
      exact rows_in_buffer inp.Stride inp.Rect.Dx 4 inp.Rect.Dy _ x (by omega) hW hst hlen
        (by omega) (by omega)
    · intro y hy1 hy2
      exact index_lt_length _ _ _ (htab y (by omega) (by omega)).1
    · intro y k hy1 hy2 hk1 hk2
      obtain ⟨_, v, hv, _⟩ := htab y (by omega) (by omega)
      have := index_lt_length _ _ _ hv
      have hk : k = 0 := by omega
      rw [hk, hY0]
      omega
    · intro y hy1 hy2
      obtain ⟨_, v, hv, hv0, hv1, hv2⟩ := htab y (by omega) (by omega)
      have e1 : (1 : Int).toNat = 1 := rfl
      rw [e1, weightSum_one, hY0, sub_zero, mul_one, intAt_of_index _ _ _ hv,
        int32_of_fits v (by omega) (by omega)]
      exact hv0
    · intro x y hx1 hx2 hy1 hy2
      exact pixOffset_bounds out 4 _ x y hos hol ⟨hx1, hx2⟩ ⟨hy1, hy2⟩
  obtain ⟨pix', hrun⟩ := hrun
  obtain ⟨hl, hwr, _⟩ := resizeRGBA_spec inp out coeffs offset 1 pix' hos hrun
  refine ⟨pix', hrun, hl, ?_⟩
  intro x y c hx0 hx1 hy0 hy1 hc
  obtain ⟨hoy, v, hv, hv0, hv1, hv2⟩ := htab y hy0 hy1
  have hr := rows_in_buffer inp.Stride inp.Rect.Dx 4 inp.Rect.Dy _ x (by omega) hW hst hlen
    hx0 hx1
  have key := transpose8 4 out coeffs offset (resizeRGBA.sample inp) pix' x y inp.Pix
    (x * inp.Stride + y * 4) v
    (hwr x y (by omega) (by omega) (by omega) (by omega))
    (by rw [hY0, sub_zero, mul_one]; exact hv) hv0 ⟨by omega, hv2⟩
    (by
      intro start c' hc' hs
      rw [hoy] at hs
      have e : start = y := (Option.some.inj hs).symm
      subst e
      rw [resizeRGBA_sample_eq inp x start c' 0 hW hH, add_zero,
        int64_of_fits start (by omega) (by omega), clampColumn_of_mem _ _ hy0 hy1]
      congr 1
      ring)
    (by
      intro c' hc'
      have hp := pixel_in_row inp.Rect.Dx 4 y c' hy0 hy1 (by omega) (by omega)
      exact index_isSome inp.Pix _ (by omega) (by omega))
    c hc
  have e : pixOffset out ((4 : Nat) : Int) x y + (c : Int) = y * out.Stride + x * (4 : Nat) + c := by
    unfold pixOffset
    rw [hX0, hY0]
    ring
  rw [← e, key]
  rfl

theorem resizeYCbCr_transposePass : TransposePass resizeYCbCr 3 32768 := by
  intro inp out coeffs offset hW hWi hH hst hlen hR hos hol htab
  have hX0 : out.Rect.Min.X = 0 := by rw [hR]
  have hY0 : out.Rect.Min.Y = 0 := by rw [hR]
  have hX1 : out.Rect.Max.X = inp.Rect.Dy := by rw [hR]
  have hY1 : out.Rect.Max.Y = inp.Rect.Dx := by rw [hR]
  have hrun : ∃ pix', resizeYCbCr inp out coeffs offset 1 = some pix' := by
    apply resizeYCbCr_isSome inp out coeffs offset 1 hW
    · intro x hx1 hx2
      rw [rowBase_eq inp x hH]
      exact rows_in_buffer inp.Stride inp.Rect.Dx 3 inp.Rect.Dy _ x (by omega) hW hst hlen
        (by omega) (by omega)
    · intro y hy1 hy2
      exact index_lt_length _ _ _ (htab y (by omega) (by omega)).1
    · intro y k hy1 hy2 hk1 hk2
      obtain ⟨_, v, hv, _⟩ := htab y (by omega) (by omega)
      have := index_lt_length _ _ _ hv
      have hk : k = 0 := by omega
      rw [hk, hY0]
      omega
    · intro y hy1 hy2
      obtain ⟨_, v, hv, hv0, hv1, hv2⟩ := htab y (by omega) (by omega)
      have e1 : (1 : Int).toNat = 1 := rfl
      rw [e1, weightSum_one, hY0, sub_zero, mul_one, intAt_of_index _ _ _ hv,
        int32_of_fits v (by omega) (by omega)]
      exact hv0
    · intro x y hx1 hx2 hy1 hy2
      exact pixOffset_bounds out 3 _ x y hos hol ⟨hx1, hx2⟩ ⟨hy1, hy2⟩
  obtain ⟨pix', hrun⟩ := hrun
  obtain ⟨hl, hwr, _⟩ := resizeYCbCr_spec inp out coeffs offset 1 pix' hos hrun
  refine ⟨pix', hrun, hl, ?_⟩
  intro x y c hx0 hx1 hy0 hy1 hc
  obtain ⟨hoy, v, hv, hv0, hv1, hv2⟩ := htab y hy0 hy1
  have hr := rows_in_buffer inp.Stride inp.Rect.Dx 3 inp.Rect.Dy _ x (by omega) hW hst hlen
    hx0 hx1
  have key := transpose8 3 out coeffs offset (resizeYCbCr.sample inp) pix' x y inp.Pix
    (x * inp.Stride + y * 3) v
    (hwr x y (by omega) (by omega) (by omega) (by omega))
    (by rw [hY0, sub_zero, mul_one]; exact hv) hv0 ⟨by omega, hv2⟩
    (by
      intro start c' hc' hs
      rw [hoy] at hs
      have e : start = y := (Option.some.inj hs).symm
      subst e
      rw [resizeYCbCr_sample_eq inp x start c' 0 hW hH, add_zero,
        int64_of_fits start (by omega) (by omega), clampColumn_of_mem _ _ hy0 hy1]
      congr 1
      ring)
    (by
      intro c' hc'
      have hp := pixel_in_row inp.Rect.Dx 3 y c' hy0 hy1 (by omega) (by omega)
      exact index_isSome inp.Pix _ (by omega) (by omega))
    c hc
  have e : pixOffset out ((3 : Nat) : Int) x y + (c : Int) = y * out.Stride + x * (3 : Nat) + c := by
    unfold pixOffset
    rw [hX0, hY0]
    ring
  rw [← e, key]
  rfl

theorem resizeGray_transposePass : TransposePass resizeGray 1 32768 := by
  intro inp out coeffs offset hW hWi hH hst hlen hR hos hol htab
  have hX0 : out.Rect.Min.X = 0 := by rw [hR]
  have hY0 : out.Rect.Min.Y = 0 := by rw [hR]
  have hX1 : out.Rect.Max.X = inp.Rect.Dy := by rw [hR]
  have hY1 : out.Rect.Max.Y = inp.Rect.Dx := by rw [hR]
  have hrun : ∃ pix', resizeGray inp out coeffs offset 1 = some pix' := by
    apply resizeGray_isSome inp out coeffs offset 1 hW
    · intro x hx1 hx2
      rw [rowBase_eq inp x hH]
      exact rows_in_buffer inp.Stride inp.Rect.Dx 1 inp.Rect.Dy _ x (by omega) hW hst hlen
        (by omega) (by omega)
    · intro y hy1 hy2
      exact index_lt_length _ _ _ (htab y (by omega) (by omega)).1
    · intro y k hy1 hy2 hk1 hk2
      obtain ⟨_, v, hv, _⟩ := htab y (by omega) (by omega)
      have := index_lt_length _ _ _ hv
      have hk : k = 0 := by omega
      rw [hk, hY0]
      omega
    · intro y hy1 hy2
      obtain ⟨_, v, hv, hv0, hv1, hv2⟩ := htab y (by omega) (by omega)
      have e1 : (1 : Int).toNat = 1 := rfl
      rw [e1, weightSum_one, hY0, sub_zero, mul_one, intAt_of_index _ _ _ hv,
        int32_of_fits v (by omega) (by omega)]
      exact hv0
    · intro x y hx1 hx2 hy1 hy2
      exact pixOffset_bounds out 1 _ x y hos hol ⟨hx1, hx2⟩ ⟨hy1, hy2⟩
  obtain ⟨pix', hrun⟩ := hrun
  obtain ⟨hl, hwr, _⟩ := resizeGray_spec inp out coeffs offset 1 pix' hos hrun
  refine ⟨pix', hrun, hl, ?_⟩
  intro x y c hx0 hx1 hy0 hy1 hc
  obtain ⟨hoy, v, hv, hv0, hv1, hv2⟩ := htab y hy0 hy1
  have hr := rows_in_buffer inp.Stride inp.Rect.Dx 1 inp.Rect.Dy _ x (by omega) hW hst hlen
    hx0 hx1
  have key := transpose8 1 out coeffs offset (resizeGray.sample inp) pix' x y inp.Pix
    (x * inp.Stride + y * 1) v
    (hwr x y (by omega) (by omega) (by omega) (by omega))
    (by rw [hY0, sub_zero, mul_one]; exact hv) hv0 ⟨by omega, hv2⟩
    (by
      intro start c' hc' hs
      rw [hoy] at hs
      have e : start = y := (Option.some.inj hs).symm
      subst e
      rw [resizeGray_sample_eq inp x start c' 0 hW hH, add_zero,
        int64_of_fits start (by omega) (by omega), clampColumn_of_mem _ _ hy0 hy1]
      congr 1
      ring)
    (by
      intro c' hc'
      have hp := pixel_in_row inp.Rect.Dx 1 y c' hy0 hy1 (by omega) (by omega)
      exact index_isSome inp.Pix _ (by omega) (by omega))
    c hc
  have e : pixOffset out ((1 : Nat) : Int) x y + (c : Int) = y * out.Stride + x * (1 : Nat) + c := by
    unfold pixOffset
    rw [hX0, hY0]
    ring
  rw [← e, key]
  rfl

theorem resizeRGBA64_transposePass : TransposePass resizeRGBA64 8 2147483648 := by
  intro inp out coeffs offset hW hWi hH hst hlen hR hos hol htab
  have hX0 : out.Rect.Min.X = 0 := by rw [hR]
  have hY0 : out.Rect.Min.Y = 0 := by rw [hR]
  have hX1 : out.Rect.Max.X = inp.Rect.Dy := by rw [hR]
  have hY1 : out.Rect.Max.Y = inp.Rect.Dx := by rw [hR]
  have hrun : ∃ pix', resizeRGBA64 inp out coeffs offset 1 = some pix' := by
    apply resizeRGBA64_isSome inp out coeffs offset 1 hW
    · intro x hx1 hx2
      rw [rowBase_eq inp x hH]
      exact rows_in_buffer inp.Stride inp.Rect.Dx 8 inp.Rect.Dy _ x (by omega) hW hst hlen
        (by omega) (by omega)
    · intro y hy1 hy2
      exact index_lt_length _ _ _ (htab y (by omega) (by omega)).1
    · intro y k hy1 hy2 hk1 hk2
      obtain ⟨_, v, hv, _⟩ := htab y (by omega) (by omega)
      have := index_lt_length _ _ _ hv
      have hk : k = 0 := by omega
      rw [hk, hY0]
      omega
    · intro y hy1 hy2
      obtain ⟨_, v, hv, hv0, hv1, hv2⟩ := htab y (by omega) (by omega)
      have e1 : (1 : Int).toNat = 1 := rfl
      rw [e1, weightSum_one, hY0, sub_zero, mul_one, intAt_of_index _ _ _ hv,
        int64_of_fits v (by omega) (by omega)]
      exact hv0
    · intro x y hx1 hx2 hy1 hy2
      exact pixOffset_bounds out 8 _ x y hos hol ⟨hx1, hx2⟩ ⟨hy1, hy2⟩
  obtain ⟨pix', hrun⟩ := hrun
  obtain ⟨hl, hwr, _⟩ := resizeRGBA64_spec inp out coeffs offset 1 pix' hos hrun
  refine ⟨pix', hrun, hl, ?_⟩
  intro x y c hx0 hx1 hy0 hy1 hc
  obtain ⟨hoy, v, hv, hv0, hv1, hv2⟩ := htab y hy0 hy1
  have hr := rows_in_buffer inp.Stride inp.Rect.Dx 8 inp.Rect.Dy _ x (by omega) hW hst hlen
    hx0 hx1
  have key := transpose16 4 out coeffs offset (resizeRGBA64.sample inp) pix' x y inp.Pix
    (x * inp.Stride + y * 8) v
    (hwr x y (by omega) (by omega) (by omega) (by omega))
    (by rw [hY0, sub_zero, mul_one]; exact hv) hv0 ⟨by omega, hv2⟩
    (by
      intro start c' hc' hs
      rw [hoy] at hs
      have e : start = y := (Option.some.inj hs).symm
      subst e
      rw [resizeRGBA64_sample_eq inp x start c' 0 hW hH, add_zero,
        int64_of_fits start (by omega) (by omega), clampColumn_of_mem _ _ hy0 hy1]
      congr 1
      ring)
    (by
      intro c' hc'
      have hp := pixel_in_row inp.Rect.Dx 8 y c' hy0 hy1 (by omega) (by omega)
      exact index_isSome inp.Pix _ (by omega) (by omega))
    c hc
  have e : pixOffset out ((8 : Nat) : Int) x y + (c : Int) = y * out.Stride + x * (8 : Nat) + c := by
    unfold pixOffset
    rw [hX0, hY0]
    ring
  rw [← e, key]
  rfl

theorem resizeGray16_transposePass : TransposePass resizeGray16 2 2147483648 := by
  intro inp out coeffs offset hW hWi hH hst hlen hR hos hol htab
  have hX0 : out.Rect.Min.X = 0 := by rw [hR]
  have hY0 : out.Rect.Min.Y = 0 := by rw [hR]
  have hX1 : out.Rect.Max.X = inp.Rect.Dy := by rw [hR]
  have hY1 : out.Rect.Max.Y = inp.Rect.Dx := by rw [hR]
  have hrun : ∃ pix', resizeGray16 inp out coeffs offset 1 = some pix' := by
    apply resizeGray16_isSome inp out coeffs offset 1 hW
    · intro x hx1 hx2
      rw [rowBase_eq inp x hH]
      exact rows_in_buffer inp.Stride inp.Rect.Dx 2 inp.Rect.Dy _ x (by omega) hW hst hlen
        (by omega) (by omega)
    · intro y hy1 hy2
      exact index_lt_length _ _ _ (htab y (by omega) (by omega)).1
    · intro y k hy1 hy2 hk1 hk2
      obtain ⟨_, v, hv, _⟩ := htab y (by omega) (by omega)
      have := index_lt_length _ _ _ hv
      have hk : k = 0 := by omega
      rw [hk, hY0]
      omega
    · intro y hy1 hy2
      obtain ⟨_, v, hv, hv0, hv1, hv2⟩ := htab y (by omega) (by omega)
      have e1 : (1 : Int).toNat = 1 := rfl
      rw [e1, weightSum_one, hY0, sub_zero, mul_one, intAt_of_index _ _ _ hv,
        int64_of_fits v (by omega) (by omega)]
      exact hv0
    · intro x y hx1 hx2 hy1 hy2
      exact pixOffset_bounds out 2 _ x y hos hol ⟨hx1, hx2⟩ ⟨hy1, hy2⟩
  obtain ⟨pix', hrun⟩ := hrun
  obtain ⟨hl, hwr, _⟩ := resizeGray16_spec inp out coeffs offset 1 pix' hos hrun
  refine ⟨pix', hrun, hl, ?_⟩
  intro x y c hx0 hx1 hy0 hy1 hc
  obtain ⟨hoy, v, hv, hv0, hv1, hv2⟩ := htab y hy0 hy1
  have hr := rows_in_buffer inp.Stride inp.Rect.Dx 2 inp.Rect.Dy _ x (by omega) hW hst hlen
    hx0 hx1
  have key := transpose16 1 out coeffs offset (resizeGray16.sample inp) pix' x y inp.Pix
    (x * inp.Stride + y * 2) v
    (hwr x y (by omega) (by omega) (by omega) (by omega))
    (by rw [hY0, sub_zero, mul_one]; exact hv) hv0 ⟨by omega, hv2⟩
    (by
      intro start c' hc' hs
      rw [hoy] at hs
      have e : start = y := (Option.some.inj hs).symm
      subst e
      rw [resizeGray16_sample_eq inp x start c' 0 hW hH, add_zero,
        int64_of_fits start (by omega) (by omega), clampColumn_of_mem _ _ hy0 hy1]
      congr 1
      ring)
    (by
      intro c' hc'
      have hp := pixel_in_row inp.Rect.Dx 2 y c' hy0 hy1 (by omega) (by omega)
      exact index_isSome inp.Pix _ (by omega) (by omega))
    c hc
  have e : pixOffset out ((2 : Nat) : Int) x y + (c : Int) = y * out.Stride + x * (2 : Nat) + c := by
    unfold pixOffset
    rw [hX0, hY0]
    ring
  rw [← e, key]
  rfl

theorem transposeTwice_of_pass
    (F : Image → Image → List Int → List Int → Int → Option (List Byte)) (B : Nat) (cb : Int)
    (h : TransposePass F B cb) : TransposeTwice F B cb := by
  intro inp tmp fin c1 o1 c2 o2 hW hWi hH hHi hst hlen hRt hts htl hRf hfs hfl htab1 htab2
  obtain ⟨pix1, hrun1, hl1, hv1⟩ := h inp tmp c1 o1 hW hWi (by omega) hst hlen hRt hts htl htab1
  have hdx : tmp.Rect.Dx = inp.Rect.Dy := by rw [hRt]; simp [Rectangle.Dx]
  have hdy : tmp.Rect.Dy = inp.Rect.Dx := by rw [hRt]; simp [Rectangle.Dy]
  obtain ⟨pix2, hrun2, hl2, hv2⟩ := h { Pix := pix1, Stride := tmp.Stride, Rect := tmp.Rect }
    fin c2 o2 (by show 1 ≤ tmp.Rect.Dx; omega)
    (by show tmp.Rect.Dx < 9223372036854775808; omega) (by show 0 ≤ tmp.Rect.Dy; omega) hts
    (by show tmp.Rect.Dy * tmp.Stride ≤ (pix1.length : Int); rw [hl1]; exact htl)
    (by show fin.Rect = ⟨⟨0, 0⟩, ⟨tmp.Rect.Dy, tmp.Rect.Dx⟩⟩; rw [hdx, hdy]; exact hRf)
    hfs hfl
    (by
      intro y hy0 hy1
      exact htab2 y hy0 (by have : y < tmp.Rect.Dx := hy1; omega))
  refine ⟨pix1, pix2, hrun1, hrun2, hl2, ?_⟩
  intro x y c hx0 hx1 hy0 hy1 hc
  have a := hv2 x y c hx0 (by show x < tmp.Rect.Dy; omega) hy0 (by show y < tmp.Rect.Dx; omega)
    hc
  have b := hv1 y x c hy0 hy1 hx0 hx1 hc
  rw [a]
  exact b

/-! ## Kernels without negative coefficients -/

theorem chanSum_between (coeffs : List Int) (ci : Int) (n : Nat) (smp : Int → Int)
    (lo hi : Int)
    (hnn : ∀ k : Nat, k < n → 0 ≤ intAt coeffs (ci + k))
    (hb : ∀ k : Nat, k < n → intAt coeffs (ci + k) ≠ 0 → lo ≤ smp k ∧ smp k ≤ hi) :
    lo * weightSum coeffs ci n ≤ chanSum coeffs ci n smp ∧
      chanSum coeffs ci n smp ≤ hi * weightSum coeffs ci n := by
  unfold chanSum weightSum
  rw [Finset.mul_sum, Finset.mul_sum]
  constructor
  · apply Finset.sum_le_sum
    intro k hk
    have hk' := Finset.mem_range.mp hk
    by_cases h0 : intAt coeffs (ci + k) = 0
    · rw [h0]; simp
    · have := (hb k hk' h0).1
      have := hnn k hk'
      nlinarith
  · apply Finset.sum_le_sum
    intro k hk
    have hk' := Finset.mem_range.mp hk
    by_cases h0 : intAt coeffs (ci + k) = 0
    · rw [h0]; simp
    · have := (hb k hk' h0).2
      have := hnn k hk'
      nlinarith

theorem quotient_between (N S lo hi : Int) (hS : 0 < S) (hN : 0 ≤ N) (h1 : lo * S ≤ N)
    (h2 : N ≤ hi * S) : lo ≤ Int.tdiv N S ∧ Int.tdiv N S ≤ hi := by
  rw [Int.tdiv_eq_ediv hN (by omega)]
  exact ⟨Int.le_ediv_of_mul_le hS h1, Int.ediv_le_of_le_mul hS h2⟩

theorem quotient_of_nonneg_kernel (coeffs : List Int) (ci : Int) (n : Nat) (smp : Int → Int)
    (lo hi M : Int)
    (hsb : ∀ k, 0 ≤ smp k ∧ smp k ≤ M)
    (hnn : ∀ k : Nat, k < n → 0 ≤ intAt coeffs (ci + k))
    (hS : 0 < weightSum coeffs ci n)
    (hb : ∀ k : Nat, k < n → intAt coeffs (ci + k) ≠ 0 → lo ≤ smp k ∧ smp k ≤ hi) :
    (0 ≤ Int.tdiv (chanSum coeffs ci n smp) (weightSum coeffs ci n) ∧
      Int.tdiv (chanSum coeffs ci n smp) (weightSum coeffs ci n) ≤ M) ∧
    lo ≤ Int.tdiv (chanSum coeffs ci n smp) (weightSum coeffs ci n) ∧
      Int.tdiv (chanSum coeffs ci n smp) (weightSum coeffs ci n) ≤ hi := by
  obtain ⟨a1, a2⟩ := chanSum_between coeffs ci n smp 0 M hnn (fun k _ _ => hsb k)
  obtain ⟨b1, b2⟩ := chanSum_between coeffs ci n smp lo hi hnn hb
  have hN : 0 ≤ chanSum coeffs ci n smp := by simpa using a1
  exact ⟨quotient_between _ _ 0 M hS hN a1 a2, quotient_between _ _ lo hi hS hN b1 b2⟩

theorem noOvershoot8_of_spec
    (F : Image → Image → List Int → List Int → Int → Option (List Byte)) (B : Nat)
    (smp : Image → Int → Int → Nat → Int → Int)
    (hsb : ∀ inp x start c k, 0 ≤ smp inp x start c k ∧ smp inp x start c k ≤ 255)
    (hspec : ∀ (inp out : Image) (coeffs offset : List Int) (fl : Int) (pix' : List Byte),
      out.Rect.Dx * B ≤ out.Stride → F inp out coeffs offset fl = some pix' →
      pix'.length = out.Pix.length ∧
      (∀ x y, out.Rect.Min.X ≤ x → x < out.Rect.Max.X → out.Rect.Min.Y ≤ y →
        y < out.Rect.Max.Y →
        Written out B (PixelVal int32 enc8 B out coeffs offset fl (smp inp)) pix' x y) ∧
      (∀ j, (∀ x y (c : Nat), out.Rect.Min.X ≤ x → x < out.Rect.Max.X →
          out.Rect.Min.Y ≤ y → y < out.Rect.Max.Y → c < B →
          j ≠ pixOffset out (B : Nat) x y + c) →
        index pix' j = index out.Pix j)) :
    NoOvershoot8 F B smp := by
  intro inp out coeffs offset fl pix' x y start c lo hi hstride hrun hx1 hx2 hy1 hy2 hc hst
    hnn hS hfS hfN hb
  obtain ⟨_, hwr, _⟩ := hspec inp out coeffs offset fl pix' hstride hrun
  obtain ⟨start', hst', _, hidx⟩ := written8 int32 B out coeffs offset fl (smp inp) pix' x y
    (hwr x y hx1 hx2 hy1 hy2) c hc
  rw [hst] at hst'
  have e : start' = start := (Option.some.inj hst').symm
  subst e
  obtain ⟨⟨q0, q1⟩, q2, q3⟩ := quotient_of_nonneg_kernel coeffs _ fl.toNat
    (smp inp x start' c) lo hi 255 (hsb inp x start' c) hnn hS hb
  rw [machineQuo_int32 _ _ hfN.1 hfN.2 hfS.1 hfS.2 (by omega) (by omega)] at hidx
  refine ⟨_, hidx, ?_, ?_, ?_⟩
  · rw [clampUint8_val]; omega
  · rw [clampUint8_val]; omega
  · rw [clampUint8_val]; omega

theorem noOvershoot16_of_spec
    (F : Image → Image → List Int → List Int → Int → Option (List Byte)) (n : Nat)
    (smp : Image → Int → Int → Nat → Int → Int)
    (hsb : ∀ inp x start c k, 0 ≤ smp inp x start c k ∧ smp inp x start c k ≤ 65535)
    (hspec : ∀ (inp out : Image) (coeffs offset : List Int) (fl : Int) (pix' : List Byte),
      out.Rect.Dx * (2 * n : Nat) ≤ out.Stride → F inp out coeffs offset fl = some pix' →
      pix'.length = out.Pix.length ∧
      (∀ x y, out.Rect.Min.X ≤ x → x < out.Rect.Max.X → out.Rect.Min.Y ≤ y →
        y < out.Rect.Max.Y →
        Written out (2 * n) (PixelVal int64 enc16 n out coeffs offset fl (smp inp)) pix' x y) ∧
      (∀ j, (∀ x y (c : Nat), out.Rect.Min.X ≤ x → x < out.Rect.Max.X →
          out.Rect.Min.Y ≤ y → y < out.Rect.Max.Y → c < 2 * n →
          j ≠ pixOffset out ((2 * n : Nat) : Int) x y + c) →
        index pix' j = index out.Pix j)) :
    NoOvershoot16 F n smp := by
  intro inp out coeffs offset fl pix' x y start c lo hi hstride hrun hx1 hx2 hy1 hy2 hc hst
    hnn hS hfS hfN hb
  obtain ⟨_, hwr, _⟩ := hspec inp out coeffs offset fl pix' hstride hrun
  obtain ⟨start', hst', _, hhi, hlo⟩ := written16 int64 n out coeffs offset fl (smp inp) pix'
    x y (hwr x y hx1 hx2 hy1 hy2) c hc
  rw [hst] at hst'
  have e : start' = start := (Option.some.inj hst').symm
  subst e
  obtain ⟨⟨q0, q1⟩, q2, q3⟩ := quotient_of_nonneg_kernel coeffs _ fl.toNat
    (smp inp x start' c) lo hi 65535 (hsb inp x start' c) hnn hS hb
  rw [machineQuo_int64 _ _ hfN.1 hfN.2 hfS.1 hfS.2 (by omega) (by omega)] at hhi hlo
  refine ⟨_, _, hhi, hlo, ?_, ?_, ?_⟩
  · rw [uint8_val, uint8_val, clampUint16_eq]; omega
  · rw [uint8_val, uint8_val, clampUint16_eq]; omega
  · rw [uint8_val, uint8_val, clampUint16_eq]; omega

theorem resizeRGBA_noOvershoot : NoOvershoot8 resizeRGBA 4 resizeRGBA.sample :=
  noOvershoot8_of_spec resizeRGBA 4 resizeRGBA.sample
    (fun inp _ _ _ _ => byteAt_bounds inp.Pix _) resizeRGBA_spec

theorem resizeGray_noOvershoot : NoOvershoot8 resizeGray 1 resizeGray.sample :=
  noOvershoot8_of_spec resizeGray 1 resizeGray.sample
    (fun inp _ _ _ _ => byteAt_bounds inp.Pix _) resizeGray_spec

theorem resizeYCbCr_noOvershoot : NoOvershoot8 resizeYCbCr 3 resizeYCbCr.sample :=
  noOvershoot8_of_spec resizeYCbCr 3 resizeYCbCr.sample
    (fun inp _ _ _ _ => byteAt_bounds inp.Pix _) resizeYCbCr_spec

theorem resizeRGBA64_noOvershoot : NoOvershoot16 resizeRGBA64 4 resizeRGBA64.sample :=
  noOvershoot16_of_spec resizeRGBA64 4 resizeRGBA64.sample
    (fun inp _ _ _ _ => wordAt_bounds inp.Pix _) resizeRGBA64_spec

theorem resizeGray16_noOvershoot : NoOvershoot16 resizeGray16 1 resizeGray16.sample :=
  noOvershoot16_of_spec resizeGray16 1 resizeGray16.sample
    (fun inp _ _ _ _ => wordAt_bounds inp.Pix _) resizeGray16_spec

/-! ## Quotients of sums scaled by 257 -/

theorem scaled_quotient_pos (N S : Int) (hN : 0 ≤ N) (hS : 0 < S) :
    0 ≤ Int.tdiv N S ∧ 257 * Int.tdiv N S ≤ Int.tdiv (257 * N) S ∧
      Int.tdiv (257 * N) S ≤ 257 * Int.tdiv N S + 256 := by
  rw [Int.tdiv_eq_ediv hN (by omega), Int.tdiv_eq_ediv (by omega) (by omega)]
  have h1 : N / S * S ≤ N := Int.ediv_mul_le N (by omega)
  have h2 : N < (N / S + 1) * S := Int.lt_ediv_add_one_mul_self N hS
  refine ⟨Int.ediv_nonneg hN (by omega), ?_, ?_⟩
  · apply Int.le_ediv_of_mul_le hS
    nlinarith
  · have : 257 * N / S < 257 * (N / S) + 257 := by
      apply Int.ediv_lt_of_lt_mul hS
      nlinarith
    omega

theorem scaled_quotient (N S : Int) (hS : S ≠ 0) :
    (Int.tdiv N S ≤ 0 ∧ Int.tdiv (257 * N) S ≤ 0) ∨
      (0 ≤ Int.tdiv N S ∧ 257 * Int.tdiv N S ≤ Int.tdiv (257 * N) S ∧
        Int.tdiv (257 * N) S ≤ 257 * Int.tdiv N S + 256) := by
  rcases lt_or_gt_of_ne hS with hneg | hpos
  · rcases le_or_lt 0 N with hN | hN
    · left
      have a := scaled_quotient_pos N (-S) hN (by omega)
      rw [Int.tdiv_neg, Int.tdiv_neg] at a
      omega
    · right
      have a := scaled_quotient_pos (-N) (-S) (by omega) (by omega)
      have e : 257 * -N = -(257 * N) := by ring
      rw [e, Int.tdiv_neg, Int.tdiv_neg, Int.neg_tdiv, Int.neg_tdiv, neg_neg, neg_neg] at a
      exact a
  · rcases le_or_lt 0 N with hN | hN
    · right
      exact scaled_quotient_pos N S hN hpos
    · left
      have a := scaled_quotient_pos (-N) S (by omega) hpos
      have e : 257 * -N = -(257 * N) := by ring
      rw [e, Int.neg_tdiv, Int.neg_tdiv] at a
      omega

theorem high_byte_aux (q t : Int)
    (h : (q ≤ 0 ∧ t ≤ 0) ∨ (0 ≤ q ∧ 257 * q ≤ t ∧ t ≤ 257 * q + 256)) :
    min (max t 0) 65535 / 256 % 256 = min (max q 0) 255 ∨
      min (max t 0) 65535 / 256 % 256 = min (max q 0) 255 + 1 := by
  rcases h with ⟨a, b⟩ | ⟨a, b, c⟩
  · left
    rw [max_eq_right b, max_eq_right a]
    decide
  · rcases le_or_lt 255 q with hq | hq
    · left
      rw [max_eq_left (by omega), max_eq_left a, min_eq_right (by omega), min_eq_right hq]
      decide
    · rw [max_eq_left (by omega), max_eq_left a, min_eq_left (by omega), min_eq_left (by omega)]
      have h1 : q ≤ t / 256 := by omega
      have h2 : t / 256 ≤ q + 1 := by omega
      have h3 : t / 256 % 256 = t / 256 := Int.emod_eq_of_lt (by omega) (by omega)
      rw [h3]
      omega

theorem high_byte_exact (q : Int) :
    min (max (257 * q) 0) 65535 / 256 % 256 = min (max q 0) 255 := by
  rcases le_or_lt q 0 with a | a
  · rw [max_eq_right (by omega), max_eq_right a]
    decide
  · rcases le_or_lt 255 q with hq | hq
    · rw [max_eq_left (by omega), max_eq_left (by omega), min_eq_right (by omega),
        min_eq_right hq]
      decide
    · rw [max_eq_left (by omega), max_eq_left (by omega), min_eq_left (by omega),
        min_eq_left (by omega)]
      have h1 : 257 * q / 256 = q := by omega
      rw [h1]
      exact Int.emod_eq_of_lt (by omega) (by omega)

theorem high_byte_of_scaled (N S : Int) (hS : S ≠ 0) :
    (((uint8 (clampUint16 (Int.tdiv (257 * N) S) / 256)).val : Int)
        = ((clampUint8 (Int.tdiv N S)).val : Int) ∨
      ((uint8 (clampUint16 (Int.tdiv (257 * N) S) / 256)).val : Int)
        = ((clampUint8 (Int.tdiv N S)).val : Int) + 1) ∧
    (S ∣ N → uint8 (clampUint16 (Int.tdiv (257 * N) S) / 256) = clampUint8 (Int.tdiv N S)) := by
  constructor
  · rw [uint8_val, clampUint16_eq, clampUint8_val]
    exact high_byte_aux _ _ (scaled_quotient N S hS)
  · intro hd
    apply Fin.ext
    have e : Int.tdiv (257 * N) S = 257 * Int.tdiv N S := Int.mul_tdiv_assoc 257 hd
    have h : ((uint8 (clampUint16 (Int.tdiv (257 * N) S) / 256)).val : Int)
        = ((clampUint8 (Int.tdiv N S)).val : Int) := by
      rw [uint8_val, clampUint16_eq, clampUint8_val, e]
      exact high_byte_exact _
    exact_mod_cast h

/-! ## The coordinate of a tap -/

theorem chanSum_congr (coeffs : List Int) (ci : Int) (n : Nat) (f g : Int → Int)
    (h : ∀ k : Nat, k < n → f k = g k) : chanSum coeffs ci n f = chanSum coeffs ci n g := by
  unfold chanSum
  apply Finset.sum_congr rfl
  intro k hk
  rw [h k (Finset.mem_range.mp hk)]

/-! ## The bytes that a tap reads -/

theorem resizeRGBA_tapReadsAt (oldBounds : Rectangle) (minX maxX start i k : Int)
    (hk : resizeRGBA.switch oldBounds minX maxX (int64 (start + i)) = k) :
    TapReadsAt (fun row coeffs ci acc =>
      resizeRGBA.tap row coeffs oldBounds minX maxX start ci i acc) (fun c => c ≠ 0) i k 4 := by
  intro coeffs ci acc
  constructor
  · intro row row' h
    have h0 := h 0 (by omega)
    have h1 := h 1 (by omega)
    have h2 := h 2 (by omega)
    have h3 := h 3 (by omega)
    simp only [Nat.cast_zero, Nat.cast_one, Nat.cast_ofNat, add_zero] at h0 h1 h2 h3
    show resizeRGBA.tap row coeffs oldBounds minX maxX start ci i acc
      = resizeRGBA.tap row' coeffs oldBounds minX maxX start ci i acc
    unfold resizeRGBA.tap
    simp only [hk, add_zero, h0, h1, h2, h3]
  · rintro coeff row hcf hsel ⟨j, hj, hnone⟩
    show resizeRGBA.tap row coeffs oldBounds minX maxX start ci i acc = none
    unfold resizeRGBA.tap
    simp only [bind, hcf, Option.some_bind, hk, hsel, if_true, ne_eq, not_false_eq_true,
      add_zero]
    interval_cases j <;>
      simp only [Nat.cast_zero, Nat.cast_one, Nat.cast_ofNat, add_zero] at hnone <;>
      simp [hnone]

theorem resizeRGBA64_tapReadsAt (oldBounds : Rectangle) (minX maxX start i k : Int)
    (hk : resizeRGBA64.switch oldBounds minX maxX (int64 (start + i)) = k) :
    TapReadsAt (fun row coeffs ci acc =>
      resizeRGBA64.tap row coeffs oldBounds minX maxX start ci i acc) (fun c => c ≠ 0) i k 8 := by
  intro coeffs ci acc
  constructor
  · intro row row' h
    have h0 := h 0 (by omega)
    have h1 := h 1 (by omega)
    have h2 := h 2 (by omega)
    have h3 := h 3 (by omega)
    have h4 := h 4 (by omega)
    have h5 := h 5 (by omega)
    have h6 := h 6 (by omega)
    have h7 := h 7 (by omega)
    simp only [Nat.cast_zero, Nat.cast_one, Nat.cast_ofNat, add_zero] at h0 h1 h2 h3 h4 h5 h6 h7
    show resizeRGBA64.tap row coeffs oldBounds minX maxX start ci i acc
      = resizeRGBA64.tap row' coeffs oldBounds minX maxX start ci i acc
    unfold resizeRGBA64.tap
    simp only [hk, add_zero, h0, h1, h2, h3, h4, h5, h6, h7]
  · rintro coeff row hcf hsel ⟨j, hj, hnone⟩
    show resizeRGBA64.tap row coeffs oldBounds minX maxX start ci i acc = none
    unfold resizeRGBA64.tap
    simp only [bind, hcf, Option.some_bind, hk, hsel, if_true, ne_eq, not_false_eq_true,
      add_zero]
    interval_cases j <;>
      simp only [Nat.cast_zero, Nat.cast_one, Nat.cast_ofNat, add_zero] at hnone <;>
      simp [hnone]

theorem resizeGray_tapReadsAt (oldBounds : Rectangle) (minX maxX start i k : Int)
    (hk : resizeGray.switch oldBounds minX maxX (int64 (start + i)) = k) :
    TapReadsAt (fun row coeffs ci acc =>
      resizeGray.tap row coeffs oldBounds minX maxX start ci i acc) (fun c => c ≠ 0) i k 1 := by
  intro coeffs ci acc
  constructor
  · intro row row' h
    have h0 := h 0 (by omega)
    simp only [Nat.cast_zero, add_zero] at h0
    show resizeGray.tap row coeffs oldBounds minX maxX start ci i acc
      = resizeGray.tap row' coeffs oldBounds minX maxX start ci i acc
    unfold resizeGray.tap
    simp only [hk, add_zero, h0]
  · rintro coeff row hcf hsel ⟨j, hj, hnone⟩
    show resizeGray.tap row coeffs oldBounds minX maxX start ci i acc = none
    unfold resizeGray.tap
    simp only [bind, hcf, Option.some_bind, hk, hsel, if_true, ne_eq, not_false_eq_true,
      add_zero]
    interval_cases j
    simp only [Nat.cast_zero, add_zero] at hnone
    simp [hnone]

theorem resizeGray16_tapReadsAt (oldBounds : Rectangle) (minX maxX start i k : Int)
    (hk : resizeGray16.switch oldBounds minX maxX (int64 (start + i)) = k) :
    TapReadsAt (fun row coeffs ci acc =>
      resizeGray16.tap row coeffs oldBounds minX maxX start ci i acc) (fun c => c ≠ 0) i k 2 := by
  intro coeffs ci acc
  constructor
  · intro row row' h
    have h0 := h 0 (by omega)
    have h1 := h 1 (by omega)
    simp only [Nat.cast_zero, Nat.cast_one, Nat.cast_ofNat, add_zero] at h0 h1
    show resizeGray16.tap row coeffs oldBounds minX maxX start ci i acc
      = resizeGray16.tap row' coeffs oldBounds minX maxX start ci i acc
    unfold resizeGray16.tap
    simp only [hk, add_zero, h0, h1]
  · rintro coeff row hcf hsel ⟨j, hj, hnone⟩
    show resizeGray16.tap row coeffs oldBounds minX maxX start ci i acc = none
    unfold resizeGray16.tap
    simp only [bind, hcf, Option.some_bind, hk, hsel, if_true, ne_eq, not_false_eq_true,
      add_zero]
    interval_cases j <;>
      simp only [Nat.cast_zero, Nat.cast_one, Nat.cast_ofNat, add_zero] at hnone <;>
      simp [hnone]

theorem resizeYCbCr_tapReadsAt (oldBounds : Rectangle) (minX maxX start i k : Int)
    (hk : resizeYCbCr.switch oldBounds minX maxX (int64 (start + i)) = k) :
    TapReadsAt (fun row coeffs ci acc =>
      resizeYCbCr.tap row coeffs oldBounds minX maxX start ci i acc) (fun c => c ≠ 0) i k 3 := by
  intro coeffs ci acc
  constructor
  · intro row row' h
    have h0 := h 0 (by omega)
    have h1 := h 1 (by omega)
    have h2 := h 2 (by omega)
    simp only [Nat.cast_zero, Nat.cast_one, Nat.cast_ofNat, add_zero] at h0 h1 h2
    show resizeYCbCr.tap row coeffs oldBounds minX maxX start ci i acc
      = resizeYCbCr.tap row' coeffs oldBounds minX maxX start ci i acc
    unfold resizeYCbCr.tap
    simp only [hk, add_zero, h0, h1, h2]
  · rintro coeff row hcf hsel ⟨j, hj, hnone⟩
    show resizeYCbCr.tap row coeffs oldBounds minX maxX start ci i acc = none
    unfold resizeYCbCr.tap
    simp only [bind, hcf, Option.some_bind, hk, hsel, if_true, ne_eq, not_false_eq_true,
      add_zero]
    interval_cases j <;>
      simp only [Nat.cast_zero, Nat.cast_one, Nat.cast_ofNat, add_zero] at hnone <;>
      simp [hnone]

theorem nearestYCbCr_tapReadsAt {F : Type} (ops : Float32Ops F) (oldBounds : Rectangle) (minX maxX start i k : Int)
    (hk : nearestYCbCr.switch oldBounds minX maxX (int64 (start + i)) = k) :
    TapReadsAt (fun row coeffs ci acc =>
      nearestYCbCr.tap ops row coeffs oldBounds minX maxX start ci i acc) (fun b => b = true) i k 3 := by
  intro coeffs ci acc
  constructor
  · intro row row' h
    have h0 := h 0 (by omega)
    have h1 := h 1 (by omega)
    have h2 := h 2 (by omega)
    simp only [Nat.cast_zero, Nat.cast_one, Nat.cast_ofNat, add_zero] at h0 h1 h2
    show nearestYCbCr.tap ops row coeffs oldBounds minX maxX start ci i acc
      = nearestYCbCr.tap ops row' coeffs oldBounds minX maxX start ci i acc
    unfold nearestYCbCr.tap
    simp only [hk, add_zero, h0, h1, h2]
  · rintro coeff row hcf hsel ⟨j, hj, hnone⟩
    show nearestYCbCr.tap ops row coeffs oldBounds minX maxX start ci i acc = none
    unfold nearestYCbCr.tap
    simp only [bind, hcf, Option.some_bind, hk, hsel, if_true, ne_eq, not_false_eq_true,
      add_zero]
    interval_cases j <;>
      simp only [Nat.cast_zero, Nat.cast_one, Nat.cast_ofNat, add_zero] at hnone <;>
      simp [hnone]

/-- The tap coordinate wraps as in the code: for the `image.Gray` source with the
pixels `10, 20, 30` and the offset `2^63 - 1`, tap `0` has the coordinate
`2^63 - 1` and reads the last pixel, tap `1` has the coordinate `-2^63` and reads
the first pixel, and the call with the coefficients `1, 1` stores
`(30 + 10) / 2 = 20`. -/
theorem resizeGray_wrapped_offset_samples :
    int64 (9223372036854775807 + 0) = 9223372036854775807 ∧
    int64 (9223372036854775807 + 1) = -9223372036854775808 ∧
    resizeGray.sample agreeSourceGray 0 9223372036854775807 0 0 = 30 ∧
    resizeGray.sample agreeSourceGray 0 9223372036854775807 0 1 = 10 ∧
    resizeGray agreeSourceGray wrapDestGray [1, 1] [9223372036854775807] 2 = some [20] := by
  decide

/-! ## The clamp helpers (claims C1, C2) -/

/-- C1: for every value `v`, `clampUint8 v` is `0` when `v < 0`, `255` when
`v > 255` and `v` itself otherwise, so the result always lies in `[0, 255]`;
in particular `clampUint8 (-1) = 0`, `clampUint8 256 = 255` and
`clampUint8 128 = 128`. -/
theorem clampUint8_contract (v : Int) :
    (v < 0 → clampUint8 v = 0) ∧ (v > 255 → clampUint8 v = 255) ∧
      (0 ≤ v → v ≤ 255 → ((clampUint8 v).val : Int) = v) ∧
      (0 ≤ ((clampUint8 v).val : Int) ∧ ((clampUint8 v).val : Int) ≤ 255) ∧
      clampUint8 (-1) = 0 ∧ clampUint8 256 = 255 ∧ clampUint8 128 = 128 := by
  refine ⟨?_, ?_, ?_, ?_, by decide, by decide, by decide⟩
  · intro h
    unfold clampUint8
    rw [if_pos h]
  · intro h
    unfold clampUint8
    rw [if_neg (by omega), if_pos h]
  · intro h0 h1
    rw [clampUint8_val]
    omega
  · rw [clampUint8_val]
    omega

theorem clampUint8_contract_witness :
    clampUint8 (-5) = 0 ∧ clampUint8 300 = 255 ∧ ((clampUint8 77).val : Int) = 77 :=
  ⟨(clampUint8_contract (-5)).1 (by decide), (clampUint8_contract 300).2.1 (by decide),
    (clampUint8_contract 77).2.2.1 (by decide) (by decide)⟩

/-- C2: for every value `v`, `clampUint16 v` is `0` when `v < 0`, `65535` when
`v > 65535` and `v` itself otherwise; in particular `clampUint16 (-1) = 0`,
`clampUint16 65536 = 65535` and `clampUint16 32768 = 32768`. -/
theorem clampUint16_contract (v : Int) :
    (v < 0 → clampUint16 v = 0) ∧ (v > 65535 → clampUint16 v = 65535) ∧
      (0 ≤ v → v ≤ 65535 → clampUint16 v = v) ∧
      (0 ≤ clampUint16 v ∧ clampUint16 v ≤ 65535) ∧
      clampUint16 (-1) = 0 ∧ clampUint16 65536 = 65535 ∧ clampUint16 32768 = 32768 := by
  refine ⟨?_, ?_, ?_, ?_, by decide, by decide, by decide⟩
  · intro h
    rw [clampUint16_eq]
    omega
  · intro h
    rw [clampUint16_eq]
    omega
  · intro h0 h1
    rw [clampUint16_eq]
    omega
  · rw [clampUint16_eq]
    omega

theorem clampUint16_contract_witness :
    clampUint16 (-5) = 0 ∧ clampUint16 70000 = 65535 ∧ clampUint16 4660 = 4660 :=
  ⟨(clampUint16_contract (-5)).1 (by decide), (clampUint16_contract 70000).2.1 (by decide),
    (clampUint16_contract 4660).2.2.1 (by decide) (by decide)⟩

/-! ## The weighted sum of `resizeRGBA` (claim C3) -/

/-- C3, amended: for a source of width `W ≥ 1` (and height `≥ 0`), a destination
whose rows do not overlap (`out.Stride` is at least four times its width) and a
call of `resizeRGBA` that returns, every destination position `(x, y)` in the
destination bounds and every channel `c < 4`: when the coefficients
`coeffs[(y-y0)*filterLength+i]` have a nonzero sum `S`, the sums `S` and
`N = Σ coeffs[(y-y0)*filterLength+i] * in.Pix[x*in.Stride + 4*min(max(xi,0),W-1) + c]`
fit in `int32`, and the quotient fits too (it is not the case that `N = -2^31`
and `S = -1`), the byte `out.Pix[(y-y0)*out.Stride + (x-x0)*4 + c]` after the
call is `clampUint8 (N / S)`, with `/` truncating toward zero.  Here `xi` is the
sum `offset[y]+i` as the code computes it, in the type `int`: it is
`int64 (offset[y] + i)`, which is `offset[y] + i` unless that sum overflows. -/
theorem resizeRGBA_weighted_sum (inp out : Image) (coeffs offset : List Int)
    (filterLength : Int) (pix' : List Byte) (W : Int)
    (hW : inp.Rect.Dx = W) (hW1 : 1 ≤ W) (hH : 0 ≤ inp.Rect.Dy)
    (hstride : out.Rect.Dx * 4 ≤ out.Stride)
    (hrun : resizeRGBA inp out coeffs offset filterLength = some pix')
    (x y : Int) (hx : out.Rect.Min.X ≤ x ∧ x < out.Rect.Max.X)
    (hy : out.Rect.Min.Y ≤ y ∧ y < out.Rect.Max.Y) (c : Nat) (hc : c < 4) (N S : Int)
    (hS : S = ∑ i ∈ Finset.range filterLength.toNat,
      intAt coeffs ((y - out.Rect.Min.Y) * filterLength + i))
    (hN : N = ∑ i ∈ Finset.range filterLength.toNat,
      intAt coeffs ((y - out.Rect.Min.Y) * filterLength + i) *
        byteAt inp.Pix
          (x * inp.Stride + 4 * min (max (int64 (intAt offset y + i)) 0) (W - 1) + c))
    (hS0 : S ≠ 0) (hSfit : -2147483648 ≤ S ∧ S < 2147483648)
    (hNfit : -2147483648 ≤ N ∧ N < 2147483648)
    (hq : ¬ (N = -2147483648 ∧ S = -1)) :
    index pix' ((y - out.Rect.Min.Y) * out.Stride + (x - out.Rect.Min.X) * 4 + c)
      = some (clampUint8 (Int.tdiv N S)) := by
  obtain ⟨_, hwr, _⟩ := resizeRGBA_spec inp out coeffs offset filterLength pix' hstride hrun
  obtain ⟨start, hstart, _, hidx⟩ :=
    written8 int32 4 out coeffs offset filterLength (resizeRGBA.sample inp) pix' x y
      (hwr x y hx.1 hx.2 hy.1 hy.2) c hc
  have hSw : weightSum coeffs ((y - out.Rect.Min.Y) * filterLength) filterLength.toNat = S := by
    rw [hS]; rfl
  have hNw : chanSum coeffs ((y - out.Rect.Min.Y) * filterLength) filterLength.toNat
      (resizeRGBA.sample inp x start c) = N := by
    rw [hN]
    unfold chanSum
    apply Finset.sum_congr rfl
    intro k _
    have hst : intAt offset y = start := by unfold intAt; rw [hstart]; rfl
    unfold resizeRGBA.sample
    rw [resizeRGBA_switch_eq inp _ (by omega), rowBase_eq inp x hH, hst, hW]
    unfold clampColumn
    congr 2
    ring
  rw [hSw, hNw, machineQuo_int32 N S hNfit.1 hNfit.2 hSfit.1 hSfit.2 hS0 hq] at hidx
  have e : pixOffset out ((4 : Nat) : Int) x y = (y - out.Rect.Min.Y) * out.Stride
      + (x - out.Rect.Min.X) * 4 := rfl
  rw [← e]
  exact hidx

theorem resizeRGBA_weighted_sum_witness :
    resizeRGBA smallSourceRGBA quotientDestRGBA [1, 1] [0] 2 = some [15, 16, 17, 18] ∧
      index [15, 16, 17, 18] ((0 - quotientDestRGBA.Rect.Min.Y) * quotientDestRGBA.Stride
        + (0 - quotientDestRGBA.Rect.Min.X) * 4 + (2 : Nat))
        = some (clampUint8 (Int.tdiv 34 2)) :=
  have hrun : resizeRGBA smallSourceRGBA quotientDestRGBA [1, 1] [0] 2
      = some [15, 16, 17, 18] := by decide
  ⟨hrun, resizeRGBA_weighted_sum smallSourceRGBA quotientDestRGBA [1, 1] [0] 2
    [15, 16, 17, 18] 2 (by decide) (by decide) (by decide) (by decide) hrun 0 0
    (by decide) (by decide) 2 (by decide) 34 2 (by decide) (by decide) (by decide)
    (by decide) (by decide) (by decide)⟩

theorem quotientCoeffs16_weightSum : weightSum quotientCoeffs16 0 1025 = -1 := by
  have h := weightSum_all quotientCoeffs16
  have hl : quotientCoeffs16.length = 1025 := by
    unfold quotientCoeffs16
    rw [List.length_append, List.length_append, List.length_replicate,
      List.length_replicate, List.length_singleton]
  rw [hl] at h
  rw [h]
  simp only [quotientCoeffs16, List.sum_append, List.sum_replicate, List.sum_singleton,
    smul_eq_mul]
  norm_num

theorem quotientCoeffs16_chanSum (f : Int → Int)
    (h1 : ∀ k : Nat, k < 513 → f k = 0)
    (h2 : ∀ k : Nat, k < 512 → f ((513 + k : Nat) : Int) = 128) :
    chanSum quotientCoeffs16 0 1025 f = -2147483648 := by
  have h := chanSum_append (List.replicate 512 32767 ++ [511]) (List.replicate 512 (-32768))
    f 0 128
    (by
      rw [List.length_append, List.length_replicate, List.length_singleton]
      exact h1)
    (by
      rw [List.length_append, List.length_replicate, List.length_replicate,
        List.length_singleton]
      exact h2)
  rw [List.length_append, List.length_replicate, List.length_replicate,
    List.length_singleton] at h
  unfold quotientCoeffs16
  rw [h]
  simp only [List.sum_append, List.sum_replicate, List.sum_singleton, smul_eq_mul]
  norm_num

/-- The quotient of `resizeRGBA` wraps: a 2x1 source, a 1x1 destination, filter
length 1025 and offset `-512`, so that 513 taps read the first pixel (value `0`)
and 512 taps read the second (value `128`).  The coefficients sum to `S = -1` and
the weighted sum of channel `0` is `N = -2^31`; both fit in `int32` and `S` is not
zero.  The call returns and stores the byte `0`, whereas `clampUint8 (N / S)` is
`255`. -/
theorem resizeRGBA_quotient_wraps :
    ∃ pix', resizeRGBA quotientSourceRGBA quotientDestRGBA quotientCoeffs16 [-512] 1025
        = some pix' ∧
      index pix' ((0 - quotientDestRGBA.Rect.Min.Y) * quotientDestRGBA.Stride
        + (0 - quotientDestRGBA.Rect.Min.X) * 4 + (0 : Nat)) = some 0 ∧
      (∑ i ∈ Finset.range (1025 : Int).toNat,
        intAt quotientCoeffs16 ((0 - quotientDestRGBA.Rect.Min.Y) * 1025 + i)) = -1 ∧
      (∑ i ∈ Finset.range (1025 : Int).toNat,
        intAt quotientCoeffs16 ((0 - quotientDestRGBA.Rect.Min.Y) * 1025 + i) *
          byteAt quotientSourceRGBA.Pix (0 * quotientSourceRGBA.Stride
            + 4 * min (max (intAt [-512] 0 + i) 0) (2 - 1) + (0 : Nat))) = -2147483648 ∧
      clampUint8 (Int.tdiv (-2147483648) (-1)) = 255 := by
  have hDx : quotientSourceRGBA.Rect.Dx = 2 := by decide
  have hDy : quotientSourceRGBA.Rect.Dy = 1 := by decide
  have hX0 : quotientDestRGBA.Rect.Min.X = 0 := by decide
  have hX1 : quotientDestRGBA.Rect.Max.X = 1 := by decide
  have hY0 : quotientDestRGBA.Rect.Min.Y = 0 := by decide
  have hY1 : quotientDestRGBA.Rect.Max.Y = 1 := by decide
  have hSt : quotientDestRGBA.Stride = 4 := rfl
  have hlen : quotientCoeffs16.length = 1025 := by
    unfold quotientCoeffs16
    rw [List.length_append, List.length_append, List.length_replicate,
      List.length_replicate, List.length_singleton]
  have hS : weightSum quotientCoeffs16 ((0 - quotientDestRGBA.Rect.Min.Y) * 1025)
      (1025 : Int).toNat = -1 := by
    rw [hY0]
    exact quotientCoeffs16_weightSum
  have hN : chanSum quotientCoeffs16 ((0 - quotientDestRGBA.Rect.Min.Y) * 1025)
      (1025 : Int).toNat (fun k => byteAt quotientSourceRGBA.Pix
        (0 * quotientSourceRGBA.Stride + 4 * clampColumn 2 (-512 + k) + (0 : Nat)))
      = -2147483648 := by
    rw [hY0]
    apply quotientCoeffs16_chanSum
    · intro k hk
      have e : clampColumn 2 (-512 + (k : Int)) = 0 := by unfold clampColumn; omega
      simp only [e]
      decide
    · intro k hk
      have e : clampColumn 2 (-512 + ((513 + k : Nat) : Int)) = 1 := by
        unfold clampColumn; omega
      simp only [e]
      decide
  obtain ⟨pix', hrun⟩ := resizeRGBA_isSome quotientSourceRGBA quotientDestRGBA
    quotientCoeffs16 [-512] 1025 (by rw [hDx]; decide)
    (by
      intro x h1 h2
      have hx : x = 0 := by omega
      subst hx
      decide)
    (by
      intro y h1 h2
      have hy : y = 0 := by omega
      subst hy
      decide)
    (by
      intro y k h1 h2 h3 h4
      rw [hlen, hY0]
      omega)
    (by
      intro y h1 h2
      have hy : y = 0 := by omega
      subst hy
      rw [hS]
      decide)
    (by
      intro x y h1 h2 h3 h4
      have hx : x = 0 := by omega
      have hy : y = 0 := by omega
      subst hx hy
      decide)
  refine ⟨pix', hrun, ?_, ?_, ?_, by decide⟩
  · obtain ⟨_, hwr, _⟩ := resizeRGBA_spec quotientSourceRGBA quotientDestRGBA
      quotientCoeffs16 [-512] 1025 pix' (by decide) hrun
    obtain ⟨start, hstart, _, hidx⟩ :=
      written8 int32 4 quotientDestRGBA quotientCoeffs16 [-512] 1025
        (resizeRGBA.sample quotientSourceRGBA) pix' 0 0
        (hwr 0 0 (by decide) (by decide) (by decide) (by decide)) 0 (by omega)
    have hst : start = -512 := by
      have : index [(-512 : Int)] 0 = some (-512) := rfl
      rw [this] at hstart
      exact (Option.some.inj hstart).symm
    subst hst
    have hf : chanSum quotientCoeffs16 ((0 - quotientDestRGBA.Rect.Min.Y) * 1025)
        (1025 : Int).toNat (resizeRGBA.sample quotientSourceRGBA 0 (-512) 0)
        = chanSum quotientCoeffs16 ((0 - quotientDestRGBA.Rect.Min.Y) * 1025)
        (1025 : Int).toNat (fun k => byteAt quotientSourceRGBA.Pix
          (0 * quotientSourceRGBA.Stride + 4 * clampColumn 2 (-512 + k) + (0 : Nat))) := by
      apply chanSum_congr
      intro k hk
      have hk' : k < 1025 := hk
      rw [resizeRGBA_sample_eq _ _ _ _ _ (by rw [hDx]; decide) (by rw [hDy]; decide), hDx,
        int64_of_fits (-512 + (k : Int)) (by omega) (by omega)]
    rw [hf, hS, hN] at hidx
    exact hidx
  · exact hS
  · exact hN

/-- C3, counterexample: two calls on the 2x1 source with the pixels `0` and `128`
and a 1x1 destination.  First, with filter length 1025 and offset `-512` the
coefficients sum to `S = -1` and the weighted sum of channel `0` is `N = -2^31`;
both fit in `int32` and `S` is not zero, the call stores the byte `0`, whereas
`clampUint8 (N / S)` is `255`: the quotient wraps.  Second, with the coefficients
`1, 1` and the offset `2^63 - 1` the sums of the claim are `S = 2` and
`N = 128 + 128 = 256`, since `offset[y] + i` is at least `W` for both taps, and
`clampUint8 (N / S)` is `128`; the call stores `64`, because the code computes
`offset[y] + 1` in the type `int`, where it wraps to `-2^63`, and reads the first
column. -/
theorem resizeRGBA_weighted_sum_counterexample :
    (∃ pix', resizeRGBA quotientSourceRGBA quotientDestRGBA quotientCoeffs16 [-512] 1025
        = some pix' ∧
      index pix' ((0 - quotientDestRGBA.Rect.Min.Y) * quotientDestRGBA.Stride
        + (0 - quotientDestRGBA.Rect.Min.X) * 4 + (0 : Nat)) = some 0 ∧
      (∑ i ∈ Finset.range (1025 : Int).toNat,
        intAt quotientCoeffs16 ((0 - quotientDestRGBA.Rect.Min.Y) * 1025 + i)) = -1 ∧
      (∑ i ∈ Finset.range (1025 : Int).toNat,
        intAt quotientCoeffs16 ((0 - quotientDestRGBA.Rect.Min.Y) * 1025 + i) *
          byteAt quotientSourceRGBA.Pix (0 * quotientSourceRGBA.Stride
            + 4 * min (max (intAt [-512] 0 + i) 0) (2 - 1) + (0 : Nat))) = -2147483648 ∧
      clampUint8 (Int.tdiv (-2147483648) (-1)) = 255) ∧
    (resizeRGBA quotientSourceRGBA quotientDestRGBA [1, 1] [9223372036854775807] 2
        = some [64, 64, 64, 64] ∧
      index [64, 64, 64, 64] ((0 - quotientDestRGBA.Rect.Min.Y) * quotientDestRGBA.Stride
        + (0 - quotientDestRGBA.Rect.Min.X) * 4 + (0 : Nat)) = some (64 : Byte) ∧
      (∑ i ∈ Finset.range (2 : Int).toNat,
        intAt [1, 1] ((0 - quotientDestRGBA.Rect.Min.Y) * 2 + i)) = 2 ∧
      (∑ i ∈ Finset.range (2 : Int).toNat,
        intAt [1, 1] ((0 - quotientDestRGBA.Rect.Min.Y) * 2 + i) *
          byteAt quotientSourceRGBA.Pix (0 * quotientSourceRGBA.Stride
            + 4 * min (max (intAt [9223372036854775807] 0 + i) 0) (2 - 1) + (0 : Nat))) = 256 ∧
      clampUint8 (Int.tdiv 256 2) = 128) :=
  ⟨resizeRGBA_quotient_wraps, by decide, by decide, by decide, by decide, by decide⟩

/-! ## Edge replication in the fixed-format resamplers (claim C4) -/

/-- C4, counterexample: for the `image.Gray` source of width `W = 3` with the
pixels `10, 20, 30`, the offset `2^63 - 1` and the tap `i = 1`, the sum
`offset[y] + i = 2^63` is at least `W`, so that the last column, at the byte
offset `2`, would be read.  The code computes the sum in the type `int`, where
it wraps to `-2^63`: the `switch` gives the byte offset `0`, the tap adds the
first pixel `10` to the accumulator, and the call with the coefficients `1, 1`
stores `(30 + 10) / 2 = 20`, not `(30 + 30) / 2 = 30`. -/
theorem tap_edge_replication_counterexample :
    agreeSourceGray.Rect.Dx = 3 ∧ (9223372036854775807 : Int) + 1 ≥ 3 ∧
    resizeGray.switch (oldBoundsOf agreeSourceGray) (oldBoundsOf agreeSourceGray).Min.X
      ((oldBoundsOf agreeSourceGray).Max.X - (oldBoundsOf agreeSourceGray).Min.X - 1)
      (int64 (9223372036854775807 + 1)) = 0 ∧
    resizeGray.tap agreeSourceGray.Pix [1, 1] (oldBoundsOf agreeSourceGray)
      (oldBoundsOf agreeSourceGray).Min.X
      ((oldBoundsOf agreeSourceGray).Max.X - (oldBoundsOf agreeSourceGray).Min.X - 1)
      9223372036854775807 0 1 ⟨30, 1⟩ = some ⟨40, 2⟩ ∧
    resizeGray agreeSourceGray wrapDestGray [1, 1] [9223372036854775807] 2 = some [20] := by
  decide

/-- C4, amended: in `resizeRGBA`, `resizeRGBA64`, `resizeGray`, `resizeGray16`,
`resizeYCbCr` and `nearestYCbCr`, for a source of width `W ≥ 1`, every entry
`start` of the offset table and every tap `i`, let `xi` be the sum `start + i`
as the code computes it, in the type `int`: `xi = int64 (start + i)`, which is
`start + i` unless that sum overflows.  The tap, when its coefficient is not
zero (is selected), reads the source row at the byte offset `bpp * xi` when
`0 ≤ xi < W`, `bpp * (W - 1)` when `xi ≥ W` and `0` when `xi < 0`, and reads
nothing else of the row (`TapReadsAt`), with `bpp` the bytes per pixel
`4, 8, 1, 2, 3, 3`. -/
theorem tap_edge_replication (inp : Image) (W start i : Int)
    (hW : inp.Rect.Dx = W) (hW1 : 1 ≤ W) :
    let oldBounds := Rect 0 0 inp.Rect.Dx inp.Rect.Dy
    let xi := int64 (start + i)
    let col := if xi < 0 then 0 else if xi ≥ W then W - 1 else xi
    (fitsInt64 (start + i) → xi = start + i) ∧
    TapReadsAt (fun row coeffs ci acc => resizeRGBA.tap row coeffs oldBounds
        (oldBounds.Min.X * 4) ((oldBounds.Max.X - oldBounds.Min.X - 1) * 4) start ci i acc)
      (fun c => c ≠ 0) i (4 * col) 4 ∧
    TapReadsAt (fun row coeffs ci acc => resizeRGBA64.tap row coeffs oldBounds
        (oldBounds.Min.X * 8) ((oldBounds.Max.X - oldBounds.Min.X - 1) * 8) start ci i acc)
      (fun c => c ≠ 0) i (8 * col) 8 ∧
    TapReadsAt (fun row coeffs ci acc => resizeGray.tap row coeffs oldBounds
        oldBounds.Min.X (oldBounds.Max.X - oldBounds.Min.X - 1) start ci i acc)
      (fun c => c ≠ 0) i col 1 ∧
    TapReadsAt (fun row coeffs ci acc => resizeGray16.tap row coeffs oldBounds
        (oldBounds.Min.X * 2) ((oldBounds.Max.X - oldBounds.Min.X - 1) * 2) start ci i acc)
      (fun c => c ≠ 0) i (2 * col) 2 ∧
    TapReadsAt (fun row coeffs ci acc => resizeYCbCr.tap row coeffs oldBounds
        (oldBounds.Min.X * 3) ((oldBounds.Max.X - oldBounds.Min.X - 1) * 3) start ci i acc)
      (fun c => c ≠ 0) i (3 * col) 3 ∧
    ∀ (F : Type) (ops : Float32Ops F),
      TapReadsAt (fun row coeffs ci acc => nearestYCbCr.tap ops row coeffs oldBounds
          (oldBounds.Min.X * 3) ((oldBounds.Max.X - oldBounds.Min.X - 1) * 3) start ci i acc)
        (fun b => b = true) i (3 * col) 3 := by
  intro oldBounds xi col
  have hcol : col = clampColumn inp.Rect.Dx xi := by
    show (if xi < 0 then 0 else if xi ≥ W then W - 1 else xi) = _
    unfold clampColumn
    rw [hW]
    split_ifs <;> omega
  have h1 : 1 ≤ inp.Rect.Dx := by omega
  rw [hcol]
  refine ⟨fun hf => int64_of_fits _ hf.1 hf.2, ?_, ?_, ?_, ?_, ?_, ?_⟩
  · exact resizeRGBA_tapReadsAt _ _ _ _ _ _ (resizeRGBA_switch_eq inp xi h1)
  · exact resizeRGBA64_tapReadsAt _ _ _ _ _ _ (resizeRGBA64_switch_eq inp xi h1)
  · exact resizeGray_tapReadsAt _ _ _ _ _ _ (resizeGray_switch_eq inp xi h1)
  · exact resizeGray16_tapReadsAt _ _ _ _ _ _ (resizeGray16_switch_eq inp xi h1)
  · exact resizeYCbCr_tapReadsAt _ _ _ _ _ _ (resizeYCbCr_switch_eq inp xi h1)
  · intro F ops
    exact nearestYCbCr_tapReadsAt ops _ _ _ _ _ _ (nearestYCbCr_switch_eq inp xi h1)

theorem tap_edge_replication_witness :
    agreeSourceGray.Rect.Dx = 3 ∧
      resizeGray.tap [] [1, 1] (Rect 0 0 agreeSourceGray.Rect.Dx agreeSourceGray.Rect.Dy)
        (Rect 0 0 agreeSourceGray.Rect.Dx agreeSourceGray.Rect.Dy).Min.X
        ((Rect 0 0 agreeSourceGray.Rect.Dx agreeSourceGray.Rect.Dy).Max.X
          - (Rect 0 0 agreeSourceGray.Rect.Dx agreeSourceGray.Rect.Dy).Min.X - 1)
        4 0 1 ⟨0, 0⟩ = none :=
  have h := tap_edge_replication agreeSourceGray 3 4 1 (by decide) (by decide)
  ⟨by decide, (h.2.2.2.1 [1, 1] 0 ⟨0, 0⟩).2 1 [] (by decide) (by decide)
    ⟨0, by decide, by decide⟩⟩

/-! ## Edge replication in the generic resampler (claim C5) -/

/-- C5, as the code behaves: the two replication cases of `resizeGeneric` are
exchanged.  For a source of width `2` the coordinate `xi = 2` (beyond the last
column) is mapped to column `0` and the coordinate `xi = -1` (before the first
column) to column `1`; with offset `1`, filter length `2` and coefficients
`1, 1` the taps read column `1` (value `300`) and, for `xi = 2`, column `0`
(value `100`), so the stored channel is `200` (bytes `0, 200`) and not the `300`
(bytes `1, 44`) of the last column. -/
theorem resizeGeneric_edge_columns_exchanged :
    resizeGeneric.switch (Rect 0 0 twoColumnGeneric.Bounds.Dx twoColumnGeneric.Bounds.Dy)
        (1 + 1) = 0 ∧
      resizeGeneric.switch (Rect 0 0 twoColumnGeneric.Bounds.Dx twoColumnGeneric.Bounds.Dy)
        (-1 + 0) = 1 ∧
      resizeGeneric twoColumnGeneric destRGBA64 [1, 1] [1] 2
        = some [0, 200, 0, 200, 0, 200, 255, 255] ∧
      bigEndian 300 = [1, 44] := by
  decide

/-! ## Normalisation identity of the fixed-format resamplers (claim C6) -/

/-- C6: for each of `resizeRGBA`, `resizeRGBA64`, `resizeGray`, `resizeGray16` and
`resizeYCbCr`, a source of width at least `1`, a destination whose rows do not
overlap, a call that returns and a destination position `(x, y)` whose
coefficient row has a nonzero sum `S`: if every pixel of the source row `x` has
the same bytes `C`, and the accumulated sums (`S`, and `S` times each channel
value of `C`) are in the range of the accumulator, then the destination pixel
`(x, y)` holds exactly the bytes `C`. -/
theorem normalization_identity (inp out : Image) (coeffs offset : List Int)
    (filterLength : Int) (pix' : List Byte) (x y : Int) (C : List Byte) (S : Int)
    (hW : 1 ≤ inp.Rect.Dx) (hH : 0 ≤ inp.Rect.Dy)
    (hx : out.Rect.Min.X ≤ x ∧ x < out.Rect.Max.X)
    (hy : out.Rect.Min.Y ≤ y ∧ y < out.Rect.Max.Y)
    (hS : S = ∑ i ∈ Finset.range filterLength.toNat,
      intAt coeffs ((y - out.Rect.Min.Y) * filterLength + i))
    (hS0 : S ≠ 0) :
    (resizeRGBA inp out coeffs offset filterLength = some pix' →
      out.Rect.Dx * 4 ≤ out.Stride → C.length = 4 → UniformRow inp 4 x C →
      fitsInt32 S → (∀ j : Nat, j < 4 → fitsInt32 (S * byteAt C j)) →
      PixelIs out pix' 4 x y C) ∧
    (resizeRGBA64 inp out coeffs offset filterLength = some pix' →
      out.Rect.Dx * 8 ≤ out.Stride → C.length = 8 → UniformRow inp 8 x C →
      fitsInt64 S → (∀ c : Nat, c < 4 → fitsInt64 (S * wordAt C (2 * c : Nat))) →
      PixelIs out pix' 8 x y C) ∧
    (resizeGray inp out coeffs offset filterLength = some pix' →
      out.Rect.Dx * 1 ≤ out.Stride → C.length = 1 → UniformRow inp 1 x C →
      fitsInt32 S → (∀ j : Nat, j < 1 → fitsInt32 (S * byteAt C j)) →
      PixelIs out pix' 1 x y C) ∧
    (resizeGray16 inp out coeffs offset filterLength = some pix' →
      out.Rect.Dx * 2 ≤ out.Stride → C.length = 2 → UniformRow inp 2 x C →
      fitsInt64 S → (∀ c : Nat, c < 1 → fitsInt64 (S * wordAt C (2 * c : Nat))) →
      PixelIs out pix' 2 x y C) ∧
    (resizeYCbCr inp out coeffs offset filterLength = some pix' →
      out.Rect.Dx * 3 ≤ out.Stride → C.length = 3 → UniformRow inp 3 x C →
      fitsInt32 S → (∀ j : Nat, j < 3 → fitsInt32 (S * byteAt C j)) →
      PixelIs out pix' 3 x y C) := by
  have hSw : weightSum coeffs ((y - out.Rect.Min.Y) * filterLength) filterLength.toNat = S := by
    rw [hS]; rfl
  refine ⟨?_, ?_, ?_, ?_, ?_⟩
  · intro hrun hst hC hu hfS hfN
    exact resizeRGBA_uniform inp out coeffs offset filterLength pix' x y C hW hH hx hy hrun
      hst hC hu (by rw [hSw]; exact hS0) (by rw [hSw]; exact hfS) (by rw [hSw]; exact hfN)
  · intro hrun hst hC hu hfS hfN
    exact resizeRGBA64_uniform inp out coeffs offset filterLength pix' x y C hW hH hx hy hrun
      hst hC hu (by rw [hSw]; exact hS0) (by rw [hSw]; exact hfS) (by rw [hSw]; exact hfN)
  · intro hrun hst hC hu hfS hfN
    exact resizeGray_uniform inp out coeffs offset filterLength pix' x y C hW hH hx hy hrun
      hst hC hu (by rw [hSw]; exact hS0) (by rw [hSw]; exact hfS) (by rw [hSw]; exact hfN)
  · intro hrun hst hC hu hfS hfN
    exact resizeGray16_uniform inp out coeffs offset filterLength pix' x y C hW hH hx hy hrun
      hst hC hu (by rw [hSw]; exact hS0) (by rw [hSw]; exact hfS) (by rw [hSw]; exact hfN)
  · intro hrun hst hC hu hfS hfN
    exact resizeYCbCr_uniform inp out coeffs offset filterLength pix' x y C hW hH hx hy hrun
      hst hC hu (by rw [hSw]; exact hS0) (by rw [hSw]; exact hfS) (by rw [hSw]; exact hfN)

theorem normalization_identity_witness :
    resizeRGBA uniformSourceRGBA uniformDestRGBA [1, 1, 1, 1] [0, 2] 2
        = some (List.replicate 8 [10, 20, 30, 40]).flatten ∧
      UniformRow uniformSourceRGBA 4 3 [10, 20, 30, 40] ∧
      PixelIs uniformDestRGBA (List.replicate 8 [10, 20, 30, 40]).flatten 4 3 1
        [10, 20, 30, 40] :=
  have hrun : resizeRGBA uniformSourceRGBA uniformDestRGBA [1, 1, 1, 1] [0, 2] 2
      = some (List.replicate 8 [10, 20, 30, 40]).flatten := by decide
  have hu : UniformRow uniformSourceRGBA 4 3 [10, 20, 30, 40] := by
    intro col h0 h1 j hj
    have h1' : col < 4 := h1
    interval_cases col <;> interval_cases j <;> rfl
  ⟨hrun, hu,
    (normalization_identity uniformSourceRGBA uniformDestRGBA [1, 1, 1, 1] [0, 2] 2
      (List.replicate 8 [10, 20, 30, 40]).flatten 3 1 [10, 20, 30, 40] 2
      (by decide) (by decide) (by decide) (by decide) (by decide) (by decide)).1
      hrun (by decide) rfl hu ⟨by decide, by decide⟩
      (by intro j hj; interval_cases j <;> exact ⟨by decide, by decide⟩)⟩

/-! ## Normalisation identity of the generic resampler (claim C7) -/

theorem bigEndian_bytes (v : Nat) (hv : v ≤ 65535) :
    256 * byteAt (bigEndian v) (0 : Nat) + byteAt (bigEndian v) (1 : Nat) = (v : Int) := by
  have e0 : byteAt (bigEndian v) (0 : Nat) = ((uint8 ((v : Int) / 256)).val : Int) := rfl
  have e1 : byteAt (bigEndian v) (1 : Nat) = ((uint8 (v : Int)).val : Int) := rfl
  rw [e0, e1, uint8_val, uint8_val]
  omega

/-- C7, amended: in `resizeGeneric`, for a destination whose rows do not overlap,
a call that returns and a destination position `(x, y)` whose coefficient row
has a nonzero sum `S`: if `in.At` returns the same colour `(r, g, b, a)` with
16-bit channels for every source pixel, and the sums `S`, `S*r`, `S*g`, `S*b`,
`S*a` fit in `int64`, then the 8 bytes of the destination pixel are the
big-endian encodings of `r`, `g`, `b`, `a`. -/
theorem generic_uniform_colour (inp : GenericImage) (out : Image)
    (coeffs offset : List Int) (filterLength : Int) (pix' : List Byte) (x y : Int)
    (col : Color) (S : Int)
    (hcol : ∀ u v, inp.At u v = col)
    (h16 : col.r ≤ 65535 ∧ col.g ≤ 65535 ∧ col.b ≤ 65535 ∧ col.a ≤ 65535)
    (hstride : out.Rect.Dx * 8 ≤ out.Stride)
    (hrun : resizeGeneric inp out coeffs offset filterLength = some pix')
    (hx : out.Rect.Min.X ≤ x ∧ x < out.Rect.Max.X)
    (hy : out.Rect.Min.Y ≤ y ∧ y < out.Rect.Max.Y)
    (hS : S = ∑ i ∈ Finset.range filterLength.toNat,
      intAt coeffs ((y - out.Rect.Min.Y) * filterLength + i))
    (hS0 : S ≠ 0) (hfS : fitsInt64 S)
    (hfN : fitsInt64 (S * col.r) ∧ fitsInt64 (S * col.g) ∧ fitsInt64 (S * col.b) ∧
      fitsInt64 (S * col.a)) :
    PixelIs out pix' 8 x y
      (bigEndian col.r ++ bigEndian col.g ++ bigEndian col.b ++ bigEndian col.a) := by
  have hSw : weightSum coeffs ((y - out.Rect.Min.Y) * filterLength) filterLength.toNat = S := by
    rw [hS]; rfl
  obtain ⟨_, hwr, _⟩ := resizeGeneric_spec inp out coeffs offset filterLength pix' hstride hrun
  have hval : ∀ c : Nat, c < 4 →
      256 * byteAt (bigEndian col.r ++ bigEndian col.g ++ bigEndian col.b ++ bigEndian col.a)
          (2 * c : Nat)
        + byteAt (bigEndian col.r ++ bigEndian col.g ++ bigEndian col.b ++ bigEndian col.a)
          (2 * c + 1 : Nat) = col.chan c := by
    intro c hc
    interval_cases c
    · exact bigEndian_bytes col.r h16.1
    · exact bigEndian_bytes col.g h16.2.1
    · exact bigEndian_bytes col.b h16.2.2.1
    · exact bigEndian_bytes col.a h16.2.2.2
  apply uniform16 4 out coeffs offset filterLength (resizeGeneric.sample inp) pix' x y
    (bigEndian col.r ++ bigEndian col.g ++ bigEndian col.b ++ bigEndian col.a)
    (hwr x y hx.1 hx.2 hy.1 hy.2) rfl
  · intro start c k hc
    rw [hval c hc]
    unfold resizeGeneric.sample
    rw [hcol]
  · rw [hSw]; exact hS0
  · rw [hSw]; exact hfS
  · rw [hSw]
    intro c hc
    rw [hval c hc]
    interval_cases c
    · exact hfN.1
    · exact hfN.2.1
    · exact hfN.2.2.1
    · exact hfN.2.2.2

theorem generic_uniform_colour_witness :
    resizeGeneric whiteGeneric destRGBA64 [3, 5] [0] 2
        = some [255, 255, 255, 255, 255, 255, 255, 255] ∧
      PixelIs destRGBA64 [255, 255, 255, 255, 255, 255, 255, 255] 8 0 0
        (bigEndian 65535 ++ bigEndian 65535 ++ bigEndian 65535 ++ bigEndian 65535) :=
  have hrun : resizeGeneric whiteGeneric destRGBA64 [3, 5] [0] 2
      = some [255, 255, 255, 255, 255, 255, 255, 255] := by decide
  ⟨hrun, generic_uniform_colour whiteGeneric destRGBA64 [3, 5] [0] 2
    [255, 255, 255, 255, 255, 255, 255, 255] 0 0 ⟨65535, 65535, 65535, 65535⟩ 8
    (fun _ _ => rfl) (by decide) (by decide) hrun (by decide) (by decide) (by decide)
    (by decide) ⟨by decide, by decide⟩
    ⟨⟨by decide, by decide⟩, ⟨by decide, by decide⟩, ⟨by decide, by decide⟩,
      ⟨by decide, by decide⟩⟩⟩

theorem overflowCoeffs_weightSum :
    weightSum overflowCoeffs 0 65538 = -140741783322624 := by
  have h := weightSum_all overflowCoeffs
  have hl : overflowCoeffs.length = 65538 := by
    unfold overflowCoeffs
    rw [List.length_replicate]
  rw [hl] at h
  rw [h]
  unfold overflowCoeffs
  rw [List.sum_replicate]
  norm_num

/-- C7, counterexample: a source whose every pixel is opaque white
`(65535, 65535, 65535, 65535)`, a 1x1 destination, and a row of 65538
coefficients `-2^31`, whose sum `S = -65538 * 2^31` is not zero (and fits in
`int64`).  The weighted sum `S * 65535` does not fit in `int64`; the call returns
and the 8 bytes stored are zeros, not the big-endian encodings `255, 255` of
`65535`. -/
theorem generic_uniform_colour_counterexample :
    ∃ pix', resizeGeneric whiteGeneric destRGBA64 overflowCoeffs [0] 65538 = some pix' ∧
      (∀ u v, whiteGeneric.At u v = ⟨65535, 65535, 65535, 65535⟩) ∧
      (∑ i ∈ Finset.range (65538 : Int).toNat,
        intAt overflowCoeffs ((0 - destRGBA64.Rect.Min.Y) * 65538 + i)) = -140741783322624 ∧
      (∀ j : Nat, j < 8 →
        index pix' ((0 - destRGBA64.Rect.Min.Y) * destRGBA64.Stride
          + (0 - destRGBA64.Rect.Min.X) * 8 + j) = some 0) ∧
      bigEndian 65535 = [255, 255] := by
  have hY0 : destRGBA64.Rect.Min.Y = 0 := by decide
  have hlen : overflowCoeffs.length = 65538 := by
    unfold overflowCoeffs
    rw [List.length_replicate]
  have hS : weightSum overflowCoeffs ((0 - destRGBA64.Rect.Min.Y) * 65538)
      (65538 : Int).toNat = -140741783322624 := by
    rw [hY0]
    exact overflowCoeffs_weightSum
  obtain ⟨pix', hrun⟩ := resizeGeneric_isSome whiteGeneric destRGBA64 overflowCoeffs [0] 65538
    (by
      intro y h1 h2
      have hy : y = 0 := by
        have a1 : destRGBA64.Rect.Min.Y = 0 := by decide
        have a2 : destRGBA64.Rect.Max.Y = 1 := by decide
        omega
      subst hy
      decide)
    (by
      intro y k h1 h2 h3 h4
      rw [hlen, hY0]
      have a2 : destRGBA64.Rect.Max.Y = 1 := by decide
      omega)
    (by
      intro y h1 h2
      have hy : y = 0 := by
        have a2 : destRGBA64.Rect.Max.Y = 1 := by decide
        omega
      subst hy
      rw [hS]
      decide)
    (by
      intro x y h1 h2 h3 h4
      have a0 : destRGBA64.Rect.Min.X = 0 := by decide
      have a1 : destRGBA64.Rect.Max.X = 1 := by decide
      have a2 : destRGBA64.Rect.Max.Y = 1 := by decide
      have hx : x = 0 := by omega
      have hy : y = 0 := by omega
      subst hx hy
      decide)
  refine ⟨pix', hrun, fun _ _ => rfl, hS, ?_, by decide⟩
  obtain ⟨_, hwr, _⟩ := resizeGeneric_spec whiteGeneric destRGBA64 overflowCoeffs [0] 65538
    pix' (by decide) hrun
  have hq : ∀ c : Nat, c < 4 →
      machineQuo int64
        (chanSum overflowCoeffs ((0 - destRGBA64.Rect.Min.Y) * 65538) (65538 : Int).toNat
          (resizeGeneric.sample whiteGeneric 0 0 c))
        (weightSum overflowCoeffs ((0 - destRGBA64.Rect.Min.Y) * 65538) (65538 : Int).toNat)
      = -65533 := by
    intro c hc
    have hu : ∀ k, resizeGeneric.sample whiteGeneric 0 0 c k = 65535 := by
      intro k
      unfold resizeGeneric.sample
      interval_cases c <;> rfl
    rw [chanSum_uniform _ _ _ _ 65535 hu, hS]
    decide
  intro j hj
  have hc : j / 2 < 4 := by omega
  obtain ⟨start, hstart, _, hhi, hlo⟩ :=
    written16 int64 4 destRGBA64 overflowCoeffs [0] 65538
      (resizeGeneric.sample whiteGeneric) pix' 0 0
      (hwr 0 0 (by decide) (by decide) (by decide) (by decide)) (j / 2) hc
  have hst : start = 0 := by
    have : index [(0 : Int)] 0 = some 0 := rfl
    rw [this] at hstart
    exact (Option.some.inj hstart).symm
  subst hst
  rw [hq (j / 2) hc] at hhi hlo
  have e : ∀ m : Nat, (0 - destRGBA64.Rect.Min.Y) * destRGBA64.Stride
      + (0 - destRGBA64.Rect.Min.X) * 8 + (m : Int)
      = pixOffset destRGBA64 ((2 * 4 : Nat) : Int) 0 0 + (m : Int) := fun _ => rfl
  rw [e]
  rcases Nat.mod_two_eq_zero_or_one j with hpar | hpar
  · have ej : j = 2 * (j / 2) := by omega
    rw [ej, hhi]
    decide
  · have ej : j = 2 * (j / 2) + 1 := by omega
    rw [ej, hlo]
    decide

/-! ## Big-endian samples and results (claim C8) -/

theorem bigEndian_value (q : Int) :
    ((uint8 (clampUint16 q / 256)).val : Int) * 256 + ((uint8 (clampUint16 q)).val : Int)
      = clampUint16 q := by
  have h := clampUint16_eq q
  rw [uint8_val, uint8_val]
  omega

/-- C8, amended: in `resizeGray16`, and for each channel `c < 4` in `resizeRGBA64`,
for a source of width `W ≥ 1`, a destination whose rows do not overlap, a call
that returns and a destination position `(x, y)` whose coefficient row has a
nonzero sum `S`: when `S` and `N = Σ coeff_i * (256 * row[k] + row[k+1])` fit in
`int64`, `k` being the edge-clamped byte offset of the tap's sample, and the
quotient fits too (it is not the case that `N = -2^63` and `S = -1`), the two
bytes `hi`, `lo` stored for the channel satisfy
`hi * 256 + lo = clampUint16 (N / S)`, with `/` truncating toward zero.  The
offset `k` is `bpp * min (max xi 0) (W - 1)` (plus `2 * c`), where `xi` is the
sum `offset[y]+i` as the code computes it, in the type `int`: it is
`int64 (offset[y] + i)`, which is `offset[y] + i` unless that sum overflows. -/
theorem big_endian_resample (inp out : Image) (coeffs offset : List Int)
    (filterLength : Int) (pix' : List Byte) (W x y S : Int)
    (hW : inp.Rect.Dx = W) (hW1 : 1 ≤ W) (hH : 0 ≤ inp.Rect.Dy)
    (hx : out.Rect.Min.X ≤ x ∧ x < out.Rect.Max.X)
    (hy : out.Rect.Min.Y ≤ y ∧ y < out.Rect.Max.Y)
    (hS : S = ∑ i ∈ Finset.range filterLength.toNat,
      intAt coeffs ((y - out.Rect.Min.Y) * filterLength + i))
    (hS0 : S ≠ 0) (hfS : fitsInt64 S) :
    (resizeGray16 inp out coeffs offset filterLength = some pix' →
      out.Rect.Dx * 2 ≤ out.Stride →
      ∀ N : Int, N = ∑ i ∈ Finset.range filterLength.toNat,
          intAt coeffs ((y - out.Rect.Min.Y) * filterLength + i) *
            (256 * byteAt inp.Pix
                (x * inp.Stride + 2 * min (max (int64 (intAt offset y + i)) 0) (W - 1))
              + byteAt inp.Pix
                (x * inp.Stride + 2 * min (max (int64 (intAt offset y + i)) 0) (W - 1) + 1)) →
        fitsInt64 N → ¬ (N = -9223372036854775808 ∧ S = -1) →
        ∃ hi lo : Byte,
          index pix' ((y - out.Rect.Min.Y) * out.Stride + (x - out.Rect.Min.X) * 2)
            = some hi ∧
          index pix' ((y - out.Rect.Min.Y) * out.Stride + (x - out.Rect.Min.X) * 2 + 1)
            = some lo ∧
          (hi.val : Int) * 256 + (lo.val : Int) = clampUint16 (Int.tdiv N S)) ∧
    (resizeRGBA64 inp out coeffs offset filterLength = some pix' →
      out.Rect.Dx * 8 ≤ out.Stride →
      ∀ c : Nat, c < 4 →
      ∀ N : Int, N = ∑ i ∈ Finset.range filterLength.toNat,
          intAt coeffs ((y - out.Rect.Min.Y) * filterLength + i) *
            (256 * byteAt inp.Pix
                (x * inp.Stride + 8 * min (max (int64 (intAt offset y + i)) 0) (W - 1) + 2 * c)
              + byteAt inp.Pix
                (x * inp.Stride + 8 * min (max (int64 (intAt offset y + i)) 0) (W - 1) + 2 * c + 1)) →
        fitsInt64 N → ¬ (N = -9223372036854775808 ∧ S = -1) →
        ∃ hi lo : Byte,
          index pix' ((y - out.Rect.Min.Y) * out.Stride + (x - out.Rect.Min.X) * 8 + 2 * c)
            = some hi ∧
          index pix' ((y - out.Rect.Min.Y) * out.Stride + (x - out.Rect.Min.X) * 8
              + 2 * c + 1) = some lo ∧
          (hi.val : Int) * 256 + (lo.val : Int) = clampUint16 (Int.tdiv N S)) := by
  have hSw : weightSum coeffs ((y - out.Rect.Min.Y) * filterLength) filterLength.toNat = S := by
    rw [hS]; rfl
  have hW' : 1 ≤ inp.Rect.Dx := by omega
  constructor
  · intro hrun hst N hN hfN hq
    obtain ⟨_, hwr, _⟩ := resizeGray16_spec inp out coeffs offset filterLength pix' hst hrun
    obtain ⟨start, hstart, _, hhi, hlo⟩ :=
      written16 int64 1 out coeffs offset filterLength (resizeGray16.sample inp) pix' x y
        (hwr x y hx.1 hx.2 hy.1 hy.2) 0 (by omega)
    have hst' : intAt offset y = start := by unfold intAt; rw [hstart]; rfl
    have hNw : chanSum coeffs ((y - out.Rect.Min.Y) * filterLength) filterLength.toNat
        (resizeGray16.sample inp x start 0) = N := by
      rw [hN]
      unfold chanSum
      apply Finset.sum_congr rfl
      intro k _
      rw [resizeGray16_sample_eq inp x start 0 k hW' hH, hst', hW]
      unfold wordAt clampColumn
      simp only [Nat.cast_ofNat, mul_zero, Nat.cast_zero, add_zero]
    rw [hSw, hNw, machineQuo_int64 N S hfN.1 hfN.2 hfS.1 hfS.2 hS0 hq] at hhi hlo
    refine ⟨_, _, ?_, ?_, bigEndian_value (Int.tdiv N S)⟩
    · have e : pixOffset out ((2 * 1 : Nat) : Int) x y + ((2 * 0 : Nat) : Int)
          = (y - out.Rect.Min.Y) * out.Stride + (x - out.Rect.Min.X) * 2 := by
        unfold pixOffset; push_cast; ring
      rw [← e]
      exact hhi
    · have e : pixOffset out ((2 * 1 : Nat) : Int) x y + ((2 * 0 + 1 : Nat) : Int)
          = (y - out.Rect.Min.Y) * out.Stride + (x - out.Rect.Min.X) * 2 + 1 := by
        unfold pixOffset; push_cast; ring
      rw [← e]
      exact hlo
  · intro hrun hst c hc N hN hfN hq
    obtain ⟨_, hwr, _⟩ := resizeRGBA64_spec inp out coeffs offset filterLength pix' hst hrun
    obtain ⟨start, hstart, _, hhi, hlo⟩ :=
      written16 int64 4 out coeffs offset filterLength (resizeRGBA64.sample inp) pix' x y
        (hwr x y hx.1 hx.2 hy.1 hy.2) c hc
    have hst' : intAt offset y = start := by unfold intAt; rw [hstart]; rfl
    have hNw : chanSum coeffs ((y - out.Rect.Min.Y) * filterLength) filterLength.toNat
        (resizeRGBA64.sample inp x start c) = N := by
      rw [hN]
      unfold chanSum
      apply Finset.sum_congr rfl
      intro k _
      rw [resizeRGBA64_sample_eq inp x start c k hW' hH, hst', hW]
      unfold wordAt clampColumn
      simp only [Nat.cast_ofNat, Nat.cast_mul]
    rw [hSw, hNw, machineQuo_int64 N S hfN.1 hfN.2 hfS.1 hfS.2 hS0 hq] at hhi hlo
    refine ⟨_, _, ?_, ?_, bigEndian_value (Int.tdiv N S)⟩
    · have e : pixOffset out ((2 * 4 : Nat) : Int) x y + ((2 * c : Nat) : Int)
          = (y - out.Rect.Min.Y) * out.Stride + (x - out.Rect.Min.X) * 8 + 2 * c := by
        unfold pixOffset; push_cast; ring
      rw [← e]
      exact hhi
    · have e : pixOffset out ((2 * 4 : Nat) : Int) x y + ((2 * c + 1 : Nat) : Int)
          = (y - out.Rect.Min.Y) * out.Stride + (x - out.Rect.Min.X) * 8 + 2 * c + 1 := by
        unfold pixOffset; push_cast; ring
      rw [← e]
      exact hlo

theorem big_endian_resample_witness :
    resizeGray16 smallSourceGray16 quotientDestGray16 [1, 1] [0] 2 = some [2, 3] ∧
      ∃ hi lo : Byte, index [2, 3] ((0 - 0) * 2 + (0 - 0) * 2) = some hi ∧
        index [2, 3] ((0 - 0) * 2 + (0 - 0) * 2 + 1) = some lo ∧
        (hi.val : Int) * 256 + (lo.val : Int) = clampUint16 (Int.tdiv 1030 2) :=
  have hrun : resizeGray16 smallSourceGray16 quotientDestGray16 [1, 1] [0] 2 = some [2, 3] := by
    decide
  ⟨hrun,
    (big_endian_resample smallSourceGray16 quotientDestGray16 [1, 1] [0] 2 [2, 3] 2 0 0 2
      (by decide) (by decide) (by decide) (by decide) (by decide) (by decide) (by decide)
      ⟨by decide, by decide⟩).1 hrun (by decide) 1030 (by decide) ⟨by decide, by decide⟩
      (by decide)⟩

theorem quotientCoeffs32_weightSum : weightSum quotientCoeffs32 0 262145 = -1 := by
  have h := weightSum_all quotientCoeffs32
  have hl : quotientCoeffs32.length = 262145 := by
    unfold quotientCoeffs32
    rw [List.length_append, List.length_append, List.length_replicate,
      List.length_replicate, List.length_singleton]
  rw [hl] at h
  rw [h]
  simp only [quotientCoeffs32, List.sum_append, List.sum_replicate, List.sum_singleton,
    smul_eq_mul]
  norm_num

theorem quotientCoeffs32_chanSum (f : Int → Int)
    (h1 : ∀ k : Nat, k < 131073 → f k = 0)
    (h2 : ∀ k : Nat, k < 131072 → f ((131073 + k : Nat) : Int) = 32768) :
    chanSum quotientCoeffs32 0 262145 f = -9223372036854775808 := by
  have h := chanSum_append (List.replicate 131072 2147483647 ++ [131071])
    (List.replicate 131072 (-2147483648)) f 0 32768
    (by
      rw [List.length_append, List.length_replicate, List.length_singleton]
      exact h1)
    (by
      rw [List.length_append, List.length_replicate, List.length_replicate,
        List.length_singleton]
      exact h2)
  rw [List.length_append, List.length_replicate, List.length_replicate,
    List.length_singleton] at h
  unfold quotientCoeffs32
  rw [h]
  simp only [List.sum_append, List.sum_replicate, List.sum_singleton, smul_eq_mul]
  norm_num

/-- The quotient of `resizeGray16` wraps: a 2x1 `Gray16` source, a 1x1
destination, filter length 262145 and offset `-131072`, so that 131073 taps read
the first pixel (value `0`) and 131072 taps read the second (value `32768`).  The
coefficients sum to `S = -1` and the weighted sum is `N = -2^63`; both fit in
`int64` and `S` is not zero.  The call returns and stores the bytes `0, 0`,
whereas `clampUint16 (N / S)` is `65535`. -/
theorem resizeGray16_quotient_wraps :
    ∃ pix', resizeGray16 quotientSourceGray16 quotientDestGray16 quotientCoeffs32
        [-131072] 262145 = some pix' ∧
      index pix' ((0 - quotientDestGray16.Rect.Min.Y) * quotientDestGray16.Stride
        + (0 - quotientDestGray16.Rect.Min.X) * 2) = some 0 ∧
      index pix' ((0 - quotientDestGray16.Rect.Min.Y) * quotientDestGray16.Stride
        + (0 - quotientDestGray16.Rect.Min.X) * 2 + 1) = some 0 ∧
      (∑ i ∈ Finset.range (262145 : Int).toNat,
        intAt quotientCoeffs32 ((0 - quotientDestGray16.Rect.Min.Y) * 262145 + i)) = -1 ∧
      (∑ i ∈ Finset.range (262145 : Int).toNat,
        intAt quotientCoeffs32 ((0 - quotientDestGray16.Rect.Min.Y) * 262145 + i) *
          (256 * byteAt quotientSourceGray16.Pix (0 * quotientSourceGray16.Stride
              + 2 * min (max (intAt [-131072] 0 + i) 0) (2 - 1))
            + byteAt quotientSourceGray16.Pix (0 * quotientSourceGray16.Stride
              + 2 * min (max (intAt [-131072] 0 + i) 0) (2 - 1) + 1)))
        = -9223372036854775808 ∧
      clampUint16 (Int.tdiv (-9223372036854775808) (-1)) = 65535 := by
  have hDx : quotientSourceGray16.Rect.Dx = 2 := by decide
  have hDy : quotientSourceGray16.Rect.Dy = 1 := by decide
  have hX0 : quotientDestGray16.Rect.Min.X = 0 := by decide
  have hX1 : quotientDestGray16.Rect.Max.X = 1 := by decide
  have hY0 : quotientDestGray16.Rect.Min.Y = 0 := by decide
  have hY1 : quotientDestGray16.Rect.Max.Y = 1 := by decide
  have hlen : quotientCoeffs32.length = 262145 := by
    unfold quotientCoeffs32
    rw [List.length_append, List.length_append, List.length_replicate,
      List.length_replicate, List.length_singleton]
  have hS : weightSum quotientCoeffs32 ((0 - quotientDestGray16.Rect.Min.Y) * 262145)
      (262145 : Int).toNat = -1 := by
    rw [hY0]
    exact quotientCoeffs32_weightSum
  have hN : chanSum quotientCoeffs32 ((0 - quotientDestGray16.Rect.Min.Y) * 262145)
      (262145 : Int).toNat (fun k => wordAt quotientSourceGray16.Pix
        (0 * quotientSourceGray16.Stride + 2 * clampColumn 2 (-131072 + k)
          + ((2 * 0 : Nat) : Int)))
      = -9223372036854775808 := by
    rw [hY0]
    apply quotientCoeffs32_chanSum
    · intro k hk
      have e : clampColumn 2 (-131072 + (k : Int)) = 0 := by unfold clampColumn; omega
      simp only [e]
      decide
    · intro k hk
      have e : clampColumn 2 (-131072 + ((131073 + k : Nat) : Int)) = 1 := by
        unfold clampColumn; omega
      simp only [e]
      decide
  obtain ⟨pix', hrun⟩ := resizeGray16_isSome quotientSourceGray16 quotientDestGray16
    quotientCoeffs32 [-131072] 262145 (by rw [hDx]; decide)
    (by
      intro x h1 h2
      have hx : x = 0 := by omega
      subst hx
      decide)
    (by
      intro y h1 h2
      have hy : y = 0 := by omega
      subst hy
      decide)
    (by
      intro y k h1 h2 h3 h4
      rw [hlen, hY0]
      omega)
    (by
      intro y h1 h2
      have hy : y = 0 := by omega
      subst hy
      rw [hS]
      decide)
    (by
      intro x y h1 h2 h3 h4
      have hx : x = 0 := by omega
      have hy : y = 0 := by omega
      subst hx hy
      decide)
  obtain ⟨_, hwr, _⟩ := resizeGray16_spec quotientSourceGray16 quotientDestGray16
    quotientCoeffs32 [-131072] 262145 pix' (by decide) hrun
  obtain ⟨start, hstart, _, hhi, hlo⟩ :=
    written16 int64 1 quotientDestGray16 quotientCoeffs32 [-131072] 262145
      (resizeGray16.sample quotientSourceGray16) pix' 0 0
      (hwr 0 0 (by decide) (by decide) (by decide) (by decide)) 0 (by omega)
  have hst : start = -131072 := by
    have : index [(-131072 : Int)] 0 = some (-131072) := rfl
    rw [this] at hstart
    exact (Option.some.inj hstart).symm
  subst hst
  have hf : chanSum quotientCoeffs32 ((0 - quotientDestGray16.Rect.Min.Y) * 262145)
      (262145 : Int).toNat (resizeGray16.sample quotientSourceGray16 0 (-131072) 0)
      = chanSum quotientCoeffs32 ((0 - quotientDestGray16.Rect.Min.Y) * 262145)
      (262145 : Int).toNat (fun k => wordAt quotientSourceGray16.Pix
        (0 * quotientSourceGray16.Stride + 2 * clampColumn 2 (-131072 + k)
          + ((2 * 0 : Nat) : Int))) := by
    apply chanSum_congr
    intro k hk
    have hk' : k < 262145 := hk
    rw [resizeGray16_sample_eq _ _ _ _ _ (by rw [hDx]; decide) (by rw [hDy]; decide), hDx,
      int64_of_fits (-131072 + (k : Int)) (by omega) (by omega)]
  rw [hf, hS, hN] at hhi hlo
  refine ⟨pix', hrun, hhi, hlo, hS, ?_, by decide⟩
  have hN' := hN
  unfold chanSum wordAt clampColumn at hN'
  simp only [Nat.cast_ofNat, mul_zero, Nat.cast_zero, add_zero] at hN'
  exact hN'

/-- C8, counterexample: two calls of `resizeGray16` on the 2x1 source with the
pixels `0` and `32768` and a 1x1 destination.  First, with filter length 262145
and offset `-131072` the coefficients sum to `S = -1` and the weighted sum is
`N = -2^63`; both fit in `int64` and `S` is not zero, the call stores the bytes
`0, 0`, whereas `clampUint16 (N / S)` is `65535`: the quotient wraps.  Second,
with the coefficients `1, 1` and the offset `2^63 - 1`, clamping `offset[y] + i`
to the source gives the last column for both taps, `N = 65536`, `S = 2` and
`clampUint16 (N / S) = 32768`; the call stores the bytes `64, 0`, that is
`16384`, because the code computes `offset[y] + 1` in the type `int`, where it
wraps to `-2^63`, and reads the first column. -/
theorem big_endian_resample_counterexample :
    (∃ pix', resizeGray16 quotientSourceGray16 quotientDestGray16 quotientCoeffs32
        [-131072] 262145 = some pix' ∧
      index pix' ((0 - quotientDestGray16.Rect.Min.Y) * quotientDestGray16.Stride
        + (0 - quotientDestGray16.Rect.Min.X) * 2) = some 0 ∧
      index pix' ((0 - quotientDestGray16.Rect.Min.Y) * quotientDestGray16.Stride
        + (0 - quotientDestGray16.Rect.Min.X) * 2 + 1) = some 0 ∧
      (∑ i ∈ Finset.range (262145 : Int).toNat,
        intAt quotientCoeffs32 ((0 - quotientDestGray16.Rect.Min.Y) * 262145 + i)) = -1 ∧
      (∑ i ∈ Finset.range (262145 : Int).toNat,
        intAt quotientCoeffs32 ((0 - quotientDestGray16.Rect.Min.Y) * 262145 + i) *
          (256 * byteAt quotientSourceGray16.Pix (0 * quotientSourceGray16.Stride
              + 2 * min (max (intAt [-131072] 0 + i) 0) (2 - 1))
            + byteAt quotientSourceGray16.Pix (0 * quotientSourceGray16.Stride
              + 2 * min (max (intAt [-131072] 0 + i) 0) (2 - 1) + 1)))
        = -9223372036854775808 ∧
      clampUint16 (Int.tdiv (-9223372036854775808) (-1)) = 65535) ∧
    (resizeGray16 quotientSourceGray16 quotientDestGray16 [1, 1] [9223372036854775807] 2
        = some [64, 0] ∧
      (∑ i ∈ Finset.range (2 : Int).toNat,
        intAt [1, 1] ((0 - quotientDestGray16.Rect.Min.Y) * 2 + i)) = 2 ∧
      (∑ i ∈ Finset.range (2 : Int).toNat,
        intAt [1, 1] ((0 - quotientDestGray16.Rect.Min.Y) * 2 + i) *
          (256 * byteAt quotientSourceGray16.Pix (0 * quotientSourceGray16.Stride
              + 2 * min (max (intAt [9223372036854775807] 0 + i) 0) (2 - 1))
            + byteAt quotientSourceGray16.Pix (0 * quotientSourceGray16.Stride
              + 2 * min (max (intAt [9223372036854775807] 0 + i) 0) (2 - 1) + 1)))
        = 65536 ∧
      clampUint16 (Int.tdiv 65536 2) = 32768 ∧ (64 : Int) * 256 + 0 = 16384) :=
  ⟨resizeGray16_quotient_wraps, by decide, by decide, by decide, by decide, by decide⟩

/-! ## Upscaling a single pixel (claim C9) -/

theorem rect_of_nonneg (a b : Int) (ha : 0 ≤ a) (hb : 0 ≤ b) :
    Rect 0 0 a b = { Min := { X := 0, Y := 0 }, Max := { X := a, Y := b } } := by
  unfold Rect
  simp only [gt_iff_lt]
  rw [if_neg (by omega), if_neg (by omega)]

theorem two_pass (F : Image → Image → List Int → List Int → Int → Option (List Byte))
    (B : Nat) (hF : UniformPass F B) (N : Int) (hN : 1 ≤ N)
    (src tmp fin : Image) (hsrc : src.Rect.Dx = 1 ∧ src.Rect.Dy = 1)
    (htmp : tmp.Rect = Rect 0 0 1 N) (hfin : fin.Rect = Rect 0 0 N N) :
    UpscalesPixel F B N src tmp fin := by
  intro hpix htS htL hfS hfL
  rw [rect_of_nonneg 1 N (by omega) (by omega)] at htmp
  rw [rect_of_nonneg N N (by omega) (by omega)] at hfin
  have hC : (src.Pix.take B).length = B := by
    rw [List.length_take]
    omega
  have hn : ((N.toNat : Nat) : Int) = N := by omega
  have hu1 : ∀ x, tmp.Rect.Min.X ≤ x → x < tmp.Rect.Max.X →
      UniformRow src B x (src.Pix.take B) := by
    intro x h1 h2
    rw [htmp] at h1 h2
    simp only at h1 h2
    have hx : x = 0 := by omega
    subst hx
    intro col c0 c1 j hj
    have hcol : col = 0 := by omega
    subst hcol
    simp only [zero_mul, mul_zero, add_zero, zero_add]
    rw [index_nat_eq, List.getElem?_take_of_lt hj]
  obtain ⟨tmp', hrun1, hlen1, hp1⟩ := hF src tmp N.toNat (src.Pix.take B) (by omega)
    (by omega) hC hu1 (by rw [htmp]) (by rw [htmp, hn])
    (by unfold Rectangle.Dx; rw [htmp]; simp only [sub_zero, one_mul]; omega)
    (by unfold Rectangle.Dy; rw [htmp]; simp only [sub_zero, one_mul]; omega)
  have hu2 : ∀ x, fin.Rect.Min.X ≤ x → x < fin.Rect.Max.X →
      UniformRow { tmp with Pix := tmp' } B x (src.Pix.take B) := by
    intro x h1 h2
    rw [hfin] at h1 h2
    simp only at h1 h2
    intro col c0 c1 j hj
    have hD : ({ tmp with Pix := tmp' } : Image).Rect.Dx = 1 := by
      unfold Rectangle.Dx
      simp only [htmp]
      omega
    rw [hD] at c1
    have hcol : col = 0 := by omega
    subst hcol
    have := hp1 0 x (by rw [htmp]) (by rw [htmp]; simp only [sub_zero, one_mul]; omega) (by rw [htmp]; exact h1)
      (by rw [htmp]; exact h2) j hj
    rw [htmp] at this
    simp only [sub_zero, zero_mul, add_zero, mul_zero] at this ⊢
    exact this
  obtain ⟨fin', hrun2, _, hp2⟩ := hF { tmp with Pix := tmp' } fin N.toNat (src.Pix.take B)
    (by unfold Rectangle.Dx; simp only [htmp]; omega)
    (by unfold Rectangle.Dy; simp only [htmp]; omega) hC hu2 (by rw [hfin])
    (by rw [hfin, hn])
    (by unfold Rectangle.Dx; rw [hfin]; simp only [sub_zero]; omega)
    (by unfold Rectangle.Dy; rw [hfin]; simp only [sub_zero]; omega)
  refine ⟨tmp', fin', hrun1, hrun2, ?_⟩
  intro x y h1 h2 h3 h4
  exact hp2 x y (by rw [hfin]; exact h1) (by rw [hfin]; exact h2) (by rw [hfin]; exact h3)
    (by rw [hfin]; exact h4)

/-- C9: for every `N ≥ 1`, every 1x1 source and each of `resizeRGBA`,
`resizeRGBA64`, `resizeGray`, `resizeGray16` and `resizeYCbCr`: resampling to
`N` by `N` with filter length `1`, every offset `0` and every coefficient `1`, in
two passes of which the second takes the output of the first as its source,
returns and gives an image in which every pixel equals the source pixel. -/
theorem upscale_single_pixel (N : Int) (hN : 1 ≤ N) (src tmp fin : Image)
    (hsrc : src.Rect.Dx = 1 ∧ src.Rect.Dy = 1)
    (htmp : tmp.Rect = Rect 0 0 1 N) (hfin : fin.Rect = Rect 0 0 N N) :
    UpscalesPixel resizeRGBA 4 N src tmp fin ∧
      UpscalesPixel resizeRGBA64 8 N src tmp fin ∧
      UpscalesPixel resizeGray 1 N src tmp fin ∧
      UpscalesPixel resizeGray16 2 N src tmp fin ∧
      UpscalesPixel resizeYCbCr 3 N src tmp fin :=
  ⟨two_pass resizeRGBA 4 resizeRGBA_uniformPass N hN src tmp fin hsrc htmp hfin,
    two_pass resizeRGBA64 8 resizeRGBA64_uniformPass N hN src tmp fin hsrc htmp hfin,
    two_pass resizeGray 1 resizeGray_uniformPass N hN src tmp fin hsrc htmp hfin,
    two_pass resizeGray16 2 resizeGray16_uniformPass N hN src tmp fin hsrc htmp hfin,
    two_pass resizeYCbCr 3 resizeYCbCr_uniformPass N hN src tmp fin hsrc htmp hfin⟩

theorem upscale_single_pixel_witness :
    ∃ tmp' fin',
      resizeRGBA pixelSourceRGBA pixelTmpRGBA [1, 1] [0, 0] 1 = some tmp' ∧
      resizeRGBA { pixelTmpRGBA with Pix := tmp' } pixelFinRGBA [1, 1] [0, 0] 1 = some fin' ∧
      ∀ x y, 0 ≤ x → x < 2 → 0 ≤ y → y < 2 →
        PixelIs pixelFinRGBA fin' 4 x y [1, 2, 3, 4] :=
  (upscale_single_pixel 2 (by decide) pixelSourceRGBA pixelTmpRGBA pixelFinRGBA
    (by decide) (by decide) (by decide)).1 (by decide) (by decide) (by decide) (by decide)
    (by decide)

/-! ## Agreement of the 8-bit resamplers (claim C10) -/

theorem byteAt_eq_of_index (s t : List Byte) (j k : Int) (h : index s j = index t k) :
    byteAt s j = byteAt t k := by
  unfold byteAt
  rw [h]

/-- C10: for the same `coeffs`, `offset` and filter length, sources of the same
dimensions (width at least `1`) and destinations of the same bounds whose
columns index rows of the sources, if every channel of every pixel of the RGBA
source and of the YCbCr source is the byte of the corresponding pixel of the Gray
source, and the three calls return, then at every destination position every
channel stored by `resizeRGBA` and by `resizeYCbCr` is the byte stored by
`resizeGray`. -/
theorem eight_bit_resamplers_agree (inR inG outR outG : Image) (inY outY : ycc)
    (coeffs offset : List Int) (filterLength : Int) (pR pG pY : List Byte) (x y : Int)
    (hW : 1 ≤ inG.Rect.Dx) (hH : 0 ≤ inG.Rect.Dy)
    (hdR : inR.Rect.Dx = inG.Rect.Dx ∧ inR.Rect.Dy = inG.Rect.Dy)
    (hdY : inY.Rect.Dx = inG.Rect.Dx ∧ inY.Rect.Dy = inG.Rect.Dy)
    (hbR : outR.Rect = outG.Rect) (hbY : outY.Rect = outG.Rect)
    (hsR : outR.Rect.Dx * 4 ≤ outR.Stride) (hsG : outG.Rect.Dx * 1 ≤ outG.Stride)
    (hsY : outY.Rect.Dx * 3 ≤ outY.Stride)
    (hrows : 0 ≤ outG.Rect.Min.X ∧ outG.Rect.Max.X ≤ inG.Rect.Dy)
    (heqR : ∀ r col : Int, 0 ≤ r → r < inG.Rect.Dy → 0 ≤ col → col < inG.Rect.Dx →
      ∀ c : Nat, c < 4 →
        index inR.Pix (r * inR.Stride + 4 * col + c) = index inG.Pix (r * inG.Stride + col))
    (heqY : ∀ r col : Int, 0 ≤ r → r < inG.Rect.Dy → 0 ≤ col → col < inG.Rect.Dx →
      ∀ c : Nat, c < 3 →
        index inY.Pix (r * inY.Stride + 3 * col + c) = index inG.Pix (r * inG.Stride + col))
    (hrunR : resizeRGBA inR outR coeffs offset filterLength = some pR)
    (hrunG : resizeGray inG outG coeffs offset filterLength = some pG)
    (hrunY : resizeYCbCr inY outY coeffs offset filterLength = some pY)
    (hx : outG.Rect.Min.X ≤ x ∧ x < outG.Rect.Max.X)
    (hy : outG.Rect.Min.Y ≤ y ∧ y < outG.Rect.Max.Y) :
    ∃ b : Byte,
      index pG ((y - outG.Rect.Min.Y) * outG.Stride + (x - outG.Rect.Min.X)) = some b ∧
      (∀ c : Nat, c < 4 →
        index pR ((y - outR.Rect.Min.Y) * outR.Stride + (x - outR.Rect.Min.X) * 4 + c)
          = some b) ∧
      (∀ c : Nat, c < 3 →
        index pY ((y - outY.Rect.Min.Y) * outY.Stride + (x - outY.Rect.Min.X) * 3 + c)
          = some b) := by
  obtain ⟨_, hwG, _⟩ := resizeGray_spec inG outG coeffs offset filterLength pG hsG hrunG
  obtain ⟨_, hwR, _⟩ := resizeRGBA_spec inR outR coeffs offset filterLength pR hsR hrunR
  obtain ⟨_, hwY, _⟩ := resizeYCbCr_spec inY outY coeffs offset filterLength pY hsY hrunY
  obtain ⟨start, hstart, _, hG⟩ := written8 int32 1 outG coeffs offset filterLength
    (resizeGray.sample inG) pG x y (hwG x y hx.1 hx.2 hy.1 hy.2) 0 (by omega)
  have hbound : ∀ k : Int, 0 ≤ clampColumn inG.Rect.Dx (int64 (start + k)) ∧
      clampColumn inG.Rect.Dx (int64 (start + k)) < inG.Rect.Dx := by
    intro k
    have := clampColumn_bounds inG.Rect.Dx (int64 (start + k)) hW
    omega
  have hsG : ∀ k, resizeGray.sample inG x start 0 k
      = byteAt inG.Pix (x * inG.Stride + clampColumn inG.Rect.Dx (int64 (start + k))) := by
    intro k
    rw [resizeGray_sample_eq inG x start 0 k hW hH]
    simp only [Nat.cast_zero, add_zero]
  have eG : pixOffset outG ((1 : Nat) : Int) x y + ((0 : Nat) : Int)
      = (y - outG.Rect.Min.Y) * outG.Stride + (x - outG.Rect.Min.X) := by
    unfold pixOffset; push_cast; ring
  rw [eG] at hG
  refine ⟨_, hG, ?_, ?_⟩
  · intro c hc
    obtain ⟨startR, hstartR, _, hR⟩ := written8 int32 4 outR coeffs offset filterLength
      (resizeRGBA.sample inR) pR x y
      (hwR x y (by rw [hbR]; exact hx.1) (by rw [hbR]; exact hx.2) (by rw [hbR]; exact hy.1)
        (by rw [hbR]; exact hy.2)) c hc
    have hst : startR = start := by
      rw [hstart] at hstartR
      exact (Option.some.inj hstartR).symm
    subst hst
    have hs : resizeRGBA.sample inR x startR c = resizeGray.sample inG x startR 0 := by
      funext k
      rw [hsG k, resizeRGBA_sample_eq inR x startR c k (by omega) (by omega), hdR.1]
      exact byteAt_eq_of_index _ _ _ _
        (heqR x _ (by omega) (by omega) (hbound k).1 (hbound k).2 c hc)
    have e : pixOffset outR ((4 : Nat) : Int) x y
        = (y - outR.Rect.Min.Y) * outR.Stride + (x - outR.Rect.Min.X) * 4 := rfl
    rw [← e, hR, hs, hbR]
  · intro c hc
    obtain ⟨startY, hstartY, _, hY⟩ := written8 int32 3 outY coeffs offset filterLength
      (resizeYCbCr.sample inY) pY x y
      (hwY x y (by rw [hbY]; exact hx.1) (by rw [hbY]; exact hx.2) (by rw [hbY]; exact hy.1)
        (by rw [hbY]; exact hy.2)) c hc
    have hst : startY = start := by
      rw [hstart] at hstartY
      exact (Option.some.inj hstartY).symm
    subst hst
    have hs : resizeYCbCr.sample inY x startY c = resizeGray.sample inG x startY 0 := by
      funext k
      rw [hsG k, resizeYCbCr_sample_eq inY x startY c k (by omega) (by omega), hdY.1]
      exact byteAt_eq_of_index _ _ _ _
        (heqY x _ (by omega) (by omega) (hbound k).1 (hbound k).2 c hc)
    have e : pixOffset outY ((3 : Nat) : Int) x y
        = (y - outY.Rect.Min.Y) * outY.Stride + (x - outY.Rect.Min.X) * 3 := rfl
    rw [← e, hY, hs, hbY]

theorem eight_bit_resamplers_agree_witness :
    resizeGray agreeSourceGray agreeDestGray [1, 1, 1, 1] [0, 2] 2 = some [15, 30] ∧
      resizeRGBA agreeSourceRGBA agreeDestRGBA [1, 1, 1, 1] [0, 2] 2
        = some [15, 15, 15, 15, 30, 30, 30, 30] ∧
      resizeYCbCr agreeSourceYCbCr agreeDestYCbCr [1, 1, 1, 1] [0, 2] 2
        = some [15, 15, 15, 30, 30, 30] ∧
      ∃ b : Byte,
        index [15, 30] ((1 - agreeDestGray.Rect.Min.Y) * agreeDestGray.Stride
          + (0 - agreeDestGray.Rect.Min.X)) = some b ∧
        (∀ c : Nat, c < 4 →
          index [15, 15, 15, 15, 30, 30, 30, 30]
            ((1 - agreeDestRGBA.Rect.Min.Y) * agreeDestRGBA.Stride
              + (0 - agreeDestRGBA.Rect.Min.X) * 4 + c) = some b) ∧
        (∀ c : Nat, c < 3 →
          index [15, 15, 15, 30, 30, 30]
            ((1 - agreeDestYCbCr.Rect.Min.Y) * agreeDestYCbCr.Stride
              + (0 - agreeDestYCbCr.Rect.Min.X) * 3 + c) = some b) :=
  have hG : resizeGray agreeSourceGray agreeDestGray [1, 1, 1, 1] [0, 2] 2 = some [15, 30] := by
    decide
  have hR : resizeRGBA agreeSourceRGBA agreeDestRGBA [1, 1, 1, 1] [0, 2] 2
      = some [15, 15, 15, 15, 30, 30, 30, 30] := by decide
  have hY : resizeYCbCr agreeSourceYCbCr agreeDestYCbCr [1, 1, 1, 1] [0, 2] 2
      = some [15, 15, 15, 30, 30, 30] := by decide
  ⟨hG, hR, hY,
    eight_bit_resamplers_agree agreeSourceRGBA agreeSourceGray agreeDestRGBA agreeDestGray
      agreeSourceYCbCr agreeDestYCbCr [1, 1, 1, 1] [0, 2] 2
      [15, 15, 15, 15, 30, 30, 30, 30] [15, 30] [15, 15, 15, 30, 30, 30] 0 1
      (by decide) (by decide) (by decide) (by decide) (by decide) (by decide) (by decide)
      (by decide) (by decide) (by decide)
      (by
        intro r col h0 h1 h2 h3 c hc
        have h1' : r < 1 := h1
        have h3' : col < 3 := h3
        have hr : r = 0 := by omega
        subst hr
        interval_cases col <;> interval_cases c <;> rfl)
      (by
        intro r col h0 h1 h2 h3 c hc
        have h1' : r < 1 := h1
        have h3' : col < 3 := h3
        have hr : r = 0 := by omega
        subst hr
        interval_cases col <;> interval_cases c <;> rfl)
      hR hG hY (by decide) (by decide)⟩

/-! ## C11: the generic resampler and the 8-bit resamplers -/

theorem genericOfGray_chan (g : Image) (x y : Int) (c : Nat) :
    ((genericOfGray g).At x y).chan c = 257 * byteAt g.Pix (y * g.Stride + x) := by
  have h := (byteAt_bounds g.Pix (y * g.Stride + x)).1
  unfold genericOfGray Color.chan
  simp only
  split_ifs <;> push_cast <;> rw [Int.toNat_of_nonneg h]

theorem resizeGeneric_switch_mem (oldBounds : Rectangle) (xi : Int) (h0 : 0 ≤ xi)
    (h1 : xi < oldBounds.Max.X) : resizeGeneric.switch oldBounds xi = xi := by
  unfold resizeGeneric.switch
  rw [if_pos ((uintLess_iff xi oldBounds.Max.X (by omega)).mpr ⟨h0, h1⟩)]

theorem rect_maxX (w h : Int) (hw : 0 ≤ w) : (Rect 0 0 w h).Max.X = w := by
  unfold Rect
  simp only [gt_iff_lt]
  rw [if_neg (by omega)]

/-- C11, counterexample: for a `image.Gray` source with the pixels
`200` and `201`, a generic source that returns `257 * v` for every pixel and
channel, the coefficients `1, 1`, the offset `0` and the filter length `2`, both
taps are inside the source; `resizeGray` writes `200` (the quotient
`401 / 2`), and `resizeGeneric` writes for every channel the 16-bit value
`51528` (the quotient `103057 / 2`), whose high byte is `201`. -/
theorem generic_agrees_with_gray_counterexample :
    (∀ (x y : Int) (c : Nat), ((genericOfGray roundingSourceGray).At x y).chan c
      = 257 * byteAt roundingSourceGray.Pix (y * roundingSourceGray.Stride + x)) ∧
    resizeGray roundingSourceGray pixelDestGray [1, 1] [0] 2 = some [200] ∧
    resizeGeneric (genericOfGray roundingSourceGray) destRGBA64 [1, 1] [0] 2
      = some [201, 72, 201, 72, 201, 72, 201, 72] :=
  ⟨genericOfGray_chan roundingSourceGray, by decide, by decide⟩

theorem generic_sum_scaled (inpG : GenericImage) (inp : Image) (coeffs : List Int)
    (ci x start : Int) (n c : Nat)
    (hW : 1 ≤ inp.Rect.Dx) (hWi : inp.Rect.Dx < 9223372036854775808) (hH : 0 ≤ inp.Rect.Dy)
    (hdim : inpG.Bounds.Dx = inp.Rect.Dx)
    (hgen : ∀ col, 0 ≤ col → col < inp.Rect.Dx →
      (inpG.At col x).chan c = 257 * byteAt inp.Pix (x * inp.Stride + col))
    (hin : ∀ k : Nat, k < n → intAt coeffs (ci + k) ≠ 0 →
      0 ≤ start + k ∧ start + k < inp.Rect.Dx) :
    chanSum coeffs ci n (resizeGeneric.sample inpG x start c)
      = 257 * chanSum coeffs ci n (resizeGray.sample inp x start 0) := by
  unfold chanSum
  rw [Finset.mul_sum]
  apply Finset.sum_congr rfl
  intro k hk
  have hk' := Finset.mem_range.mp hk
  by_cases h0 : intAt coeffs (ci + k) = 0
  · rw [h0]; simp
  · obtain ⟨a, b⟩ := hin k hk' h0
    unfold resizeGeneric.sample
    rw [int64_of_fits (start + k) (by omega) (by omega),
      resizeGeneric_switch_mem _ _ a (by rw [rect_maxX _ _ (by omega), hdim]; exact b),
      hgen _ a b, resizeGray_sample_eq inp x start 0 k hW hH,
      int64_of_fits (start + k) (by omega) (by omega), clampColumn_of_mem _ _ a b]
    simp only [Nat.cast_zero, add_zero]
    ring

/-- C11, amended: for the same coefficients, offset table, filter
length, source width (a value of the type `int`, so below `2^63`) and
destination bounds, a call of `resizeGeneric` and a
call of `resizeGray` that return, destinations whose rows do not overlap, and a
destination pixel `(x, y)`: if the generic source returns, for every pixel of
row `x` and the channel `c`, the 16-bit value `257 * v` where `v` is the byte
of the same pixel in the Gray source, every tap with a nonzero coefficient is
inside the source (`0 ≤ offset[y] + i < W`), and the sums of `resizeGray` fit
in `int32` with a quotient that fits, then the high byte of the 16-bit channel
`c` written by `resizeGeneric` is the byte written by `resizeGray` or that byte
plus one, and it is that byte when the sum of the coefficients divides the
weighted sum. -/
theorem generic_high_byte_near_gray (inpG : GenericImage) (inp outG out : Image)
    (coeffs offset : List Int) (filterLength : Int) (pixG pix : List Byte)
    (x y start : Int) (c : Nat)
    (hW : 1 ≤ inp.Rect.Dx) (hWi : inp.Rect.Dx < 9223372036854775808) (hH : 0 ≤ inp.Rect.Dy)
    (hdim : inpG.Bounds.Dx = inp.Rect.Dx) (hbounds : outG.Rect = out.Rect)
    (hsG : outG.Rect.Dx * 8 ≤ outG.Stride) (hs : out.Rect.Dx * 1 ≤ out.Stride)
    (hrunG : resizeGeneric inpG outG coeffs offset filterLength = some pixG)
    (hrun : resizeGray inp out coeffs offset filterLength = some pix)
    (hx : out.Rect.Min.X ≤ x ∧ x < out.Rect.Max.X)
    (hy : out.Rect.Min.Y ≤ y ∧ y < out.Rect.Max.Y) (hc : c < 4)
    (hst : index offset y = some start)
    (hgen : ∀ col, 0 ≤ col → col < inp.Rect.Dx →
      (inpG.At col x).chan c = 257 * byteAt inp.Pix (x * inp.Stride + col))
    (hin : ∀ k : Nat, k < filterLength.toNat →
      intAt coeffs ((y - out.Rect.Min.Y) * filterLength + k) ≠ 0 →
      0 ≤ start + k ∧ start + k < inp.Rect.Dx)
    (hfS : fitsInt32 (weightSum coeffs ((y - out.Rect.Min.Y) * filterLength)
      filterLength.toNat))
    (hfN : fitsInt32 (chanSum coeffs ((y - out.Rect.Min.Y) * filterLength) filterLength.toNat
      (resizeGray.sample inp x start 0)))
    (hedge : ¬ (chanSum coeffs ((y - out.Rect.Min.Y) * filterLength) filterLength.toNat
        (resizeGray.sample inp x start 0) = -2147483648 ∧
      weightSum coeffs ((y - out.Rect.Min.Y) * filterLength) filterLength.toNat = -1)) :
    ∃ g h : Byte, index pix (pixOffset out (1 : Nat) x y + (0 : Nat)) = some g ∧
      index pixG (pixOffset outG (8 : Nat) x y + (2 * c : Nat)) = some h ∧
      ((h.val : Int) = (g.val : Int) ∨ (h.val : Int) = (g.val : Int) + 1) ∧
      (weightSum coeffs ((y - out.Rect.Min.Y) * filterLength) filterLength.toNat ∣
          chanSum coeffs ((y - out.Rect.Min.Y) * filterLength) filterLength.toNat
            (resizeGray.sample inp x start 0) → h = g) := by
  obtain ⟨_, hwrG, _⟩ := resizeGeneric_spec inpG outG coeffs offset filterLength pixG hsG hrunG
  obtain ⟨_, hwr, _⟩ := resizeGray_spec inp out coeffs offset filterLength pix hs hrun
  obtain ⟨s1, hs1, hne1, hg⟩ := written8 int32 1 out coeffs offset filterLength
    (resizeGray.sample inp) pix x y (hwr x y hx.1 hx.2 hy.1 hy.2) 0 (by omega)
  obtain ⟨s2, hs2, _, hhi, _⟩ := written16 int64 4 outG coeffs offset filterLength
    (resizeGeneric.sample inpG) pixG x y
    (hwrG x y (by rw [hbounds]; exact hx.1) (by rw [hbounds]; exact hx.2)
      (by rw [hbounds]; exact hy.1) (by rw [hbounds]; exact hy.2)) c hc
  rw [hst] at hs1 hs2
  have e1 : s1 = start := (Option.some.inj hs1).symm
  have e2 : s2 = start := (Option.some.inj hs2).symm
  rw [e1] at hg
  rw [e2] at hhi
  rw [hbounds] at hhi
  have hS0 : weightSum coeffs ((y - out.Rect.Min.Y) * filterLength) filterLength.toNat ≠ 0 := by
    intro h
    rw [h] at hne1
    exact hne1 rfl
  have hfN' := hfN
  have hfS' := hfS
  unfold fitsInt32 at hfN' hfS'
  rw [generic_sum_scaled inpG inp coeffs _ x start _ c hW hWi hH hdim hgen hin,
    machineQuo_int64 _ _ (by omega) (by omega) (by omega) (by omega) hS0 (by omega)] at hhi
  rw [machineQuo_int32 _ _ hfN'.1 hfN'.2 hfS'.1 hfS'.2 hS0 hedge] at hg
  obtain ⟨k1, k2⟩ := high_byte_of_scaled
    (chanSum coeffs ((y - out.Rect.Min.Y) * filterLength) filterLength.toNat
      (resizeGray.sample inp x start 0))
    (weightSum coeffs ((y - out.Rect.Min.Y) * filterLength) filterLength.toNat) hS0
  exact ⟨_, _, hg, hhi, k1, k2⟩

theorem generic_high_byte_near_gray_witness :
    resizeGray agreeSourceGray agreeDestGray [1, 1, 1, 3] [0, 1] 2 = some [15, 27] ∧
    resizeGeneric (genericOfGray agreeSourceGray) agreeDestRGBA64 [1, 1, 1, 3] [0, 1] 2
      = some [15, 15, 15, 15, 15, 15, 15, 15, 27, 155, 27, 155, 27, 155, 27, 155] ∧
    ∃ g h : Byte,
      index ([15, 27] : List Byte) (pixOffset agreeDestGray (1 : Nat) 0 1 + (0 : Nat)) = some g ∧
      index ([15, 15, 15, 15, 15, 15, 15, 15, 27, 155, 27, 155, 27, 155, 27, 155] : List Byte)
        (pixOffset agreeDestRGBA64 (8 : Nat) 0 1 + (2 * 0 : Nat)) = some h ∧
      ((h.val : Int) = (g.val : Int) ∨ (h.val : Int) = (g.val : Int) + 1) ∧
      (weightSum [1, 1, 1, 3] ((1 - agreeDestGray.Rect.Min.Y) * 2) (2 : Int).toNat ∣
          chanSum [1, 1, 1, 3] ((1 - agreeDestGray.Rect.Min.Y) * 2) (2 : Int).toNat
            (resizeGray.sample agreeSourceGray 0 1 0) → h = g) :=
  have hrun : resizeGray agreeSourceGray agreeDestGray [1, 1, 1, 3] [0, 1] 2
      = some [15, 27] := by decide
  have hrunG : resizeGeneric (genericOfGray agreeSourceGray) agreeDestRGBA64 [1, 1, 1, 3]
      [0, 1] 2 = some [15, 15, 15, 15, 15, 15, 15, 15, 27, 155, 27, 155, 27, 155, 27, 155] := by
    decide
  ⟨hrun, hrunG,
    generic_high_byte_near_gray (genericOfGray agreeSourceGray) agreeSourceGray agreeDestRGBA64
      agreeDestGray [1, 1, 1, 3] [0, 1] 2 _ _ 0 1 1 0 (by decide) (by decide) (by decide)
      (by decide) (by decide) (by decide) (by decide) hrunG hrun ⟨by decide, by decide⟩
      ⟨by decide, by decide⟩ (by decide) (by decide)
      (fun col _ _ => genericOfGray_chan agreeSourceGray col 0 0)
      (by
        intro k hk _
        have h : k < 2 := hk
        interval_cases k <;> decide)
      ⟨by decide, by decide⟩ ⟨by decide, by decide⟩ (by decide)⟩

/-! ## C12: arbitrary offsets never cause a read out of range -/

/-- C12: in each fixed-format resampler (`resizeRGBA`, `resizeRGBA64`,
`resizeGray`, `resizeGray16`, `resizeYCbCr` and `nearestYCbCr`), when the call
satisfies `SafeCall` (source of width at least `1` with at least
`newBounds.Max.X` rows of at least `W * bpp` bytes that the source buffer
covers, an offset table of at least `newBounds.Max.Y` entries, a coefficient
table of at least `filterLength` entries for each destination row, destination
bounds with minima that are not negative, and a destination buffer that covers
the destination), then whatever integers the offset table holds, every index
into the source row, the coefficient table, the offset table and the destination
buffer is in range (`IndexSafe`), so the call does not panic on an index: it
returns unless the divisor of a destination row is zero, and `nearestYCbCr`,
which divides `float32` values, always returns. -/
theorem offsets_never_read_out_of_range :
    NoIndexPanic resizeRGBA
      (fun inp => resizeRGBA.switch (oldBoundsOf inp) ((oldBoundsOf inp).Min.X * 4)
        (((oldBoundsOf inp).Max.X - (oldBoundsOf inp).Min.X - 1) * 4)) 4
      (fun coeffs ci n => int32 (weightSum coeffs ci n)) ∧
    NoIndexPanic resizeRGBA64
      (fun inp => resizeRGBA64.switch (oldBoundsOf inp) ((oldBoundsOf inp).Min.X * 8)
        (((oldBoundsOf inp).Max.X - (oldBoundsOf inp).Min.X - 1) * 8)) 8
      (fun coeffs ci n => int64 (weightSum coeffs ci n)) ∧
    NoIndexPanic resizeGray
      (fun inp => resizeGray.switch (oldBoundsOf inp) (oldBoundsOf inp).Min.X
        ((oldBoundsOf inp).Max.X - (oldBoundsOf inp).Min.X - 1)) 1
      (fun coeffs ci n => int32 (weightSum coeffs ci n)) ∧
    NoIndexPanic resizeGray16
      (fun inp => resizeGray16.switch (oldBoundsOf inp) ((oldBoundsOf inp).Min.X * 2)
        (((oldBoundsOf inp).Max.X - (oldBoundsOf inp).Min.X - 1) * 2)) 2
      (fun coeffs ci n => int64 (weightSum coeffs ci n)) ∧
    NoIndexPanic resizeYCbCr
      (fun inp => resizeYCbCr.switch (oldBoundsOf inp) ((oldBoundsOf inp).Min.X * 3)
        (((oldBoundsOf inp).Max.X - (oldBoundsOf inp).Min.X - 1) * 3)) 3
      (fun coeffs ci n => int32 (weightSum coeffs ci n)) ∧
    ∀ (F : Type) (ops : Float32Ops F), NoIndexPanic (nearestYCbCr ops)
      (fun inp => nearestYCbCr.switch (oldBoundsOf inp) ((oldBoundsOf inp).Min.X * 3)
        (((oldBoundsOf inp).Max.X - (oldBoundsOf inp).Min.X - 1) * 3)) 3
      (fun _ _ _ => 1) := by
  refine ⟨?_, ?_, ?_, ?_, ?_, ?_⟩
  · intro inp out coeffs offset fl h
    have hW : 1 ≤ inp.Rect.Dx := h.1
    refine ⟨indexSafe_of_safeCall _ inp out 4 _ offset fl
      (fun xi => (resizeRGBA_switch_eq inp xi hW).trans rfl) h, fun hsum => ?_⟩
    exact resizeRGBA_isSome inp out coeffs offset fl hW
      (fun x hx1 hx2 => safeCall_rows inp out 4 _ offset fl h x hx1 hx2)
      (fun y hy1 hy2 => ⟨by have := h.2.2.2.2.2.2.2.1; omega, by have := h.2.2.2.2.1; omega⟩)
      (fun y k hy1 hy2 hk1 hk2 => safeCall_coeffs inp out 4 _ offset fl h y k hy1 hy2 hk1 hk2)
      hsum (fun x y hx1 hx2 hy1 hy2 => h.2.2.2.2.2.2.2.2 x y hx1 hx2 hy1 hy2)
  · intro inp out coeffs offset fl h
    have hW : 1 ≤ inp.Rect.Dx := h.1
    refine ⟨indexSafe_of_safeCall _ inp out 8 _ offset fl
      (fun xi => (resizeRGBA64_switch_eq inp xi hW).trans rfl) h, fun hsum => ?_⟩
    exact resizeRGBA64_isSome inp out coeffs offset fl hW
      (fun x hx1 hx2 => safeCall_rows inp out 8 _ offset fl h x hx1 hx2)
      (fun y hy1 hy2 => ⟨by have := h.2.2.2.2.2.2.2.1; omega, by have := h.2.2.2.2.1; omega⟩)
      (fun y k hy1 hy2 hk1 hk2 => safeCall_coeffs inp out 8 _ offset fl h y k hy1 hy2 hk1 hk2)
      hsum (fun x y hx1 hx2 hy1 hy2 => h.2.2.2.2.2.2.2.2 x y hx1 hx2 hy1 hy2)
  · intro inp out coeffs offset fl h
    have hW : 1 ≤ inp.Rect.Dx := h.1
    refine ⟨indexSafe_of_safeCall _ inp out 1 _ offset fl
      (fun xi => (resizeGray_switch_eq inp xi hW).trans (by simp)) h, fun hsum => ?_⟩
    exact resizeGray_isSome inp out coeffs offset fl hW
      (fun x hx1 hx2 => by
        have := safeCall_rows inp out 1 _ offset fl h x hx1 hx2
        simpa using this)
      (fun y hy1 hy2 => ⟨by have := h.2.2.2.2.2.2.2.1; omega, by have := h.2.2.2.2.1; omega⟩)
      (fun y k hy1 hy2 hk1 hk2 => safeCall_coeffs inp out 1 _ offset fl h y k hy1 hy2 hk1 hk2)
      hsum (fun x y hx1 hx2 hy1 hy2 => h.2.2.2.2.2.2.2.2 x y hx1 hx2 hy1 hy2)
  · intro inp out coeffs offset fl h
    have hW : 1 ≤ inp.Rect.Dx := h.1
    refine ⟨indexSafe_of_safeCall _ inp out 2 _ offset fl
      (fun xi => (resizeGray16_switch_eq inp xi hW).trans rfl) h, fun hsum => ?_⟩
    exact resizeGray16_isSome inp out coeffs offset fl hW
      (fun x hx1 hx2 => safeCall_rows inp out 2 _ offset fl h x hx1 hx2)
      (fun y hy1 hy2 => ⟨by have := h.2.2.2.2.2.2.2.1; omega, by have := h.2.2.2.2.1; omega⟩)
      (fun y k hy1 hy2 hk1 hk2 => safeCall_coeffs inp out 2 _ offset fl h y k hy1 hy2 hk1 hk2)
      hsum (fun x y hx1 hx2 hy1 hy2 => h.2.2.2.2.2.2.2.2 x y hx1 hx2 hy1 hy2)
  · intro inp out coeffs offset fl h
    have hW : 1 ≤ inp.Rect.Dx := h.1
    refine ⟨indexSafe_of_safeCall _ inp out 3 _ offset fl
      (fun xi => (resizeYCbCr_switch_eq inp xi hW).trans rfl) h, fun hsum => ?_⟩
    exact resizeYCbCr_isSome inp out coeffs offset fl hW
      (fun x hx1 hx2 => safeCall_rows inp out 3 _ offset fl h x hx1 hx2)
      (fun y hy1 hy2 => ⟨by have := h.2.2.2.2.2.2.2.1; omega, by have := h.2.2.2.2.1; omega⟩)
      (fun y k hy1 hy2 hk1 hk2 => safeCall_coeffs inp out 3 _ offset fl h y k hy1 hy2 hk1 hk2)
      hsum (fun x y hx1 hx2 hy1 hy2 => h.2.2.2.2.2.2.2.2 x y hx1 hx2 hy1 hy2)
  · intro F ops inp out coeffs offset fl h
    have hW : 1 ≤ inp.Rect.Dx := h.1
    refine ⟨indexSafe_of_safeCall _ inp out 3 _ offset fl
      (fun xi => (nearestYCbCr_switch_eq inp xi hW).trans rfl) h, fun _ => ?_⟩
    exact nearestYCbCr_isSome ops inp out coeffs offset fl hW
      (fun x hx1 hx2 => safeCall_rows inp out 3 _ offset fl h x hx1 hx2)
      (fun y hy1 hy2 => ⟨by have := h.2.2.2.2.2.2.2.1; omega, by have := h.2.2.2.2.1; omega⟩)
      (fun y k hy1 hy2 hk1 hk2 => safeCall_coeffs inp out 3 _ offset fl h y k hy1 hy2 hk1 hk2)
      (fun x y hx1 hx2 hy1 hy2 => h.2.2.2.2.2.2.2.2 x y hx1 hx2 hy1 hy2)

theorem offsets_never_read_out_of_range_witness :
    SafeCall agreeSourceRGBA agreeDestRGBA 4 ([1, 1, 1, 1] : List Int).length [-5, 9] 2 ∧
      ∃ pix', resizeRGBA agreeSourceRGBA agreeDestRGBA [1, 1, 1, 1] [-5, 9] 2 = some pix' := by
  have hs : SafeCall agreeSourceRGBA agreeDestRGBA 4 ([1, 1, 1, 1] : List Int).length
      [-5, 9] 2 := by
    refine ⟨by decide, by decide, by decide, ?_, by decide, by decide, by decide, by decide, ?_⟩
    · intro r h0 h1
      have h2 : r < 1 := h1
      have : r = 0 := by omega
      subst this
      decide
    · intro x y hx1 hx2 hy1 hy2
      have h1 : (0 : Int) ≤ x := hx1
      have h2 : x < 1 := hx2
      have h3 : (0 : Int) ≤ y := hy1
      have h4 : y < 2 := hy2
      have : x = 0 := by omega
      subst this
      interval_cases y <;> decide
  refine ⟨hs, (offsets_never_read_out_of_range.1 _ _ _ _ _ hs).2 ?_⟩
  intro y hy1 hy2
  have h3 : (0 : Int) ≤ y := hy1
  have h4 : y < 2 := hy2
  interval_cases y <;> decide

/-! ## C13: rows with a nonzero coefficient and the divisor -/

theorem weightSum_pos (coeffs : List Int) (ci : Int) (n : Nat)
    (h0 : ∀ k : Nat, k < n → 0 ≤ intAt coeffs (ci + k))
    (h1 : ∃ k : Nat, k < n ∧ intAt coeffs (ci + k) ≠ 0) :
    0 < weightSum coeffs ci n := by
  obtain ⟨k, hk, hne⟩ := h1
  unfold weightSum
  have hk' : k ∈ Finset.range n := Finset.mem_range.mpr hk
  have hpos : 0 < intAt coeffs (ci + k) := lt_of_le_of_ne (h0 k hk) (Ne.symm hne)
  calc 0 < intAt coeffs (ci + k) := hpos
    _ ≤ ∑ j ∈ Finset.range n, intAt coeffs (ci + j) :=
      @Finset.single_le_sum _ _ _ (fun j : Nat => intAt coeffs (ci + j)) _
        (fun j hj => h0 j (Finset.mem_range.mp hj)) _ hk'

theorem quo32_isSome (a b : Int) (hb : b ≠ 0) : ∃ q, quo32 a b = some q := by
  unfold quo32
  rw [if_neg hb]
  exact ⟨_, rfl⟩

theorem quo64_isSome (a b : Int) (hb : b ≠ 0) : ∃ q, quo64 a b = some q := by
  unfold quo64
  rw [if_neg hb]
  exact ⟨_, rfl⟩

theorem divisor_of_sum32 (s S : Int) (hs : s = int32 S) (hf : fitsInt32 S) (hne : S ≠ 0) :
    s = S ∧ s ≠ 0 ∧ ∀ a, ∃ q, quo32 a s = some q := by
  have e : s = S := by rw [hs, int32_of_fits S hf.1 hf.2]
  have hne' : s ≠ 0 := by rw [e]; exact hne
  exact ⟨e, hne', fun a => quo32_isSome a s hne'⟩

theorem divisor_of_sum64 (s S : Int) (hs : s = int64 S) (hf : fitsInt64 S) (hne : S ≠ 0) :
    s = S ∧ s ≠ 0 ∧ ∀ a, ∃ q, quo64 a s = some q := by
  have e : s = S := by rw [hs, int64_of_fits S hf.1 hf.2]
  have hne' : s ≠ 0 := by rw [e]; exact hne
  exact ⟨e, hne', fun a => quo64_isSome a s hne'⟩

/-- C13, counterexample: a coefficient row that contains a nonzero
coefficient can have the sum zero: with the row `1, -1` the first coefficient is
not zero, the sum of the row is zero, and `resizeGeneric` panics on the division
by that sum. -/
theorem nonzero_row_zero_divisor_counterexample :
    intAt [1, -1] 0 ≠ 0 ∧ weightSum [1, -1] 0 2 = 0 ∧
      resizeGeneric whiteGeneric destRGBA64 [1, -1] [0] 2 = none := by
  decide

/-- C13, amended: in `resizeGeneric` and in the integer fixed-format
resamplers, if the coefficients of the row of a destination coordinate have a
sum that is not zero and is within the range of the accumulator (`int64` in
`resizeGeneric`, `resizeRGBA64` and `resizeGray16`, `int32` in `resizeRGBA`,
`resizeGray` and `resizeYCbCr`), then after the tap loop of every destination
pixel of that coordinate the divisor `sum` is that sum and is not zero, so the
divisions by it are defined.  A row of coefficients that are all non-negative
and of which at least one is not zero has a positive sum. -/
theorem divisor_nonzero_of_nonzero_sum :
    (∀ inp oldBounds start x, DivisorDefined (Acc4.mk 0 0 0 0 0) Acc4.sum
      (fun coeffs ci => resizeGeneric.tap inp coeffs oldBounds start ci x) fitsInt64 quo64) ∧
    (∀ row oldBounds minX maxX start, DivisorDefined (Acc4.mk 0 0 0 0 0) Acc4.sum
      (fun coeffs ci => resizeRGBA.tap row coeffs oldBounds minX maxX start ci)
      fitsInt32 quo32) ∧
    (∀ row oldBounds minX maxX start, DivisorDefined (Acc4.mk 0 0 0 0 0) Acc4.sum
      (fun coeffs ci => resizeRGBA64.tap row coeffs oldBounds minX maxX start ci)
      fitsInt64 quo64) ∧
    (∀ row oldBounds minX maxX start, DivisorDefined (Acc1.mk 0 0) Acc1.sum
      (fun coeffs ci => resizeGray.tap row coeffs oldBounds minX maxX start ci)
      fitsInt32 quo32) ∧
    (∀ row oldBounds minX maxX start, DivisorDefined (Acc1.mk 0 0) Acc1.sum
      (fun coeffs ci => resizeGray16.tap row coeffs oldBounds minX maxX start ci)
      fitsInt64 quo64) ∧
    (∀ row oldBounds minX maxX start, DivisorDefined (Acc3.mk 0 0 0 0) Acc3.sum
      (fun coeffs ci => resizeYCbCr.tap row coeffs oldBounds minX maxX start ci)
      fitsInt32 quo32) ∧
    (∀ (coeffs : List Int) (ci : Int) (n : Nat),
      (∀ k : Nat, k < n → 0 ≤ intAt coeffs (ci + k)) →
      (∃ k : Nat, k < n ∧ intAt coeffs (ci + k) ≠ 0) → 0 < weightSum coeffs ci n) := by
  refine ⟨?_, ?_, ?_, ?_, ?_, ?_, weightSum_pos⟩
  · intro inp oB start x coeffs ci fl acc h hf hne
    exact divisor_of_sum64 _ _ (resizeGeneric_taps inp coeffs oB start ci x fl acc h 0
      (by omega)).2 hf hne
  · intro row oB minX maxX start coeffs ci fl acc h hf hne
    exact divisor_of_sum32 _ _ (resizeRGBA_taps row coeffs oB minX maxX start ci fl acc h 0
      (by omega)).2 hf hne
  · intro row oB minX maxX start coeffs ci fl acc h hf hne
    exact divisor_of_sum64 _ _ (resizeRGBA64_taps row coeffs oB minX maxX start ci fl acc h 0
      (by omega)).2 hf hne
  · intro row oB minX maxX start coeffs ci fl acc h hf hne
    exact divisor_of_sum32 _ _ (resizeGray_taps row coeffs oB minX maxX start ci fl acc h).2
      hf hne
  · intro row oB minX maxX start coeffs ci fl acc h hf hne
    exact divisor_of_sum64 _ _ (resizeGray16_taps row coeffs oB minX maxX start ci fl acc h).2
      hf hne
  · intro row oB minX maxX start coeffs ci fl acc h hf hne
    exact divisor_of_sum32 _ _ (resizeYCbCr_taps row coeffs oB minX maxX start ci fl acc h 0
      (by omega)).2 hf hne

theorem divisor_nonzero_of_nonzero_sum_witness :
    ∃ acc : Acc1, forLoop 0 2 (Acc1.mk 0 0)
        (resizeGray.tap [10, 20, 30] [1, 2] (Rect 0 0 3 1) 0 2 0 0) = some acc ∧
      fitsInt32 (weightSum [1, 2] 0 (2 : Int).toNat) ∧
      weightSum [1, 2] 0 (2 : Int).toNat ≠ 0 ∧
      acc.sum = weightSum [1, 2] 0 (2 : Int).toNat ∧ acc.sum ≠ 0 :=
  ⟨⟨50, 3⟩, by decide, ⟨by decide, by decide⟩, by decide,
    (divisor_nonzero_of_nonzero_sum.2.2.2.1 [10, 20, 30] (Rect 0 0 3 1) 0 2 0 [1, 2] 0 2
      ⟨50, 3⟩ (by decide) ⟨by decide, by decide⟩ (by decide)).1,
    (divisor_nonzero_of_nonzero_sum.2.2.2.1 [10, 20, 30] (Rect 0 0 3 1) 0 2 0 [1, 2] 0 2
      ⟨50, 3⟩ (by decide) ⟨by decide, by decide⟩ (by decide)).2.1⟩

/-! ## C14: the width of the accumulators -/

theorem weightSum_abs_le (coeffs : List Int) (ci : Int) (n : Nat) (C : Int)
    (hc : ∀ k : Nat, k < n → -C ≤ intAt coeffs (ci + k) ∧ intAt coeffs (ci + k) ≤ C) :
    -(n * C) ≤ weightSum coeffs ci n ∧ weightSum coeffs ci n ≤ n * C := by
  unfold weightSum
  induction n with
  | zero => simp
  | succ n ih =>
    rw [Finset.sum_range_succ]
    obtain ⟨i1, i2⟩ := ih (fun k hk => hc k (by omega))
    obtain ⟨c1, c2⟩ := hc n (by omega)
    push_cast
    constructor <;> nlinarith

theorem chanSum_abs_le (coeffs : List Int) (ci : Int) (n : Nat) (smp : Int → Int) (C M : Int)
    (hC : 0 ≤ C)
    (hc : ∀ k : Nat, k < n → -C ≤ intAt coeffs (ci + k) ∧ intAt coeffs (ci + k) ≤ C)
    (hs : ∀ k : Nat, k < n → 0 ≤ smp k ∧ smp k ≤ M) :
    -(n * (C * M)) ≤ chanSum coeffs ci n smp ∧ chanSum coeffs ci n smp ≤ n * (C * M) := by
  unfold chanSum
  induction n with
  | zero => simp
  | succ n ih =>
    rw [Finset.sum_range_succ]
    obtain ⟨i1, i2⟩ := ih (fun k hk => hc k (by omega)) (fun k hk => hs k (by omega))
    obtain ⟨c1, c2⟩ := hc n (by omega)
    obtain ⟨s1, s2⟩ := hs n (by omega)
    have t1 : intAt coeffs (ci + n) * smp n ≤ C * M := by
      calc intAt coeffs (ci + n) * smp n ≤ C * smp n := mul_le_mul_of_nonneg_right c2 s1
        _ ≤ C * M := mul_le_mul_of_nonneg_left s2 hC
    have t2 : -(C * M) ≤ intAt coeffs (ci + n) * smp n := by
      have : -(C * smp n) ≤ intAt coeffs (ci + n) * smp n := by nlinarith
      have : C * smp n ≤ C * M := mul_le_mul_of_nonneg_left s2 hC
      omega
    push_cast
    constructor <;> nlinarith

theorem sums_fit32 (coeffs : List Int) (ci fl : Int) (smp : Int → Int) (hfl : fl ≤ 257)
    (hc : ∀ k : Nat, (k : Int) < fl →
      -32768 ≤ intAt coeffs (ci + k) ∧ intAt coeffs (ci + k) < 32768)
    (hs : ∀ k : Int, 0 ≤ smp k ∧ smp k ≤ 255) :
    fitsInt32 (weightSum coeffs ci fl.toNat) ∧ fitsInt32 (chanSum coeffs ci fl.toNat smp) := by
  have hn : (fl.toNat : Int) ≤ 257 := by omega
  have hc' : ∀ k : Nat, k < fl.toNat →
      -32768 ≤ intAt coeffs (ci + k) ∧ intAt coeffs (ci + k) ≤ 32768 := by
    intro k hk
    have := hc k (by omega)
    omega
  obtain ⟨w1, w2⟩ := weightSum_abs_le coeffs ci fl.toNat 32768 hc'
  obtain ⟨n1, n2⟩ := chanSum_abs_le coeffs ci fl.toNat smp 32768 255 (by omega) hc'
    (fun k _ => hs k)
  unfold fitsInt32
  refine ⟨⟨by omega, by omega⟩, ⟨by omega, by omega⟩⟩

theorem sums_fit64 (coeffs : List Int) (ci fl : Int) (smp : Int → Int) (hfl : fl ≤ 65537)
    (hc : ∀ k : Nat, (k : Int) < fl →
      -2147483648 ≤ intAt coeffs (ci + k) ∧ intAt coeffs (ci + k) < 2147483648)
    (hs : ∀ k : Int, 0 ≤ smp k ∧ smp k ≤ 65535) :
    fitsInt64 (weightSum coeffs ci fl.toNat) ∧ fitsInt64 (chanSum coeffs ci fl.toNat smp) := by
  have hn : (fl.toNat : Int) ≤ 65537 := by omega
  have hc' : ∀ k : Nat, k < fl.toNat →
      -2147483648 ≤ intAt coeffs (ci + k) ∧ intAt coeffs (ci + k) ≤ 2147483648 := by
    intro k hk
    have := hc k (by omega)
    omega
  obtain ⟨w1, w2⟩ := weightSum_abs_le coeffs ci fl.toNat 2147483648 hc'
  obtain ⟨n1, n2⟩ := chanSum_abs_le coeffs ci fl.toNat smp 2147483648 65535 (by omega) hc'
    (fun k _ => hs k)
  unfold fitsInt64
  refine ⟨⟨by omega, by omega⟩, ⟨by omega, by omega⟩⟩

theorem exact_of_fits32 (a : Acc1) (N S : Int) (h : a.gray = int32 N ∧ a.sum = int32 S)
    (hf : fitsInt32 S ∧ fitsInt32 N) :
    a.sum = S ∧ fitsInt32 N ∧ a.gray = N :=
  ⟨by rw [h.2, int32_of_fits S hf.1.1 hf.1.2], hf.2,
    by rw [h.1, int32_of_fits N hf.2.1 hf.2.2]⟩

theorem exact_of_fits64 (a : Acc1) (N S : Int) (h : a.gray = int64 N ∧ a.sum = int64 S)
    (hf : fitsInt64 S ∧ fitsInt64 N) :
    a.sum = S ∧ fitsInt64 N ∧ a.gray = N :=
  ⟨by rw [h.2, int64_of_fits S hf.1.1 hf.1.2], hf.2,
    by rw [h.1, int64_of_fits N hf.2.1 hf.2.2]⟩

/-- C14, amended: for every filter length of at most `257` in
`resizeRGBA`, `resizeGray` and `resizeYCbCr` (`int16` coefficients, 8-bit
samples) and of at most `65537` in `resizeRGBA64` and `resizeGray16` (`int32`
coefficients, 16-bit samples), every coefficient table and every source row, the
exact values of each per-channel weighted sum and of the sum of the coefficients
are within the signed 32-bit range, respectively the signed 64-bit range, and
the accumulators hold these exact values after the tap loop. -/
theorem accumulators_wide_enough :
    (∀ row oldBounds minX maxX start, AccumulatorsExact (Acc4.mk 0 0 0 0 0) 4 Acc4.chan
      (fun coeffs ci => resizeRGBA.tap row coeffs oldBounds minX maxX start ci)
      (fun c k => byteAt row (resizeRGBA.switch oldBounds minX maxX (int64 (start + k)) + c))
      fitsInt32 32768 257) ∧
    (∀ row oldBounds minX maxX start, AccumulatorsExact (Acc1.mk 0 0) 1 (fun a _ => a)
      (fun coeffs ci => resizeGray.tap row coeffs oldBounds minX maxX start ci)
      (fun _ k => byteAt row (resizeGray.switch oldBounds minX maxX (int64 (start + k))))
      fitsInt32 32768 257) ∧
    (∀ row oldBounds minX maxX start, AccumulatorsExact (Acc3.mk 0 0 0 0) 3 Acc3.chan
      (fun coeffs ci => resizeYCbCr.tap row coeffs oldBounds minX maxX start ci)
      (fun c k => byteAt row (resizeYCbCr.switch oldBounds minX maxX (int64 (start + k)) + c))
      fitsInt32 32768 257) ∧
    (∀ row oldBounds minX maxX start, AccumulatorsExact (Acc4.mk 0 0 0 0 0) 4 Acc4.chan
      (fun coeffs ci => resizeRGBA64.tap row coeffs oldBounds minX maxX start ci)
      (fun c k => wordAt row
        (resizeRGBA64.switch oldBounds minX maxX (int64 (start + k)) + (2 * c : Nat)))
      fitsInt64 2147483648 65537) ∧
    (∀ row oldBounds minX maxX start, AccumulatorsExact (Acc1.mk 0 0) 1 (fun a _ => a)
      (fun coeffs ci => resizeGray16.tap row coeffs oldBounds minX maxX start ci)
      (fun _ k => wordAt row (resizeGray16.switch oldBounds minX maxX (int64 (start + k))))
      fitsInt64 2147483648 65537) := by
  refine ⟨?_, ?_, ?_, ?_, ?_⟩
  · intro row oB minX maxX start coeffs ci fl acc h hfl hc
    refine ⟨(sums_fit32 coeffs ci fl (fun _ => 0) hfl hc (fun _ => ⟨le_refl 0, by norm_num⟩)).1, ?_⟩
    intro c hc4
    exact exact_of_fits32 _ _ _ (resizeRGBA_taps row coeffs oB minX maxX start ci fl acc h c hc4)
      (sums_fit32 coeffs ci fl _ hfl hc (fun k => byteAt_bounds row _))
  · intro row oB minX maxX start coeffs ci fl acc h hfl hc
    refine ⟨(sums_fit32 coeffs ci fl (fun _ => 0) hfl hc (fun _ => ⟨le_refl 0, by norm_num⟩)).1, ?_⟩
    intro c _
    exact exact_of_fits32 _ _ _ (resizeGray_taps row coeffs oB minX maxX start ci fl acc h)
      (sums_fit32 coeffs ci fl _ hfl hc (fun k => byteAt_bounds row _))
  · intro row oB minX maxX start coeffs ci fl acc h hfl hc
    refine ⟨(sums_fit32 coeffs ci fl (fun _ => 0) hfl hc (fun _ => ⟨le_refl 0, by norm_num⟩)).1, ?_⟩
    intro c hc3
    exact exact_of_fits32 _ _ _
      (resizeYCbCr_taps row coeffs oB minX maxX start ci fl acc h c hc3)
      (sums_fit32 coeffs ci fl _ hfl hc (fun k => byteAt_bounds row _))
  · intro row oB minX maxX start coeffs ci fl acc h hfl hc
    refine ⟨(sums_fit64 coeffs ci fl (fun _ => 0) hfl hc (fun _ => ⟨le_refl 0, by norm_num⟩)).1, ?_⟩
    intro c hc4
    exact exact_of_fits64 _ _ _
      (resizeRGBA64_taps row coeffs oB minX maxX start ci fl acc h c hc4)
      (sums_fit64 coeffs ci fl _ hfl hc (fun k => wordAt_bounds row _))
  · intro row oB minX maxX start coeffs ci fl acc h hfl hc
    refine ⟨(sums_fit64 coeffs ci fl (fun _ => 0) hfl hc (fun _ => ⟨le_refl 0, by norm_num⟩)).1, ?_⟩
    intro c _
    exact exact_of_fits64 _ _ _ (resizeGray16_taps row coeffs oB minX maxX start ci fl acc h)
      (sums_fit64 coeffs ci fl _ hfl hc (fun k => wordAt_bounds row _))

theorem accumulators_wide_enough_witness :
    ∃ acc : Acc1, forLoop 0 2 (Acc1.mk 0 0)
        (resizeGray.tap [10, 20, 30] [32767, -32768] (Rect 0 0 3 1) 0 2 0 0) = some acc ∧
      fitsInt32 (weightSum [32767, -32768] 0 (2 : Int).toNat) ∧
      acc.sum = weightSum [32767, -32768] 0 (2 : Int).toNat := by
  have hrun : forLoop 0 2 (Acc1.mk 0 0)
      (resizeGray.tap [10, 20, 30] [32767, -32768] (Rect 0 0 3 1) 0 2 0 0)
      = some ⟨-327690, -1⟩ := by decide
  have h := accumulators_wide_enough.2.1 [10, 20, 30] (Rect 0 0 3 1) 0 2 0
    [32767, -32768] 0 2 ⟨-327690, -1⟩ hrun (by decide)
    (by
      intro k hk
      have : k < 2 := by omega
      interval_cases k <;> decide)
  exact ⟨_, hrun, h.1, (h.2 0 (by decide)).1⟩

theorem graySwitch_unit (xi : Int) : resizeGray.switch (Rect 0 0 1 1) 0 0 xi = 0 := by
  unfold resizeGray.switch
  have e : (Rect 0 0 1 1).Max.X = 1 := by decide
  rw [e]
  split_ifs with h1 h2
  · have := (uintLess_iff xi 1 (by decide)).mp h1
    omega
  · rfl
  · rfl

theorem longCoeffs16_weightSum : weightSum longCoeffs16 0 258 = 8453886 := by
  have h := weightSum_all longCoeffs16
  have hl : longCoeffs16.length = 258 := by
    unfold longCoeffs16
    rw [List.length_replicate]
  rw [hl] at h
  rw [h]
  unfold longCoeffs16
  rw [List.sum_replicate]
  norm_num

/-- C14, counterexample: in `resizeGray`, for a source row of one pixel
of value `255` and a filter of 258 coefficients `32767`, the tap loop returns,
the exact weighted sum is `258 * 32767 * 255 = 2155740930`, which is not within
the signed 32-bit range, and the accumulator holds `-2139226366`. -/
theorem accumulators_wide_enough_counterexample :
    ∃ acc : Acc1, forLoop 0 258 (Acc1.mk 0 0)
        (resizeGray.tap [255] longCoeffs16 (Rect 0 0 1 1) 0 0 0 0) = some acc ∧
      chanSum longCoeffs16 0 258
        (fun k => byteAt [255] (resizeGray.switch (Rect 0 0 1 1) 0 0 (int64 (0 + k)))) = 2155740930 ∧
      ¬ fitsInt32 2155740930 ∧ acc.gray = -2139226366 := by
  have hl : longCoeffs16.length = 258 := by
    unfold longCoeffs16
    rw [List.length_replicate]
  obtain ⟨acc, hacc⟩ := forLoop_isSome 258 (Acc1.mk 0 0)
    (resizeGray.tap [255] longCoeffs16 (Rect 0 0 1 1) 0 0 0 0)
    (fun k t hk1 hk2 => resizeGray_tap_isSome _ _ _ _ _ _ _ _ _
      (index_isSome longCoeffs16 _ (by omega) (by rw [hl]; omega))
      (by
        intro j hj1 hj2
        have : j = 0 := by omega
        subst this
        rw [graySwitch_unit]
        exact ⟨255, rfl⟩))
  have hN : chanSum longCoeffs16 0 258
      (fun k => byteAt [255] (resizeGray.switch (Rect 0 0 1 1) 0 0 (int64 (0 + k))))
      = 2155740930 := by
    rw [chanSum_uniform _ _ _ _ 255 (fun k => by rw [graySwitch_unit]; rfl),
      longCoeffs16_weightSum]
    norm_num
  refine ⟨acc, hacc, hN, ?_, ?_⟩
  · unfold fitsInt32
    omega
  · have h := (resizeGray_taps [255] longCoeffs16 (Rect 0 0 1 1) 0 0 0 0 258 acc hacc).1
    have e : ((258 : Int).toNat) = 258 := rfl
    rw [e, hN] at h
    rw [h]
    decide

/-! ## C15: the guard on zero coefficients -/

/-- C15: skipping the taps whose coefficient is zero does not change the
result: each integer resampler returns the same destination buffer, or panics,
exactly as the same loops without the `coeff != 0` guard, in which every tap is
added to the channel sums and to the sum of the coefficients.  For
`resizeGeneric` this holds for every input; for `resizeRGBA`, `resizeRGBA64`,
`resizeGray`, `resizeGray16` and `resizeYCbCr` for every input whose source rows
lie within the source buffer (`SourceCovered`), so that reading a sample never
panics. -/
theorem zero_coefficient_guard_is_optimisation :
    (∀ (inp : GenericImage) (out : Image) (coeffs offset : List Int) (filterLength : Int),
      resizeGeneric inp out coeffs offset filterLength
        = resizeGenericUnguarded inp out coeffs offset filterLength) ∧
    (∀ (inp out : Image) (coeffs offset : List Int) (filterLength : Int),
      SourceCovered inp out 4 →
      resizeRGBA inp out coeffs offset filterLength
        = resizeRGBAUnguarded inp out coeffs offset filterLength) ∧
    (∀ (inp out : Image) (coeffs offset : List Int) (filterLength : Int),
      SourceCovered inp out 8 →
      resizeRGBA64 inp out coeffs offset filterLength
        = resizeRGBA64Unguarded inp out coeffs offset filterLength) ∧
    (∀ (inp out : Image) (coeffs offset : List Int) (filterLength : Int),
      SourceCovered inp out 1 →
      resizeGray inp out coeffs offset filterLength
        = resizeGrayUnguarded inp out coeffs offset filterLength) ∧
    (∀ (inp out : Image) (coeffs offset : List Int) (filterLength : Int),
      SourceCovered inp out 2 →
      resizeGray16 inp out coeffs offset filterLength
        = resizeGray16Unguarded inp out coeffs offset filterLength) ∧
    (∀ (inp out : ycc) (coeffs offset : List Int) (filterLength : Int),
      SourceCovered inp out 3 →
      resizeYCbCr inp out coeffs offset filterLength
        = resizeYCbCrUnguarded inp out coeffs offset filterLength) := by
  refine ⟨resizeGeneric_unguarded, ?_, ?_, ?_, ?_, ?_⟩
  · intro inp out coeffs offset fl h
    exact resizeRGBA_unguarded inp out coeffs offset fl h.1 h.2
  · intro inp out coeffs offset fl h
    exact resizeRGBA64_unguarded inp out coeffs offset fl h.1 h.2
  · intro inp out coeffs offset fl h
    exact resizeGray_unguarded inp out coeffs offset fl h.1
      (fun x hx1 hx2 => by have := h.2 x hx1 hx2; simpa using this)
  · intro inp out coeffs offset fl h
    exact resizeGray16_unguarded inp out coeffs offset fl h.1 h.2
  · intro inp out coeffs offset fl h
    exact resizeYCbCr_unguarded inp out coeffs offset fl h.1 h.2

theorem zero_coefficient_guard_is_optimisation_witness :
    SourceCovered agreeSourceRGBA agreeDestRGBA 4 ∧
      resizeRGBA agreeSourceRGBA agreeDestRGBA [1, 0, 0, 3] [0, 1] 2
        = some [10, 10, 10, 10, 30, 30, 30, 30] ∧
      resizeRGBA agreeSourceRGBA agreeDestRGBA [1, 0, 0, 3] [0, 1] 2
        = resizeRGBAUnguarded agreeSourceRGBA agreeDestRGBA [1, 0, 0, 3] [0, 1] 2 := by
  have hs : SourceCovered agreeSourceRGBA agreeDestRGBA 4 := by
    refine ⟨by decide, ?_⟩
    intro x h1 h2
    have h3 : (0 : Int) ≤ x := h1
    have h4 : x < 1 := h2
    have : x = 0 := by omega
    subst this
    decide
  exact ⟨hs, by decide,
    zero_coefficient_guard_is_optimisation.2.1 agreeSourceRGBA agreeDestRGBA [1, 0, 0, 3]
      [0, 1] 2 hs⟩

/-! ## C16: independent parts of the destination -/

/-- C16: the parts of a destination are resampled independently
(`SubViewAgrees`), in each fixed-format resampler: for a destination with the
bounds `[x0,x1) x [y0,y1)` whose rows do not overlap and a view of it on a
rectangle within these bounds (rows `[a,b)` of it, a range of its columns, or
both), with the same offset table and the coefficient table advanced by
`(a - y0) * filterLength` entries, a call on the view that returns writes to
every pixel of the view the bytes that a call on the whole destination that
returns writes to that pixel, at the same place of the shared buffer; it changes
no other byte; and different pixels have their bytes at different places, so
calls on disjoint views write disjoint bytes. -/
theorem destination_parts_independent :
    SubViewAgrees resizeRGBA 4 ∧ SubViewAgrees resizeRGBA64 8 ∧ SubViewAgrees resizeGray 1 ∧
      SubViewAgrees resizeGray16 2 ∧ SubViewAgrees resizeYCbCr 3 ∧
      ∀ (F : Type) (ops : Float32Ops F), SubViewAgrees (nearestYCbCr ops) 3 :=
  ⟨resizeRGBA_subView, resizeRGBA64_subView, resizeGray_subView, resizeGray16_subView,
    resizeYCbCr_subView, fun _ ops => nearestYCbCr_subView ops⟩

theorem destination_parts_independent_witness :
    subView agreeDestRGBA 4 ⟨⟨0, 1⟩, ⟨1, 2⟩⟩ = some agreeRowRGBA ∧
      sliceFrom ([1, 1, 1, 3] : List Int) ((1 - agreeDestRGBA.Rect.Min.Y) * 2)
        = some [1, 3] ∧
      resizeRGBA agreeSourceRGBA agreeDestRGBA [1, 1, 1, 3] [0, 1] 2
        = some [15, 15, 15, 15, 27, 27, 27, 27] ∧
      resizeRGBA agreeSourceRGBA agreeRowRGBA [1, 3] [0, 1] 2 = some [27, 27, 27, 27] ∧
      ∀ c : Nat, c < 4 →
        index ([27, 27, 27, 27] : List Byte) (pixOffset agreeRowRGBA (4 : Nat) 0 1 + c)
          = index [15, 15, 15, 15, 27, 27, 27, 27]
              (pixOffset agreeDestRGBA (4 : Nat) 0 1 + c) :=
  have h1 : subView agreeDestRGBA 4 ⟨⟨0, 1⟩, ⟨1, 2⟩⟩ = some agreeRowRGBA := by decide
  have h2 : sliceFrom ([1, 1, 1, 3] : List Int) ((1 - agreeDestRGBA.Rect.Min.Y) * 2)
      = some [1, 3] := by decide
  have h3 : resizeRGBA agreeSourceRGBA agreeDestRGBA [1, 1, 1, 3] [0, 1] 2
      = some [15, 15, 15, 15, 27, 27, 27, 27] := by decide
  have h4 : resizeRGBA agreeSourceRGBA agreeRowRGBA [1, 3] [0, 1] 2
      = some [27, 27, 27, 27] := by decide
  ⟨h1, h2, h3, h4,
    ((destination_parts_independent.1 agreeSourceRGBA agreeDestRGBA agreeRowRGBA
      [1, 1, 1, 3] [1, 3] [0, 1] 2 ⟨⟨0, 1⟩, ⟨1, 2⟩⟩ _ _ (by decide) (by decide) (by decide)
      (by decide) (by decide) h1 h2 h3 h4).1 0 1 (by decide) (by decide) (by decide)
      (by decide)).2⟩

/-! ## C17: the bytes that a call writes -/

/-- C17: each fixed-format resampler with pixels of `bpp` bytes writes
exactly the pixels of the destination (`WritesExactly`): after a call that
returns, on a destination whose rows do not overlap, the bytes of `out.Pix` at
the indices `(y - y0) * out.Stride + (x - x0) * bpp + c`, for `(x, y)` in the
bounds of the destination and `0 ≤ c < bpp`, have all been written, and every
other byte of `out.Pix` (leading, trailing and row padding bytes) is unchanged.
The source buffer is an argument that the functions only read. -/
theorem writes_exactly_destination_pixels :
    WritesExactly resizeRGBA 4 ∧ WritesExactly resizeRGBA64 8 ∧ WritesExactly resizeGray 1 ∧
      WritesExactly resizeGray16 2 ∧ WritesExactly resizeYCbCr 3 ∧
      ∀ (F : Type) (ops : Float32Ops F), WritesExactly (nearestYCbCr ops) 3 :=
  ⟨resizeRGBA_writesExactly, resizeRGBA64_writesExactly, resizeGray_writesExactly,
    resizeGray16_writesExactly, resizeYCbCr_writesExactly,
    fun _ ops => nearestYCbCr_writesExactly ops⟩

theorem writes_exactly_destination_pixels_witness :
    paddedDestGray.Rect.Dx * (1 : Nat) ≤ paddedDestGray.Stride ∧
      resizeGray agreeSourceGray paddedDestGray [1, 1, 1, 3] [0, 1] 2 = some [15, 7, 27, 7] ∧
      index ([15, 7, 27, 7] : List Byte) 1 = index paddedDestGray.Pix 1 ∧
      index ([15, 7, 27, 7] : List Byte) 3 = index paddedDestGray.Pix 3 := by
  have h1 : paddedDestGray.Rect.Dx * (1 : Nat) ≤ paddedDestGray.Stride := by decide
  have h2 : resizeGray agreeSourceGray paddedDestGray [1, 1, 1, 3] [0, 1] 2
      = some [15, 7, 27, 7] := by decide
  have hpos : ∀ x y (c : Nat), paddedDestGray.Rect.Min.X ≤ x → x < paddedDestGray.Rect.Max.X →
      paddedDestGray.Rect.Min.Y ≤ y → y < paddedDestGray.Rect.Max.Y → c < 1 →
      pixOffset paddedDestGray (1 : Nat) x y + c = 0 ∨
        pixOffset paddedDestGray (1 : Nat) x y + c = 2 := by
    intro x y c a1 a2 a3 a4 hc
    have b1 : (0 : Int) ≤ x := a1
    have b2 : x < 1 := a2
    have b3 : (0 : Int) ≤ y := a3
    have b4 : y < 2 := a4
    have hx : x = 0 := by omega
    have hc0 : c = 0 := by omega
    subst hx hc0
    interval_cases y
    · left; decide
    · right; decide
  have h := writes_exactly_destination_pixels.2.2.1 agreeSourceGray paddedDestGray
    [1, 1, 1, 3] [0, 1] 2 [15, 7, 27, 7] h1 h2
  refine ⟨h1, h2, h.2.1 1 ?_, h.2.1 3 ?_⟩
  · intro x y c a1 a2 a3 a4 hc
    rcases hpos x y c a1 a2 a3 a4 hc with e | e <;> rw [e] <;> decide
  · intro x y c a1 a2 a3 a4 hc
    rcases hpos x y c a1 a2 a3 a4 hc with e | e <;> rw [e] <;> decide

/-! ## C18: each pass transposes -/

/-- C18: each pass transposes, in each integer fixed-format resampler
(`TransposePass`): for a source of width `W` and height `H` (values of the type
`int`), a destination of
width `H` and height `W` with the origin `(0, 0)`, the filter length `1`,
`offset[y] = y` and any nonzero coefficient (of the coefficient type `int16`,
respectively `int32`) for each row, the call returns and the destination pixel
at column `x`, row `y` equals the source pixel at column `y`, row `x`.
Consequently (`TransposeTwice`) applying the resampler twice with such tables
returns an image equal to the original source. -/
theorem pass_transposes_twice_restores :
    (TransposePass resizeRGBA 4 32768 ∧ TransposeTwice resizeRGBA 4 32768) ∧
    (TransposePass resizeRGBA64 8 2147483648 ∧ TransposeTwice resizeRGBA64 8 2147483648) ∧
    (TransposePass resizeGray 1 32768 ∧ TransposeTwice resizeGray 1 32768) ∧
    (TransposePass resizeGray16 2 2147483648 ∧ TransposeTwice resizeGray16 2 2147483648) ∧
    (TransposePass resizeYCbCr 3 32768 ∧ TransposeTwice resizeYCbCr 3 32768) :=
  ⟨⟨resizeRGBA_transposePass, transposeTwice_of_pass _ _ _ resizeRGBA_transposePass⟩,
    ⟨resizeRGBA64_transposePass, transposeTwice_of_pass _ _ _ resizeRGBA64_transposePass⟩,
    ⟨resizeGray_transposePass, transposeTwice_of_pass _ _ _ resizeGray_transposePass⟩,
    ⟨resizeGray16_transposePass, transposeTwice_of_pass _ _ _ resizeGray16_transposePass⟩,
    ⟨resizeYCbCr_transposePass, transposeTwice_of_pass _ _ _ resizeYCbCr_transposePass⟩⟩

theorem pass_transposes_twice_restores_witness :
    resizeGray agreeSourceGray transposedDestGray [2, -3, 5] [0, 1, 2] 1 = some [10, 20, 30] ∧
      ∃ pix', resizeGray agreeSourceGray transposedDestGray [2, -3, 5] [0, 1, 2] 1 = some pix' ∧
        pix'.length = transposedDestGray.Pix.length ∧
        ∀ x y (c : Nat), 0 ≤ x → x < agreeSourceGray.Rect.Dy → 0 ≤ y →
          y < agreeSourceGray.Rect.Dx → c < 1 →
          index pix' (y * transposedDestGray.Stride + x * (1 : Nat) + c)
            = index agreeSourceGray.Pix (x * agreeSourceGray.Stride + y * (1 : Nat) + c) :=
  ⟨by decide,
    pass_transposes_twice_restores.2.2.1.1 agreeSourceGray transposedDestGray [2, -3, 5]
      [0, 1, 2] (by decide) (by decide) (by decide) (by decide) (by decide) (by decide)
      (by decide) (by decide)
      (by
        intro y hy0 hy1
        have h : y < 3 := hy1
        interval_cases y <;> decide)⟩

/-! ## C19: kernels without negative coefficients -/

/-- C19: non-negative kernels never overshoot, in `resizeGray` and, channel
by channel, in the other integer fixed-format resamplers (`NoOvershoot8`,
`NoOvershoot16`): if every coefficient of the row of a destination coordinate
is at least `0`, their sum is positive and the sums fit the accumulator, then
the value written lies between any two bounds of the source samples read by the
taps with a nonzero coefficient, in particular between their minimum and their
maximum, and it is the quotient itself: the clamp leaves it unchanged.  The
sample of tap `k` (`resizeGray.sample` and its likes) is the value at the column
that the `switch` gives for `xi = int64 (offset[y] + k)`, the coordinate that
the code computes in the type `int`. -/
theorem nonnegative_kernel_no_overshoot :
    NoOvershoot8 resizeGray 1 resizeGray.sample ∧
      NoOvershoot8 resizeRGBA 4 resizeRGBA.sample ∧
      NoOvershoot8 resizeYCbCr 3 resizeYCbCr.sample ∧
      NoOvershoot16 resizeGray16 1 resizeGray16.sample ∧
      NoOvershoot16 resizeRGBA64 4 resizeRGBA64.sample :=
  ⟨resizeGray_noOvershoot, resizeRGBA_noOvershoot, resizeYCbCr_noOvershoot,
    resizeGray16_noOvershoot, resizeRGBA64_noOvershoot⟩

theorem nonnegative_kernel_no_overshoot_witness :
    resizeGray agreeSourceGray agreeDestGray [1, 1, 1, 3] [0, 1] 2 = some [15, 27] ∧
      ∃ b : Byte, index ([15, 27] : List Byte) (pixOffset agreeDestGray (1 : Nat) 0 1 + (0 : Nat))
          = some b ∧
        (b.val : Int) = Int.tdiv
          (chanSum [1, 1, 1, 3] ((1 - agreeDestGray.Rect.Min.Y) * 2) (2 : Int).toNat
            (resizeGray.sample agreeSourceGray 0 1 0))
          (weightSum [1, 1, 1, 3] ((1 - agreeDestGray.Rect.Min.Y) * 2) (2 : Int).toNat) ∧
        20 ≤ (b.val : Int) ∧ (b.val : Int) ≤ 30 :=
  have hrun : resizeGray agreeSourceGray agreeDestGray [1, 1, 1, 3] [0, 1] 2
      = some [15, 27] := by decide
  ⟨hrun, nonnegative_kernel_no_overshoot.1 agreeSourceGray agreeDestGray [1, 1, 1, 3] [0, 1] 2
    [15, 27] 0 1 1 0 20 30 (by decide) hrun (by decide) (by decide) (by decide) (by decide)
    (by decide) (by decide)
    (by
      intro k hk
      have h : k < 2 := hk
      interval_cases k <;> decide)
    (by decide) ⟨by decide, by decide⟩ ⟨by decide, by decide⟩
    (by
      intro k hk _
      have h : k < 2 := hk
      interval_cases k <;> decide)⟩

end Resize
